import Mathlib

/-!
# Firebird binding `fb.c`: descriptor layout, value codec, transaction options

A shallow embedding of the marshalling core of `src/fb.c` and of its parser of transaction
options:

* `ALIGN`, `calculate_buffsize` and the layout loop of `fb_cursor_fetch_prep`;
* the parameter encoder `fb_cursor_set_inputparams` and its callers
  `fb_cursor_execute_withparams` / `fb_cursor_check_inparams`;
* the per-column decoder of `fb_cursor_fetch`;
* `trans_parseopts`, with `strtok`, `strspn` and `strpbrk` on the working copy of the
  option string.

Conventions of the embedding.

* C integers (`short`, `long`, `size_t` offsets) are mathematical integers. Where the C code
  narrows a value (`short`, `unsigned short`, the stored 2/4/8-byte integers) the narrowing is
  written out with an explicit modulus.  The running `offset` of the layout loops is not
  wrapped: for descriptor lengths that fit a `short` and at most `SHRT_MAX` entries it stays
  far below `2^31`.
* A pointer into `paramts` / `results` is the byte offset from the start of that buffer;
  the null pointer is `none`.
* Byte order is little-endian (the byte order of the platforms the driver ships for); the
  round-trip results do not depend on it.
* The size of the C type `long` is a parameter, `Host.sizeof_long`: the source stores and
  loads an `SQL_LONG` slot through a `long *`, whatever the length `sqllen = 4` of the slot.
* The `double` arithmetic of the scaled-decimal decoder is IEEE 754 binary64 arithmetic with
  rounding to nearest, ties to even (`Dbl`).
* The loops of `trans_parseopts` run on a step budget.  The results on option strings are
  stated for `parse_trans`, which gives the directive loop the length of the string plus
  three turns: they are results of runs that end within the budget.
-/

namespace Fb

/-! # Part I: the embedding -/

/-! ## Constants of `ibase.h` and `limits.h` used by the source -/

def SQL_VARYING : Int := 448
def SQL_TEXT : Int := 452
def SQL_DOUBLE : Int := 480
def SQL_FLOAT : Int := 482
def SQL_LONG : Int := 496
def SQL_SHORT : Int := 500
def SQL_TIMESTAMP : Int := 510
def SQL_BLOB : Int := 520
def SQL_ARRAY : Int := 540
def SQL_TYPE_TIME : Int := 560
def SQL_TYPE_DATE : Int := 570
def SQL_INT64 : Int := 580

def SHRT_MIN : Int := -32768
def SHRT_MAX : Int := 32767

/-- The value of `sizeof(short)`. -/
def sizeof_short : Int := 2

/-! ## Bitwise operations on two's-complement integers -/

/-- Bitwise and (`&`) of two's-complement integers of unbounded width. -/
def band : Int → Int → Int
  | Int.ofNat m, Int.ofNat n => Int.ofNat (m &&& n)
  | Int.ofNat m, Int.negSucc n => Int.ofNat (m ^^^ (m &&& n))
  | Int.negSucc m, Int.ofNat n => Int.ofNat (n ^^^ (n &&& m))
  | Int.negSucc m, Int.negSucc n => Int.negSucc (m ||| n)

/-- The macro `#define ALIGN(n, b) ((n + b - 1) & ~(b - 1))`. -/
def ALIGN (n b : Int) : Int := band (n + b - 1) (~~~(b - 1))

/-! ## Descriptors -/

/-- One `XSQLVAR`: the fields of the descriptor entry that the core reads or writes.
`sqldata` and `sqlind` are offsets into the flat buffer (`none` is the null pointer). -/
structure XSQLVAR where
  sqltype : Int
  sqlscale : Int
  sqllen : Int
  sqldata : Option Int
  sqlind : Option Int
  deriving DecidableEq, Repr

/-- An `XSQLDA`: capacity `sqln`, number of described entries `sqld`, and the entry array. -/
structure XSQLDA where
  sqln : Int
  sqld : Int
  sqlvar : List XSQLVAR
  deriving DecidableEq, Repr

/-- The expression `var->sqltype & ~1` (the type code with the null flag erased). -/
def XSQLVAR.dtp (var : XSQLVAR) : Int := band var.sqltype (~~~1)

/-- The test `var->sqltype & 1` (the descriptor is nullable). -/
def XSQLVAR.nullable (var : XSQLVAR) : Bool := band var.sqltype 1 != 0

/-- The entries visited by a loop `for (count = 0; count < sqlda->sqld; count++)`. -/
def XSQLDA.vars (sqlda : XSQLDA) : List XSQLVAR := sqlda.sqlvar.take sqlda.sqld.toNat

/-! ## `calculate_buffsize` -/

/-- The body of the loop of `calculate_buffsize`, iterated over the remaining entries. -/
def calculate_buffsize_loop : List XSQLVAR → Int → Int
  | [], offset => offset
  | var :: rest, offset =>
    let dtp := var.dtp
    let length := if dtp = SQL_TEXT then var.sqllen
      else if dtp = SQL_VARYING then var.sqllen + sizeof_short else var.sqllen
    let alignment := if dtp = SQL_TEXT then 1
      else if dtp = SQL_VARYING then sizeof_short else var.sqllen
    let offset1 := ALIGN offset alignment + length
    let offset2 := ALIGN offset1 sizeof_short + sizeof_short
    calculate_buffsize_loop rest offset2

/-- The function `calculate_buffsize(XSQLDA *sqlda)`. -/
def calculate_buffsize (sqlda : XSQLDA) : Int :=
  calculate_buffsize_loop sqlda.vars 0

/-! ## The layout loop of `fb_cursor_fetch_prep` -/

/-- The loop "Set the output SQLDA" of `fb_cursor_fetch_prep`: every entry receives its data
pointer and its indicator pointer; the result is the updated entries and the final running
offset. -/
def fb_cursor_fetch_prep_loop : List XSQLVAR → Int → List XSQLVAR × Int
  | [], offset => ([], offset)
  | var :: rest, offset =>
    let dtp := var.dtp
    let length := if dtp = SQL_TEXT then var.sqllen
      else if dtp = SQL_VARYING then var.sqllen + sizeof_short else var.sqllen
    let alignment := if dtp = SQL_TEXT then 1
      else if dtp = SQL_VARYING then sizeof_short else var.sqllen
    let offset1 := ALIGN offset alignment
    let offset2 := ALIGN (offset1 + length) sizeof_short
    let r := fb_cursor_fetch_prep_loop rest (offset2 + sizeof_short)
    ({ var with sqldata := some offset1, sqlind := some offset2 } :: r.1, r.2)

/-- The layout of an output descriptor set by `fb_cursor_fetch_prep` (offsets into `results`). -/
def fb_cursor_fetch_prep_layout (sqlda : XSQLDA) : List XSQLVAR × Int :=
  fb_cursor_fetch_prep_loop sqlda.vars 0

/-! ## Vocabulary of the layout properties -/

/-- Width of the data region of an entry: `sqllen`, plus the 2-byte prefix for `VARYING`. -/
def data_len (var : XSQLVAR) : Int :=
  if var.dtp = SQL_VARYING then var.sqllen + 2 else var.sqllen

/-- Alignment of an entry: 1 for `TEXT`, 2 for `VARYING`, `sqllen` for every other type. -/
def alignment_of (var : XSQLVAR) : Int :=
  if var.dtp = SQL_TEXT then 1 else if var.dtp = SQL_VARYING then 2 else var.sqllen

/-- The descriptor's length is a length, and for every type other than `TEXT` and `VARYING`
it is a power of two. -/
def aligned_entry (var : XSQLVAR) : Prop :=
  0 ≤ var.sqllen ∧ (var.dtp ≠ SQL_TEXT → var.dtp ≠ SQL_VARYING → ∃ k : Nat, var.sqllen = 2 ^ k)

/-- The half-open byte regions `[d, d + len)` and `[i, i + 2)` of the laid-out entries. -/
def regions : List XSQLVAR → List (Int × Int)
  | [] => []
  | var :: rest =>
    match var.sqldata, var.sqlind with
    | some d, some i => (d, d + data_len var) :: (i, i + 2) :: regions rest
    | _, _ => regions rest

/-- Two half-open regions share no byte. -/
def disjoint_regions (a b : Int × Int) : Prop := a.2 ≤ b.1 ∨ b.2 ≤ a.1

/-! ## Flat buffers and object representations -/

/-- A flat byte buffer (`paramts`, `results`), as the log of the bytes stored into it, newest
first: an entry `(a, v)` says that byte `v` was stored at offset `a`.  Offsets never stored
read as 0. -/
abbrev Buffer := List (Int × Nat)

/-- The byte at offset `a`. -/
def Buffer.read : Buffer → Int → Nat
  | [], _ => 0
  | (a', v) :: rest, a => if a' = a then v else Buffer.read rest a

/-- The call `memcpy(buf + a, bytes, len)`: the bytes are stored at `a`, `a + 1`, ... -/
def memcpy (b : Buffer) : Int → List Nat → Buffer
  | _, [] => b
  | a, v :: vs => (a, v) :: memcpy b (a + 1) vs

/-- The offsets a buffer has been stored to. -/
def Buffer.written (b : Buffer) : List Int := b.map Prod.fst

/-- The `w` bytes at offsets `a`, ..., `a + w - 1`. -/
def read_bytes (b : Buffer) (a : Int) : Nat → List Nat
  | 0 => []
  | w + 1 => b.read a :: read_bytes b (a + 1) w

/-- Object representation of a `w`-byte two's-complement integer (storing narrows modulo
`2^(8w)`). -/
def int_bytes : Nat → Int → List Nat
  | 0, _ => []
  | w + 1, x => (x % 256).toNat :: int_bytes w (x / 256)

/-- The unsigned value of a byte sequence. -/
def unsigned_of_bytes : List Nat → Int
  | [] => 0
  | v :: vs => (v % 256 : Nat) + 256 * unsigned_of_bytes vs

/-- The signed (two's-complement) value of a `w`-byte object. -/
def signed_of_bytes (w : Nat) (bs : List Nat) : Int :=
  let u := unsigned_of_bytes (bs.take w)
  if u < 2 ^ (8 * w - 1) then u else u - 2 ^ (8 * w)

/-- Conversion of an integer to `short`. -/
def to_short (x : Int) : Int := (x + 32768) % 65536 - 32768

/-- Conversion of an integer to `unsigned short`. -/
def to_ushort (x : Int) : Nat := (x % 65536).toNat

/-- A byte string cut or zero-padded to exactly `w` bytes. -/
def fit (w : Nat) (bs : List Nat) : List Nat := (bs ++ List.replicate w 0).take w

/-! ## The C type `double` -/

/-- A value of the C type `double` (IEEE 754 binary64): the finite value `m * 2^e`, negated
when `neg` holds, with `2^52 ≤ m < 2^53` and `-1074 ≤ e ≤ 971` (normal), or `m < 2^52` and
`e = -1074` (subnormal, and the two zeros); an infinity; or a NaN. -/
inductive Dbl where
  | fin (neg : Bool) (m : Nat) (e : Int)
  | inf (neg : Bool)
  | nan
  deriving DecidableEq, Repr

/-- The position of the leading binary digit of `n`, for `n < 2^fuel`: the largest `k` with
`2^k ≤ n` (0 for `n = 0`). -/
def ilog2 : Nat → Nat → Nat
  | 0, _ => 0
  | fuel + 1, n => if 2 ≤ n then ilog2 fuel (n / 2) + 1 else 0

/-- The `double` nearest to the quotient `p / q` of two naturals (`q` not 0), negated when
`neg` holds: rounding is to nearest, ties to the even significand; quotients below the normal
range are rounded at the spacing `2^-1074`; a rounded value of `2^1024` or more is an
infinity. -/
def Dbl.round (neg : Bool) (p q : Nat) : Dbl :=
  if p = 0 then Dbl.fin neg 0 (-1074)
  else
    let a : Int := (ilog2 p p : Int) - (ilog2 q q : Int)
    let ex : Int := if q * 2 ^ a.toNat ≤ p * 2 ^ (-a).toNat then a else a - 1
    let e : Int := max ex (-1022) - 52
    let n : Nat := p * 2 ^ (-e).toNat
    let d : Nat := q * 2 ^ e.toNat
    let k : Nat := n / d
    let r : Nat := n % d
    let m : Nat := if d < 2 * r ∨ (2 * r = d ∧ k % 2 = 1) then k + 1 else k
    if m = 2 ^ 53 then
      if e + 1 > 971 then Dbl.inf neg else Dbl.fin neg (2 ^ 52) (e + 1)
    else if e > 971 then Dbl.inf neg
    else Dbl.fin neg m e

/-- The conversion `(double)n` of an integer. -/
def Dbl.of_int (n : Int) : Dbl := Dbl.round (decide (n < 0)) n.natAbs 1

/-- The product `a * b` of two doubles. -/
def Dbl.mul : Dbl → Dbl → Dbl
  | Dbl.fin s m1 e1, Dbl.fin t m2 e2 =>
    Dbl.round (xor s t) (m1 * m2 * 2 ^ (e1 + e2).toNat) (2 ^ (-(e1 + e2)).toNat)
  | Dbl.fin s m _, Dbl.inf t => if m = 0 then Dbl.nan else Dbl.inf (xor s t)
  | Dbl.inf s, Dbl.fin t m _ => if m = 0 then Dbl.nan else Dbl.inf (xor s t)
  | Dbl.inf s, Dbl.inf t => Dbl.inf (xor s t)
  | _, _ => Dbl.nan

/-- The quotient `a / b` of two doubles. -/
def Dbl.div : Dbl → Dbl → Dbl
  | Dbl.fin s m1 e1, Dbl.fin t m2 e2 =>
    if m2 = 0 then (if m1 = 0 then Dbl.nan else Dbl.inf (xor s t))
    else Dbl.round (xor s t) (m1 * 2 ^ (e1 - e2).toNat) (m2 * 2 ^ (e2 - e1).toNat)
  | Dbl.fin s _ _, Dbl.inf t => Dbl.fin (xor s t) 0 (-1074)
  | Dbl.inf s, Dbl.fin t _ _ => Dbl.inf (xor s t)
  | _, _ => Dbl.nan

/-- The rational value of a finite double (0 for the infinities and NaN). -/
def Dbl.value : Dbl → ℚ
  | Dbl.fin neg m e =>
    (if neg then -(m : ℚ) else (m : ℚ)) * (if 0 ≤ e then 2 ^ e.toNat else 1 / 2 ^ (-e).toNat)
  | _ => 0

/-! ## Host values, exceptions, and the external entry points -/

/-- The broken-down time `struct tm` held by a host time object. -/
structure TM where
  tm_sec : Int
  tm_min : Int
  tm_hour : Int
  tm_mday : Int
  tm_mon : Int
  tm_year : Int
  deriving DecidableEq, Repr

/-- A host value (`VALUE`): nil, an integer, a float, a byte string, a time object, an
array, any other object (a data object is named by the address of the structure it wraps),
or one of the booleans `Qtrue` and `Qfalse`. -/
inductive VALUE where
  | nil
  | integer (v : Int)
  | float (d : ℚ)
  | string (s : List Nat)
  | time (tv_sec : Int) (tm : TM)
  | array (xs : List VALUE)
  | object (id : Nat)
  | bool (b : Bool)

/-- Exception classes raised by the core. `fault` stands for a dereference of a null
pointer, which the C code does not guard against. -/
inductive ExcClass where
  | FbError
  | IOError
  | TypeError
  | RangeError
  | ArgError
  | fault
  deriving DecidableEq, Repr

/-- A raised exception: its class and its message. -/
structure Exception where
  cls : ExcClass
  msg : String
  deriving DecidableEq, Repr

/-- Outcome of a piece of the core: it returns `a` in state `s`, or raises `e` in the state
`s` reached when the exception left it. -/
inductive Res (σ α : Type) where
  | ok (a : α) (s : σ)
  | raise (e : Exception) (s : σ)

/-- A transaction existence block `ISC_TEB`.  `dbb_ptr` is the address of the connection
whose `db` field the entry points to; `tpb_ptr` is the block it points to (`none` is the
null pointer). -/
structure ISC_TEB where
  dbb_ptr : Nat
  tpb_len : Int
  tpb_ptr : Option (List Nat)
  deriving DecidableEq, Repr

/-- Driver entry points called by the core, with the arguments the core chooses.  Handles
passed by address appear with the value they hold when the call is made. -/
inductive DrvCall where
  | isc_create_blob2
  | isc_put_segment (len : Nat) (seg : List Nat)
  | isc_close_blob
  | isc_open_blob2 (blob_id : List Nat)
  | isc_blob_info
  | isc_get_segment (max_segment : Nat)
  | isc_dsql_execute2 (with_in_sqlda : Bool)
  | isc_attach_database (database : List Nat) (dbp : List Nat)
  | isc_detach_database (db : Nat)
  | isc_drop_database (db : Nat)
  | isc_database_info (db : Nat)
  | isc_dsql_execute_immediate (sql : List Nat)
  | isc_start_multiple (n : Int) (teb_vec : List ISC_TEB)
  | isc_commit_transaction (transact : Nat)
  | isc_rollback_transaction (transact : Nat)
  | isc_dsql_alloc_statement2 (db : Nat)
  | isc_dsql_free_statement (stmt : Nat) (option : Nat)
  | isc_dsql_prepare (stmt : Nat) (sql : List Nat) (dialect : Nat)
  | isc_dsql_sql_info (stmt : Nat)
  | isc_dsql_describe_bind (stmt : Nat)
  | isc_dsql_describe (stmt : Nat)
  | isc_dsql_fetch (stmt : Nat)
  deriving DecidableEq, Repr

/-- The platform, the host runtime and the driver, as far as the codec consults them.
`sizeof_long` is `sizeof(long)` on the platform the source is compiled for (4 or 8).  The
conversion macros of the host (`NUM2LONG`, `NUM2DBL`, `NUM2LL`, `GetTimeval`) return the
converted value or raise; `rb_float_new` makes the host float of a `double`; the driver's
answers are functions of the calls made so far (newest first). -/
structure Host where
  sizeof_long : Nat
  NUM2LONG : VALUE → Except Exception Int
  NUM2DBL : VALUE → Except Exception ℚ
  NUM2LL : VALUE → Except Exception Int
  rb_obj_as_string : VALUE → List Nat
  GetTimeval : VALUE → Except Exception TM
  rb_time_new : Int → VALUE
  rb_float_new : Dbl → VALUE
  mktime : TM → Int
  float_repr : ℚ → List Nat
  double_repr : ℚ → List Nat
  float_value : List Nat → ℚ
  double_value : List Nat → ℚ
  isc_encode_timestamp : TM → List Nat
  isc_encode_sql_time : TM → List Nat
  isc_encode_sql_date : TM → List Nat
  isc_decode_timestamp : List Nat → TM
  isc_decode_sql_time : List Nat → TM
  isc_decode_sql_date : List Nat → TM
  status_error : List DrvCall → Option Exception
  blob_id : List DrvCall → List Nat
  blob_info : List DrvCall → List Nat
  segment : List DrvCall → List Nat

/-- The largest finite `float`, `FLT_MAX`. -/
def FLT_MAX : ℚ := (2 ^ 24 - 1) * 2 ^ 104

/-- The smallest positive normalised `float`, `FLT_MIN`. -/
def FLT_MIN : ℚ := 1 / 2 ^ 126

/-! ## The encoder `fb_cursor_set_inputparams` -/

/-- The mutable data of the encoder besides the descriptors: the running `offset`, the bytes
stored into `paramts`, and the driver calls made so far (newest first).  It is also the state
reported when the encoder raises. -/
structure Enc where
  offset : Int
  paramts : Buffer
  calls : List DrvCall
  deriving DecidableEq, Repr

/-- The segment loop of the `SQL_BLOB` case: `while (length >= 4096)` puts one 4096-byte
segment and advances `p`; `if (length)` then puts the rest.  `fb_error_check` follows every
put.  Each turn of the loop lowers `length` by 4096, so `length / 4096 + 1` units of fuel
always suffice. -/
def put_segments (h : Host) : Nat → Nat → List Nat → List DrvCall → Res (List DrvCall) Unit
  | 0, _, _, calls => Res.ok () calls
  | fuel + 1, length, p, calls =>
    if 4096 ≤ length then
      match h.status_error (DrvCall.isc_put_segment 4096 (p.take 4096) :: calls) with
      | some ex => Res.raise ex (DrvCall.isc_put_segment 4096 (p.take 4096) :: calls)
      | none =>
        put_segments h fuel (length - 4096) (p.drop 4096)
          (DrvCall.isc_put_segment 4096 (p.take 4096) :: calls)
    else if length ≠ 0 then
      match h.status_error (DrvCall.isc_put_segment length (p.take length) :: calls) with
      | some ex => Res.raise ex (DrvCall.isc_put_segment length (p.take length) :: calls)
      | none => Res.ok () (DrvCall.isc_put_segment length (p.take length) :: calls)
    else Res.ok () calls

/-- The `SQL_BLOB` case between `isc_create_blob2` and `isc_close_blob`: the blob is created,
`length = RSTRING(obj)->len` is taken into an `unsigned short`, the segments are put, the
blob is closed.  The result is the blob id to store. -/
def write_blob (h : Host) (s : List Nat) (calls : List DrvCall) :
    Res (List DrvCall) (List Nat) :=
  match h.status_error (DrvCall.isc_create_blob2 :: calls) with
  | some ex => Res.raise ex (DrvCall.isc_create_blob2 :: calls)
  | none =>
    match put_segments h (to_ushort s.length / 4096 + 1) (to_ushort s.length) s
        (DrvCall.isc_create_blob2 :: calls) with
    | Res.raise ex calls1 => Res.raise ex calls1
    | Res.ok _ calls1 =>
      match h.status_error (DrvCall.isc_close_blob :: calls1) with
      | some ex => Res.raise ex (DrvCall.isc_close_blob :: calls1)
      | none => Res.ok (fit 8 (h.blob_id (DrvCall.isc_create_blob2 :: calls)))
          (DrvCall.isc_close_blob :: calls1)

/-- The statement `offset = ALIGN(offset, alignment)`. -/
def align_to (e : Enc) (alignment : Int) : Enc := { e with offset := ALIGN e.offset alignment }

/-- The common tail of the fixed-width cases, entered with `offset` already aligned:
`var->sqldata = paramts + offset`, the object representation is stored there, and
`offset += alignment`, where `alignment = var->sqllen`.  The object stored is as long as its C
type, whatever `sqllen` is: `*(long *)var->sqldata = lvalue` stores `sizeof(long)` bytes. -/
def store_fixed (var : XSQLVAR) (e : Enc) (bytes : List Nat) : Res Enc XSQLVAR :=
  Res.ok { var with sqldata := some e.offset }
    { e with offset := e.offset + var.sqllen, paramts := memcpy e.paramts e.offset bytes }

/-- The `switch (dtp)` of `fb_cursor_set_inputparams` for a non-nil argument. -/
def encode_value (h : Host) (var : XSQLVAR) (obj : VALUE) (e : Enc) : Res Enc XSQLVAR :=
  if var.dtp = SQL_TEXT then
    Res.ok { var with sqldata := some (ALIGN e.offset 1),
                      sqllen := to_short (h.rb_obj_as_string obj).length }
      { e with offset := ALIGN e.offset 1 + (to_short (h.rb_obj_as_string obj).length + 1),
               paramts := memcpy e.paramts (ALIGN e.offset 1) (h.rb_obj_as_string obj) }
  else if var.dtp = SQL_VARYING then
    Res.ok { var with sqldata := some (ALIGN e.offset sizeof_short) }
      { e with offset := ALIGN e.offset sizeof_short
                 + (to_short (h.rb_obj_as_string obj).length + sizeof_short),
               paramts := memcpy
                 (memcpy e.paramts (ALIGN e.offset sizeof_short + 2) (h.rb_obj_as_string obj))
                 (ALIGN e.offset sizeof_short)
                 (int_bytes 2 (to_short (h.rb_obj_as_string obj).length)) }
  else if var.dtp = SQL_SHORT then
    match h.NUM2LONG obj with
    | Except.error ex => Res.raise ex (align_to e var.sqllen)
    | Except.ok lvalue =>
      if lvalue < SHRT_MIN ∨ lvalue > SHRT_MAX then
        Res.raise ⟨ExcClass.IOError, "short integer overflow"⟩ (align_to e var.sqllen)
      else store_fixed var (align_to e var.sqllen) (int_bytes 2 lvalue)
  else if var.dtp = SQL_LONG then
    match h.NUM2LONG obj with
    | Except.error ex => Res.raise ex (align_to e var.sqllen)
    | Except.ok lvalue =>
      store_fixed var (align_to e var.sqllen) (int_bytes h.sizeof_long lvalue)
  else if var.dtp = SQL_FLOAT then
    match h.NUM2DBL obj with
    | Except.error ex => Res.raise ex (align_to e var.sqllen)
    | Except.ok dvalue =>
      if (if dvalue ≥ 0 then dvalue else dvalue * -1) ≠ 0
          ∧ ((if dvalue ≥ 0 then dvalue else dvalue * -1) < FLT_MIN
            ∨ (if dvalue ≥ 0 then dvalue else dvalue * -1) > FLT_MAX) then
        Res.raise ⟨ExcClass.IOError, "float overflow"⟩ (align_to e var.sqllen)
      else store_fixed var (align_to e var.sqllen) (fit 4 (h.float_repr dvalue))
  else if var.dtp = SQL_DOUBLE then
    match h.NUM2DBL obj with
    | Except.error ex => Res.raise ex (align_to e var.sqllen)
    | Except.ok dvalue => store_fixed var (align_to e var.sqllen) (fit 8 (h.double_repr dvalue))
  else if var.dtp = SQL_INT64 then
    match h.NUM2LL obj with
    | Except.error ex => Res.raise ex (align_to e var.sqllen)
    | Except.ok llvalue => store_fixed var (align_to e var.sqllen) (int_bytes 8 llvalue)
  else if var.dtp = SQL_BLOB then
    match write_blob h (h.rb_obj_as_string obj) e.calls with
    | Res.raise ex calls1 => Res.raise ex { align_to e var.sqllen with calls := calls1 }
    | Res.ok blob_id calls1 =>
      store_fixed var { align_to e var.sqllen with calls := calls1 } blob_id
  else if var.dtp = SQL_TIMESTAMP then
    match h.GetTimeval obj with
    | Except.error ex => Res.raise ex (align_to e var.sqllen)
    | Except.ok tm => store_fixed var (align_to e var.sqllen) (fit 8 (h.isc_encode_timestamp tm))
  else if var.dtp = SQL_TYPE_TIME then
    match h.GetTimeval obj with
    | Except.error ex => Res.raise ex (align_to e var.sqllen)
    | Except.ok tm => store_fixed var (align_to e var.sqllen) (fit 4 (h.isc_encode_sql_time tm))
  else if var.dtp = SQL_TYPE_DATE then
    match h.GetTimeval obj with
    | Except.error ex => Res.raise ex (align_to e var.sqllen)
    | Except.ok tm => store_fixed var (align_to e var.sqllen) (fit 4 (h.isc_encode_sql_date tm))
  else
    Res.raise ⟨ExcClass.FbError,
      "Specified table includes unsupported datatype (" ++ toString var.dtp ++ ")"⟩ e

/-- The statements that place the null indicator: `offset = ALIGN(offset, sizeof(short))`,
`var->sqlind = paramts + offset`, `*var->sqlind = ind`, `offset += sizeof(short)`. -/
def store_indicator (var : XSQLVAR) (e : Enc) (ind : Int) : Res Enc XSQLVAR :=
  Res.ok { var with sqlind := some (ALIGN e.offset sizeof_short) }
    { e with offset := ALIGN e.offset sizeof_short + sizeof_short,
             paramts := memcpy e.paramts (ALIGN e.offset sizeof_short) (int_bytes 2 ind) }

/-- One turn of the loop "Get the parameters" of `fb_cursor_set_inputparams`, for the entry
`var` and the argument `obj`. -/
def set_inputparam (h : Host) (var : XSQLVAR) (obj : VALUE) (e : Enc) : Res Enc XSQLVAR :=
  match obj with
  | VALUE.nil =>
    if var.nullable then store_indicator { var with sqldata := none } e (-1)
    else Res.raise ⟨ExcClass.FbError, "specified column is not permitted to be null"⟩ e
  | obj =>
    match encode_value h var obj e with
    | Res.raise ex e1 => Res.raise ex e1
    | Res.ok var1 e1 => if var1.nullable then store_indicator var1 e1 0 else Res.ok var1 e1

/-- The loop "Get the parameters": the entries and the arguments are visited together, in
order; entries past the last argument are left as they are. -/
def set_inputparams_loop (h : Host) : List XSQLVAR → List VALUE → Enc → Res Enc (List XSQLVAR)
  | var :: vars, obj :: argv, e =>
    match set_inputparam h var obj e with
    | Res.raise ex e1 => Res.raise ex e1
    | Res.ok var1 e1 =>
      match set_inputparams_loop h vars argv e1 with
      | Res.raise ex e2 => Res.raise ex e2
      | Res.ok vars1 e2 => Res.ok (var1 :: vars1) e2
  | vars, _, e => Res.ok vars e

/-- The message `"statement requires %d items; %d given"`. -/
def count_message (sqld argc : Int) : String :=
  "statement requires " ++ toString sqld ++ " items; " ++ toString argc ++ " given"

/-- The function `fb_cursor_set_inputparams(fb_cursor, argc, argv)`, on the input descriptor
set `i_sqlda`, the parameter buffer and the driver-call log.  It returns the descriptor set
with the pointers it assigned. -/
def fb_cursor_set_inputparams (h : Host) (i_sqlda : XSQLDA) (argv : List VALUE)
    (paramts : Buffer) (calls : List DrvCall) : Res Enc XSQLDA :=
  if i_sqlda.sqld ≠ argv.length then
    Res.raise ⟨ExcClass.FbError, count_message i_sqlda.sqld argv.length⟩ ⟨0, paramts, calls⟩
  else
    match set_inputparams_loop h i_sqlda.sqlvar argv ⟨0, paramts, calls⟩ with
    | Res.raise ex e => Res.raise ex e
    | Res.ok vars e => Res.ok { i_sqlda with sqlvar := vars } e

/-! ## The callers of the encoder -/

/-- Process flag `EXECF_EXECDML`. -/
def EXECF_EXECDML : Int := 0

/-- Process flag `EXECF_SETPARM`. -/
def EXECF_SETPARM : Int := 1

/-- The two statements that follow every encoding in `fb_cursor_execute_withparams`:
`isc_dsql_execute2(..., i_sqlda, 0)` and `fb_error_check`. -/
def execute2_checked (h : Host) (i_sqlda : XSQLDA) (e : Enc) : Res Enc XSQLDA :=
  match h.status_error (DrvCall.isc_dsql_execute2 true :: e.calls) with
  | some ex => Res.raise ex { e with calls := DrvCall.isc_dsql_execute2 true :: e.calls }
  | none => Res.ok i_sqlda { e with calls := DrvCall.isc_dsql_execute2 true :: e.calls }

/-- The row loop of `fb_cursor_execute_withparams` (first argument is an array): every
argument must be an array (`Check_Type`), is encoded as one parameter row, and the statement
is executed once per row. -/
def execute_rows (h : Host) : List VALUE → XSQLDA → Enc → Res Enc XSQLDA
  | [], i_sqlda, e => Res.ok i_sqlda e
  | VALUE.array row :: rest, i_sqlda, e =>
    match fb_cursor_set_inputparams h i_sqlda row e.paramts e.calls with
    | Res.raise ex e1 => Res.raise ex e1
    | Res.ok sqlda1 e1 =>
      match execute2_checked h sqlda1 e1 with
      | Res.raise ex e2 => Res.raise ex e2
      | Res.ok sqlda2 e2 => execute_rows h rest sqlda2 e2
  | _ :: _, _, e => Res.raise ⟨ExcClass.TypeError, "wrong argument type (expected Array)"⟩ e

/-- The function `fb_cursor_execute_withparams(fb_cursor, argc, argv)`. -/
def fb_cursor_execute_withparams (h : Host) (i_sqlda : XSQLDA) (argv : List VALUE)
    (paramts : Buffer) (calls : List DrvCall) : Res Enc XSQLDA :=
  match argv with
  | VALUE.array _ :: _ => execute_rows h argv i_sqlda ⟨0, paramts, calls⟩
  | _ =>
    match fb_cursor_set_inputparams h i_sqlda argv paramts calls with
    | Res.raise ex e1 => Res.raise ex e1
    | Res.ok sqlda1 e1 => execute2_checked h sqlda1 e1

/-- The function `fb_cursor_check_inparams(fb_cursor, argc, argv, exec)`. -/
def fb_cursor_check_inparams (h : Host) (i_sqlda : XSQLDA) (argv : List VALUE) (exec : Int)
    (paramts : Buffer) (calls : List DrvCall) : Res Enc XSQLDA :=
  if argv.length = 0 then
    Res.raise ⟨ExcClass.FbError, "Input parameters must be specified"⟩ ⟨0, paramts, calls⟩
  else if exec = EXECF_EXECDML then
    fb_cursor_execute_withparams h i_sqlda argv paramts calls
  else if exec = EXECF_SETPARM then
    fb_cursor_set_inputparams h i_sqlda argv paramts calls
  else
    Res.raise ⟨ExcClass.FbError, "Should specify either EXECF_EXECDML or EXECF_SETPARM"⟩
      ⟨0, paramts, calls⟩

/-! ## The decoder of `fb_cursor_fetch` -/

/-- The loop `for (scnt = 0; scnt > var->sqlscale; scnt--) ratio *= 10;` on the `double`
`ratio`.  The first argument bounds the number of turns; the loop makes `-sqlscale` of
them. -/
def scale_ratio : Nat → Int → Int → Dbl → Dbl
  | 0, _, _, ratio => ratio
  | fuel + 1, scnt, sqlscale, ratio =>
    if scnt > sqlscale then
      scale_ratio fuel (scnt - 1) sqlscale (Dbl.mul ratio (Dbl.of_int 10))
    else ratio

/-- The shared shape of the `SQL_SHORT` and `SQL_LONG` cases, for the integer `n` read through
the data pointer: a negative scale yields the host float of `(double)n / ratio`, any other
scale yields the integer. -/
def decode_scaled (h : Host) (var : XSQLVAR) (n : Int) : VALUE :=
  if var.sqlscale < 0 then
    h.rb_float_new
      (Dbl.div (Dbl.of_int n) (scale_ratio (-var.sqlscale).toNat 0 var.sqlscale (Dbl.of_int 1)))
  else VALUE.integer n

/-- Item codes of `isc_blob_info` and the end marker, from `ibase.h`. -/
def isc_info_end : Nat := 1
def isc_info_blob_num_segments : Nat := 4
def isc_info_blob_max_segment : Nat := 5
def isc_info_blob_total_length : Nat := 6

/-- The driver's `isc_vax_integer(p, length)`: the little-endian signed integer held in the
first `length` bytes at `p`. -/
def isc_vax_integer (p : List Nat) (length : Int) : Int :=
  signed_of_bytes length.toNat p

/-- The values parsed out of the `isc_blob_info` answer. -/
structure BlobInfo where
  max_segment : Nat
  num_segments : Int
  total_length : Int
  deriving DecidableEq, Repr

/-- The loop `for (p = blob_info; *p != isc_info_end; p += length)` over the answer buffer,
with `p` as an index into it. -/
def parse_blob_info (info : List Nat) : Nat → Int → BlobInfo → BlobInfo
  | 0, _, acc => acc
  | fuel + 1, p, acc =>
    if info.getD p.toNat 0 = isc_info_end then acc
    else
      let item := info.getD p.toNat 0
      let length := to_short (isc_vax_integer (info.drop (p + 1).toNat) 2)
      let value := isc_vax_integer (info.drop (p + 3).toNat) length
      let acc1 : BlobInfo :=
        if item = isc_info_blob_max_segment then { acc with max_segment := to_ushort value }
        else if item = isc_info_blob_num_segments then { acc with num_segments := value }
        else if item = isc_info_blob_total_length then { acc with total_length := value }
        else acc
      parse_blob_info info fuel (p + 3 + length) acc1

/-- The loop `for (p = RSTRING(val)->ptr; num_segments > 0; num_segments--, p += actual_seg_len)`
that reads the segments into the result string. -/
def get_segments (h : Host) (max_segment : Nat) :
    Nat → Int → Buffer → List DrvCall → Res (List DrvCall) Buffer
  | 0, _, val, calls => Res.ok val calls
  | num_segments + 1, p, val, calls =>
    match h.status_error (DrvCall.isc_get_segment max_segment :: calls) with
    | some ex => Res.raise ex (DrvCall.isc_get_segment max_segment :: calls)
    | none =>
      get_segments h max_segment num_segments
        (p + ((h.segment (DrvCall.isc_get_segment max_segment :: calls)).take max_segment).length)
        (memcpy val p ((h.segment (DrvCall.isc_get_segment max_segment :: calls)).take max_segment))
        (DrvCall.isc_get_segment max_segment :: calls)

/-- The exception of the host's string constructor for a negative length. -/
def negative_string_size : Exception :=
  ⟨ExcClass.ArgError, "negative string size (or size too big)"⟩

/-- The call `rb_tainted_str_new(buf + ptr, len)`: a host string holding a copy of `len`
bytes; a negative `len` raises. -/
def rb_tainted_str_new (b : Buffer) (ptr : Int) (len : Int) (calls : List DrvCall) :
    Res (List DrvCall) VALUE :=
  if len < 0 then Res.raise negative_string_size calls
  else Res.ok (VALUE.string (read_bytes b ptr len.toNat)) calls

/-- The `SQL_BLOB` case of `fb_cursor_fetch`. -/
def read_blob (h : Host) (blob_id : List Nat) (calls : List DrvCall) :
    Res (List DrvCall) VALUE :=
  match h.status_error (DrvCall.isc_open_blob2 blob_id :: calls) with
  | some ex => Res.raise ex (DrvCall.isc_open_blob2 blob_id :: calls)
  | none =>
    match h.status_error (DrvCall.isc_blob_info :: DrvCall.isc_open_blob2 blob_id :: calls) with
    | some ex => Res.raise ex (DrvCall.isc_blob_info :: DrvCall.isc_open_blob2 blob_id :: calls)
    | none =>
      let info := parse_blob_info
        (fit 32 (h.blob_info (DrvCall.isc_blob_info :: DrvCall.isc_open_blob2 blob_id :: calls)))
        32 0 ⟨0, 0, 0⟩
      if info.total_length < 0 then
        Res.raise negative_string_size
          (DrvCall.isc_blob_info :: DrvCall.isc_open_blob2 blob_id :: calls)
      else
        match get_segments h info.max_segment info.num_segments.toNat 0 []
            (DrvCall.isc_blob_info :: DrvCall.isc_open_blob2 blob_id :: calls) with
        | Res.raise ex calls1 => Res.raise ex calls1
        | Res.ok val calls1 =>
          match h.status_error (DrvCall.isc_close_blob :: calls1) with
          | some ex => Res.raise ex (DrvCall.isc_close_blob :: calls1)
          | none =>
            Res.ok (VALUE.string (read_bytes val 0 info.total_length.toNat))
              (DrvCall.isc_close_blob :: calls1)

/-- The value `t` handed to `rb_time_new` after `t = mktime(&tms); if (t < 0) t = 0;`. -/
def clamp_time (t : Int) : Int := if t < 0 then 0 else t

/-- The `switch (dtp)` of `fb_cursor_fetch` for a column that is not null.  Every case but
`SQL_ARRAY` and `default` reads through the data pointer `var->sqldata`; the `SQL_LONG` case
reads `*(long *)var->sqldata`, which is `sizeof(long)` bytes. -/
def decode_value (h : Host) (var : XSQLVAR) (results : Buffer) (calls : List DrvCall) :
    Res (List DrvCall) VALUE :=
  if var.dtp = SQL_ARRAY then Res.ok VALUE.nil calls
  else if var.dtp = SQL_TEXT ∨ var.dtp = SQL_VARYING ∨ var.dtp = SQL_SHORT ∨ var.dtp = SQL_LONG
      ∨ var.dtp = SQL_FLOAT ∨ var.dtp = SQL_DOUBLE ∨ var.dtp = SQL_INT64
      ∨ var.dtp = SQL_TIMESTAMP ∨ var.dtp = SQL_TYPE_TIME ∨ var.dtp = SQL_TYPE_DATE
      ∨ var.dtp = SQL_BLOB then
    match var.sqldata with
    | none => Res.raise ⟨ExcClass.fault, "null data pointer"⟩ calls
    | some d =>
      if var.dtp = SQL_TEXT then rb_tainted_str_new results d var.sqllen calls
      else if var.dtp = SQL_VARYING then
        rb_tainted_str_new results (d + 2) (signed_of_bytes 2 (read_bytes results d 2)) calls
      else if var.dtp = SQL_SHORT then
        Res.ok (decode_scaled h var (signed_of_bytes 2 (read_bytes results d 2))) calls
      else if var.dtp = SQL_LONG then
        Res.ok (decode_scaled h var
          (signed_of_bytes h.sizeof_long (read_bytes results d h.sizeof_long))) calls
      else if var.dtp = SQL_FLOAT then
        Res.ok (VALUE.float (h.float_value (read_bytes results d 4))) calls
      else if var.dtp = SQL_DOUBLE then
        Res.ok (VALUE.float (h.double_value (read_bytes results d 8))) calls
      else if var.dtp = SQL_INT64 then
        Res.ok (VALUE.integer (signed_of_bytes 8 (read_bytes results d 8))) calls
      else if var.dtp = SQL_TIMESTAMP then
        Res.ok (h.rb_time_new
          (clamp_time (h.mktime (h.isc_decode_timestamp (read_bytes results d 8))))) calls
      else if var.dtp = SQL_TYPE_TIME then
        Res.ok (h.rb_time_new
          (clamp_time (h.mktime (h.isc_decode_sql_time (read_bytes results d 4))))) calls
      else if var.dtp = SQL_TYPE_DATE then
        Res.ok (h.rb_time_new
          (clamp_time (h.mktime (h.isc_decode_sql_date (read_bytes results d 4))))) calls
      else read_blob h (read_bytes results d 8) calls
  else
    Res.raise ⟨ExcClass.FbError,
      "Specified table includes unsupported datatype (" ++ toString var.dtp ++ ")"⟩ calls

/-- One turn of the column loop of `fb_cursor_fetch`: the null test
`(var->sqltype & 1) && (*var->sqlind < 0)`, then the decoding of the data. -/
def fetch_column (h : Host) (var : XSQLVAR) (results : Buffer) (calls : List DrvCall) :
    Res (List DrvCall) VALUE :=
  if var.nullable then
    match var.sqlind with
    | none => Res.raise ⟨ExcClass.fault, "null indicator pointer"⟩ calls
    | some i =>
      if signed_of_bytes 2 (read_bytes results i 2) < 0 then Res.ok VALUE.nil calls
      else decode_value h var results calls
  else decode_value h var results calls

/-- The column loop of `fb_cursor_fetch`: the row of decoded values, in column order. -/
def fetch_columns (h : Host) : List XSQLVAR → Buffer → List DrvCall →
    Res (List DrvCall) (List VALUE)
  | [], _, calls => Res.ok [] calls
  | var :: vars, results, calls =>
    match fetch_column h var results calls with
    | Res.raise ex calls1 => Res.raise ex calls1
    | Res.ok val calls1 =>
      match fetch_columns h vars results calls1 with
      | Res.raise ex calls2 => Res.raise ex calls2
      | Res.ok row calls2 => Res.ok (val :: row) calls2

/-! ## A concrete host, for running the embedding on inputs -/

/-- Truncation of a rational towards zero. -/
def trunc (d : ℚ) : Int := if 0 ≤ d then ⌊d⌋ else -⌊-d⌋

/-- A host on a platform whose `long` has 4 bytes, in which integers that fit a 32-bit `long`
(64-bit `long long`) convert to themselves, floats convert by truncation, strings are
themselves, time objects carry their `struct tm`, the float of a finite `double` has its
value (that of an infinity or a NaN is shown with the value 0), and the driver never reports
an error. -/
def sample_host : Host where
  sizeof_long := 4
  NUM2LONG
    | VALUE.integer v =>
      if -2 ^ 31 ≤ v ∧ v < 2 ^ 31 then Except.ok v
      else Except.error ⟨ExcClass.RangeError, "bignum too big to convert into long"⟩
    | VALUE.float d => Except.ok (trunc d)
    | _ => Except.error ⟨ExcClass.TypeError, "no implicit conversion into Integer"⟩
  NUM2DBL
    | VALUE.integer v => Except.ok v
    | VALUE.float d => Except.ok d
    | _ => Except.error ⟨ExcClass.TypeError, "no implicit conversion into Float"⟩
  NUM2LL
    | VALUE.integer v =>
      if -2 ^ 63 ≤ v ∧ v < 2 ^ 63 then Except.ok v
      else Except.error ⟨ExcClass.RangeError, "bignum too big to convert into long long"⟩
    | VALUE.float d => Except.ok (trunc d)
    | _ => Except.error ⟨ExcClass.TypeError, "no implicit conversion into Integer"⟩
  rb_obj_as_string
    | VALUE.string s => s
    | _ => []
  GetTimeval
    | VALUE.time _ tm => Except.ok tm
    | _ => Except.error ⟨ExcClass.TypeError, "wrong argument type (expected Data)"⟩
  rb_time_new t := VALUE.time t ⟨0, 0, 0, 0, 0, 0⟩
  rb_float_new d := VALUE.float d.value
  mktime tm := tm.tm_sec
  float_repr _ := []
  double_repr _ := []
  float_value _ := 0
  double_value _ := 0
  isc_encode_timestamp _ := []
  isc_encode_sql_time _ := []
  isc_encode_sql_date _ := []
  isc_decode_timestamp _ := ⟨0, 0, 0, 0, 0, 0⟩
  isc_decode_sql_time _ := ⟨0, 0, 0, 0, 0, 0⟩
  isc_decode_sql_date _ := ⟨0, 0, 0, 0, 0, 0⟩
  status_error _ := none
  blob_id _ := []
  blob_info _ := []
  segment _ := []

/-- The sample host on a platform whose `long` has 8 bytes (LP64): integers that fit a 64-bit
`long` convert to themselves. -/
def lp64_host : Host :=
  { sample_host with
    sizeof_long := 8,
    NUM2LONG := fun obj =>
      match obj with
      | VALUE.integer v =>
        if -2 ^ 63 ≤ v ∧ v < 2 ^ 63 then Except.ok v
        else Except.error ⟨ExcClass.RangeError, "bignum too big to convert into long"⟩
      | VALUE.float d => Except.ok (trunc d)
      | _ => Except.error ⟨ExcClass.TypeError, "no implicit conversion into Integer"⟩ }

/-- One nullable `INTEGER` entry, before any pointer is assigned. -/
def nullable_long : XSQLVAR := ⟨497, 0, 4, none, none⟩

/-- The nullable `INTEGER` column of a one-column row as `fb_cursor_fetch_prep` lays it out:
data at offset 0, indicator at offset 4. -/
def nullable_long_column : XSQLVAR := ⟨497, 0, 4, some 0, some 4⟩

/-- The result buffer of that row when the column holds -5 and is not null: the driver has
stored the four bytes of -5 in the data slot and 0 in the indicator. -/
def row_minus_five : Buffer := memcpy (memcpy [] 0 (int_bytes 4 (-5))) 4 (int_bytes 2 0)

/-- One nullable `CHAR(10)` entry, before any pointer is assigned. -/
def nullable_char10 : XSQLVAR := ⟨453, 0, 10, none, none⟩

/-- A descriptor set used to run the layout: a nullable `SHORT`, a `CHAR(3)`, a nullable
`VARCHAR(5)` and an `INTEGER`. -/
def sample_sqlda : XSQLDA :=
  { sqln := 10, sqld := 4,
    sqlvar := [⟨501, 0, 2, none, none⟩, ⟨452, 0, 3, none, none⟩, ⟨449, 0, 5, none, none⟩,
      ⟨496, 0, 4, none, none⟩] }

/-- Two `INTEGER NOT NULL` parameters. -/
def two_longs : XSQLDA :=
  { sqln := 10, sqld := 2, sqlvar := [⟨496, 0, 4, none, none⟩, ⟨496, 0, 4, none, none⟩] }

/-- Two nullable `INTEGER` parameters. -/
def two_nullable_longs : XSQLDA :=
  { sqln := 10, sqld := 2, sqlvar := [⟨497, 0, 4, none, none⟩, ⟨497, 0, 4, none, none⟩] }

/-- The pointers of an entry. -/
def pointers (var : XSQLVAR) : Option Int × Option Int := (var.sqldata, var.sqlind)

/-- One nullable `CHAR(2)` parameter. -/
def nullable_char2 : XSQLDA :=
  { sqln := 10, sqld := 1, sqlvar := [⟨453, 0, 2, none, none⟩] }

/-- One `SMALLINT` parameter, nullable. -/
def nullable_short : XSQLVAR := ⟨501, 0, 2, none, none⟩

/-- One `SMALLINT NOT NULL` parameter. -/
def notnull_short : XSQLVAR := ⟨500, 0, 2, none, none⟩

/-- The bytes handed to `isc_put_segment` by a driver call (nothing for any other call). -/
def put_payload : DrvCall → List Nat
  | DrvCall.isc_put_segment _ seg => seg
  | _ => []

/-- The length of the slot of a non-nil argument in the parameter buffer: the string for
`TEXT`, the 2-byte prefix and the string for `VARYING`, `sqllen` bytes for every other
type. -/
def encoded_len (h : Host) (var : XSQLVAR) (obj : VALUE) : Int :=
  if var.dtp = SQL_TEXT then (h.rb_obj_as_string obj).length
  else if var.dtp = SQL_VARYING then (h.rb_obj_as_string obj).length + 2
  else var.sqllen

/-! ## The TPB parser `trans_parseopts` -/

/-- The bytes of a string literal of the source. -/
def bytes (s : String) : List Nat := s.toList.map Char.toNat

/-! Transaction parameter codes of `ibase.h`. -/

def isc_tpb_version1 : Nat := 1
def isc_tpb_consistency : Nat := 1
def isc_tpb_concurrency : Nat := 2
def isc_tpb_shared : Nat := 3
def isc_tpb_protected : Nat := 4
def isc_tpb_wait : Nat := 6
def isc_tpb_nowait : Nat := 7
def isc_tpb_read : Nat := 8
def isc_tpb_write : Nat := 9
def isc_tpb_lock_read : Nat := 10
def isc_tpb_lock_write : Nat := 11
def isc_tpb_read_committed : Nat := 15
def isc_tpb_rec_version : Nat := 17
def isc_tpb_no_rec_version : Nat := 18

/-- The default transaction parameter block `isc_tpb_0`. -/
def isc_tpb_0 : List Nat :=
  [isc_tpb_version1, isc_tpb_write, isc_tpb_concurrency, isc_tpb_nowait]

/-- The delimiters `CMND_DELIMIT`, `" \t\n\r\f"`. -/
def CMND_DELIMIT : List Nat := [32, 9, 10, 13, 12]

/-- The delimiters `LIST_DELIMIT`, `", \t\n\r\f"`. -/
def LIST_DELIMIT : List Nat := [44, 32, 9, 10, 13, 12]

def META_NAME_MAX : Nat := 31
def TPBBUFF_ALLOC : Int := 64

/-- The character `RESV_CONTINUE`, a comma. -/
def RESV_CONTINUE : Nat := 44

/-- The macro `UPPER(c)`. -/
def UPPER (c : Nat) : Nat := if 97 ≤ c ∧ c ≤ 122 then c - 97 + 65 else c

/-! ### C strings in the working copy `trans`

The working copy is the list of its bytes up to, and without, the terminating NUL; a pointer
into it is an index; the byte at and past the end reads as NUL. -/

/-- The byte `*p`. -/
def peek (mem : List Nat) (p : Nat) : Nat := mem.getD p 0

/-- The C string at `p`: the bytes up to the first NUL. -/
def cstr (mem : List Nat) (p : Nat) : List Nat := (mem.drop p).takeWhile (fun c => c != 0)

/-- The call `strlen(p)`. -/
def strlen (mem : List Nat) (p : Nat) : Nat := (cstr mem p).length

/-- The call `strspn(p, accept)`: the length of the leading run of bytes of `accept`. -/
def strspn (mem : List Nat) (p : Nat) (accept : List Nat) : Nat :=
  ((mem.drop p).takeWhile (fun c => accept.contains c)).length

/-- The call `strpbrk(p, accept)`: the first byte of `accept` in the C string at `p`, or the
null pointer. -/
def strpbrk (mem : List Nat) (p : Nat) (accept : List Nat) : Option Nat :=
  if accept.contains
      (peek mem (p + ((mem.drop p).takeWhile (fun c => c != 0 && !accept.contains c)).length))
  then some (p + ((mem.drop p).takeWhile (fun c => c != 0 && !accept.contains c)).length)
  else none

/-- The memory `strtok` works on: the working copy and the saved pointer of `strtok`. -/
structure Tok where
  mem : List Nat
  sp : Nat
  deriving DecidableEq, Repr

/-- The call `strtok(0, delim)` (and `strtok(trans, delim)` when the saved pointer is 0):
leading delimiters are skipped; at the end of the string the null pointer is returned;
otherwise the token runs to the next delimiter, which is overwritten with NUL. -/
def strtok (t : Tok) (delim : List Nat) : Option Nat × Tok :=
  if peek t.mem (t.sp + strspn t.mem t.sp delim) = 0 then
    (none, ⟨t.mem, t.sp + strspn t.mem t.sp delim⟩)
  else
    match strpbrk t.mem (t.sp + strspn t.mem t.sp delim) delim with
    | none =>
      (some (t.sp + strspn t.mem t.sp delim),
        ⟨t.mem, t.sp + strspn t.mem t.sp delim + strlen t.mem (t.sp + strspn t.mem t.sp delim)⟩)
    | some e => (some (t.sp + strspn t.mem t.sp delim), ⟨t.mem.set e 0, e + 1⟩)

/-! ### The option tables -/

/-- The option tables `rcom_opt_S`, `read_opt_S`, `snap_opt_S`, `isol_opt_S`, `trans_opt_S`. -/
inductive OptTable where
  | rcom_opt_S
  | read_opt_S
  | snap_opt_S
  | isol_opt_S
  | trans_opt_S
  deriving DecidableEq, Repr

/-- An entry `trans_opts` of an option table.  `optval` is a `char`, taken as signed (the
entry of `RESERVING` carries -1 and is told apart by `optval > 0` failing). -/
structure trans_opts where
  option1 : List Nat
  option2 : Option (List Nat)
  optval : Int
  position : Int
  sub_opts : Option OptTable
  deriving DecidableEq, Repr

/-- The entries of an option table, up to its all-zero end entry. -/
def OptTable.entries : OptTable → List trans_opts
  | OptTable.rcom_opt_S =>
    [⟨bytes "NO", some (bytes "RECORD_VERSION"), isc_tpb_no_rec_version, -1, none⟩,
     ⟨bytes "RECORD_VERSION", none, isc_tpb_rec_version, -1, none⟩,
     ⟨bytes "*", none, isc_tpb_no_rec_version, -1, none⟩]
  | OptTable.read_opt_S =>
    [⟨bytes "WRITE", none, isc_tpb_write, 1, none⟩,
     ⟨bytes "ONLY", none, isc_tpb_read, 1, none⟩,
     ⟨bytes "COMMITTED", none, isc_tpb_read_committed, 2, some OptTable.rcom_opt_S⟩]
  | OptTable.snap_opt_S =>
    [⟨bytes "TABLE", some (bytes "STABILITY"), isc_tpb_consistency, 2, none⟩,
     ⟨bytes "*", none, isc_tpb_concurrency, 2, none⟩]
  | OptTable.isol_opt_S =>
    [⟨bytes "SNAPSHOT", none, 0, 0, some OptTable.snap_opt_S⟩,
     ⟨bytes "READ", some (bytes "COMMITTED"), isc_tpb_read_committed, 2,
       some OptTable.rcom_opt_S⟩]
  | OptTable.trans_opt_S =>
    [⟨bytes "READ", none, 0, 0, some OptTable.read_opt_S⟩,
     ⟨bytes "WAIT", none, isc_tpb_wait, 3, none⟩,
     ⟨bytes "NO", some (bytes "WAIT"), isc_tpb_nowait, 3, none⟩,
     ⟨bytes "ISOLATION", some (bytes "LEVEL"), 0, 0, some OptTable.isol_opt_S⟩,
     ⟨bytes "SNAPSHOT", none, 0, 0, some OptTable.snap_opt_S⟩,
     ⟨bytes "RESERVING", none, -1, 0, none⟩]

/-- The loop `for (count = 0; curr_p[count].option1; count++)` that looks for the entry the
next tokens select: the result is `target_p` and `next_c`, or nothing when `target_p` stays
null.  `check1` and `check2` are the C strings at `check1_p` and `check2_p`. -/
def find_target : List trans_opts → Option (List Nat) → Option (List Nat) →
    Option (trans_opts × Nat)
  | [], _, _ => none
  | e :: es, check1, check2 =>
    if e.option1 = bytes "*" then some (e, 0)
    else if check1 = some e.option1 then
      match e.option2 with
      | none => some (e, 1)
      | some o2 => if check2 = some o2 then some (e, 2) else find_target es check1 check2
    else find_target es check1 check2

/-! ### The parser state and its outcome -/

/-- The outcome of the parser or of one of its loops: a value, the error `desc` raised at the
label `error`, or the exhaustion of the step budget of the embedding. -/
inductive PRes (α : Type) where
  | done (a : α)
  | fail (desc : String)
  | timeout
  deriving DecidableEq, Repr

/-- The block under construction: the bytes stored into `tpb`, `used` and `size`. -/
structure Tpb where
  buf : Buffer
  used : Int
  size : Int
  deriving DecidableEq, Repr

/-- The value of a `char` read from `tpb`. -/
def schar (b : Nat) : Int := if b % 256 < 128 then (b % 256 : Nat) else (b % 256 : Nat) - 256

/-- The statements that grow `tpb` by `TPBBUFF_ALLOC` when `need` bytes do not fit. -/
def tpb_reserve (b : Tpb) (need : Int) : Tpb :=
  if need > b.size then { b with size := b.size + TPBBUFF_ALLOC } else b

/-! ### The `RESERVING` branch -/

/-- The loop that reads tokens up to the token `FOR`:
`resend_p = strtok(0, CMND_DELIMIT); while (resend_p) ...`. -/
def find_resend : Nat → Tok → Option Nat × Tok
  | 0, t => (none, t)
  | fuel + 1, t =>
    match strtok t CMND_DELIMIT with
    | (none, t1) => (none, t1)
    | (some p, t1) => if cstr t1.mem p = bytes "FOR" then (some p, t1) else find_resend fuel t1

/-- The loop `while (resv_p < resend_p)` that walks the bytes from the first table name to
the token `FOR` and appends one record per table name; the result is the block and
`res_count`. -/
def scan_tables : Nat → Nat → Nat → List Nat → Tpb → Nat → PRes (Tpb × Nat)
  | 0, _, _, _, _, _ => PRes.timeout
  | fuel + 1, resv_p, resend_p, mem, b, res_count =>
    if resv_p < resend_p then
      if peek mem resv_p = 0 then scan_tables fuel (resv_p + 1) resend_p mem b res_count
      else
        let p := resv_p + strspn mem resv_p LIST_DELIMIT
        let tbl_len :=
          match strpbrk mem p LIST_DELIMIT with
          | some tblend_p => tblend_p - p
          | none => strlen mem p
        if tbl_len > META_NAME_MAX then PRes.fail "Illegal table name was specified"
        else if tbl_len > 0 then
          scan_tables fuel (p + tbl_len) resend_p mem
            { buf := memcpy (memcpy (tpb_reserve b (b.used + tbl_len + 3)).buf (b.used + 1)
                  [tbl_len]) (b.used + 2) ((mem.drop p).take tbl_len),
              used := b.used + tbl_len + 3,
              size := (tpb_reserve b (b.used + tbl_len + 3)).size }
            (res_count + 1)
        else scan_tables fuel (p + tbl_len) resend_p mem b res_count
    else PRes.done (b, res_count)

/-- The loop `for (count = 0; count < res_count; count++)` that stores the lock bytes of the
clause into the records appended by the scan. -/
def fill_records : Nat → Int → Nat → Nat → Buffer → Buffer
  | 0, _, _, _, buf => buf
  | count + 1, ofs, rw_prm, sp_prm, buf =>
    fill_records count
      (ofs + 1 + (schar ((memcpy buf ofs [rw_prm]).read (ofs + 1)) + 1) + 1) rw_prm sp_prm
      (memcpy (memcpy buf ofs [rw_prm])
        (ofs + 1 + (schar ((memcpy buf ofs [rw_prm]).read (ofs + 1)) + 1)) [sp_prm])

/-- How the `RESERVING` branch leaves the tokens: with a token that starts the next
directive (`next_c = 1`, `check2_p` at it), or with none left (`next_c = 0`, `check1_p` and
`check2_p` null). -/
inductive ResvEnd where
  | next (check2_p : Nat)
  | finished
  deriving DecidableEq, Repr

/-- The message of a clause without its lock words. -/
def resv_needs_lock : String := "RESERVING needs \x7bSHARED|PROTECTED\x7d \x7bREAD|WRITE\x7d"

/-- The loop `while (resv_p)` of the `RESERVING` branch: one turn per reservation clause. -/
def reserving : Nat → Nat → Tok → Tpb → PRes (ResvEnd × Tok × Tpb)
  | 0, _, _, _ => PRes.timeout
  | fuel + 1, resv_p, t, b =>
    match find_resend (t.mem.length + 1) t with
    | (none, _) => PRes.fail "Illegal transaction option was specified"
    | (some resend_p, t1) =>
      match scan_tables (t1.mem.length + 1) resv_p resend_p t1.mem b 0 with
      | PRes.timeout => PRes.timeout
      | PRes.fail desc => PRes.fail desc
      | PRes.done (b1, res_count) =>
        match strtok t1 CMND_DELIMIT with
        | (none, _) => PRes.fail resv_needs_lock
        | (some sp_p, t2) =>
          if cstr t2.mem sp_p ≠ bytes "SHARED" ∧ cstr t2.mem sp_p ≠ bytes "PROTECTED" then
            PRes.fail resv_needs_lock
          else
            match strtok t2 CMND_DELIMIT with
            | (none, _) => PRes.fail resv_needs_lock
            | (some rw_p, t3) =>
              let cont : Nat × Option Nat × List Nat :=
                if peek t3.mem (rw_p + strlen t3.mem rw_p - 1) = RESV_CONTINUE then
                  (1, none, t3.mem.set (rw_p + strlen t3.mem rw_p - 1) 0)
                else
                  match strpbrk t3.mem rw_p LIST_DELIMIT with
                  | some tblend_p => (2, some tblend_p, t3.mem.set tblend_p 0)
                  | none => (0, none, t3.mem)
              if cstr cont.2.2 rw_p ≠ bytes "READ" ∧ cstr cont.2.2 rw_p ≠ bytes "WRITE" then
                PRes.fail resv_needs_lock
              else
                let rw_prm : Nat :=
                  if cstr cont.2.2 rw_p = bytes "READ" then isc_tpb_lock_read
                  else isc_tpb_lock_write
                let sp_prm : Nat :=
                  if cstr t2.mem sp_p = bytes "SHARED" then isc_tpb_shared else isc_tpb_protected
                let b2 : Tpb := ⟨fill_records res_count b.used rw_prm sp_prm b1.buf, b1.used, b1.size⟩
                let t4 : Tok := ⟨cont.2.2, t3.sp⟩
                match (if cont.1 = 1 then strtok t4 CMND_DELIMIT else (some 0, t4)) with
                | (none, _) => PRes.fail "Unexpected end of command"
                | (some _, t5) =>
                  match cont.2.1 with
                  | some tblend_p => reserving fuel (tblend_p + 1) t5 b2
                  | none =>
                    match strtok t5 CMND_DELIMIT with
                    | (none, t6) => PRes.done (ResvEnd.finished, t6, b2)
                    | (some q, t6) =>
                      if strlen t6.mem q = 1 ∧ peek t6.mem q = RESV_CONTINUE then
                        match strtok t6 CMND_DELIMIT with
                        | (none, _) => PRes.fail "Unexpected end of command"
                        | (some q2, t7) => reserving fuel q2 t7 b2
                      else if peek t6.mem q = RESV_CONTINUE then reserving fuel (q + 1) t6 b2
                      else PRes.done (ResvEnd.next q, t6, b2)

/-! ### The directive loop -/

/-- The variables of `trans_parseopts` that live across the turns of its directive loop. -/
structure PState where
  t : Tok
  b : Tpb
  check_f : List Bool
  check1_p : Option Nat
  check2_p : Option Nat
  deriving DecidableEq, Repr

/-- The loop `for (count = 0; count < next_c; count++)` that moves on to the next tokens:
`check1_p = check2_p; if (check2_p) check2_p = strtok(0, CMND_DELIMIT);`. -/
def advance_tokens : Nat → PState → PState
  | 0, st => st
  | next_c + 1, st =>
    match st.check2_p with
    | none => advance_tokens next_c { st with check1_p := none }
    | some p =>
      advance_tokens next_c
        { st with check1_p := some p, check2_p := (strtok st.t CMND_DELIMIT).1,
                  t := (strtok st.t CMND_DELIMIT).2 }

/-- The statements under "Set the transaction option" for the entry `target`: a positive
`optval` is stored at its `position` (once per position) or appended; the negative `optval`
of `RESERVING` runs the reservation clauses; a zero `optval` stores nothing.  The result is the
new state and `next_c`. -/
def set_trans_option (target : trans_opts) (next_c : Nat) (st : PState) : PRes (PState × Nat) :=
  if target.optval > 0 then
    if target.position > 0 then
      if st.check_f.getD target.position.toNat false then
        PRes.fail "Duplicate transaction option was specified"
      else
        PRes.done
          ({ st with
              b := { st.b with
                buf := memcpy st.b.buf target.position [target.optval.toNat] },
              check_f := st.check_f.set target.position.toNat true }, next_c)
    else
      PRes.done
        ({ st with
            b := { buf := memcpy st.b.buf st.b.used [target.optval.toNat],
                   used := st.b.used + 1,
                   size := (tpb_reserve st.b (st.b.used + 1)).size } }, next_c)
  else if target.optval ≠ 0 then
    if st.check_f.getD 0 false then PRes.fail "Duplicate transaction option was specified"
    else
      match st.check2_p with
      | none => PRes.fail "RESERVING needs table name list"
      | some resv_p =>
        if cstr st.t.mem resv_p = bytes "FOR" then PRes.fail "RESERVING needs table name list"
        else
          match reserving (st.t.mem.length + 1) resv_p st.t st.b with
          | PRes.timeout => PRes.timeout
          | PRes.fail desc => PRes.fail desc
          | PRes.done (ResvEnd.next q, t1, b1) =>
            PRes.done
              ({ st with t := t1, b := b1, check_f := st.check_f.set 0 true,
                         check2_p := some q }, 1)
          | PRes.done (ResvEnd.finished, t1, b1) =>
            PRes.done
              ({ st with t := t1, b := b1, check_f := st.check_f.set 0 true,
                         check1_p := none, check2_p := none }, 0)
  else PRes.done (st, next_c)

/-- The loop `while (curr_p)` of `trans_parseopts`. -/
def parse_loop : Nat → OptTable → PState → PRes Tpb
  | 0, _, _ => PRes.timeout
  | fuel + 1, curr_p, st =>
    match find_target curr_p.entries (st.check1_p.map (cstr st.t.mem))
        (st.check2_p.map (cstr st.t.mem)) with
    | none => PRes.fail "Illegal transaction option was specified"
    | some (target, next_c) =>
      match set_trans_option target next_c st with
      | PRes.timeout => PRes.timeout
      | PRes.fail desc => PRes.fail desc
      | PRes.done (st1, next_c1) =>
        match target.sub_opts with
        | some sub => parse_loop fuel sub (advance_tokens next_c1 st1)
        | none =>
          if (advance_tokens next_c1 st1).check1_p.isSome then
            parse_loop fuel OptTable.trans_opt_S (advance_tokens next_c1 st1)
          else PRes.done (advance_tokens next_c1 st1).b

/-- The working copy `trans`: the option string up to its first NUL, in upper case. -/
def upper_copy (opt : List Nat) : List Nat := (opt.takeWhile (fun c => c != 0)).map UPPER

/-- The state in which the directive loop is entered: the default block is in place and the
first two tokens have been read. -/
def initial_state (trans : List Nat) : PState :=
  { t := if (strtok ⟨trans, 0⟩ CMND_DELIMIT).1.isSome then
           (strtok (strtok ⟨trans, 0⟩ CMND_DELIMIT).2 CMND_DELIMIT).2
         else (strtok ⟨trans, 0⟩ CMND_DELIMIT).2,
    b := ⟨memcpy [] 0 isc_tpb_0, 4, TPBBUFF_ALLOC⟩,
    check_f := [false, false, false, false],
    check1_p := (strtok ⟨trans, 0⟩ CMND_DELIMIT).1,
    check2_p := if (strtok ⟨trans, 0⟩ CMND_DELIMIT).1.isSome then
                  (strtok (strtok ⟨trans, 0⟩ CMND_DELIMIT).2 CMND_DELIMIT).1
                else none }

/-- The part of `trans_parseopts` that follows the upper-casing of the working copy `trans`:
the `tpb_len` bytes of the block it returns, or the message it raises. -/
def parse_trans (trans : List Nat) : PRes (List Nat) :=
  match parse_loop (trans.length + 3) OptTable.trans_opt_S (initial_state trans) with
  | PRes.timeout => PRes.timeout
  | PRes.fail desc => PRes.fail desc
  | PRes.done b => PRes.done (read_bytes b.buf 0 b.used.toNat)

/-- The function `trans_parseopts(opt, &tpb_len)` on the bytes of the option string. -/
def trans_parseopts (opt : List Nat) : PRes (List Nat) := parse_trans (upper_copy opt)

/-! ### Vocabulary of the parser properties -/

/-- Tokens joined by single spaces. -/
def unwords : List (List Nat) → List Nat
  | [] => []
  | [w] => w
  | w :: ws => w ++ 32 :: unwords ws

/-- The optional record-version words after `READ COMMITTED`. -/
inductive RecVersion where
  | absent
  | no_record_version
  | record_version
  deriving DecidableEq, Repr, Fintype

/-- The optional lock-resolution directive. -/
inductive LockOpt where
  | absent
  | wait
  | no_wait
  deriving DecidableEq, Repr, Fintype

def RecVersion.words : RecVersion → List (List Nat)
  | RecVersion.absent => []
  | RecVersion.no_record_version => [bytes "NO", bytes "RECORD_VERSION"]
  | RecVersion.record_version => [bytes "RECORD_VERSION"]

def RecVersion.byte : RecVersion → Nat
  | RecVersion.record_version => isc_tpb_rec_version
  | _ => isc_tpb_no_rec_version

def LockOpt.words : LockOpt → List (List Nat)
  | LockOpt.absent => []
  | LockOpt.wait => [bytes "WAIT"]
  | LockOpt.no_wait => [bytes "NO", bytes "WAIT"]

def LockOpt.byte : LockOpt → Nat
  | LockOpt.wait => isc_tpb_wait
  | _ => isc_tpb_nowait

/-- The option string `READ COMMITTED [NO RECORD_VERSION | RECORD_VERSION] [WAIT | NO WAIT]`. -/
def read_committed_string (r : RecVersion) (l : LockOpt) : List Nat :=
  unwords ([bytes "READ", bytes "COMMITTED"] ++ r.words ++ l.words)

/-- The directives that address one slot of the default block with the values of C13. -/
inductive SlotDirective where
  | read_write
  | wait
  | no_wait
  | snapshot
  | snapshot_table_stability
  | isolation_level_snapshot
  | isolation_level_snapshot_table_stability
  deriving DecidableEq, Repr, Fintype

def SlotDirective.words : SlotDirective → List (List Nat)
  | SlotDirective.read_write => [bytes "READ", bytes "WRITE"]
  | SlotDirective.wait => [bytes "WAIT"]
  | SlotDirective.no_wait => [bytes "NO", bytes "WAIT"]
  | SlotDirective.snapshot => [bytes "SNAPSHOT"]
  | SlotDirective.snapshot_table_stability => [bytes "SNAPSHOT", bytes "TABLE", bytes "STABILITY"]
  | SlotDirective.isolation_level_snapshot =>
    [bytes "ISOLATION", bytes "LEVEL", bytes "SNAPSHOT"]
  | SlotDirective.isolation_level_snapshot_table_stability =>
    [bytes "ISOLATION", bytes "LEVEL", bytes "SNAPSHOT", bytes "TABLE", bytes "STABILITY"]

/-- The slot (index into the block) a directive addresses. -/
def SlotDirective.slot : SlotDirective → Nat
  | SlotDirective.read_write => 1
  | SlotDirective.wait => 3
  | SlotDirective.no_wait => 3
  | _ => 2

/-- The byte a directive stores into its slot. -/
def SlotDirective.byte : SlotDirective → Nat
  | SlotDirective.read_write => isc_tpb_write
  | SlotDirective.wait => isc_tpb_wait
  | SlotDirective.no_wait => isc_tpb_nowait
  | SlotDirective.snapshot => isc_tpb_concurrency
  | SlotDirective.snapshot_table_stability => isc_tpb_consistency
  | SlotDirective.isolation_level_snapshot => isc_tpb_concurrency
  | SlotDirective.isolation_level_snapshot_table_stability => isc_tpb_consistency

/-- The option string of a sequence of directives. -/
def directives_string (ds : List SlotDirective) : List Nat :=
  unwords (ds.flatMap SlotDirective.words)

/-- The default block with the addressed slots replaced: byte 1 is `write`; byte 2 is
`consistency` when a directive with `TABLE STABILITY` is present and `concurrency` otherwise;
byte 3 is `wait` when `WAIT` is present and `nowait` otherwise. -/
def slot_block (ds : List SlotDirective) : List Nat :=
  [isc_tpb_version1, isc_tpb_write,
   if SlotDirective.snapshot_table_stability ∈ ds
       ∨ SlotDirective.isolation_level_snapshot_table_stability ∈ ds
     then isc_tpb_consistency else isc_tpb_concurrency,
   if SlotDirective.wait ∈ ds then isc_tpb_wait else isc_tpb_nowait]

/-- One nullable `VARCHAR(10)` parameter. -/
def nullable_varchar10 : XSQLVAR := ⟨449, 0, 10, none, none⟩


/-! ### Option strings as tokens and gaps -/

/-- A token that `strtok(.., CMND_DELIMIT)` returns whole: not empty, without NUL and without
a delimiter of `CMND_DELIMIT`. -/
def Wordy (w : List Nat) : Prop := w ≠ [] ∧ ∀ c ∈ w, c ≠ 0 ∧ c ∉ CMND_DELIMIT

/-- A run of delimiters of `CMND_DELIMIT`. -/
def Gap (g : List Nat) : Prop := ∀ c ∈ g, c ∈ CMND_DELIMIT

/-- The gap after a token once `strtok` has ended the token: its first byte is NUL. -/
def term (g : List Nat) : List Nat :=
  match g with
  | [] => []
  | _ :: g1 => 0 :: g1

/-- The number of bytes `strtok` steps over after a token: the NUL it stored, if any. -/
def cut (g : List Nat) : Nat :=
  match g with
  | [] => 0
  | _ :: _ => 1

/-- The string of tokens, each followed by its gap. -/
def spaced : List (List Nat × List Nat) → List Nat
  | [] => []
  | (w, g) :: rest => w ++ (g ++ spaced rest)

/-- Tokens and gaps of a string that `strtok` splits into exactly these tokens: every gap but
the last has a delimiter. -/
def GapsOk : List (List Nat × List Nat) → Prop
  | [] => True
  | [(w, g)] => Wordy w ∧ Gap g
  | (w, g) :: rest => Wordy w ∧ Gap g ∧ g ≠ [] ∧ GapsOk rest

/-- The state of the directive loop when the tokens of `items` are still to be parsed and the
bytes `pre` lie before them: `check1_p` and `check2_p` are at the first two tokens, which
`strtok` has already ended with NUL, and the rest of the string follows untouched. -/
def lay (pre : List Nat) (items : List (List Nat × List Nat)) (b : Tpb) (cf : List Bool) :
    PState :=
  match items with
  | [] => ⟨⟨pre, pre.length⟩, b, cf, none, none⟩
  | [(a, ga)] =>
    ⟨⟨pre ++ (a ++ term ga), pre.length + a.length + (term ga).length⟩, b, cf,
      some pre.length, none⟩
  | [(a, ga), (c, gc)] =>
    ⟨⟨pre ++ (a ++ (term ga ++ (c ++ term gc))),
        pre.length + a.length + (term ga).length + c.length + cut gc⟩, b, cf,
      some pre.length, some (pre.length + a.length + (term ga).length)⟩
  | (a, ga) :: (c, gc) :: r :: rs =>
    ⟨⟨pre ++ (a ++ (term ga ++ (c ++ (term gc ++ spaced (r :: rs))))),
        pre.length + a.length + (term ga).length + c.length + cut gc⟩, b, cf,
      some pre.length, some (pre.length + a.length + (term ga).length)⟩

/-- The tokenizer state right after `strtok` has returned the token `a` that follows the bytes
`pre`: the token is ended, the tokens of `rest` lie ahead. -/
def tk (pre a ga : List Nat) (rest : List (List Nat × List Nat)) : Tok :=
  ⟨pre ++ (a ++ (term ga ++ spaced rest)), pre.length + a.length + cut ga⟩

/-- The bytes of tokens that `strtok` has ended, each followed by its gap. -/
def termed : List (List Nat × List Nat) → List Nat
  | [] => []
  | (w, g) :: rest => w ++ (term g ++ termed rest)

/-- The bytes before the token that follows the first `n` tokens of `items`. -/
def skip : Nat → List Nat → List (List Nat × List Nat) → List Nat
  | 0, pre, _ => pre
  | _ + 1, pre, [] => pre
  | n + 1, pre, (a, ga) :: rest => skip n (pre ++ (a ++ term ga)) rest

/-- What the statements under "Set the transaction option" store for an entry with
`optval >= 0`: nothing when the position is already taken, else the new block and flags. -/
def slot_store (target : trans_opts) (b : Tpb) (cf : List Bool) : Option (Tpb × List Bool) :=
  if target.optval > 0 then
    if target.position > 0 then
      if cf.getD target.position.toNat false then none
      else some (⟨memcpy b.buf target.position [target.optval.toNat], b.used, b.size⟩,
        cf.set target.position.toNat true)
    else some (⟨memcpy b.buf b.used [target.optval.toNat], b.used + 1,
      (tpb_reserve b (b.used + 1)).size⟩, cf)
  else some (b, cf)

/-! ### Directives -/

/-- A table name of a `RESERVING` list: not empty, without NUL and without a delimiter of
`LIST_DELIMIT`. -/
def Namey (n : List Nat) : Prop := n ≠ [] ∧ ∀ c ∈ n, c ≠ 0 ∧ c ∉ LIST_DELIMIT

/-- The tokens of a table list `t1, t2, ...`: a comma ends every name but the last. -/
def table_tokens : List (List Nat) → List (List Nat)
  | [] => []
  | [n] => [n]
  | n :: rest => (n ++ [44]) :: table_tokens rest

/-- The directives of an option string; a `RESERVING` directive has one clause. -/
inductive Directive where
  | read_write
  | read_only
  | wait
  | no_wait
  | snapshot (level : Bool) (stability : Bool)
  | read_committed (level : Bool) (version : RecVersion)
  | reserving (names : List (List Nat)) (shared : Bool) (write : Bool)
  deriving DecidableEq, Repr

/-- The optional words `ISOLATION LEVEL`. -/
def level_words (level : Bool) : List (List Nat) :=
  if level then [bytes "ISOLATION", bytes "LEVEL"] else []

/-- The tokens of a directive. -/
def Directive.words : Directive → List (List Nat)
  | Directive.read_write => [bytes "READ", bytes "WRITE"]
  | Directive.read_only => [bytes "READ", bytes "ONLY"]
  | Directive.wait => [bytes "WAIT"]
  | Directive.no_wait => [bytes "NO", bytes "WAIT"]
  | Directive.snapshot level stability =>
    level_words level ++ [bytes "SNAPSHOT"] ++
      (if stability then [bytes "TABLE", bytes "STABILITY"] else [])
  | Directive.read_committed level version =>
    level_words level ++ [bytes "READ", bytes "COMMITTED"] ++ version.words
  | Directive.reserving names shared write =>
    bytes "RESERVING" :: table_tokens names ++
      [bytes "FOR", if shared then bytes "SHARED" else bytes "PROTECTED",
       if write then bytes "WRITE" else bytes "READ"]

/-- The flag of `check_f` a directive takes: 1 for the access mode, 2 for the isolation, 3 for
the lock resolution, 0 for `RESERVING`. -/
def Directive.slot : Directive → Nat
  | Directive.read_write => 1
  | Directive.read_only => 1
  | Directive.wait => 3
  | Directive.no_wait => 3
  | Directive.snapshot _ _ => 2
  | Directive.read_committed _ _ => 2
  | Directive.reserving _ _ _ => 0

/-- A directive the parser accepts on its own: the names of a table list are names of 1 to
`META_NAME_MAX` bytes, and the last one is not the word `FOR`. -/
def Directive.valid : Directive → Prop
  | Directive.reserving names _ _ =>
    names ≠ [] ∧ (∀ n ∈ names, Namey n ∧ n.length ≤ META_NAME_MAX) ∧
      names.getLast? ≠ some (bytes "FOR")
  | _ => True

/-- The record the scan of a table list appends for the name `n`: the length byte and the
name, between two bytes that the clause fills in later. -/
def push_name (b : Tpb) (n : List Nat) : Tpb :=
  { buf := memcpy (memcpy (tpb_reserve b (b.used + n.length + 3)).buf (b.used + 1)
        [n.length]) (b.used + 2) n,
    used := b.used + n.length + 3,
    size := (tpb_reserve b (b.used + n.length + 3)).size }

/-- The block after a directive that found its flag clear. -/
def Directive.store (d : Directive) (b : Tpb) : Tpb :=
  match d with
  | Directive.read_write => ⟨memcpy b.buf 1 [isc_tpb_write], b.used, b.size⟩
  | Directive.read_only => ⟨memcpy b.buf 1 [isc_tpb_read], b.used, b.size⟩
  | Directive.wait => ⟨memcpy b.buf 3 [isc_tpb_wait], b.used, b.size⟩
  | Directive.no_wait => ⟨memcpy b.buf 3 [isc_tpb_nowait], b.used, b.size⟩
  | Directive.snapshot _ stability =>
    ⟨memcpy b.buf 2 [if stability then isc_tpb_consistency else isc_tpb_concurrency],
      b.used, b.size⟩
  | Directive.read_committed _ version =>
    ⟨memcpy (memcpy b.buf 2 [isc_tpb_read_committed]) b.used [version.byte], b.used + 1,
      (tpb_reserve ⟨memcpy b.buf 2 [isc_tpb_read_committed], b.used, b.size⟩ (b.used + 1)).size⟩
  | Directive.reserving names shared write =>
    ⟨fill_records names.length b.used
        (if write then isc_tpb_lock_write else isc_tpb_lock_read)
        (if shared then isc_tpb_shared else isc_tpb_protected)
        (names.foldl push_name b).buf,
      (names.foldl push_name b).used, (names.foldl push_name b).size⟩

/-- The tokens `h1 h2` after the directive `d` are taken as more words of `d`: the words
`TABLE STABILITY` after `SNAPSHOT`, a record-version word after `READ COMMITTED`, a token that
starts with a comma after a reservation clause. -/
def Directive.continues (d : Directive) (h1 h2 : Option (List Nat)) : Prop :=
  match d with
  | Directive.snapshot _ false => h1 = some (bytes "TABLE") ∧ h2 = some (bytes "STABILITY")
  | Directive.read_committed _ RecVersion.absent =>
    h1 = some (bytes "RECORD_VERSION") ∨
      (h1 = some (bytes "NO") ∧ h2 = some (bytes "RECORD_VERSION"))
  | Directive.reserving _ _ _ => ∃ w, h1 = some (RESV_CONTINUE :: w)
  | _ => False

/-- The gap before a token `FOR` is one delimiter. -/
def TightFor : List (List Nat × List Nat) → Prop
  | [] => True
  | [_] => True
  | (_, g) :: (w, g2) :: rest =>
    (w = bytes "FOR" → g.length = 1) ∧ TightFor ((w, g2) :: rest)

/-- The number of turns of the directive loop a directive takes. -/
def Directive.turns : Directive → Nat
  | Directive.read_write => 2
  | Directive.read_only => 2
  | Directive.wait => 1
  | Directive.no_wait => 1
  | Directive.snapshot level _ => if level then 3 else 2
  | Directive.read_committed _ _ => 3
  | Directive.reserving _ _ _ => 1

/-- The outcome of the scan of a table list with the names `names`: the block with one record
per name and the number of records, or the error of the first name that is too long. -/
def scan_result : List (List Nat) → Tpb → Nat → PRes (Tpb × Nat)
  | [], b, rc => PRes.done (b, rc)
  | n :: rest, b, rc =>
    if n.length > META_NAME_MAX then PRes.fail "Illegal table name was specified"
    else scan_result rest (push_name b n) (rc + 1)

/-! ### The predicates are decidable -/

instance decGap (g : List Nat) : Decidable (Gap g) :=
  inferInstanceAs (Decidable (∀ c ∈ g, c ∈ CMND_DELIMIT))

instance decWordy (w : List Nat) : Decidable (Wordy w) :=
  inferInstanceAs (Decidable (w ≠ [] ∧ ∀ c ∈ w, c ≠ 0 ∧ c ∉ CMND_DELIMIT))

instance decNamey (w : List Nat) : Decidable (Namey w) :=
  inferInstanceAs (Decidable (w ≠ [] ∧ ∀ c ∈ w, c ≠ 0 ∧ c ∉ LIST_DELIMIT))

def decGapsOk : (items : List (List Nat × List Nat)) → Decidable (GapsOk items)
  | [] => isTrue trivial
  | [(w, g)] => inferInstanceAs (Decidable (Wordy w ∧ Gap g))
  | (w, g) :: r :: rs =>
    have := decGapsOk (r :: rs)
    inferInstanceAs (Decidable (Wordy w ∧ Gap g ∧ g ≠ [] ∧ GapsOk (r :: rs)))

instance (items : List (List Nat × List Nat)) : Decidable (GapsOk items) := decGapsOk items

def decTightFor : (items : List (List Nat × List Nat)) → Decidable (TightFor items)
  | [] => isTrue trivial
  | [_] => isTrue trivial
  | (_, g) :: (w, g2) :: rest =>
    have := decTightFor ((w, g2) :: rest)
    inferInstanceAs (Decidable ((w = bytes "FOR" → g.length = 1) ∧ TightFor ((w, g2) :: rest)))

instance (items : List (List Nat × List Nat)) : Decidable (TightFor items) := decTightFor items

instance decValid (d : Directive) : Decidable d.valid :=
  match d with
  | Directive.reserving names _ _ =>
    inferInstanceAs (Decidable (names ≠ [] ∧ (∀ n ∈ names, Namey n ∧ n.length ≤ META_NAME_MAX) ∧
      names.getLast? ≠ some (bytes "FOR")))
  | Directive.read_write => isTrue trivial
  | Directive.read_only => isTrue trivial
  | Directive.wait => isTrue trivial
  | Directive.no_wait => isTrue trivial
  | Directive.snapshot _ _ => isTrue trivial
  | Directive.read_committed _ _ => isTrue trivial

/-- The words that open a directive and lead to a table of second words. -/
inductive Opening where
  | top
  | read
  | isolation_level
  deriving DecidableEq, Repr

/-- The words of an opening. -/
def Opening.words : Opening → List (List Nat)
  | Opening.top => []
  | Opening.read => [bytes "READ"]
  | Opening.isolation_level => [bytes "ISOLATION", bytes "LEVEL"]

/-- The table that is active after an opening. -/
def Opening.table : Opening → OptTable
  | Opening.top => OptTable.trans_opt_S
  | Opening.read => OptTable.read_opt_S
  | Opening.isolation_level => OptTable.isol_opt_S

/-- The name that the scan of a table list takes in addition when more than one delimiter
stands before the token `FOR`: the word `FOR` itself.  `junk` holds the delimiters between
the byte that ended the previous token and the next token. -/
def extra_for : List Nat → List (List Nat × List Nat) → List (List Nat)
  | junk, [] => if junk = [] then [] else [bytes "FOR"]
  | _, (_, g) :: rest => extra_for g.tail rest

/-- The words of the top table that select an entry on their own. -/
def top_keywords : List (List Nat) :=
  [bytes "READ", bytes "WAIT", bytes "ISOLATION", bytes "SNAPSHOT", bytes "RESERVING"]


/-! ## The connection and statement layer: state -/

/-- Options of `isc_dsql_free_statement`, from `ibase.h`. -/
def DSQL_close : Nat := 1
def DSQL_drop : Nat := 2

/-- Constants of the statement layer. -/
def SQLDA_COLSINIT : Int := 10
def SQLCODE_NOMORE : Int := 100
def STATEMENT_DDL : Int := 1
def STATEMENT_DML : Int := 0
def SQL_DIALECT_CURRENT : Nat := 3

/-- Item codes of `isc_dsql_sql_info` and `isc_database_info`, and the statement types,
from `ibase.h`. -/
def isc_info_sql_stmt_type : Nat := 21
def isc_info_db_SQL_dialect : Nat := 62
def isc_info_sql_stmt_select : Int := 1
def isc_info_sql_stmt_ddl : Int := 5
def isc_info_sql_stmt_start_trans : Int := 9
def isc_info_sql_stmt_commit : Int := 10
def isc_info_sql_stmt_rollback : Int := 11
def isc_info_sql_stmt_select_for_upd : Int := 12

/-- Item codes of the database parameter block, from `ibase.h`. -/
def isc_dpb_version1 : Nat := 1
def isc_dpb_user_name : Nat := 28
def isc_dpb_password : Nat := 29
def isc_dpb_lc_ctype : Nat := 48
def isc_dpb_sql_role_name : Nat := 60

/-- The structure `struct FbConnection`.  `cursor` holds the entries of the host array,
`next` is a pointer to another `FbConnection` (`none` is the null pointer). -/
structure FbConnection where
  db : Nat
  cursor : List VALUE
  dialect : Nat
  db_dialect : Nat
  next : Option Nat

/-- The structure `struct FbCursor`; `open_` is its field `open`. -/
structure FbCursor where
  open_ : Bool
  stmt : Nat
  describe : VALUE
  connection : VALUE

/-- What an address of the heap holds: a connection structure, a cursor structure, or
memory that has been given back by `free`. -/
inductive Obj where
  | connection (c : FbConnection)
  | cursor (c : FbCursor)
  | freed

/-- The state of the core: the heap of data structures (the address of a structure is its
index), the file-scope variables of `fb.c`, and the log of driver calls (newest first).
`o_sqlname` holds the `sqlname` fields of the entries of `o_sqlda`. -/
structure World where
  heap : List Obj
  fb_connection_list : Option Nat
  transact : Nat
  i_sqlda : XSQLDA
  o_sqlda : XSQLDA
  o_sqlname : List (List Nat)
  results : Buffer
  ressize : Int
  paramts : Buffer
  prmsize : Int
  db_num : Int
  isc_info_buff : List Nat
  calls : List DrvCall

/-- The state in which the extension is loaded: no structure, no transaction, null
descriptor and buffer pointers. -/
def World.initial : World :=
  { heap := [], fb_connection_list := none, transact := 0,
    i_sqlda := ⟨0, 0, []⟩, o_sqlda := ⟨0, 0, []⟩, o_sqlname := [],
    results := [], ressize := 0, paramts := [], prmsize := 0, db_num := 0,
    isc_info_buff := List.replicate 16 0, calls := [] }

/-- Outcome of an entry point of the core on a state: it returns `a` in state `w`, it
raises `e` in the state `w` reached when the exception left it, or it is still running when
the fuel of one of its loops is spent. -/
inductive Run (α : Type) where
  | ok (a : α) (w : World)
  | raise (e : Exception) (w : World)
  | timeout

/-- Sequencing: the continuation runs on the value and state of a normal return. -/
def Run.bind {α β : Type} : Run α → (α → World → Run β) → Run β
  | Run.ok a w, f => f a w
  | Run.raise e w, _ => Run.raise e w
  | Run.timeout, _ => Run.timeout

/-- The state an outcome ends in, if it ends. -/
def Run.state {α : Type} : Run α → Option World
  | Run.ok _ w => some w
  | Run.raise _ w => some w
  | Run.timeout => none

/-- The answers of the driver (and one of the host runtime), as functions of the calls made
so far, newest first.  `handle calls x` is the value the newest call leaves in the handle
it was given by address, which held `x`; `status` is the value the call returns; `info` is
what it writes to `isc_info_buff`; `sqlda` is the descriptor set it leaves in the `XSQLDA`
it was given and `sqlname` the column names it stores there; `row` is the result buffer
after a fetch.  `format_create` is the host's formatting of the `CREATE DATABASE` text
from the five parameters. -/
structure Driver where
  handle : List DrvCall → Nat → Nat
  status : List DrvCall → Int
  info : List DrvCall → List Nat
  sqlda : List DrvCall → XSQLDA → XSQLDA
  sqlname : List DrvCall → List (List Nat)
  row : List DrvCall → Buffer → Buffer
  format_create : List VALUE → Except Exception (List Nat)

/-- The exception that stands for an access through a pointer to no such structure. -/
def bad_pointer : Exception := ⟨ExcClass.fault, "invalid pointer"⟩

/-- The exception of `Check_Type(obj, T_DATA)`. -/
def not_data : Exception := ⟨ExcClass.TypeError, "wrong argument type (expected Data)"⟩

/-- The connection structure at an address. -/
def World.connection (w : World) (a : Nat) : Option FbConnection :=
  match w.heap[a]? with
  | some (Obj.connection c) => some c
  | _ => none

/-- The cursor structure at an address. -/
def World.cursor (w : World) (a : Nat) : Option FbCursor :=
  match w.heap[a]? with
  | some (Obj.cursor c) => some c
  | _ => none

/-- A store to the structure at an address. -/
def World.store (w : World) (a : Nat) (o : Obj) : World := { w with heap := w.heap.set a o }

/-- The log after one more driver call. -/
def World.call (w : World) (c : DrvCall) : World := { w with calls := c :: w.calls }

/-- The function `fb_error_check(isc_status)` after the newest call. -/
def fb_error_check (h : Host) (w : World) : Run Unit :=
  match h.status_error w.calls with
  | some ex => Run.raise ex w
  | none => Run.ok () w

/-- The function `fb_error_check_warn(isc_status)`: a warning at most. -/
def fb_error_check_warn (_h : Host) (w : World) : Run Unit := Run.ok () w

/-- The macro `Data_Get_Struct(obj, struct FbConnection, fb_connection)`: the address of
the wrapped structure.  A value that is no data object fails `Check_Type`. -/
def Data_Get_Struct_FbConnection (w : World) (obj : VALUE) : Except Exception Nat :=
  match obj with
  | VALUE.object a =>
    match w.heap[a]? with
    | some (Obj.connection _) => Except.ok a
    | some _ => Except.error bad_pointer
    | none => Except.error not_data
  | _ => Except.error not_data

/-- The macro `Data_Get_Struct(obj, struct FbCursor, fb_cursor)`. -/
def Data_Get_Struct_FbCursor (w : World) (obj : VALUE) : Except Exception Nat :=
  match obj with
  | VALUE.object a =>
    match w.heap[a]? with
    | some (Obj.cursor _) => Except.ok a
    | some _ => Except.error bad_pointer
    | none => Except.error not_data
  | _ => Except.error not_data

/-- The macro `STR2CSTR(v)`: the bytes of a host string up to its first NUL. -/
def STR2CSTR : VALUE → Except Exception (List Nat)
  | VALUE.string s => Except.ok (cstr s 0)
  | _ => Except.error ⟨ExcClass.TypeError, "can't convert into String"⟩

/-- Lifting of a host conversion into the outcomes of the core. -/
def Run.of {α : Type} (r : Except Exception α) (w : World) : Run α :=
  match r with
  | Except.ok a => Run.ok a w
  | Except.error e => Run.raise e w

/-- The function `sqlda_alloc(cols)`; the entries are fresh memory. -/
def sqlda_alloc (cols : Int) : XSQLDA :=
  ⟨cols, cols, List.replicate cols.toNat ⟨0, 0, 0, none, none⟩⟩

/-! ## Connections and the registry -/

/-- The function `fb_connection_check(fb_connection)`. -/
def fb_connection_check (fb_connection : Nat) (w : World) : Run Unit :=
  match w.connection fb_connection with
  | none => Run.raise bad_pointer w
  | some c =>
    if c.db = 0 then Run.raise ⟨ExcClass.FbError, "closed db connection"⟩ w
    else Run.ok () w

/-- The function `fb_cursor_check(fb_cursor)`. -/
def fb_cursor_check (fb_cursor : Nat) (w : World) : Run Unit :=
  match w.cursor fb_cursor with
  | none => Run.raise bad_pointer w
  | some c =>
    if c.stmt = 0 then Run.raise ⟨ExcClass.FbError, "dropped db cursor"⟩ w
    else if !c.open_ then Run.raise ⟨ExcClass.FbError, "closed db cursor"⟩ w
    else Run.ok () w

/-- The call `isc_dsql_free_statement(isc_status, &fb_cursor->stmt, option)`. -/
def free_statement (d : Driver) (fb_cursor : Nat) (option : Nat) (w : World) : Run Unit :=
  match w.cursor fb_cursor with
  | none => Run.raise bad_pointer w
  | some c =>
    let w1 := w.call (DrvCall.isc_dsql_free_statement c.stmt option)
    Run.ok () (w1.store fb_cursor (Obj.cursor { c with stmt := d.handle w1.calls c.stmt }))

/-- An assignment to fields of the cursor structure at an address. -/
def World.set_cursor (w : World) (fb_cursor : Nat) (f : FbCursor → FbCursor) : Run Unit :=
  match w.cursor fb_cursor with
  | none => Run.raise bad_pointer w
  | some c => Run.ok () (w.store fb_cursor (Obj.cursor (f c)))

/-- An assignment to fields of the connection structure at an address. -/
def World.set_connection (w : World) (fb_connection : Nat) (f : FbConnection → FbConnection) :
    Run Unit :=
  match w.connection fb_connection with
  | none => Run.raise bad_pointer w
  | some c => Run.ok () (w.store fb_connection (Obj.connection (f c)))

/-- The function `cursor_close(self)`. -/
def cursor_close (h : Host) (d : Driver) (self : VALUE) (w : World) : Run VALUE :=
  (Run.of (Data_Get_Struct_FbCursor w self) w).bind fun fb_cursor w =>
  (fb_cursor_check fb_cursor w).bind fun _ w =>
  (match w.cursor fb_cursor with
    | none => Run.raise bad_pointer w
    | some c =>
      if c.stmt ≠ 0 then
        (free_statement d fb_cursor DSQL_close w).bind fun _ w =>
        (fb_error_check h w).bind fun _ w =>
        w.set_cursor fb_cursor fun c => { c with open_ := false }
      else Run.ok () w).bind fun _ w =>
  (w.set_cursor fb_cursor fun c => { c with describe := VALUE.nil }).bind fun _ w =>
  Run.ok VALUE.nil w
/-- The function `cursor_description(self)`. -/
def cursor_description (self : VALUE) (w : World) : Run VALUE :=
  (Run.of (Data_Get_Struct_FbCursor w self) w).bind fun fb_cursor w =>
  match w.cursor fb_cursor with
  | none => Run.raise bad_pointer w
  | some c => Run.ok c.describe w

/-- The function `fb_cursor_drop(fb_cursor)`. -/
def fb_cursor_drop (h : Host) (d : Driver) (fb_cursor : Nat) (w : World) : Run Unit :=
  match w.cursor fb_cursor with
  | none => Run.raise bad_pointer w
  | some c =>
    (if c.open_ then
      (free_statement d fb_cursor DSQL_close w).bind fun _ w => fb_error_check h w
     else Run.ok () w).bind fun _ w =>
    (free_statement d fb_cursor DSQL_drop w).bind fun _ w =>
    (fb_error_check h w).bind fun _ w =>
    w.set_cursor fb_cursor fun c => { c with stmt := 0 }

/-- The function `fb_cursor_drop_warn(fb_cursor)`. -/
def fb_cursor_drop_warn (h : Host) (d : Driver) (fb_cursor : Nat) (w : World) : Run Unit :=
  match w.cursor fb_cursor with
  | none => Run.raise bad_pointer w
  | some c =>
    (if c.open_ then
      (free_statement d fb_cursor DSQL_close w).bind fun _ w => fb_error_check_warn h w
     else Run.ok () w).bind fun _ w =>
    (free_statement d fb_cursor DSQL_drop w).bind fun _ w =>
    (fb_error_check_warn h w).bind fun _ w =>
    w.set_cursor fb_cursor fun c => { c with stmt := 0 }

/-- The function `fb_cursor_free(fb_cursor)`, the finaliser of a cursor object. -/
def fb_cursor_free (h : Host) (d : Driver) (fb_cursor : Nat) (w : World) : Run Unit :=
  match w.cursor fb_cursor with
  | none => Run.raise bad_pointer w
  | some c =>
    (if c.stmt ≠ 0 then fb_cursor_drop_warn h d fb_cursor w else Run.ok () w).bind fun _ w =>
    Run.ok () (w.store fb_cursor Obj.freed)

/-- The test `ptr[i] == self` for a data object `self` at address `a`. -/
def is_object (a : Nat) : VALUE → Bool
  | VALUE.object b => b = a
  | _ => false

/-- The function `cursor_drop(self)`.  Its loop replaces by `Qnil` every entry of the
cursor array of the owning connection that is `self`. -/
def cursor_drop (h : Host) (d : Driver) (self : VALUE) (w : World) : Run VALUE :=
  (Run.of (Data_Get_Struct_FbCursor w self) w).bind fun fb_cursor w =>
  (fb_cursor_drop h d fb_cursor w).bind fun _ w =>
  (w.set_cursor fb_cursor fun c => { c with describe := VALUE.nil }).bind fun _ w =>
  match w.cursor fb_cursor with
  | none => Run.raise bad_pointer w
  | some c =>
    (Run.of (Data_Get_Struct_FbConnection w c.connection) w).bind fun fb_connection w =>
    (w.set_connection fb_connection fun k =>
      { k with cursor := k.cursor.map fun v => if is_object fb_cursor v then VALUE.nil else v }
      ).bind fun _ w =>
    Run.ok VALUE.nil w

/-- The loop `for (i = 0; i < RARRAY(list->cursor)->len; i++) cursor_close(ptr[i])` from
index `i` on; the fuel is the number of turns left. -/
def close_cursor_array (h : Host) (d : Driver) (list : Nat) : Nat → Nat → World → Run Unit
  | fuel, i, w =>
    match w.connection list with
    | none => Run.raise bad_pointer w
    | some c =>
      if i < c.cursor.length then
        match fuel with
        | 0 => Run.timeout
        | fuel + 1 =>
          (cursor_close h d (c.cursor.getD i VALUE.nil) w).bind fun _ w =>
          close_cursor_array h d list fuel (i + 1) w
      else Run.ok () w

/-- The loop `while (list)` of `fb_connection_close_cursors`. -/
def close_cursors_loop (h : Host) (d : Driver) : Nat → Option Nat → World → Run Unit
  | _, none, w => Run.ok () w
  | 0, some _, _ => Run.timeout
  | fuel + 1, some list, w =>
    match w.connection list with
    | none => Run.raise bad_pointer w
    | some c =>
      (close_cursor_array h d list c.cursor.length 0 w).bind fun _ w =>
      match w.connection list with
      | none => Run.raise bad_pointer w
      | some c => close_cursors_loop h d fuel c.next w

/-- The function `fb_connection_close_cursors()`.  A chain of distinct structures has at
most as many links as the heap has addresses, which bounds the turns of its outer loop. -/
def fb_connection_close_cursors (h : Host) (d : Driver) (w : World) : Run Unit :=
  close_cursors_loop h d (w.heap.length + 1) w.fb_connection_list w

/-- The loop of `fb_connection_drop_cursors` from index `i` on. -/
def drop_cursor_array (h : Host) (d : Driver) (fb_connection : Nat) :
    Nat → Nat → World → Run Unit
  | fuel, i, w =>
    match w.connection fb_connection with
    | none => Run.raise bad_pointer w
    | some c =>
      if i < c.cursor.length then
        match fuel with
        | 0 => Run.timeout
        | fuel + 1 =>
          (cursor_drop h d (c.cursor.getD i VALUE.nil) w).bind fun _ w =>
          drop_cursor_array h d fb_connection fuel (i + 1) w
      else Run.ok () w

/-- The function `fb_connection_drop_cursors(fb_connection)`. -/
def fb_connection_drop_cursors (h : Host) (d : Driver) (fb_connection : Nat) (w : World) :
    Run Unit :=
  match w.connection fb_connection with
  | none => Run.raise bad_pointer w
  | some c =>
    (drop_cursor_array h d fb_connection c.cursor.length 0 w).bind fun _ w =>
    w.set_connection fb_connection fun k => { k with cursor := [] }

/-- The loop `while (list->next)` of `fb_connection_remove`, entered at `list`. -/
def unlink_loop (fb_connection : Nat) : Nat → Nat → World → Run Unit
  | 0, _, _ => Run.timeout
  | fuel + 1, list, w =>
    match w.connection list with
    | none => Run.raise bad_pointer w
    | some l =>
      match l.next with
      | none => Run.ok () w
      | some nx =>
        if nx = fb_connection then
          match w.connection fb_connection with
          | none => Run.raise bad_pointer w
          | some c => Run.ok () (w.store list (Obj.connection { l with next := c.next }))
        else unlink_loop fb_connection fuel nx w

/-- The function `fb_connection_remove(fb_connection)`. -/
def fb_connection_remove (fb_connection : Nat) (w : World) : Run Unit :=
  match w.fb_connection_list with
  | none => Run.ok () w
  | some head =>
    (if head = fb_connection then
      match w.connection head with
      | none => Run.raise bad_pointer w
      | some c => Run.ok () { w with fb_connection_list := c.next }
     else unlink_loop fb_connection (w.heap.length + 1) head w).bind fun _ w =>
    (w.set_connection fb_connection fun c => { c with db := 0 }).bind fun _ w =>
    Run.ok () { w with db_num := w.db_num - 1 }

/-- The call `isc_commit_transaction(isc_status, &transact)`. -/
def commit_transaction (d : Driver) (w : World) : World :=
  { w with calls := DrvCall.isc_commit_transaction w.transact :: w.calls,
           transact := d.handle (DrvCall.isc_commit_transaction w.transact :: w.calls)
             w.transact }

/-- The call `isc_rollback_transaction(isc_status, &transact)`. -/
def rollback_transaction (d : Driver) (w : World) : World :=
  { w with calls := DrvCall.isc_rollback_transaction w.transact :: w.calls,
           transact := d.handle (DrvCall.isc_rollback_transaction w.transact :: w.calls)
             w.transact }

/-- The call `isc_detach_database(isc_status, &fb_connection->db)`. -/
def detach_database (d : Driver) (fb_connection : Nat) (w : World) : Run Unit :=
  match w.connection fb_connection with
  | none => Run.raise bad_pointer w
  | some c =>
    let w1 := w.call (DrvCall.isc_detach_database c.db)
    Run.ok () (w1.store fb_connection (Obj.connection { c with db := d.handle w1.calls c.db }))

/-- The function `fb_connection_disconnect(fb_connection)`. -/
def fb_connection_disconnect (h : Host) (d : Driver) (fb_connection : Nat) (w : World) :
    Run Unit :=
  (if w.transact ≠ 0 then fb_error_check h (commit_transaction d w) else Run.ok () w).bind
    fun _ w =>
  (detach_database d fb_connection w).bind fun _ w =>
  (fb_error_check h w).bind fun _ w =>
  fb_connection_remove fb_connection w

/-- The function `fb_connection_disconnect_warn(fb_connection)`. -/
def fb_connection_disconnect_warn (h : Host) (d : Driver) (fb_connection : Nat) (w : World) :
    Run Unit :=
  (if w.transact ≠ 0 then fb_error_check_warn h (commit_transaction d w)
   else Run.ok () w).bind fun _ w =>
  (detach_database d fb_connection w).bind fun _ w =>
  (fb_error_check_warn h w).bind fun _ w =>
  fb_connection_remove fb_connection w

/-- The function `fb_connection_free(fb_connection)`, the finaliser of a connection
object. -/
def fb_connection_free (h : Host) (d : Driver) (fb_connection : Nat) (w : World) : Run Unit :=
  match w.connection fb_connection with
  | none => Run.raise bad_pointer w
  | some c =>
    (if c.db ≠ 0 then fb_connection_disconnect_warn h d fb_connection w
     else Run.ok () w).bind fun _ w =>
    Run.ok () (w.store fb_connection Obj.freed)

/-- The function `connection_close(self)`. -/
def connection_close (h : Host) (d : Driver) (self : VALUE) (w : World) : Run VALUE :=
  (Run.of (Data_Get_Struct_FbConnection w self) w).bind fun fb_connection w =>
  (fb_connection_check fb_connection w).bind fun _ w =>
  (fb_connection_disconnect h d fb_connection w).bind fun _ w =>
  (fb_connection_drop_cursors h d fb_connection w).bind fun _ w =>
  Run.ok VALUE.nil w
/-! ## The ambient transaction -/

/-- The function `set_teb_vec(vec, fb_connection, tpb, len)`: the entry it writes. -/
def set_teb_vec (fb_connection : Nat) (tpb : Option (List Nat)) (len : Int) : ISC_TEB :=
  match tpb with
  | some t => { dbb_ptr := fb_connection, tpb_ptr := some t, tpb_len := len }
  | none => { dbb_ptr := fb_connection, tpb_ptr := none, tpb_len := 0 }

/-- The name `rb_class2name(CLASS_OF(data))` of the class of a host value. -/
def rb_class2name (w : World) : VALUE → String
  | VALUE.nil => "NilClass"
  | VALUE.integer v => if -2 ^ 30 ≤ v ∧ v < 2 ^ 30 then "Fixnum" else "Bignum"
  | VALUE.float _ => "Float"
  | VALUE.string _ => "String"
  | VALUE.time _ _ => "Time"
  | VALUE.array _ => "Array"
  | VALUE.bool true => "TrueClass"
  | VALUE.bool false => "FalseClass"
  | VALUE.object a =>
    match w.heap[a]? with
    | some (Obj.cursor _) => "Fb::Cursor"
    | some (Obj.connection _) => "Fb::Connection"
    | _ => "Object"

/-- The function `fb_connection_check_retrieve(data)`. -/
def fb_connection_check_retrieve (w : World) (data : VALUE) : Except Exception Nat :=
  match data with
  | VALUE.object a =>
    match w.connection a with
    | some _ => Except.ok a
    | none => Except.error ⟨ExcClass.TypeError,
        "Wrong argument type " ++ rb_class2name w data ++ " (expected Fb::Connection)"⟩
  | _ => Except.error ⟨ExcClass.TypeError,
        "Wrong argument type " ++ rb_class2name w data ++ " (expected Fb::Connection)"⟩

/-- The loop `for (fb_connection = fb_connection_list; fb_connection; fb_connection =
fb_connection->next)` of `transaction_start`: the entries it writes to `teb_vec`, in order;
`none` when the fuel is spent. -/
def teb_of_list (w : World) (tpb : Option (List Nat)) (len : Int) :
    Nat → Option Nat → Option (Except Exception (List ISC_TEB))
  | _, none => some (Except.ok [])
  | 0, some _ => none
  | fuel + 1, some fb_connection =>
    match w.connection fb_connection with
    | none => some (Except.error bad_pointer)
    | some c =>
      match teb_of_list w tpb len fuel c.next with
      | none => none
      | some (Except.error e) => some (Except.error e)
      | some (Except.ok vec) => some (Except.ok (set_teb_vec fb_connection tpb len :: vec))

/-- The loop `for (n = 0; n < argc; n++)` of `transaction_start` from index `n` on: the
entries it writes.  The counter is a `short`: the increment past `SHRT_MAX` makes it
negative, and the turn that follows reads outside `argv`. -/
def teb_of_args (w : World) (tpb : Option (List Nat)) (len : Int) :
    Int → List VALUE → Except Exception (List ISC_TEB)
  | _, [] => Except.ok []
  | n, data :: rest =>
    match fb_connection_check_retrieve w data with
    | Except.error e => Except.error e
    | Except.ok fb_connection =>
      if SHRT_MAX < n + 1 then Except.error bad_pointer
      else
        match teb_of_args w tpb len (n + 1) rest with
        | Except.error e => Except.error e
        | Except.ok vec => Except.ok (set_teb_vec fb_connection tpb len :: vec)

/-- The call `isc_start_multiple(isc_status, &transact, n, teb_vec)`; `teb_vec` is shown
with the entries the loops have written. -/
def start_multiple (d : Driver) (n : Int) (teb_vec : List ISC_TEB) (w : World) : World :=
  { w with calls := DrvCall.isc_start_multiple n teb_vec :: w.calls,
           transact := d.handle (DrvCall.isc_start_multiple n teb_vec :: w.calls) w.transact }

/-- The tail of `transaction_start`, from the test `argc > db_num` on, for the parameter
block `tpb` of length `tpb_len` (`none` is the null pointer).  Writing more entries than
the `db_num` allocated for `teb_vec` is a fault. -/
def transaction_start_teb (h : Host) (d : Driver) (tpb : Option (List Nat)) (tpb_len : Int)
    (argv : List VALUE) (w : World) : Run Unit :=
  if w.db_num < (argv.length : Int) then
    Run.raise ⟨ExcClass.FbError, "Too many databases specified for the transaction"⟩ w
  else if argv.length = 0 then
    match teb_of_list w tpb tpb_len (w.heap.length + 1) w.fb_connection_list with
    | none => Run.timeout
    | some (Except.error e) => Run.raise e w
    | some (Except.ok vec) =>
      if w.db_num < (vec.length : Int) then Run.raise bad_pointer w
      else fb_error_check h (start_multiple d (to_short w.db_num) vec w)
  else
    match teb_of_args w tpb tpb_len 0 argv with
    | Except.error e => Run.raise e w
    | Except.ok vec => fb_error_check h (start_multiple d (argv.length : Int) vec w)

/-- The function `transaction_start(opt, argc, argv)`. -/
def transaction_start (h : Host) (d : Driver) (opt : VALUE) (argv : List VALUE) (w : World) :
    Run Unit :=
  if w.transact ≠ 0 then
    Run.raise ⟨ExcClass.FbError, "The transaction has been already started"⟩ w
  else
    match opt with
    | VALUE.nil => transaction_start_teb h d none 0 argv w
    | _ =>
      match STR2CSTR opt with
      | Except.error e => Run.raise e w
      | Except.ok s =>
        match trans_parseopts s with
        | PRes.timeout => Run.timeout
        | PRes.fail desc => Run.raise ⟨ExcClass.FbError, desc⟩ w
        | PRes.done tpb => transaction_start_teb h d (some tpb) (tpb.length : Int) argv w

/-- The function `global_transaction(argc, argv, self)`. -/
def global_transaction (h : Host) (d : Driver) (argv : List VALUE) (w : World) : Run VALUE :=
  match argv with
  | [] => (transaction_start h d VALUE.nil [] w).bind fun _ w => Run.ok VALUE.nil w
  | opt :: rest => (transaction_start h d opt rest w).bind fun _ w => Run.ok VALUE.nil w

/-- The function `global_transaction_started()`. -/
def global_transaction_started (w : World) : VALUE :=
  if w.transact ≠ 0 then VALUE.bool true else VALUE.bool false

/-- The function `global_commit()`. -/
def global_commit (h : Host) (d : Driver) (w : World) : Run VALUE :=
  (fb_connection_close_cursors h d w).bind fun _ w =>
  (if w.transact ≠ 0 then
    (fb_error_check h (commit_transaction d w)).bind fun _ w =>
    Run.ok () { w with transact := 0 }
   else Run.ok () w).bind fun _ w =>
  Run.ok VALUE.nil w

/-- The function `global_rollback()`. -/
def global_rollback (h : Host) (d : Driver) (w : World) : Run VALUE :=
  (fb_connection_close_cursors h d w).bind fun _ w =>
  (if w.transact ≠ 0 then
    (fb_error_check h (rollback_transaction d w)).bind fun _ w =>
    Run.ok () { w with transact := 0 }
   else Run.ok () w).bind fun _ w =>
  Run.ok VALUE.nil w
/-! ## Statements -/

/-- The function `connection_cursor(self)`.  `Data_Make_Struct` yields a zeroed structure
at a fresh address. -/
def connection_cursor (h : Host) (d : Driver) (self : VALUE) (w : World) : Run VALUE :=
  (Run.of (Data_Get_Struct_FbConnection w self) w).bind fun fb_connection w =>
  (fb_connection_check fb_connection w).bind fun _ w =>
  match w.connection fb_connection with
  | none => Run.raise bad_pointer w
  | some k =>
    let fb_cursor := w.heap.length
    let calls := DrvCall.isc_dsql_alloc_statement2 k.db :: w.calls
    (fb_error_check h
      { w with heap := w.heap ++ [Obj.cursor { connection := self, describe := VALUE.nil,
                                                open_ := false, stmt := d.handle calls 0 }],
               calls := calls }).bind fun _ w =>
    Run.ok (VALUE.object fb_cursor) w

/-- The statement type read from `isc_info_buff` after `isc_dsql_sql_info`. -/
def statement_type (isc_info_buff : List Nat) : Int :=
  if isc_info_buff.getD 0 0 = isc_info_sql_stmt_type then
    isc_vax_integer (isc_info_buff.drop 3) (to_short (isc_vax_integer (isc_info_buff.drop 1) 2))
  else 0

/-- A call that describes a statement into `o_sqlda`. -/
def describe_output (d : Driver) (c : DrvCall) (w : World) : World :=
  { w with calls := c :: w.calls,
           o_sqlda := d.sqlda (c :: w.calls) w.o_sqlda,
           o_sqlname := d.sqlname (c :: w.calls) }

/-- The call `isc_dsql_describe_bind(isc_status, &fb_cursor->stmt, 1, i_sqlda)`. -/
def describe_bind (d : Driver) (stmt : Nat) (w : World) : World :=
  { w with calls := DrvCall.isc_dsql_describe_bind stmt :: w.calls,
           i_sqlda := d.sqlda (DrvCall.isc_dsql_describe_bind stmt :: w.calls) w.i_sqlda }

/-- The call `isc_dsql_sql_info` with the item `isc_info_sql_stmt_type`. -/
def sql_info (d : Driver) (stmt : Nat) (w : World) : World :=
  { w with calls := DrvCall.isc_dsql_sql_info stmt :: w.calls,
           isc_info_buff := fit 16 (d.info (DrvCall.isc_dsql_sql_info stmt :: w.calls)) }

/-- The function `fb_cursor_check_inparams` on the shared input descriptors and parameter
buffer. -/
def check_inparams (h : Host) (argv : List VALUE) (exec : Int) (w : World) : Run Unit :=
  match fb_cursor_check_inparams h w.i_sqlda argv exec w.paramts w.calls with
  | Res.ok sqlda e => Run.ok () { w with i_sqlda := sqlda, paramts := e.paramts, calls := e.calls }
  | Res.raise ex e => Run.raise ex { w with paramts := e.paramts, calls := e.calls }

/-- The function `fb_cursor_description(sqlda)`; `sqlname` holds the names of the entries. -/
def fb_cursor_description (sqlda : XSQLDA) (sqlname : List (List Nat)) : VALUE :=
  if sqlda.sqld = 0 then VALUE.nil
  else VALUE.array ((List.range sqlda.sqld.toNat).map fun count =>
    let var := sqlda.sqlvar.getD count ⟨0, 0, 0, none, none⟩
    VALUE.array [VALUE.string (sqlname.getD count []), VALUE.integer var.dtp,
      VALUE.integer var.sqllen,
      VALUE.integer (if var.dtp = SQL_VARYING then var.sqllen + sizeof_short else var.sqllen),
      VALUE.integer 0, VALUE.integer var.sqlscale, VALUE.bool var.nullable])

/-- The first part of `cursor_execute(argc, argv, self)`, up to the sizing of the parameter
buffer: it yields the cursor structure, the arguments after the statement text, the
statement type and the number of input parameters. -/
def cursor_execute_prepare (h : Host) (d : Driver) (argv : List VALUE) (self : VALUE)
    (w : World) : Run (Nat × List VALUE × Int × Int) :=
  (Run.of (Data_Get_Struct_FbCursor w self) w).bind fun fb_cursor w =>
  match w.cursor fb_cursor with
  | none => Run.raise bad_pointer w
  | some c =>
    (Run.of (Data_Get_Struct_FbConnection w c.connection) w).bind fun fb_connection w =>
    (fb_connection_check fb_connection w).bind fun _ w =>
    match argv with
    | [] => Run.raise ⟨ExcClass.ArgError, "too few arguments (at least 1)"⟩ w
    | text :: args =>
      (Run.of (STR2CSTR text) w).bind fun sql w =>
      (if c.open_ then
        (free_statement d fb_cursor DSQL_close w).bind fun _ w =>
        (fb_error_check h w).bind fun _ w =>
        w.set_cursor fb_cursor fun c => { c with open_ := false }
       else Run.ok () w).bind fun _ w =>
      (if w.transact = 0 then transaction_start h d VALUE.nil [] w else Run.ok () w).bind
        fun _ w =>
      match w.cursor fb_cursor, w.connection fb_connection with
      | some c, some k =>
        (fb_error_check h
          (describe_output d (DrvCall.isc_dsql_prepare c.stmt sql k.dialect) w)).bind fun _ w =>
        (fb_error_check h (sql_info d c.stmt w)).bind fun _ w =>
        let statement := statement_type w.isc_info_buff
        (fb_error_check h (describe_bind d c.stmt w)).bind fun _ w =>
        (fb_error_check h (describe_output d (DrvCall.isc_dsql_describe c.stmt) w)).bind
          fun _ w =>
        let in_params := w.i_sqlda.sqld
        (if w.i_sqlda.sqln < in_params then
          fb_error_check h (describe_bind d c.stmt { w with i_sqlda := sqlda_alloc in_params })
         else Run.ok () w).bind fun _ w =>
        Run.ok (fb_cursor, args, statement, in_params)
          (if in_params ≠ 0 ∧ w.prmsize < calculate_buffsize w.i_sqlda then
            { w with prmsize := calculate_buffsize w.i_sqlda }
           else w)
      | _, _ => Run.raise bad_pointer w

/-- The call `isc_dsql_execute2(isc_status, &transact, &fb_cursor->stmt, 1, in, 0)`. -/
def execute2 (h : Host) (with_in_sqlda : Bool) (w : World) : Run Unit :=
  fb_error_check h (w.call (DrvCall.isc_dsql_execute2 with_in_sqlda))

/-- The value `cursor_execute` returns for a statement type. -/
def return_object (statement : Int) : VALUE :=
  if statement = isc_info_sql_stmt_select ∨ statement = isc_info_sql_stmt_select_for_upd then
    VALUE.nil
  else if statement = isc_info_sql_stmt_ddl then VALUE.integer STATEMENT_DDL
  else VALUE.integer STATEMENT_DML

/-- The second part of `cursor_execute`, from the test `!o_sqlda->sqld` on. -/
def cursor_execute_run (h : Host) (d : Driver) (fb_cursor : Nat) (args : List VALUE)
    (statement in_params : Int) (w : World) : Run VALUE :=
  (if w.o_sqlda.sqld = 0 then
    if statement = isc_info_sql_stmt_start_trans then
      Run.raise ⟨ExcClass.FbError, "use Fb::Connection#transaction()"⟩ w
    else if statement = isc_info_sql_stmt_commit then
      Run.raise ⟨ExcClass.FbError, "use Fb::Connection#commit()"⟩ w
    else if statement = isc_info_sql_stmt_rollback then
      Run.raise ⟨ExcClass.FbError, "use Fb::Connection#rollback()"⟩ w
    else if in_params ≠ 0 then check_inparams h args EXECF_EXECDML w
    else execute2 h false w
   else
    match w.cursor fb_cursor with
    | none => Run.raise bad_pointer w
    | some c =>
      (if w.o_sqlda.sqln < w.o_sqlda.sqld then
        fb_error_check h (describe_output d (DrvCall.isc_dsql_describe c.stmt)
          { w with o_sqlda := sqlda_alloc w.o_sqlda.sqld })
       else Run.ok () w).bind fun _ w =>
      (if in_params ≠ 0 then check_inparams h args EXECF_SETPARM w else Run.ok () w).bind
        fun _ w =>
      (execute2 h (in_params ≠ 0) w).bind fun _ w =>
      (w.set_cursor fb_cursor fun c => { c with open_ := true }).bind fun _ w =>
      (Run.ok ()
        (if w.ressize < calculate_buffsize w.o_sqlda then
          { w with ressize := calculate_buffsize w.o_sqlda }
         else w)).bind fun _ w =>
      w.set_cursor fb_cursor fun c =>
        { c with describe := fb_cursor_description w.o_sqlda w.o_sqlname }).bind fun _ w =>
  Run.ok (return_object statement) w

/-- The function `cursor_execute(argc, argv, self)`. -/
def cursor_execute (h : Host) (d : Driver) (argv : List VALUE) (self : VALUE) (w : World) :
    Run VALUE :=
  (cursor_execute_prepare h d argv self w).bind fun p w =>
  cursor_execute_run h d p.1 p.2.1 p.2.2.1 p.2.2.2 w

/-- The call `rb_ensure(b_proc, data1, e_proc, data2)`: `e_proc` runs when `b_proc` is
left, by return or by exception. -/
def rb_ensure (b_proc e_proc : World → Run VALUE) (w : World) : Run VALUE :=
  match b_proc w with
  | Run.ok v w => (e_proc w).bind fun _ w => Run.ok v w
  | Run.raise ex w => (e_proc w).bind fun _ w => Run.raise ex w
  | Run.timeout => Run.timeout

/-- A block given to an entry point: it receives the yielded value and runs on the state. -/
abbrev Block := VALUE → World → Run VALUE

/-- The function `connection_execute(argc, argv, self)`; `block` is the block of the call,
if one is given. -/
def connection_execute (h : Host) (d : Driver) (argv : List VALUE) (self : VALUE)
    (block : Option Block) (w : World) : Run VALUE :=
  (connection_cursor h d self w).bind fun cursor w =>
  (cursor_execute h d argv cursor w).bind fun val w =>
  match val with
  | VALUE.nil =>
    match block with
    | some b => rb_ensure (b cursor) (cursor_close h d cursor) w
    | none => Run.ok cursor w
  | _ => Run.ok VALUE.nil w
/-- The function `fb_cursor_fetch_prep(fb_cursor)`. -/
def fb_cursor_fetch_prep (h : Host) (d : Driver) (fb_cursor : Nat) (w : World) : Run Unit :=
  (fb_cursor_check fb_cursor w).bind fun _ w =>
  match w.cursor fb_cursor with
  | none => Run.raise bad_pointer w
  | some c =>
    (Run.of (Data_Get_Struct_FbConnection w c.connection) w).bind fun fb_connection w =>
    (fb_connection_check fb_connection w).bind fun _ w =>
    if !c.open_ then
      Run.raise ⟨ExcClass.FbError, "The cursor has not been open. Use execute(query)"⟩ w
    else
      (fb_error_check h (describe_output d (DrvCall.isc_dsql_describe c.stmt) w)).bind
        fun _ w =>
      Run.ok () { w with o_sqlda := { w.o_sqlda with
        sqlvar := (fb_cursor_fetch_prep_layout w.o_sqlda).1 ++
          w.o_sqlda.sqlvar.drop w.o_sqlda.sqld.toNat } }

/-- The function `fb_cursor_fetch(fb_cursor)`. -/
def fb_cursor_fetch (h : Host) (d : Driver) (fb_cursor : Nat) (w : World) : Run VALUE :=
  match w.cursor fb_cursor with
  | none => Run.raise bad_pointer w
  | some c =>
    (Run.of (Data_Get_Struct_FbConnection w c.connection) w).bind fun fb_connection w =>
    (fb_connection_check fb_connection w).bind fun _ w =>
    let calls := DrvCall.isc_dsql_fetch c.stmt :: w.calls
    let w1 := { w with calls := calls, results := d.row calls w.results }
    if d.status calls = SQLCODE_NOMORE then Run.ok VALUE.nil w1
    else
      (fb_error_check h w1).bind fun _ w =>
      match fetch_columns h w.o_sqlda.vars w.results w.calls with
      | Res.ok row calls => Run.ok (VALUE.array row) { w with calls := calls }
      | Res.raise ex calls => Run.raise ex { w with calls := calls }

/-- The function `cursor_fetch(self)`. -/
def cursor_fetch (h : Host) (d : Driver) (self : VALUE) (w : World) : Run VALUE :=
  (Run.of (Data_Get_Struct_FbCursor w self) w).bind fun fb_cursor w =>
  (fb_cursor_fetch_prep h d fb_cursor w).bind fun _ w =>
  fb_cursor_fetch h d fb_cursor w

/-- The loop `for (;;)` of `cursor_fetchall`: the rows fetched until the first `Qnil`. -/
def fetchall_loop (h : Host) (d : Driver) (fb_cursor : Nat) : Nat → World → Run (List VALUE)
  | 0, _ => Run.timeout
  | fuel + 1, w =>
    (fb_cursor_fetch h d fb_cursor w).bind fun row w =>
    match row with
    | VALUE.nil => Run.ok [] w
    | _ => (fetchall_loop h d fb_cursor fuel w).bind fun ary w => Run.ok (row :: ary) w

/-- The function `cursor_fetchall(self)`; `fuel` bounds the turns of its loop. -/
def cursor_fetchall (h : Host) (d : Driver) (fuel : Nat) (self : VALUE) (w : World) :
    Run VALUE :=
  (Run.of (Data_Get_Struct_FbCursor w self) w).bind fun fb_cursor w =>
  (fb_cursor_fetch_prep h d fb_cursor w).bind fun _ w =>
  (fetchall_loop h d fb_cursor fuel w).bind fun ary w =>
  Run.ok (VALUE.array ary) w

/-- The loop `for (;;)` of `cursor_each`: every row is yielded to the block. -/
def each_loop (h : Host) (d : Driver) (fb_cursor : Nat) (block : Block) : Nat → World → Run Unit
  | 0, _ => Run.timeout
  | fuel + 1, w =>
    (fb_cursor_fetch h d fb_cursor w).bind fun row w =>
    match row with
    | VALUE.nil => Run.ok () w
    | _ => (block row w).bind fun _ w => each_loop h d fb_cursor block fuel w

/-- The function `cursor_each(self)`; `fuel` bounds the turns of its loop. -/
def cursor_each (h : Host) (d : Driver) (fuel : Nat) (self : VALUE) (block : Block)
    (w : World) : Run VALUE :=
  (Run.of (Data_Get_Struct_FbCursor w self) w).bind fun fb_cursor w =>
  (fb_cursor_fetch_prep h d fb_cursor w).bind fun _ w =>
  (each_loop h d fb_cursor block fuel w).bind fun _ w =>
  Run.ok VALUE.nil w

/-! ## Databases -/

/-- The instance variables of a `Fb::Database` object. -/
structure Database where
  database : VALUE
  username : VALUE
  password : VALUE
  charset : VALUE
  role : VALUE
  page_size : VALUE

/-- The function `dbp_create(&length)`: the block it allocates. -/
def dbp_create : List Nat := [isc_dpb_version1]

/-- The function `dbp_add_string(dbp, isc_dbp_code, s, &length)`: the block, grown by the
code, the length as a `char`, and the bytes of `s`. -/
def dbp_add_string (dbp : List Nat) (isc_dbp_code : Nat) (s : List Nat) : List Nat :=
  dbp ++ [isc_dbp_code, (cstr s 0).length % 256] ++ cstr s 0

/-- The macro `Check_Type(v, T_STRING)`. -/
def Check_Type_T_STRING : VALUE → Except Exception (List Nat)
  | VALUE.string s => Except.ok s
  | _ => Except.error ⟨ExcClass.TypeError, "wrong argument type (expected String)"⟩

/-- The function `connection_create_dbp(self, &length)`: the block; `length` is the length
of the list. -/
def connection_create_dbp (self : Database) : Except Exception (List Nat) :=
  match Check_Type_T_STRING self.username with
  | Except.error e => Except.error e
  | Except.ok username =>
    match Check_Type_T_STRING self.password with
    | Except.error e => Except.error e
    | Except.ok password =>
      let dbp := dbp_add_string (dbp_add_string dbp_create isc_dpb_user_name username)
        isc_dpb_password password
      match (match self.charset with
             | VALUE.nil => Except.ok dbp
             | v => (STR2CSTR v).map fun s => dbp_add_string dbp isc_dpb_lc_ctype s) with
      | Except.error e => Except.error e
      | Except.ok dbp =>
        match self.role with
        | VALUE.nil => Except.ok dbp
        | v => (STR2CSTR v).map fun s => dbp_add_string dbp isc_dpb_sql_role_name s

/-- The function `fb_connection_db_SQL_Dialect(fb_connection)`. -/
def fb_connection_db_SQL_Dialect (h : Host) (d : Driver) (fb_connection : Nat) (w : World) :
    Run Nat :=
  match w.connection fb_connection with
  | none => Run.raise bad_pointer w
  | some c =>
    let calls := DrvCall.isc_database_info c.db :: w.calls
    (fb_error_check h { w with calls := calls, isc_info_buff := fit 16 (d.info calls) }).bind
      fun _ w =>
    Run.ok (to_ushort
      (if w.isc_info_buff.getD 0 0 = isc_info_db_SQL_dialect then
        isc_vax_integer (w.isc_info_buff.drop 3)
          (to_short (isc_vax_integer (w.isc_info_buff.drop 1) 2))
       else 1)) w

/-- The function `connection_create(handle)`. -/
def connection_create (h : Host) (d : Driver) (handle : Nat) (w : World) : Run VALUE :=
  let fb_connection := w.heap.length
  let w1 : World :=
    { w with heap := w.heap ++ [Obj.connection { db := handle, cursor := [], dialect := 0,
                                                  db_dialect := 0, next := w.fb_connection_list }],
             transact := 0,
             i_sqlda := sqlda_alloc SQLDA_COLSINIT,
             o_sqlda := sqlda_alloc SQLDA_COLSINIT,
             results := [], paramts := [], ressize := 0, prmsize := 0,
             db_num := w.db_num + 1,
             fb_connection_list := some fb_connection }
  (fb_connection_db_SQL_Dialect h d fb_connection w1).bind fun db_dialect w =>
  (w.set_connection fb_connection fun c =>
    { c with dialect := if db_dialect < SQL_DIALECT_CURRENT then db_dialect
                        else SQL_DIALECT_CURRENT,
             db_dialect := db_dialect }).bind fun _ w =>
  Run.ok (VALUE.object fb_connection) w

/-- The function `database_connect(self)` up to the test for a block: the attachment and
the connection object. -/
def database_connect_open (h : Host) (d : Driver) (self : Database) (w : World) : Run VALUE :=
  (Run.of (Check_Type_T_STRING self.database) w).bind fun database w =>
  (Run.of (connection_create_dbp self) w).bind fun dbp w =>
  let calls := DrvCall.isc_attach_database (cstr database 0) dbp :: w.calls
  (fb_error_check h { w with calls := calls }).bind fun _ w =>
  connection_create h d (d.handle calls 0) w

/-- The function `database_connect(self)`; `block` is the block of the call, if one is
given. -/
def database_connect (h : Host) (d : Driver) (self : Database) (block : Option Block)
    (w : World) : Run VALUE :=
  (database_connect_open h d self w).bind fun connection w =>
  match block with
  | some b => rb_ensure (b connection) (connection_close h d connection) w
  | none => Run.ok connection w

/-- The function `database_create(self)` up to the yield to its block: the statement
`CREATE DATABASE` is executed, and the new handle is wrapped in a connection when a block is
given and detached when none is.  It yields the connection, if there is one. -/
def database_create_open (h : Host) (d : Driver) (self : Database) (block_given : Bool)
    (w : World) : Run (Option VALUE) :=
  (Run.of (d.format_create
    [self.database, self.username, self.password, self.page_size, self.charset]) w).bind
    fun sql w =>
  let calls := DrvCall.isc_dsql_execute_immediate sql :: w.calls
  let handle := d.handle calls 0
  (if d.status calls ≠ 0 then fb_error_check h { w with calls := calls }
   else Run.ok () { w with calls := calls }).bind fun _ w =>
  if handle ≠ 0 then
    if block_given then (connection_create h d handle w).bind fun c w => Run.ok (some c) w
    else
      (fb_error_check h (w.call (DrvCall.isc_detach_database handle))).bind fun _ w =>
      Run.ok none w
  else Run.ok none w

/-- The function `database_create(self)`; it returns `self`, shown as `Qnil`. -/
def database_create (h : Host) (d : Driver) (self : Database) (block : Option Block)
    (w : World) : Run VALUE :=
  (database_create_open h d self block.isSome w).bind fun connection w =>
  match block, connection with
  | some b, some c =>
    (rb_ensure (b c) (connection_close h d c) w).bind fun _ w => Run.ok VALUE.nil w
  | _, _ => Run.ok VALUE.nil w

/-- The function `database_drop(self)`, called without a block. -/
def database_drop (h : Host) (d : Driver) (self : Database) (w : World) : Run VALUE :=
  (database_connect h d self none w).bind fun connection w =>
  (Run.of (Data_Get_Struct_FbConnection w connection) w).bind fun fb_connection w =>
  match w.connection fb_connection with
  | none => Run.raise bad_pointer w
  | some c =>
    let w1 := w.call (DrvCall.isc_drop_database c.db)
    (fb_error_check h
      (w1.store fb_connection (Obj.connection { c with db := d.handle w1.calls c.db }))).bind
      fun _ w =>
    (fb_connection_remove fb_connection w).bind fun _ w =>
    Run.ok VALUE.nil w
/-! ## Entry points as operations -/

/-- A block that leaves the state alone. -/
def no_effect : Block := fun _ w => Run.ok VALUE.nil w

/-- The calls a program can make on the core, and the two finalisers the host runs for
it.  An entry point that takes a block appears up to its yield: what the block does is the
operations that follow, and leaving a block of `connect` or `create` is `connection_close`,
leaving a block of `execute` is `cursor_close`.  `each` has a block that leaves the core
alone. -/
inductive Op where
  | connect (self : Database)
  | create (self : Database) (block_given : Bool)
  | drop (self : Database)
  | connection_close (self : VALUE)
  | connection_free (fb_connection : Nat)
  | cursor_free (fb_cursor : Nat)
  | execute (self : VALUE) (argv : List VALUE)
  | transaction (argv : List VALUE)
  | commit
  | rollback
  | cursor_execute (self : VALUE) (argv : List VALUE)
  | fetch (self : VALUE)
  | fetchall (fuel : Nat) (self : VALUE)
  | each (fuel : Nat) (self : VALUE)
  | cursor_close (self : VALUE)
  | cursor_drop (self : VALUE)
  | description (self : VALUE)

/-- The outcome of one operation.  A finaliser runs on a structure of its own kind only. -/
def perform (h : Host) (d : Driver) (op : Op) (w : World) : Run VALUE :=
  match op with
  | Op.connect self => database_connect_open h d self w
  | Op.create self block_given =>
    (database_create_open h d self block_given w).bind fun c w => Run.ok (c.getD VALUE.nil) w
  | Op.drop self => database_drop h d self w
  | Op.connection_close self => connection_close h d self w
  | Op.connection_free fb_connection =>
    match w.connection fb_connection with
    | none => Run.ok VALUE.nil w
    | some _ => (fb_connection_free h d fb_connection w).bind fun _ w => Run.ok VALUE.nil w
  | Op.cursor_free fb_cursor =>
    match w.cursor fb_cursor with
    | none => Run.ok VALUE.nil w
    | some _ => (fb_cursor_free h d fb_cursor w).bind fun _ w => Run.ok VALUE.nil w
  | Op.execute self argv => connection_execute h d argv self none w
  | Op.transaction argv => global_transaction h d argv w
  | Op.commit => global_commit h d w
  | Op.rollback => global_rollback h d w
  | Op.cursor_execute self argv => cursor_execute h d argv self w
  | Op.fetch self => cursor_fetch h d self w
  | Op.fetchall fuel self => cursor_fetchall h d fuel self w
  | Op.each fuel self => cursor_each h d fuel self no_effect w
  | Op.cursor_close self => cursor_close h d self w
  | Op.cursor_drop self => cursor_drop h d self w
  | Op.description self => cursor_description self w

/-- The state after a sequence of operations, each begun where the one before it ended (by
return or by an exception the program rescued); `none` if one of them does not end. -/
def run_ops (h : Host) (d : Driver) : List Op → World → Option World
  | [], w => some w
  | op :: ops, w =>
    match (perform h d op w).state with
    | none => none
    | some w1 => run_ops h d ops w1

/-- The text of the newest `isc_dsql_prepare` of a log. -/
def last_sql : List DrvCall → List Nat
  | [] => []
  | DrvCall.isc_dsql_prepare _ sql _ :: _ => sql
  | _ :: rest => last_sql rest

/-- The statement type the sample driver reports for a text: `select` for a text that
starts with `S`, `ddl` for one that starts with `C`, `insert` for any other. -/
def sample_type (sql : List Nat) : Nat :=
  if sql.head? = some 83 then 1 else if sql.head? = some 67 then 5 else 2

/-- A driver used to run the embedding on inputs.  New handles are numbered by the length
of the log; detaching, dropping, committing, rolling back and `DSQL_drop` clear the handle
they are given.  A statement has one nullable `INTEGER` parameter for each `?` of its text,
and one `INTEGER` column if it is a `select`; every result set is empty. -/
def sample_driver : Driver where
  handle calls x :=
    match calls with
    | DrvCall.isc_attach_database _ _ :: _ => calls.length
    | DrvCall.isc_dsql_execute_immediate _ :: _ => calls.length
    | DrvCall.isc_start_multiple _ _ :: _ => calls.length
    | DrvCall.isc_dsql_alloc_statement2 _ :: _ => calls.length
    | DrvCall.isc_detach_database _ :: _ => 0
    | DrvCall.isc_drop_database _ :: _ => 0
    | DrvCall.isc_commit_transaction _ :: _ => 0
    | DrvCall.isc_rollback_transaction _ :: _ => 0
    | DrvCall.isc_dsql_free_statement _ option :: _ => if option = DSQL_drop then 0 else x
    | _ => x
  status calls :=
    match calls with
    | DrvCall.isc_dsql_fetch _ :: _ => SQLCODE_NOMORE
    | _ => 0
  info calls :=
    match calls with
    | DrvCall.isc_dsql_sql_info _ :: rest => [21, 4, 0, sample_type (last_sql rest), 0, 0, 0, 1]
    | DrvCall.isc_database_info _ :: _ => [62, 1, 0, 3, 1]
    | _ => []
  sqlda calls x :=
    match calls with
    | DrvCall.isc_dsql_describe_bind _ :: rest =>
      { x with sqld := ((last_sql rest).count 63 : Nat),
               sqlvar := List.replicate (min ((last_sql rest).count 63) x.sqln.toNat)
                 ⟨497, 0, 4, none, none⟩ }
    | c :: rest =>
      if sample_type (last_sql (c :: rest)) = 1 then
        { x with sqld := 1, sqlvar := [⟨496, 0, 4, none, none⟩] }
      else { x with sqld := 0, sqlvar := [] }
    | [] => x
  sqlname _ := [[73]]
  row _ b := b
  format_create _ := Except.ok (bytes "CREATE DATABASE")

/-- A database descriptor used to run the embedding on inputs. -/
def sample_database : Database :=
  { database := VALUE.string (bytes "test.fdb"), username := VALUE.string (bytes "sysdba"),
    password := VALUE.string (bytes "masterkey"), charset := VALUE.string (bytes "NONE"),
    role := VALUE.nil, page_size := VALUE.integer 1024 }

/-! ## The registry as a sequence -/

/-- The connections reached from the pointer `p` by following `next`, in order; `none` when
the fuel is spent or a link points to no connection structure. -/
def chain (w : World) : Nat → Option Nat → Option (List Nat)
  | _, none => some []
  | 0, some _ => none
  | fuel + 1, some a =>
    match w.connection a with
    | none => none
    | some c => (chain w fuel c.next).map fun l => a :: l

/-- The registry: the connections linked from `fb_connection_list`. -/
def registry (w : World) : Option (List Nat) :=
  chain w (w.heap.length + 1) w.fb_connection_list

/-! ## Sample states -/

/-- The state after `Database#connect` on the sample database, from the initial state. -/
def connected : World :=
  (database_connect_open sample_host sample_driver sample_database World.initial).state.getD
    World.initial

/-- The state after `Connection#transaction` without arguments, from `connected`. -/
def started : World :=
  (global_transaction sample_host sample_driver [] connected).state.getD World.initial

/-- The state after `Connection#commit`, from `started`. -/
def committed : World :=
  (global_commit sample_host sample_driver started).state.getD World.initial

/-- The state after a second `Database#connect`, from `committed`. -/
def connected_twice : World :=
  (database_connect_open sample_host sample_driver sample_database committed).state.getD
    World.initial

/-- The state after `connection_cursor` on the connection of `connected`. -/
def cursor_made : World :=
  (connection_cursor sample_host sample_driver (VALUE.object 0) connected).state.getD
    World.initial

/-- The text of a query. -/
def select_text : VALUE := VALUE.string (bytes "SELECT I FROM T")

/-- The text of a data definition statement. -/
def create_text : VALUE := VALUE.string (bytes "CREATE TABLE T (I INTEGER)")

/-- The text of a parameterised insertion. -/
def insert_text : VALUE := VALUE.string (bytes "INSERT INTO T VALUES (?)")

/-- The state after the first part of `cursor_execute` for the query, from `cursor_made`. -/
def prepared_select : World :=
  (cursor_execute_prepare sample_host sample_driver [select_text] (VALUE.object 1)
    cursor_made).state.getD World.initial

/-- The state after `cursor_execute` for the query, from `cursor_made`. -/
def executed_select : World :=
  (cursor_execute_run sample_host sample_driver 1 [] 1 0 prepared_select).state.getD
    World.initial

/-- The state after the first part of `cursor_execute` for the data definition statement,
from `cursor_made`. -/
def prepared_create : World :=
  (cursor_execute_prepare sample_host sample_driver [create_text] (VALUE.object 1)
    cursor_made).state.getD World.initial

/-- The state after `cursor_execute` for the data definition statement. -/
def executed_create : World :=
  (cursor_execute_run sample_host sample_driver 1 [] 5 0 prepared_create).state.getD
    World.initial

/-- The state after the first part of `cursor_execute` for the insertion with the argument
42, from `cursor_made`. -/
def prepared_insert : World :=
  (cursor_execute_prepare sample_host sample_driver [insert_text, VALUE.integer 42]
    (VALUE.object 1) cursor_made).state.getD World.initial

/-- The state after `cursor_execute` for the insertion. -/
def executed_insert : World :=
  (cursor_execute_run sample_host sample_driver 1 [VALUE.integer 42] 2 1
    prepared_insert).state.getD World.initial

/-! ## Vocabulary of the statement properties -/

/-- Every outcome that ends, ends in a state with the property `P`. -/
def Run.Ends {α : Type} (P : World → Prop) (r : Run α) : Prop :=
  ∀ w', r.state = some w' → P w'

/-- No cursor is open in `w'` that was not open in `w`. -/
def Shrinks (w w' : World) : Prop :=
  ∀ a c', w'.cursor a = some c' → c'.open_ = true → ∃ c, w.cursor a = some c ∧ c.open_ = true

/-- The cursor structure a `cursor_execute` works on and the number of output columns of
its statement (`o_sqlda->sqld` when the first part is done), if the call returns. -/
def execute_columns (h : Host) (d : Driver) (argv : List VALUE) (self : VALUE) (w : World) :
    Option (Nat × Int) :=
  match cursor_execute_prepare h d argv self w with
  | Run.ok p w1 =>
    match cursor_execute_run h d p.1 p.2.1 p.2.2.1 p.2.2.2 w1 with
    | Run.ok _ _ => some (p.1, w1.o_sqlda.sqld)
    | _ => none
  | _ => none

/-- The cursor and the number of output columns of the statement, if the operation is an
execute that returns. -/
def executed_columns (h : Host) (d : Driver) : Op → World → Option (Nat × Int)
  | Op.cursor_execute self argv, w => execute_columns h d argv self w
  | Op.execute self argv, w =>
    match connection_cursor h d self w with
    | Run.ok cursor w1 => execute_columns h d argv cursor w1
    | _ => none
  | _, _ => none

/-- The number of output columns of the statement of the last execute on the cursor `a`
that returned, in a sequence of operations begun in `w`; `none` if there is no such
execute. -/
def last_columns (h : Host) (d : Driver) : List Op → World → Nat → Option Int
  | [], _, _ => none
  | op :: ops, w, a =>
    match (perform h d op w).state with
    | none => none
    | some w1 =>
      match last_columns h d ops w1 a with
      | some n => some n
      | none =>
        match executed_columns h d op w with
        | some (b, n) => if b = a then some n else none
        | none => none

/-- The state after `cursor_drop` on the cursor of `cursor_made`. -/
def dropped : World :=
  (cursor_drop sample_host sample_driver (VALUE.object 1) cursor_made).state.getD World.initial

/-- The state after a second `cursor_drop` on the same cursor. -/
def dropped_twice : World :=
  (cursor_drop sample_host sample_driver (VALUE.object 1) dropped).state.getD World.initial

/-- The state after the first part of `cursor_execute` for the query on the dropped
cursor. -/
def prepared_on_dropped : World :=
  (cursor_execute_prepare sample_host sample_driver [select_text] (VALUE.object 1)
    dropped).state.getD World.initial

/-- The state after `cursor_execute` for the query on the dropped cursor. -/
def executed_on_dropped : World :=
  (cursor_execute_run sample_host sample_driver 1 [] 1 0 prepared_on_dropped).state.getD
    World.initial

/-- The state after `Connection#commit`, from `executed_select`, where a query is open. -/
def committed_open : World :=
  (global_commit sample_host sample_driver executed_select).state.getD World.initial

/-- The state after `Connection#rollback`, from `executed_select`. -/
def rolled_back_open : World :=
  (global_rollback sample_host sample_driver executed_select).state.getD World.initial

/-! ## Vocabulary of the registry properties -/

/-- The sequence `l` is the chain of connection structures that starts at the pointer `p`
and follows `next` to the null pointer. -/
def IsChain (w : World) : Option Nat → List Nat → Prop
  | p, [] => p = none
  | p, a :: l => p = some a ∧ ∃ k, w.connection a = some k ∧ IsChain w k.next l

/-- The registry of `w` is the sequence `l` of distinct connections, no cursor array has an
entry, and the heap holds no cursor. -/
def Linked (w : World) (l : List Nat) : Prop :=
  IsChain w w.fb_connection_list l ∧ l.Nodup ∧
  (∀ a k, w.connection a = some k → k.cursor = []) ∧
  (∀ a, w.cursor a = none)

/-- Every connection outside of `l` has a zero handle. -/
def Dead (w : World) (l : List Nat) : Prop :=
  ∀ a k, w.connection a = some k → a ∉ l → k.db = 0

/-- Every connection of `l` has a non-zero handle. -/
def Live (w : World) (l : List Nat) : Prop :=
  ∀ a k, a ∈ l → w.connection a = some k → k.db ≠ 0

/-- The registry of `w` is the sequence `l` of distinct connections, they are the connections
with a non-zero handle, and `db_num` counts them. -/
def RegInv (w : World) (l : List Nat) : Prop :=
  Linked w l ∧ Dead w l ∧ Live w l ∧ w.db_num = l.length

/-- The operations that create and remove connections: `connect`, `create`, `drop`,
`Connection#close`, and the finalisers. -/
def Op.on_registry : Op → Bool
  | Op.connect _ => true
  | Op.create _ _ => true
  | Op.drop _ => true
  | Op.connection_close _ => true
  | Op.connection_free _ => true
  | Op.cursor_free _ => true
  | _ => false

/-- The driver yields a non-zero handle with every attachment it reports no error for, and
leaves a non-zero handle in place when it reports an error for a detach or a drop. -/
def handles_kept (h : Host) (d : Driver) : Prop :=
  (∀ database dbp calls, h.status_error (DrvCall.isc_attach_database database dbp :: calls) = none →
    d.handle (DrvCall.isc_attach_database database dbp :: calls) 0 ≠ 0) ∧
  (∀ db calls, db ≠ 0 → h.status_error (DrvCall.isc_detach_database db :: calls) ≠ none →
    d.handle (DrvCall.isc_detach_database db :: calls) db ≠ 0) ∧
  (∀ db calls, db ≠ 0 → h.status_error (DrvCall.isc_drop_database db :: calls) ≠ none →
    d.handle (DrvCall.isc_drop_database db :: calls) db ≠ 0)

/-- The state after a second `Database#connect`, from `connected`. -/
def connected_again : World :=
  (database_connect_open sample_host sample_driver sample_database connected).state.getD
    World.initial

/-- The state after `Connection#close` on the first connection, from `connected_again`. -/
def closed_first : World :=
  (connection_close sample_host sample_driver (VALUE.object 0) connected_again).state.getD
    World.initial

/-! ## Vocabulary of the frame properties -/

/-- The ambient transaction handle of `w'` is the one of `w`. -/
def Untouched (w w' : World) : Prop := w'.transact = w.transact

/-- The operations other than `transaction`, `commit`, `rollback` and the execution of a
statement that never disconnect and never create a connection: cursor operations after the
execution, the finaliser of a cursor, and `create` without a block. -/
def Op.keeps_transact : Op → Bool
  | Op.create _ false => true
  | Op.cursor_free _ => true
  | Op.fetch _ => true
  | Op.fetchall _ _ => true
  | Op.each _ _ => true
  | Op.cursor_close _ => true
  | Op.cursor_drop _ => true
  | Op.description _ => true
  | _ => false

/-- The state after a second `Database#connect`, from `started`. -/
def started_connected : World :=
  (database_connect_open sample_host sample_driver sample_database started).state.getD
    World.initial

/-- The state after `Connection#close` on the connection of `started`. -/
def started_closed : World :=
  (connection_close sample_host sample_driver (VALUE.object 0) started).state.getD
    World.initial

/-- The state after `Cursor#fetch` on the open cursor of `executed_select`. -/
def fetched_select : World :=
  (cursor_fetch sample_host sample_driver (VALUE.object 1) executed_select).state.getD
    World.initial

/-- The state after a second `Database#connect`, from `executed_select`, in which the
cursor of the first connection is open. -/
def reconnected_open : World :=
  (database_connect_open sample_host sample_driver sample_database executed_select).state.getD
    World.initial

/-- The state after `Cursor#fetch` on the open cursor, from `reconnected_open`. -/
def refetched : World :=
  (cursor_fetch sample_host sample_driver (VALUE.object 1) reconnected_open).state.getD
    World.initial

/-! ## The database parameter block, in the words of the specification -/

/-- Spec-side: the record `rec(c, s) = [c, length(s)] ++ s`. -/
def spec_rec (c : Nat) (s : List Nat) : List Nat := [c, s.length] ++ s

/-- Spec-side: the record of a string that may not be set. -/
def spec_rec_opt (c : Nat) : Option (List Nat) → List Nat
  | some s => spec_rec c s
  | none => []

/-- Spec-side: the block for a user name, a password, a charset and a role. -/
def spec_dpb (username password : List Nat) (charset role : Option (List Nat)) : List Nat :=
  [isc_dpb_version1] ++ spec_rec isc_dpb_user_name username ++
    spec_rec isc_dpb_password password ++ spec_rec_opt isc_dpb_lc_ctype charset ++
    spec_rec_opt isc_dpb_sql_role_name role

/-- Spec-side: a byte sequence read as records `{code, length, bytes}`; one unit of `fuel`
for each record. -/
def spec_records : Nat → List Nat → Option (List (Nat × List Nat))
  | _, [] => some []
  | 0, _ :: _ => none
  | _ + 1, [_] => none
  | fuel + 1, c :: n :: rest =>
    if n ≤ rest.length then
      (spec_records fuel (rest.drop n)).map fun l => (c, rest.take n) :: l
    else none

/-- Spec-side: the records of a block for a user name, a password, a charset and a role. -/
def spec_strings (username password : List Nat) (charset role : Option (List Nat)) :
    List (Nat × List Nat) :=
  [(isc_dpb_user_name, username), (isc_dpb_password, password)] ++
    (charset.toList.map fun s => (isc_dpb_lc_ctype, s)) ++
    (role.toList.map fun s => (isc_dpb_sql_role_name, s))

/-- The instance variable of a string that may not be set: the string, or `nil`. -/
def VALUE.of_optional : Option (List Nat) → VALUE
  | some s => VALUE.string s
  | none => VALUE.nil

/-! ## Vocabulary of the encode-time offsets -/

/-- A fixed-width entry: its type is one of `SHORT`, `LONG`, `FLOAT`, `DOUBLE`, `INT64`,
`TIMESTAMP`, `TIME`, `DATE`, and its length is a power of two. -/
def fixed_width (var : XSQLVAR) : Prop :=
  (var.dtp = SQL_SHORT ∨ var.dtp = SQL_LONG ∨ var.dtp = SQL_FLOAT ∨ var.dtp = SQL_DOUBLE ∨
    var.dtp = SQL_INT64 ∨ var.dtp = SQL_TIMESTAMP ∨ var.dtp = SQL_TYPE_TIME ∨
    var.dtp = SQL_TYPE_DATE) ∧ ∃ k : Nat, var.sqllen = 2 ^ k

/-- The offsets the encoder assigned to an entry are at most the ones of the layout: `obj` is
the argument, `var` the entry, `var1` the entry as the encoder leaves it, `lay` the entry as
the layout loop leaves it.  The encoder assigns a data offset for an argument that is not
nil, and an indicator offset for a nullable entry. -/
def encoded_below (obj : VALUE) (var var1 lay : XSQLVAR) : Prop :=
  (obj ≠ VALUE.nil → ∃ x y, var1.sqldata = some x ∧ lay.sqldata = some y ∧ x ≤ y) ∧
  (var.nullable = true → ∃ x y, var1.sqlind = some x ∧ lay.sqlind = some y ∧ x ≤ y)

/-- A nullable `INTEGER` parameter and a `SMALLINT NOT NULL` parameter. -/
def nullable_long_and_short : XSQLDA :=
  { sqln := 10, sqld := 2, sqlvar := [⟨497, 0, 4, none, none⟩, ⟨500, 0, 2, none, none⟩] }


/-! ## Vocabulary of the termination properties -/

/-- The bytes of the working copy that `strtok` has not tokenised yet: the length of the C
string at its saved pointer. -/
def Tok.rest (t : Tok) : Nat := strlen t.mem t.sp

/-- A bound on the tokens that `r` untokenised bytes can give, counted twice: a token and
the delimiter that ends it take two bytes, the last token may take one. -/
def token_supply (r : Nat) : Nat := if r = 0 then 0 else r + 1

/-- The supply of tokens of a state of the directive loop: two for each token in hand
(`check1_p`, `check2_p`) and the supply of the untokenised bytes. -/
def PState.tokens (st : PState) : Nat :=
  token_supply st.t.rest + (if st.check1_p.isSome then 2 else 0) +
    (if st.check2_p.isSome then 2 else 0)

/-- The tables other than the top table count one more. -/
def OptTable.weight : OptTable → Nat
  | OptTable.trans_opt_S => 0
  | _ => 1

/-- The rank of a turn of the directive loop at the table `curr_p` in the state `st`. -/
def rank (curr_p : OptTable) (st : PState) : Nat := st.tokens + curr_p.weight

/-- The untokenised part `r` has become `r'` by the reading of a token: it has lost two
bytes, or all of its bytes. -/
def Consumed (r r' : Nat) : Prop := r' + 2 ≤ r ∨ (r' = 0 ∧ 1 ≤ r)

/-- The state in which the directive loop on `SNAPSHOT WAIT` starts its second turn, at the
table `snap_opt_S`: `WAIT` is at `check1_p` and no token is left. -/
def snapshot_wait_second : PState := advance_tokens 1 (initial_state (bytes "SNAPSHOT WAIT"))

/-- The state in which the directive loop on `SNAPSHOT WAIT` starts its third turn:
`isc_tpb_concurrency` has been stored at position 2. -/
def snapshot_wait_third : PState :=
  { snapshot_wait_second with
    b := { snapshot_wait_second.b with
      buf := memcpy snapshot_wait_second.b.buf 2 [isc_tpb_concurrency] },
    check_f := snapshot_wait_second.check_f.set 2 true }

/-! # Part II: properties -/

/-! ## Properties of `ALIGN` -/

theorem nat_mask_clear (m k : Nat) : m ^^^ (m &&& (2 ^ k - 1)) = 2 ^ k * (m / 2 ^ k) := by
  apply Nat.eq_of_testBit_eq
  intro i
  rw [Nat.testBit_xor, Nat.testBit_and, Nat.testBit_two_pow_sub_one, Nat.testBit_mul_pow_two,
    ← Nat.shiftRight_eq_div_pow, Nat.testBit_shiftRight]
  by_cases h : i < k
  · simp [h, Nat.not_le.mpr h]
  · have h2 : k ≤ i := Nat.le_of_not_lt h
    simp [h, h2]

theorem nat_mask_set (m k : Nat) : m ||| (2 ^ k - 1) = 2 ^ k * (m / 2 ^ k) + (2 ^ k - 1) := by
  apply Nat.eq_of_testBit_eq
  intro i
  rw [Nat.testBit_or, Nat.testBit_two_pow_sub_one, Nat.testBit_mul_pow_two_add _ (by
    have := Nat.two_pow_pos k; omega), ← Nat.shiftRight_eq_div_pow, Nat.testBit_shiftRight]
  by_cases h : i < k
  · simp [h, Nat.testBit_two_pow_sub_one]
  · have h2 : k ≤ i := Nat.le_of_not_lt h
    simp [h, h2]

/-- Masking with `~(2^k - 1)` rounds down to a multiple of `2^k`, for every integer. -/
theorem band_mask (x : Int) (k : Nat) : band x (~~~((2:Int) ^ k - 1)) = 2 ^ k * (x / 2 ^ k) := by
  have hpos := Nat.two_pow_pos k
  have hp : (2:Int) ^ k - 1 = Int.ofNat (2 ^ k - 1) := by
    simp only [Int.ofNat_eq_coe]
    push_cast [Nat.cast_sub hpos]
    rfl
  rw [hp]
  show band x (Int.negSucc (2 ^ k - 1)) = _
  cases x with
  | ofNat m =>
    simp only [band, nat_mask_clear]
    simp only [Int.ofNat_eq_coe]
    push_cast
    rfl
  | negSucc m =>
    simp only [band, nat_mask_set]
    have h2 : ((2:Int) ^ k) = ((2 ^ k : Nat) : Int) := by push_cast; rfl
    rw [h2, Int.negSucc_ediv _ (by omega), Int.negSucc_eq]
    push_cast [Nat.cast_sub hpos]
    show _ = (2:Int) ^ k * -((m:Int) / 2 ^ k + 1)
    ring

theorem ALIGN_pow2 (n : Int) (k : Nat) :
    ALIGN n (2 ^ k) = 2 ^ k * ((n + 2 ^ k - 1) / 2 ^ k) :=
  band_mask _ k

theorem ALIGN_dvd (n : Int) (k : Nat) : (2:Int) ^ k ∣ ALIGN n (2 ^ k) := by
  rw [ALIGN_pow2]; exact Dvd.intro _ rfl

theorem ALIGN_bounds (n : Int) (k : Nat) :
    n ≤ ALIGN n (2 ^ k) ∧ ALIGN n (2 ^ k) < n + 2 ^ k := by
  rw [ALIGN_pow2]
  have hb : (0:Int) < 2 ^ k := by positivity
  have h1 := Int.emod_add_ediv (n + 2 ^ k - 1) (2 ^ k)
  have h2 := Int.emod_nonneg (n + 2 ^ k - 1) (ne_of_gt hb)
  have h3 := Int.emod_lt_of_pos (n + 2 ^ k - 1) hb
  constructor <;> omega

theorem ALIGN_one (n : Int) : ALIGN n 1 = n := by
  have h := ALIGN_bounds n 0
  simp only [pow_zero] at h
  omega

theorem ALIGN_two_bounds (n : Int) : n ≤ ALIGN n 2 ∧ ALIGN n 2 ≤ n + 1 ∧ (2:Int) ∣ ALIGN n 2 := by
  have h := ALIGN_bounds n 1
  have hd := ALIGN_dvd n 1
  simp only [pow_one] at h hd
  exact ⟨h.1, by omega, hd⟩

/-! ## Layout: `calculate_buffsize` and `fb_cursor_fetch_prep` -/

theorem dtp_with_pointers (var : XSQLVAR) (d i : Option Int) :
    ({ var with sqldata := d, sqlind := i } : XSQLVAR).dtp = var.dtp := rfl

theorem varying_ne_text : ¬ SQL_VARYING = SQL_TEXT := by decide

theorem text_ne_varying : ¬ SQL_TEXT = SQL_VARYING := by decide

/-- The alignment the layout loops use for an entry is a power of two when the entry's own
alignment is. -/
theorem alignment_pow2 (var : XSQLVAR)
    (h : var.dtp ≠ SQL_TEXT → var.dtp ≠ SQL_VARYING → ∃ k : Nat, var.sqllen = 2 ^ k) :
    ∃ k : Nat, alignment_of var = 2 ^ k := by
  unfold alignment_of
  by_cases h1 : var.dtp = SQL_TEXT
  · exact ⟨0, by simp [h1]⟩
  · by_cases h2 : var.dtp = SQL_VARYING
    · exact ⟨1, by simp [h2, varying_ne_text]⟩
    · obtain ⟨k, hk⟩ := h h1 h2
      exact ⟨k, by simp [h1, h2, hk]⟩

theorem fetch_prep_loop_cons (var : XSQLVAR) (rest : List XSQLVAR) (offset : Int) :
    fb_cursor_fetch_prep_loop (var :: rest) offset =
      ({ var with sqldata := some (ALIGN offset (alignment_of var)),
                  sqlind := some (ALIGN (ALIGN offset (alignment_of var) + data_len var) 2) }
        :: (fb_cursor_fetch_prep_loop rest
              (ALIGN (ALIGN offset (alignment_of var) + data_len var) 2 + 2)).1,
       (fb_cursor_fetch_prep_loop rest
              (ALIGN (ALIGN offset (alignment_of var) + data_len var) 2 + 2)).2) := by
  simp only [fb_cursor_fetch_prep_loop, alignment_of, data_len, sizeof_short]
  by_cases h1 : var.dtp = SQL_TEXT
  · have h2 : ¬ var.dtp = SQL_VARYING := by rw [h1]; decide
    simp [h1, text_ne_varying]
  · by_cases h2 : var.dtp = SQL_VARYING <;> simp [h1, h2, varying_ne_text]

theorem calculate_buffsize_loop_cons (var : XSQLVAR) (rest : List XSQLVAR) (offset : Int) :
    calculate_buffsize_loop (var :: rest) offset =
      calculate_buffsize_loop rest
        (ALIGN (ALIGN offset (alignment_of var) + data_len var) 2 + 2) := by
  simp only [calculate_buffsize_loop, alignment_of, data_len, sizeof_short]
  by_cases h1 : var.dtp = SQL_TEXT
  · have h2 : ¬ var.dtp = SQL_VARYING := by rw [h1]; decide
    simp [h1, text_ne_varying]
  · by_cases h2 : var.dtp = SQL_VARYING <;> simp [h1, h2, varying_ne_text]

/-- The running offset with which `fb_cursor_fetch_prep` leaves its loop is the value
`calculate_buffsize` returns. -/
theorem fetch_prep_loop_final (vars : List XSQLVAR) (offset : Int) :
    (fb_cursor_fetch_prep_loop vars offset).2 = calculate_buffsize_loop vars offset := by
  induction vars generalizing offset with
  | nil => rfl
  | cons var rest ih => rw [fetch_prep_loop_cons, calculate_buffsize_loop_cons]; exact ih _

/-- Every entry leaves the layout loop with both pointers assigned; it is an entry `u` of the
input with the same type and length, its indicator offset is even, and its data offset is a
multiple of its alignment whenever that alignment is a power of two. -/
theorem fetch_prep_loop_pointers (vars : List XSQLVAR) (offset : Int) :
    ∀ v ∈ (fb_cursor_fetch_prep_loop vars offset).1,
      ∃ d i, v.sqldata = some d ∧ v.sqlind = some i ∧
        ∃ u ∈ vars, alignment_of v = alignment_of u ∧
          ((∀ k : Nat, alignment_of u = 2 ^ k → alignment_of u ∣ d) ∧ (2:Int) ∣ i) := by
  induction vars generalizing offset with
  | nil => intro v hv; simp [fb_cursor_fetch_prep_loop] at hv
  | cons var rest ih =>
    intro v hv
    rw [fetch_prep_loop_cons] at hv
    simp only [List.mem_cons] at hv
    rcases hv with rfl | hv
    · refine ⟨_, _, rfl, rfl, var, List.mem_cons_self _ _, rfl, ?_, ?_⟩
      · intro k hk
        rw [hk]
        exact ALIGN_dvd _ k
      · exact (ALIGN_two_bounds _).2.2
    · obtain ⟨d, i, hd, hi, u, hu, h1, h2⟩ := ih _ v hv
      exact ⟨d, i, hd, hi, u, List.mem_cons_of_mem _ hu, h1, h2⟩

/-- The layout visits the regions in increasing order: every region starts where the running
offset stood or later, is well-formed, ends before the final offset, and ends before every
later region starts. -/
theorem fetch_prep_loop_chain (vars : List XSQLVAR) (hal : ∀ v ∈ vars, aligned_entry v)
    (offset : Int) :
    offset ≤ (fb_cursor_fetch_prep_loop vars offset).2 ∧
    (∀ r ∈ regions (fb_cursor_fetch_prep_loop vars offset).1,
      offset ≤ r.1 ∧ r.1 ≤ r.2 ∧ r.2 ≤ (fb_cursor_fetch_prep_loop vars offset).2) ∧
    (regions (fb_cursor_fetch_prep_loop vars offset).1).Pairwise (fun a b => a.2 ≤ b.1) ∧
    (regions (fb_cursor_fetch_prep_loop vars offset).1).length = 2 * vars.length := by
  induction vars generalizing offset with
  | nil => simp [fb_cursor_fetch_prep_loop, regions]
  | cons var rest ih =>
    have hv : aligned_entry var := hal var (List.mem_cons_self _ _)
    obtain ⟨k, hk⟩ := alignment_pow2 var hv.2
    have hlen : 0 ≤ data_len var := by
      unfold data_len; split <;> have := hv.1 <;> omega
    have ha := ALIGN_bounds offset k
    rw [← hk] at ha
    have hi := ALIGN_two_bounds (ALIGN offset (alignment_of var) + data_len var)
    obtain ⟨ih1, ih2, ih3, ih4⟩ := ih (fun v hv => hal v (List.mem_cons_of_mem _ hv))
      (ALIGN (ALIGN offset (alignment_of var) + data_len var) 2 + 2)
    rw [fetch_prep_loop_cons]
    simp only [regions, dtp_with_pointers, data_len] at *
    refine ⟨by omega, ?_, ?_, ?_⟩
    · intro r hr
      simp only [List.mem_cons] at hr
      rcases hr with rfl | rfl | hr
      · simp only; omega
      · simp only; omega
      · have := ih2 r hr; omega
    · simp only [List.pairwise_cons, List.mem_cons, forall_eq_or_imp]
      refine ⟨⟨by omega, fun r hr => ?_⟩, fun r hr => ?_, ih3⟩
      · have := ih2 r hr; omega
      · have := ih2 r hr; omega
    · simp only [List.length_cons, ih4]; omega

/-- The running offset of the layout grows by less than 65539 per entry when the lengths fit
a `short`. -/
theorem calculate_buffsize_loop_bound (vars : List XSQLVAR)
    (hal : ∀ v ∈ vars, aligned_entry v ∧ v.sqllen ≤ SHRT_MAX) (offset : Int) :
    offset ≤ calculate_buffsize_loop vars offset ∧
    calculate_buffsize_loop vars offset ≤ offset + 65538 * vars.length := by
  induction vars generalizing offset with
  | nil => simp [calculate_buffsize_loop]
  | cons var rest ih =>
    obtain ⟨hv, hmax⟩ := hal var (List.mem_cons_self _ _)
    obtain ⟨k, hk⟩ := alignment_pow2 var hv.2
    have ha := ALIGN_bounds offset k
    rw [← hk] at ha
    have hi := ALIGN_two_bounds (ALIGN offset (alignment_of var) + data_len var)
    have hlen : 0 ≤ data_len var ∧ data_len var ≤ var.sqllen + 2 := by
      unfold data_len; split <;> have := hv.1 <;> omega
    have hal2 : alignment_of var ≤ 32767 := by
      unfold alignment_of SHRT_MAX at *
      split
      · omega
      · split <;> omega
    obtain ⟨ih1, ih2⟩ := ih (fun v hv => hal v (List.mem_cons_of_mem _ hv))
      (ALIGN (ALIGN offset (alignment_of var) + data_len var) 2 + 2)
    rw [calculate_buffsize_loop_cons]
    unfold SHRT_MAX at hmax
    simp only [List.length_cons, Nat.cast_add, Nat.cast_one]
    constructor <;> omega

/-- For a descriptor set with at most `SHRT_MAX` entries whose lengths fit a `short`, the
offsets of the layout stay below `2^31`: no `long` arithmetic of the layout wraps. -/
theorem calculate_buffsize_fits_long (sqlda : XSQLDA)
    (hal : ∀ v ∈ sqlda.vars, aligned_entry v ∧ v.sqllen ≤ SHRT_MAX)
    (hn : sqlda.vars.length ≤ 32767) :
    0 ≤ calculate_buffsize sqlda ∧ calculate_buffsize sqlda < 2 ^ 31 := by
  obtain ⟨h1, h2⟩ := calculate_buffsize_loop_bound sqlda.vars hal 0
  unfold calculate_buffsize
  have hn2 : (sqlda.vars.length : Int) ≤ 32767 := by exact_mod_cast hn
  constructor <;> omega

theorem sample_sqlda_aligned : ∀ v ∈ sample_sqlda.vars, aligned_entry v := by
  intro v hv
  have hvars : sample_sqlda.vars = sample_sqlda.sqlvar := rfl
  rw [hvars] at hv
  simp only [sample_sqlda, List.mem_cons, List.mem_singleton, List.not_mem_nil, or_false] at hv
  rcases hv with rfl | rfl | rfl | rfl
  · exact ⟨by decide, fun _ _ => ⟨1, by decide⟩⟩
  · exact ⟨by decide, fun h _ => absurd (by decide) h⟩
  · exact ⟨by decide, fun _ h => absurd (by decide) h⟩
  · exact ⟨by decide, fun _ _ => ⟨2, by decide⟩⟩

/-- C1. For every output descriptor set whose lengths are lengths and whose alignments are
powers of two, the layout of `fb_cursor_fetch_prep` ends with the running offset
`calculate_buffsize(sqlda)`, gives every entry a data pointer and an indicator pointer, and the
data regions `[d, d + len)` and indicator regions `[i, i + 2)` of all entries are pairwise
disjoint and lie inside `[0, calculate_buffsize(sqlda))`. -/
theorem C1_layout_regions_disjoint_in_buffer (sqlda : XSQLDA)
    (hal : ∀ v ∈ sqlda.vars, aligned_entry v) :
    (fb_cursor_fetch_prep_layout sqlda).2 = calculate_buffsize sqlda ∧
    (∀ v ∈ (fb_cursor_fetch_prep_layout sqlda).1,
      ∃ d i, v.sqldata = some d ∧ v.sqlind = some i) ∧
    (regions (fb_cursor_fetch_prep_layout sqlda).1).length = 2 * sqlda.vars.length ∧
    (regions (fb_cursor_fetch_prep_layout sqlda).1).Pairwise disjoint_regions ∧
    (∀ r ∈ regions (fb_cursor_fetch_prep_layout sqlda).1,
      0 ≤ r.1 ∧ r.1 ≤ r.2 ∧ r.2 ≤ calculate_buffsize sqlda) := by
  have hfin : (fb_cursor_fetch_prep_layout sqlda).2 = calculate_buffsize sqlda :=
    fetch_prep_loop_final _ _
  obtain ⟨_, h2, h3, h4⟩ := fetch_prep_loop_chain sqlda.vars hal 0
  refine ⟨hfin, ?_, h4, ?_, ?_⟩
  · intro v hv
    obtain ⟨d, i, hd, hi, _⟩ := fetch_prep_loop_pointers sqlda.vars 0 v hv
    exact ⟨d, i, hd, hi⟩
  · exact List.Pairwise.imp (fun h => Or.inl h) h3
  · intro r hr
    rw [← hfin]
    exact h2 r hr

theorem C1_layout_regions_witness :
    (fb_cursor_fetch_prep_layout sample_sqlda).2 = calculate_buffsize sample_sqlda ∧
    (∀ v ∈ (fb_cursor_fetch_prep_layout sample_sqlda).1,
      ∃ d i, v.sqldata = some d ∧ v.sqlind = some i) ∧
    (regions (fb_cursor_fetch_prep_layout sample_sqlda).1).length
      = 2 * sample_sqlda.vars.length ∧
    (regions (fb_cursor_fetch_prep_layout sample_sqlda).1).Pairwise disjoint_regions ∧
    (∀ r ∈ regions (fb_cursor_fetch_prep_layout sample_sqlda).1,
      0 ≤ r.1 ∧ r.1 ≤ r.2 ∧ r.2 ≤ calculate_buffsize sample_sqlda) :=
  C1_layout_regions_disjoint_in_buffer sample_sqlda sample_sqlda_aligned

/-- C2. For every descriptor set in which the length of every entry other than `TEXT` and
`VARYING` is a power of two, every slot laid out by the layout loop of `fb_cursor_fetch_prep`
(the loop `calculate_buffsize` runs too) has a data offset that is a multiple of its alignment
(1 for `TEXT`, 2 for `VARYING`, `sqllen` otherwise) and an indicator offset that is a multiple
of 2. -/
theorem C2_layout_offsets_aligned (sqlda : XSQLDA)
    (hpow : ∀ v ∈ sqlda.vars,
      v.dtp ≠ SQL_TEXT → v.dtp ≠ SQL_VARYING → ∃ k : Nat, v.sqllen = 2 ^ k) :
    ∀ v ∈ (fb_cursor_fetch_prep_layout sqlda).1,
      ∃ d i, v.sqldata = some d ∧ v.sqlind = some i ∧ alignment_of v ∣ d ∧ (2:Int) ∣ i := by
  intro v hv
  obtain ⟨d, i, hd, hi, u, hu, hau, hdvd⟩ := fetch_prep_loop_pointers sqlda.vars 0 v hv
  refine ⟨d, i, hd, hi, ?_, hdvd.2⟩
  obtain ⟨k, hk⟩ := alignment_pow2 u (hpow u hu)
  have := hdvd.1
  rw [hau]
  exact this k hk

theorem C2_layout_offsets_aligned_witness :
    ∃ d i, (⟨496, 0, 4, some 20, some 24⟩ : XSQLVAR).sqldata = some d ∧
      (⟨496, 0, 4, some 20, some 24⟩ : XSQLVAR).sqlind = some i ∧
      alignment_of ⟨496, 0, 4, some 20, some 24⟩ ∣ d ∧ (2:Int) ∣ i :=
  C2_layout_offsets_aligned sample_sqlda (fun v hv => (sample_sqlda_aligned v hv).2)
    ⟨496, 0, 4, some 20, some 24⟩ (by decide)

/-! ## Encoder: offsets -/

theorem set_inputparam_nonnil (h : Host) (var : XSQLVAR) (obj : VALUE) (e : Enc)
    (hobj : obj ≠ VALUE.nil) :
    set_inputparam h var obj e =
      match encode_value h var obj e with
      | Res.raise ex e1 => Res.raise ex e1
      | Res.ok var1 e1 => if var1.nullable then store_indicator var1 e1 0 else Res.ok var1 e1 := by
  cases obj <;> first | contradiction | rfl

theorem store_fixed_ok (var : XSQLVAR) (e : Enc) (bytes : List Nat) (var1 : XSQLVAR) (e1 : Enc)
    (hok : store_fixed var e bytes = Res.ok var1 e1) :
    var1 = { var with sqldata := some e.offset } ∧ e1.offset = e.offset + var.sqllen ∧
      e1.paramts = memcpy e.paramts e.offset bytes ∧ e1.calls = e.calls := by
  unfold store_fixed at hok
  cases hok
  exact ⟨rfl, rfl, rfl, rfl⟩

/-- A fixed-width entry (neither `TEXT` nor `VARYING`) that is encoded gets the data offset
`ALIGN(offset, sqllen)` and moves the running offset `sqllen` past it. -/
theorem encode_value_fixed_ok (h : Host) (var : XSQLVAR) (obj : VALUE) (e : Enc)
    (var1 : XSQLVAR) (e1 : Enc) (h1 : var.dtp ≠ SQL_TEXT) (h2 : var.dtp ≠ SQL_VARYING)
    (hok : encode_value h var obj e = Res.ok var1 e1) :
    var1 = { var with sqldata := some (ALIGN e.offset var.sqllen) } ∧
      e1.offset = ALIGN e.offset var.sqllen + var.sqllen := by
  unfold encode_value at hok
  simp only [h1, h2, if_false] at hok
  repeat' split at hok
  all_goals first
    | (exact absurd hok (by simp))
    | (obtain ⟨hv, ho, _, _⟩ := store_fixed_ok _ _ _ _ _ hok; exact ⟨hv, ho⟩)

theorem store_indicator_ok (var : XSQLVAR) (e : Enc) (ind : Int) (var1 : XSQLVAR) (e1 : Enc)
    (hok : store_indicator var e ind = Res.ok var1 e1) :
    var1 = { var with sqlind := some (ALIGN e.offset 2) } ∧ e1.offset = ALIGN e.offset 2 + 2 ∧
      e1.paramts = memcpy e.paramts (ALIGN e.offset 2) (int_bytes 2 ind) ∧
      e1.calls = e.calls := by
  unfold store_indicator at hok
  cases hok
  exact ⟨rfl, rfl, rfl, rfl⟩

/-- One turn of the encoder loop on a nullable fixed-width entry and a non-nil argument
assigns the pointers the layout loop assigns from the same running offset. -/
theorem set_inputparam_fixed_nullable (h : Host) (var : XSQLVAR) (obj : VALUE) (e : Enc)
    (var1 : XSQLVAR) (e1 : Enc) (hobj : obj ≠ VALUE.nil) (hn : var.nullable = true)
    (h1 : var.dtp ≠ SQL_TEXT) (h2 : var.dtp ≠ SQL_VARYING)
    (hok : set_inputparam h var obj e = Res.ok var1 e1) :
    var1.sqldata = some (ALIGN e.offset (alignment_of var)) ∧
    var1.sqlind = some (ALIGN (ALIGN e.offset (alignment_of var) + data_len var) 2) ∧
    e1.offset = ALIGN (ALIGN e.offset (alignment_of var) + data_len var) 2 + 2 := by
  have ha : alignment_of var = var.sqllen := by simp [alignment_of, h1, h2]
  have hl : data_len var = var.sqllen := by simp [data_len, h2]
  rw [ha, hl]
  rw [set_inputparam_nonnil h var obj e hobj] at hok
  split at hok
  · exact absurd hok (by simp)
  · rename_i var2 e2 henc
    obtain ⟨hv2, ho2⟩ := encode_value_fixed_ok h var obj e var2 e2 h1 h2 henc
    have hn2 : var2.nullable = true := by rw [hv2]; exact hn
    rw [if_pos hn2] at hok
    obtain ⟨hv1, ho1, _, _⟩ := store_indicator_ok _ _ _ _ _ hok
    rw [hv1, ho1, ho2, hv2]
    exact ⟨rfl, rfl, rfl⟩

/-- The encoder loop, run on nullable fixed-width entries with non-nil arguments, assigns to
the entries it visits the pointers of the layout loop, and ends at the same offset. -/
theorem set_inputparams_loop_layout (h : Host) (vars : List XSQLVAR) :
    ∀ (argv : List VALUE) (e : Enc) (vars1 : List XSQLVAR) (e1 : Enc),
      set_inputparams_loop h vars argv e = Res.ok vars1 e1 →
      (∀ a ∈ argv, a ≠ VALUE.nil) →
      (∀ v ∈ vars.take argv.length,
        v.nullable = true ∧ v.dtp ≠ SQL_TEXT ∧ v.dtp ≠ SQL_VARYING) →
      (vars1.take argv.length).map pointers
        = (fb_cursor_fetch_prep_loop (vars.take argv.length) e.offset).1.map pointers ∧
      e1.offset = (fb_cursor_fetch_prep_loop (vars.take argv.length) e.offset).2 := by
  induction vars with
  | nil =>
    intro argv e vars1 e1 hok _ _
    unfold set_inputparams_loop at hok
    cases hok
    simp [fb_cursor_fetch_prep_loop]
  | cons var rest ih =>
    intro argv e vars1 e1 hok hnn hv
    cases argv with
    | nil =>
      unfold set_inputparams_loop at hok
      cases hok
      simp [fb_cursor_fetch_prep_loop]
    | cons obj argv =>
      simp only [set_inputparams_loop] at hok
      split at hok
      · exact absurd hok (by simp)
      · rename_i var2 e2 hstep
        split at hok
        · exact absurd hok (by simp)
        · rename_i vars2 e3 hrest
          cases hok
          simp only [List.length_cons, List.take_succ_cons] at hv ⊢
          obtain ⟨hvn, hvt, hvv⟩ := hv var (List.mem_cons_self _ _)
          obtain ⟨hd, hi, ho⟩ := set_inputparam_fixed_nullable h var obj e var2 e2
            (hnn obj (List.mem_cons_self _ _)) hvn hvt hvv hstep
          obtain ⟨ih1, ih2⟩ := ih argv e2 vars2 e1 hrest
            (fun a ha => hnn a (List.mem_cons_of_mem _ ha))
            (fun v hv2 => hv v (List.mem_cons_of_mem _ hv2))
          rw [fetch_prep_loop_cons]
          rw [ho] at ih1 ih2
          simp only [List.map_cons, ih1, ih2, pointers, hd, hi, and_self]

/-- C3, as the code has it. For every descriptor set whose entries are all nullable and of
fixed width (neither `TEXT` nor `VARYING`) and every argument list without nil that
`fb_cursor_set_inputparams` accepts, the data offset and the indicator offset that the encoding
assigns to each parameter are the offsets that the layout algorithm of `calculate_buffsize` and
`fb_cursor_fetch_prep` assigns to the same entry, and the encoder's final offset is
`calculate_buffsize(i_sqlda)`. -/
theorem C3_encode_offsets_eq_layout_nullable_fixed (h : Host) (i_sqlda : XSQLDA)
    (argv : List VALUE) (paramts : Buffer) (calls : List DrvCall) (out : XSQLDA) (e : Enc)
    (hok : fb_cursor_set_inputparams h i_sqlda argv paramts calls = Res.ok out e)
    (hnn : ∀ a ∈ argv, a ≠ VALUE.nil)
    (hv : ∀ v ∈ i_sqlda.vars, v.nullable = true ∧ v.dtp ≠ SQL_TEXT ∧ v.dtp ≠ SQL_VARYING) :
    out.vars.map pointers = (fb_cursor_fetch_prep_layout i_sqlda).1.map pointers ∧
    e.offset = calculate_buffsize i_sqlda := by
  unfold fb_cursor_set_inputparams at hok
  split at hok
  · exact absurd hok (by simp)
  · rename_i hcount
    have hcount : i_sqlda.sqld = (argv.length : Int) := by simpa using hcount
    have hn : i_sqlda.sqld.toNat = argv.length := by rw [hcount]; simp
    split at hok
    · exact absurd hok (by simp)
    · rename_i vars1 e1 hloop
      cases hok
      simp only [XSQLDA.vars, hn] at hv ⊢
      obtain ⟨h1, h2⟩ := set_inputparams_loop_layout h i_sqlda.sqlvar argv ⟨0, paramts, calls⟩
        vars1 e hloop hnn hv
      refine ⟨?_, ?_⟩
      · simpa [fb_cursor_fetch_prep_layout, XSQLDA.vars, hn] using h1
      · rw [h2, fetch_prep_loop_final]
        simp [calculate_buffsize, XSQLDA.vars, hn]

theorem C3_encode_offsets_eq_layout_witness :
    ((⟨10, 2, [⟨497, 0, 4, some 0, some 4⟩, ⟨497, 0, 4, some 8, some 12⟩]⟩ : XSQLDA).vars.map
        pointers
      = (fb_cursor_fetch_prep_layout two_nullable_longs).1.map pointers) ∧
    (14 : Int) = calculate_buffsize two_nullable_longs :=
  C3_encode_offsets_eq_layout_nullable_fixed sample_host two_nullable_longs
    [VALUE.integer 1, VALUE.integer 2] [] []
    ⟨10, 2, [⟨497, 0, 4, some 0, some 4⟩, ⟨497, 0, 4, some 8, some 12⟩]⟩
    ⟨14, memcpy (memcpy (memcpy (memcpy [] 0 (int_bytes 4 1)) 4 (int_bytes 2 0)) 8
      (int_bytes 4 2)) 12 (int_bytes 2 0), []⟩
    rfl
    (by
      intro a ha
      simp only [List.mem_cons, List.mem_singleton, List.not_mem_nil, or_false] at ha
      rcases ha with rfl | rfl <;> exact fun hh => VALUE.noConfusion hh)
    (by decide)

/-- C3 fails as stated: for two `INTEGER NOT NULL` parameters bound to `1` and `2`, the
encoder accepts the arguments and places the second parameter's data at offset 4, while the
layout algorithm places the data of the second entry at offset 8. -/
theorem C3_counterexample :
    ∃ out e,
      fb_cursor_set_inputparams sample_host two_longs [VALUE.integer 1, VALUE.integer 2] [] []
        = Res.ok out e ∧
      out.vars.map XSQLVAR.sqldata = [some 0, some 4] ∧
      (fb_cursor_fetch_prep_layout two_longs).1.map XSQLVAR.sqldata = [some 0, some 8] :=
  ⟨_, _, rfl, by decide, by decide⟩

/-! ## Buffers: reading back what was stored -/

theorem int_bytes_length (w : Nat) (x : Int) : (int_bytes w x).length = w := by
  induction w generalizing x with
  | zero => rfl
  | succ w ih => simp [int_bytes, ih]

theorem read_memcpy_outside (b : Buffer) (a : Int) (bs : List Nat) (x : Int)
    (hx : x < a ∨ a + bs.length ≤ x) : Buffer.read (memcpy b a bs) x = Buffer.read b x := by
  induction bs generalizing a with
  | nil => rfl
  | cons v vs ih =>
    simp only [memcpy, Buffer.read, List.length_cons, Nat.cast_add, Nat.cast_one] at hx ⊢
    have hne : ¬ a = x := by omega
    rw [if_neg hne]
    exact ih (a + 1) (by omega)

theorem read_bytes_memcpy_outside (b : Buffer) (a : Int) (bs : List Nat) (x : Int) (n : Nat)
    (hx : x + n ≤ a ∨ a + bs.length ≤ x) :
    read_bytes (memcpy b a bs) x n = read_bytes b x n := by
  induction n generalizing x with
  | zero => rfl
  | succ n ih =>
    simp only [read_bytes, Nat.cast_add, Nat.cast_one] at hx ⊢
    rw [read_memcpy_outside b a bs x (by omega), ih (x + 1) (by omega)]

/-- Reading back the bytes just copied yields them. -/
theorem read_bytes_memcpy_same (b : Buffer) (a : Int) (bs : List Nat) :
    read_bytes (memcpy b a bs) a bs.length = bs := by
  induction bs generalizing a with
  | nil => rfl
  | cons v vs ih =>
    simp only [memcpy, List.length_cons, read_bytes, Buffer.read, if_true]
    congr 1
    have h := read_bytes_memcpy_outside (memcpy b (a + 1) vs) a [v] (a + 1) vs.length
      (Or.inr (by simp))
    simp only [memcpy] at h
    rw [h, ih]

theorem signed_int_bytes_2 (x : Int) (h1 : -32768 ≤ x) (h2 : x ≤ 32767) :
    signed_of_bytes 2 (int_bytes 2 x) = x := by
  simp only [signed_of_bytes, int_bytes, unsigned_of_bytes, List.take]
  have h0 : (0:Int) ≤ x % 256 := Int.emod_nonneg _ (by decide)
  have h3 : (0:Int) ≤ x / 256 % 256 := Int.emod_nonneg _ (by decide)
  simp only [Int.toNat_of_nonneg, h0, h3, Nat.cast_ofNat, Int.natCast_mod, Nat.cast_ofNat]
  split <;> omega

theorem signed_int_bytes_4 (x : Int) (h1 : -2147483648 ≤ x) (h2 : x ≤ 2147483647) :
    signed_of_bytes 4 (int_bytes 4 x) = x := by
  simp only [signed_of_bytes, int_bytes, unsigned_of_bytes, List.take]
  have h0 : (0:Int) ≤ x % 256 := Int.emod_nonneg _ (by decide)
  have h3 : (0:Int) ≤ x / 256 % 256 := Int.emod_nonneg _ (by decide)
  have h4 : (0:Int) ≤ x / 256 / 256 % 256 := Int.emod_nonneg _ (by decide)
  have h5 : (0:Int) ≤ x / 256 / 256 / 256 % 256 := Int.emod_nonneg _ (by decide)
  simp only [Int.toNat_of_nonneg, h0, h3, h4, h5, Nat.cast_ofNat, Int.natCast_mod]
  split <;> omega

theorem signed_int_bytes_8 (x : Int) (h1 : -9223372036854775808 ≤ x)
    (h2 : x ≤ 9223372036854775807) :
    signed_of_bytes 8 (int_bytes 8 x) = x := by
  simp only [signed_of_bytes, int_bytes, unsigned_of_bytes, List.take]
  have h0 : (0:Int) ≤ x % 256 := Int.emod_nonneg _ (by decide)
  have h3 : (0:Int) ≤ x / 256 % 256 := Int.emod_nonneg _ (by decide)
  have h4 : (0:Int) ≤ x / 256 / 256 % 256 := Int.emod_nonneg _ (by decide)
  have h5 : (0:Int) ≤ x / 256 / 256 / 256 % 256 := Int.emod_nonneg _ (by decide)
  have h6 : (0:Int) ≤ x / 256 / 256 / 256 / 256 % 256 := Int.emod_nonneg _ (by decide)
  have h7 : (0:Int) ≤ x / 256 / 256 / 256 / 256 / 256 % 256 := Int.emod_nonneg _ (by decide)
  have h8 : (0:Int) ≤ x / 256 / 256 / 256 / 256 / 256 / 256 % 256 :=
    Int.emod_nonneg _ (by decide)
  have h9 : (0:Int) ≤ x / 256 / 256 / 256 / 256 / 256 / 256 / 256 % 256 :=
    Int.emod_nonneg _ (by decide)
  simp only [Int.toNat_of_nonneg, h0, h3, h4, h5, h6, h7, h8, h9, Nat.cast_ofNat,
    Int.natCast_mod]
  split <;> omega

/-! ## Encoder and decoder: round trip of integers -/

/-- After one turn of the encoder loop that stores `bytes` (as many as `sqllen`) for a non-nil
argument, the data pointer leads to `bytes`, and on a nullable entry the indicator pointer
leads to the short 0. -/
theorem set_inputparam_stores (h : Host) (var : XSQLVAR) (obj : VALUE) (e : Enc)
    (bytes : List Nat) (hobj : obj ≠ VALUE.nil) (hw : var.sqllen = bytes.length)
    (henc : encode_value h var obj e = store_fixed var (align_to e var.sqllen) bytes) :
    ∃ var1 e1, set_inputparam h var obj e = Res.ok var1 e1 ∧
      var1.sqltype = var.sqltype ∧ var1.sqlscale = var.sqlscale ∧
      ∃ d, var1.sqldata = some d ∧ read_bytes e1.paramts d bytes.length = bytes ∧
        (var.nullable = true →
          ∃ i, var1.sqlind = some i ∧ read_bytes e1.paramts i 2 = int_bytes 2 0) := by
  rw [set_inputparam_nonnil h var obj e hobj, henc]
  simp only [store_fixed, align_to]
  by_cases hn : var.nullable = true
  · have hn2 : ({ var with sqldata := some (ALIGN e.offset var.sqllen) } : XSQLVAR).nullable
        = true := hn
    rw [if_pos hn2]
    simp only [store_indicator, sizeof_short]
    refine ⟨_, _, rfl, rfl, rfl, _, rfl, ?_, fun _ => ⟨_, rfl, ?_⟩⟩
    · have hb := ALIGN_two_bounds (ALIGN e.offset var.sqllen + var.sqllen)
      rw [read_bytes_memcpy_outside _ _ _ _ _ (Or.inl (by rw [hw] at hb ⊢; omega))]
      exact read_bytes_memcpy_same _ _ _
    · exact read_bytes_memcpy_same _ _ (int_bytes 2 0)
  · have hn2 : ¬ ({ var with sqldata := some (ALIGN e.offset var.sqllen) } : XSQLVAR).nullable
        = true := hn
    rw [if_neg hn2]
    refine ⟨_, _, rfl, rfl, rfl, _, rfl, ?_, fun hc => absurd hc hn⟩
    exact read_bytes_memcpy_same _ _ _

theorem encode_value_short (h : Host) (var : XSQLVAR) (obj : VALUE) (e : Enc) (v : Int)
    (hd : var.dtp = SQL_SHORT) (hc : h.NUM2LONG obj = Except.ok v)
    (h1 : SHRT_MIN ≤ v) (h2 : v ≤ SHRT_MAX) :
    encode_value h var obj e = store_fixed var (align_to e var.sqllen) (int_bytes 2 v) := by
  have hr : ¬ (v < SHRT_MIN ∨ v > SHRT_MAX) := by omega
  simp [encode_value, hd, hc, hr, SQL_SHORT, SQL_TEXT, SQL_VARYING]

theorem encode_value_long (h : Host) (var : XSQLVAR) (obj : VALUE) (e : Enc) (v : Int)
    (hd : var.dtp = SQL_LONG) (hc : h.NUM2LONG obj = Except.ok v) :
    encode_value h var obj e =
      store_fixed var (align_to e var.sqllen) (int_bytes h.sizeof_long v) := by
  simp [encode_value, hd, hc, SQL_LONG, SQL_SHORT, SQL_TEXT, SQL_VARYING]

theorem encode_value_int64 (h : Host) (var : XSQLVAR) (obj : VALUE) (e : Enc) (v : Int)
    (hd : var.dtp = SQL_INT64) (hc : h.NUM2LL obj = Except.ok v) :
    encode_value h var obj e = store_fixed var (align_to e var.sqllen) (int_bytes 8 v) := by
  simp [encode_value, hd, hc, SQL_INT64, SQL_DOUBLE, SQL_FLOAT, SQL_LONG, SQL_SHORT, SQL_TEXT,
    SQL_VARYING]

/-- Decoding a slot whose indicator (if the entry is nullable) holds 0 decodes its data. -/
theorem fetch_column_not_null (h : Host) (var : XSQLVAR) (results : Buffer)
    (calls : List DrvCall)
    (hind : var.nullable = true →
      ∃ i, var.sqlind = some i ∧ read_bytes results i 2 = int_bytes 2 0) :
    fetch_column h var results calls = decode_value h var results calls := by
  unfold fetch_column
  by_cases hn : var.nullable = true
  · obtain ⟨i, hi, hb⟩ := hind hn
    have hz : ¬ signed_of_bytes 2 (int_bytes 2 0) < 0 := by
      rw [signed_int_bytes_2 0 (by decide) (by decide)]; decide
    simp only [hn, if_true, hi, hb, hz, if_false]
  · simp only [hn, Bool.false_eq_true, if_false]

/-- The round trip of integers where `long` has the width of the `SQL_LONG` slot.  For every
integer `v` representable in the slot's width (int16 for `SHORT`, int32 for `LONG` where
`sizeof(long)` is 4, int64 for `INT64`) and every descriptor of that type (with the type's
length) whose scale is not negative, the encoder stores the integer that the host conversion
yields, and the decoder of `fb_cursor_fetch`, run on the slot the encoder wrote, returns the
integer `v`. -/
theorem integer_roundtrip (h : Host) (var : XSQLVAR) (obj : VALUE) (v : Int) (e : Enc)
    (calls : List DrvCall) (hobj : obj ≠ VALUE.nil) (hscale : 0 ≤ var.sqlscale)
    (hslot :
      (var.dtp = SQL_SHORT ∧ var.sqllen = 2 ∧ h.NUM2LONG obj = Except.ok v
        ∧ -2 ^ 15 ≤ v ∧ v < 2 ^ 15) ∨
      (var.dtp = SQL_LONG ∧ var.sqllen = 4 ∧ h.sizeof_long = 4 ∧ h.NUM2LONG obj = Except.ok v
        ∧ -2 ^ 31 ≤ v ∧ v < 2 ^ 31) ∨
      (var.dtp = SQL_INT64 ∧ var.sqllen = 8 ∧ h.NUM2LL obj = Except.ok v
        ∧ -2 ^ 63 ≤ v ∧ v < 2 ^ 63)) :
    ∃ var1 e1, set_inputparam h var obj e = Res.ok var1 e1 ∧
      fetch_column h var1 e1.paramts calls = Res.ok (VALUE.integer v) calls := by
  rcases hslot with ⟨hd, hl, hc, h1, h2⟩ | ⟨hd, hl, hsz, hc, h1, h2⟩ | ⟨hd, hl, hc, h1, h2⟩
  · have henc := encode_value_short h var obj e v hd hc (by unfold SHRT_MIN; omega)
      (by unfold SHRT_MAX; omega)
    obtain ⟨var1, e1, hset, ht, hs, d, hdat, hrd, hind⟩ :=
      set_inputparam_stores h var obj e (int_bytes 2 v) hobj (by rw [hl]; rfl) henc
    refine ⟨var1, e1, hset, ?_⟩
    have hd1 : var1.dtp = SQL_SHORT := by unfold XSQLVAR.dtp at hd ⊢; rw [ht]; exact hd
    have hn1 : var1.nullable = var.nullable := by unfold XSQLVAR.nullable; rw [ht]
    rw [fetch_column_not_null h var1 e1.paramts calls (by rw [hn1]; exact hind)]
    have hsc : ¬ var1.sqlscale < 0 := by rw [hs]; omega
    simp only [int_bytes_length] at hrd
    simp [decode_value, hd1, hdat, hrd, decode_scaled, hsc, SQL_SHORT, SQL_ARRAY, SQL_TEXT,
      SQL_VARYING]
    exact signed_int_bytes_2 v (by omega) (by omega)
  · have henc := encode_value_long h var obj e v hd hc
    rw [hsz] at henc
    obtain ⟨var1, e1, hset, ht, hs, d, hdat, hrd, hind⟩ :=
      set_inputparam_stores h var obj e (int_bytes 4 v) hobj (by rw [hl]; rfl) henc
    refine ⟨var1, e1, hset, ?_⟩
    have hd1 : var1.dtp = SQL_LONG := by unfold XSQLVAR.dtp at hd ⊢; rw [ht]; exact hd
    have hn1 : var1.nullable = var.nullable := by unfold XSQLVAR.nullable; rw [ht]
    rw [fetch_column_not_null h var1 e1.paramts calls (by rw [hn1]; exact hind)]
    have hsc : ¬ var1.sqlscale < 0 := by rw [hs]; omega
    simp only [int_bytes_length] at hrd
    simp [decode_value, hd1, hdat, hsz, hrd, decode_scaled, hsc, SQL_LONG, SQL_SHORT, SQL_ARRAY,
      SQL_TEXT, SQL_VARYING]
    exact signed_int_bytes_4 v (by omega) (by omega)
  · have henc := encode_value_int64 h var obj e v hd hc
    obtain ⟨var1, e1, hset, ht, hs, d, hdat, hrd, hind⟩ :=
      set_inputparam_stores h var obj e (int_bytes 8 v) hobj (by rw [hl]; rfl) henc
    refine ⟨var1, e1, hset, ?_⟩
    have hd1 : var1.dtp = SQL_INT64 := by unfold XSQLVAR.dtp at hd ⊢; rw [ht]; exact hd
    have hn1 : var1.nullable = var.nullable := by unfold XSQLVAR.nullable; rw [ht]
    rw [fetch_column_not_null h var1 e1.paramts calls (by rw [hn1]; exact hind)]
    simp only [int_bytes_length] at hrd
    simp [decode_value, hd1, hdat, hrd, SQL_INT64, SQL_DOUBLE, SQL_FLOAT, SQL_LONG, SQL_SHORT,
      SQL_ARRAY, SQL_TEXT, SQL_VARYING]
    exact signed_int_bytes_8 v (by omega) (by omega)

theorem integer_roundtrip_example :
    ∃ var1 e1,
      set_inputparam sample_host nullable_short (VALUE.integer (-1234)) ⟨0, [], []⟩
        = Res.ok var1 e1 ∧
      fetch_column sample_host var1 e1.paramts [] = Res.ok (VALUE.integer (-1234)) [] :=
  integer_roundtrip sample_host nullable_short (VALUE.integer (-1234)) (-1234) ⟨0, [], []⟩ []
    (fun hh => VALUE.noConfusion hh) (by decide)
    (Or.inl ⟨by decide, rfl, rfl, by decide, by decide⟩)

/-- C5 fails on the code where `long` has 8 bytes.  The integer -1, which an int32 represents,
is bound to a nullable `INTEGER` parameter (`sqllen = 4`, scale 0) and accepted.  The statement
`*(long *)var->sqldata = lvalue` stores the eight bytes of the `long` -1 at offsets 0 to 7;
the indicator 0 is then stored at offsets 4 and 5, inside them.  The decoder reads eight bytes
through the data pointer and returns -281470681743361; where `long` has 4 bytes the same
parameter decodes to -1. -/
theorem C5_negative_long_where_long_has_8_bytes :
    ∃ var1 e1,
      set_inputparam lp64_host nullable_long (VALUE.integer (-1)) ⟨0, [], []⟩
        = Res.ok var1 e1 ∧
      pointers var1 = (some 0, some 4) ∧
      e1.paramts.written = [4, 5, 0, 1, 2, 3, 4, 5, 6, 7] ∧
      read_bytes e1.paramts 0 8 = [255, 255, 255, 255, 0, 0, 255, 255] ∧
      fetch_column lp64_host var1 e1.paramts [] =
        Res.ok (VALUE.integer (-281470681743361)) [] ∧
      ∃ var2 e2,
        set_inputparam sample_host nullable_long (VALUE.integer (-1)) ⟨0, [], []⟩
          = Res.ok var2 e2 ∧
        fetch_column sample_host var2 e2.paramts [] = Res.ok (VALUE.integer (-1)) [] :=
  ⟨_, _, rfl, by decide, by decide, by decide, rfl, _, _, rfl, rfl⟩

/-! ## Encoder: the buffer size computed by `cursor_execute` -/

/-- C4 fails on the code: a nullable `CHAR(2)` parameter bound to the two-byte string `"ab"`
(no longer than its `sqllen`) is accepted; `calculate_buffsize(i_sqlda)` is 4, the size
`cursor_execute` gives the parameter buffer, and the encoder stores the null indicator at
offsets 4 and 5. -/
theorem C4_indicator_stored_past_buffsize :
    ∃ out e,
      fb_cursor_set_inputparams sample_host nullable_char2 [VALUE.string [97, 98]] [] []
        = Res.ok out e ∧
      calculate_buffsize nullable_char2 = 4 ∧
      e.paramts.written = [4, 5, 0, 1] ∧
      out.sqlvar.map pointers = [(some 0, some 4)] :=
  ⟨_, _, rfl, by decide, by decide, by decide⟩

/-! ## Encoder and decoder: nil -/

theorem set_inputparam_nil (h : Host) (var : XSQLVAR) (e : Enc) :
    set_inputparam h var VALUE.nil e =
      if var.nullable then store_indicator { var with sqldata := none } e (-1)
      else Res.raise ⟨ExcClass.FbError, "specified column is not permitted to be null"⟩ e :=
  rfl

/-- Encoding leaves the type code and the null flag of the entry as they were. -/
theorem encode_value_sqltype (h : Host) (var : XSQLVAR) (obj : VALUE) (e : Enc)
    (var2 : XSQLVAR) (e2 : Enc) (henc : encode_value h var obj e = Res.ok var2 e2) :
    var2.sqltype = var.sqltype := by
  by_cases h1 : var.dtp = SQL_TEXT
  · simp only [encode_value, h1, if_true] at henc
    cases henc
    rfl
  · by_cases h2 : var.dtp = SQL_VARYING
    · simp only [encode_value, h2, varying_ne_text, if_true, if_false] at henc
      cases henc
      rfl
    · rw [(encode_value_fixed_ok h var obj e var2 e2 h1 h2 henc).1]

/-- The data pointer an accepted argument gets, and the running offset its encoding leaves:
the string length narrowed to `short` plus 1 (`TEXT`) or plus 2 (`VARYING`) past the data
pointer, `sqllen` past it for every other type. -/
theorem encode_value_offset (h : Host) (var : XSQLVAR) (obj : VALUE) (e : Enc)
    (var2 : XSQLVAR) (e2 : Enc) (henc : encode_value h var obj e = Res.ok var2 e2) :
    ∃ d, var2.sqldata = some d ∧
      e2.offset = d +
        (if var.dtp = SQL_TEXT then to_short (h.rb_obj_as_string obj).length + 1
         else if var.dtp = SQL_VARYING then to_short (h.rb_obj_as_string obj).length + 2
         else var.sqllen) := by
  by_cases h1 : var.dtp = SQL_TEXT
  · simp only [encode_value, h1, if_true] at henc
    cases henc
    exact ⟨_, rfl, by simp [h1]⟩
  · by_cases h2 : var.dtp = SQL_VARYING
    · simp only [encode_value, h2, varying_ne_text, if_true, if_false] at henc
      cases henc
      exact ⟨_, rfl, by simp [h2, varying_ne_text, sizeof_short]⟩
    · obtain ⟨hv, ho⟩ := encode_value_fixed_ok h var obj e var2 e2 h1 h2 henc
      exact ⟨_, by rw [hv], by simp [h1, h2, ho]⟩

theorem to_short_of_fits (n : Nat) (hn : n ≤ 32767) : to_short (n : Int) = n := by
  unfold to_short
  omega

/-- The encoding of nil and of the indicator.  Encoding a nil argument succeeds exactly when
the descriptor has the nullable bit;
when it succeeds, the entry has no data pointer, nothing but the indicator is stored, and
the indicator holds -1; decoding a nullable slot whose indicator holds -1 yields nil whatever
the data pointer and the data bytes are; on a descriptor that is not nullable it raises
"specified column is not permitted to be null".  A non-nil argument accepted on a nullable
descriptor gets an indicator holding 0, placed at the first even offset at or after the
running offset its data left; that is at or after the end of its data whenever the length of
the argument's string fits a `short`. -/
theorem nil_encoding_and_decoding (h : Host) (var : XSQLVAR) (e : Enc) :
    ((∃ var1 e1, set_inputparam h var VALUE.nil e = Res.ok var1 e1) ↔ var.nullable = true) ∧
    (var.nullable = true →
      ∃ i e1, set_inputparam h var VALUE.nil e
          = Res.ok { var with sqldata := none, sqlind := some i } e1 ∧
        e1.paramts = memcpy e.paramts i (int_bytes 2 (-1)) ∧
        signed_of_bytes 2 (read_bytes e1.paramts i 2) = -1) ∧
    (∀ (results : Buffer) (calls : List DrvCall) (i : Int),
      var.nullable = true → var.sqlind = some i →
      signed_of_bytes 2 (read_bytes results i 2) = -1 →
      fetch_column h var results calls = Res.ok VALUE.nil calls) ∧
    (var.nullable = false →
      set_inputparam h var VALUE.nil e
        = Res.raise ⟨ExcClass.FbError, "specified column is not permitted to be null"⟩ e) ∧
    (∀ (obj : VALUE) (var1 : XSQLVAR) (e1 : Enc),
      obj ≠ VALUE.nil → var.nullable = true →
      set_inputparam h var obj e = Res.ok var1 e1 →
      ∃ var2 e2 d i, encode_value h var obj e = Res.ok var2 e2 ∧
        var1.sqldata = some d ∧ var2.sqldata = some d ∧ var1.sqlind = some i ∧
        e2.offset ≤ i ∧ i ≤ e2.offset + 1 ∧ (2:Int) ∣ i ∧
        signed_of_bytes 2 (read_bytes e1.paramts i 2) = 0 ∧
        ((h.rb_obj_as_string obj).length ≤ 32767 → d + encoded_len h var obj ≤ i)) := by
  have hm1 : ∀ (b : Buffer) (i : Int),
      signed_of_bytes 2 (read_bytes (memcpy b i (int_bytes 2 (-1))) i 2) = -1 := by
    intro b i
    have := read_bytes_memcpy_same b i (int_bytes 2 (-1))
    rw [int_bytes_length] at this
    rw [this]
    exact signed_int_bytes_2 (-1) (by decide) (by decide)
  refine ⟨?_, ?_, ?_, ?_, ?_⟩
  · rw [set_inputparam_nil]
    constructor
    · rintro ⟨var1, e1, hok⟩
      by_cases hn : var.nullable = true
      · exact hn
      · rw [if_neg hn] at hok
        exact absurd hok (by simp)
    · intro hn
      rw [if_pos hn]
      exact ⟨_, _, rfl⟩
  · intro hn
    rw [set_inputparam_nil, if_pos hn]
    exact ⟨ALIGN e.offset sizeof_short, _, rfl, rfl, hm1 _ _⟩
  · intro results calls i hn hi hneg
    unfold fetch_column
    have hlt : signed_of_bytes 2 (read_bytes results i 2) < 0 := by rw [hneg]; decide
    simp only [hn, if_true, hi, hlt]
  · intro hn
    rw [set_inputparam_nil]
    simp [hn]
  · intro obj var1 e1 hobj hn hok
    rw [set_inputparam_nonnil h var obj e hobj] at hok
    split at hok
    · exact absurd hok (by simp)
    · rename_i var2 e2 henc
      have hn2 : var2.nullable = true := by
        have hty : var2.sqltype = var.sqltype := encode_value_sqltype h var obj e var2 e2 henc
        unfold XSQLVAR.nullable at hn ⊢
        rw [hty]; exact hn
      rw [if_pos hn2] at hok
      obtain ⟨hv1, _, hp, _⟩ := store_indicator_ok _ _ _ _ _ hok
      obtain ⟨d, hd, hoff⟩ := encode_value_offset h var obj e var2 e2 henc
      have hb := ALIGN_two_bounds e2.offset
      refine ⟨var2, e2, d, ALIGN e2.offset 2, henc, by rw [hv1]; exact hd, hd, by rw [hv1],
        hb.1, hb.2.1, hb.2.2, ?_, ?_⟩
      · rw [hp]
        have := read_bytes_memcpy_same e2.paramts (ALIGN e2.offset 2) (int_bytes 2 0)
        rw [int_bytes_length] at this
        rw [this]
        exact signed_int_bytes_2 0 (by decide) (by decide)
      · intro hfit
        have hts := to_short_of_fits _ hfit
        rw [hts] at hoff
        unfold encoded_len
        have := hb.1
        split at hoff
        · rw [if_pos (by assumption)]; omega
        · split at hoff
          · rw [if_neg (by assumption), if_pos (by assumption)]; omega
          · rw [if_neg (by assumption), if_neg (by assumption)]; omega

/-! ## Encoder: `SHORT` range check -/

/-- C9. Encoding into a `SHORT` parameter the integer `v` that the host conversion yields
succeeds exactly when `SHRT_MIN <= v <= SHRT_MAX`; in that case the slot holds `v` as an
int16; otherwise it raises "short integer overflow" and nothing is stored: the parameter
buffer and the driver calls are as before. -/
theorem C9_short_overflow (h : Host) (var : XSQLVAR) (obj : VALUE) (v : Int) (e : Enc)
    (hobj : obj ≠ VALUE.nil) (hd : var.dtp = SQL_SHORT)
    (hc : h.NUM2LONG obj = Except.ok v) :
    ((∃ var1 e1, set_inputparam h var obj e = Res.ok var1 e1) ↔
      (SHRT_MIN ≤ v ∧ v ≤ SHRT_MAX)) ∧
    (SHRT_MIN ≤ v ∧ v ≤ SHRT_MAX →
      ∃ var2 e2, encode_value h var obj e = Res.ok var2 e2 ∧
        var2.sqldata = some (ALIGN e.offset var.sqllen) ∧
        e2.paramts = memcpy e.paramts (ALIGN e.offset var.sqllen) (int_bytes 2 v) ∧
        signed_of_bytes 2 (read_bytes e2.paramts (ALIGN e.offset var.sqllen) 2) = v) ∧
    (¬ (SHRT_MIN ≤ v ∧ v ≤ SHRT_MAX) →
      ∃ e1, set_inputparam h var obj e
          = Res.raise ⟨ExcClass.IOError, "short integer overflow"⟩ e1 ∧
        e1.paramts = e.paramts ∧ e1.calls = e.calls) := by
  have hbad : ¬ (SHRT_MIN ≤ v ∧ v ≤ SHRT_MAX) →
      encode_value h var obj e =
        Res.raise ⟨ExcClass.IOError, "short integer overflow"⟩ (align_to e var.sqllen) := by
    intro hr
    have hr2 : v < SHRT_MIN ∨ v > SHRT_MAX := by omega
    simp [encode_value, hd, hc, hr2, SQL_SHORT, SQL_TEXT, SQL_VARYING]
  refine ⟨⟨?_, ?_⟩, ?_, ?_⟩
  · rintro ⟨var1, e1, hok⟩
    by_contra hr
    rw [set_inputparam_nonnil h var obj e hobj, hbad hr] at hok
    exact absurd hok (by simp)
  · rintro ⟨h1, h2⟩
    rw [set_inputparam_nonnil h var obj e hobj, encode_value_short h var obj e v hd hc h1 h2]
    simp only [store_fixed]
    split
    · exact ⟨_, _, rfl⟩
    · exact ⟨_, _, rfl⟩
  · rintro ⟨h1, h2⟩
    rw [encode_value_short h var obj e v hd hc h1 h2]
    refine ⟨_, _, rfl, rfl, rfl, ?_⟩
    simp only [align_to]
    have := read_bytes_memcpy_same e.paramts (ALIGN e.offset var.sqllen) (int_bytes 2 v)
    rw [int_bytes_length] at this
    rw [this]
    exact signed_int_bytes_2 v (by unfold SHRT_MIN at h1; omega) (by unfold SHRT_MAX at h2; omega)
  · intro hr
    rw [set_inputparam_nonnil h var obj e hobj, hbad hr]
    exact ⟨_, rfl, rfl, rfl⟩

theorem nil_encoding_example :
    ∃ i e1, set_inputparam sample_host nullable_short VALUE.nil ⟨0, [], []⟩
        = Res.ok { nullable_short with sqldata := none, sqlind := some i } e1 ∧
      e1.paramts = memcpy [] i (int_bytes 2 (-1)) ∧
      signed_of_bytes 2 (read_bytes e1.paramts i 2) = -1 :=
  (nil_encoding_and_decoding sample_host nullable_short ⟨0, [], []⟩).2.1 (by decide)

/-- One turn of the encoder loop on a nullable `TEXT` entry and a non-nil argument: the
string is copied to the data pointer, `sqllen` becomes its length narrowed to `short`, and the
indicator 0 is stored at the first even offset at or after `offset + sqllen + 1`. -/
theorem set_inputparam_text_nullable (h : Host) (var : XSQLVAR) (obj : VALUE) (e : Enc)
    (hobj : obj ≠ VALUE.nil) (hd : var.dtp = SQL_TEXT) (hn : var.nullable = true) :
    set_inputparam h var obj e =
      Res.ok
        { var with
          sqldata := some (ALIGN e.offset 1),
          sqllen := to_short (h.rb_obj_as_string obj).length,
          sqlind := some
            (ALIGN (ALIGN e.offset 1 + (to_short (h.rb_obj_as_string obj).length + 1)) 2) }
        { offset :=
            ALIGN (ALIGN e.offset 1 + (to_short (h.rb_obj_as_string obj).length + 1)) 2 + 2,
          paramts := memcpy (memcpy e.paramts (ALIGN e.offset 1) (h.rb_obj_as_string obj))
            (ALIGN (ALIGN e.offset 1 + (to_short (h.rb_obj_as_string obj).length + 1)) 2)
            (int_bytes 2 0),
          calls := e.calls } := by
  have henc : encode_value h var obj e =
      Res.ok { var with sqldata := some (ALIGN e.offset 1),
                        sqllen := to_short (h.rb_obj_as_string obj).length }
        { e with offset := ALIGN e.offset 1 + (to_short (h.rb_obj_as_string obj).length + 1),
                 paramts := memcpy e.paramts (ALIGN e.offset 1) (h.rb_obj_as_string obj) } := by
    unfold encode_value
    rw [if_pos hd]
  have hn2 : ({ var with sqldata := some (ALIGN e.offset 1),
                         sqllen := to_short (h.rb_obj_as_string obj).length } : XSQLVAR).nullable
      = true := by
    unfold XSQLVAR.nullable at hn ⊢
    exact hn
  rw [set_inputparam_nonnil h var obj e hobj, henc]
  show (if _ then _ else _) = _
  rw [if_pos hn2]
  rfl

/-- C6 fails on the code: a string of 40000 bytes bound to a nullable `CHAR` parameter is
accepted; `var->sqllen = RSTRING(obj)->len` narrows the length to the `short` -25536, the
running offset goes back to -25535, and the indicator 0 is stored at offset -25534, before
the data at offsets 0 to 39999 and before the start of the parameter buffer. -/
theorem C6_indicator_before_long_string :
    ∃ var1 e1,
      set_inputparam sample_host nullable_char10 (VALUE.string (List.replicate 40000 97))
        ⟨0, [], []⟩ = Res.ok var1 e1 ∧
      var1.sqllen = -25536 ∧ pointers var1 = (some 0, some (-25534)) ∧
      e1.offset = -25532 ∧
      e1.paramts =
        memcpy (memcpy [] 0 (List.replicate 40000 97)) (-25534) (int_bytes 2 0) := by
  have hlen : (sample_host.rb_obj_as_string (VALUE.string (List.replicate 40000 97))).length
      = 40000 := List.length_replicate _ _
  have h0 : ALIGN 0 1 = 0 := by decide
  have h1 : to_short ((40000 : Nat) : Int) = -25536 := by decide
  have h2 : ALIGN (0 + (-25536 + 1)) 2 = -25534 := by decide
  refine ⟨_, _, set_inputparam_text_nullable sample_host nullable_char10
    (VALUE.string (List.replicate 40000 97)) ⟨0, [], []⟩ (fun hh => VALUE.noConfusion hh)
    (by decide) (by decide), ?_, ?_, ?_, ?_⟩
  · show to_short _ = _
    rw [hlen, h1]
  · show (some (ALIGN 0 1), some (ALIGN (ALIGN 0 1 + (to_short _ + 1)) 2)) = _
    rw [hlen, h0, h1, h2]
  · show ALIGN (ALIGN 0 1 + (to_short _ + 1)) 2 + 2 = _
    rw [hlen, h0, h1, h2]
    rfl
  · show memcpy (memcpy [] (ALIGN 0 1) _) (ALIGN (ALIGN 0 1 + (to_short _ + 1)) 2) _ = _
    rw [hlen, h0, h1, h2]
    rfl

theorem C9_short_overflow_witness :
    ∃ e1, set_inputparam sample_host notnull_short (VALUE.integer 40000) ⟨0, [], []⟩
        = Res.raise ⟨ExcClass.IOError, "short integer overflow"⟩ e1 ∧
      e1.paramts = [] ∧ e1.calls = [] :=
  (C9_short_overflow sample_host notnull_short (VALUE.integer 40000) 40000 ⟨0, [], []⟩
    (fun hh => VALUE.noConfusion hh) (by decide) rfl).2.2 (by decide)

/-! ## Parameter count -/

theorem fb_cursor_set_inputparams_count (h : Host) (i_sqlda : XSQLDA) (argv : List VALUE)
    (paramts : Buffer) (calls : List DrvCall) (hne : i_sqlda.sqld ≠ argv.length) :
    fb_cursor_set_inputparams h i_sqlda argv paramts calls =
      Res.raise ⟨ExcClass.FbError, count_message i_sqlda.sqld argv.length⟩
        ⟨0, paramts, calls⟩ := by
  unfold fb_cursor_set_inputparams
  rw [if_pos hne]

/-- C7, as the code has it. For every statement with `sqld` input parameters and either process
flag: an empty argument list raises "Input parameters must be specified"; a non-empty argument
list whose first argument is not an array and whose length `n` differs from `sqld` raises
"statement requires sqld items; n given", a message that spells out both numbers.  In both
cases the driver has not been called: the log of driver calls is the one before the call, so
`isc_dsql_execute2` was not invoked. -/
theorem C7_parameter_count (h : Host) (i_sqlda : XSQLDA) (argv : List VALUE) (exec : Int)
    (paramts : Buffer) (calls : List DrvCall)
    (hexec : exec = EXECF_EXECDML ∨ exec = EXECF_SETPARM)
    (hne : i_sqlda.sqld ≠ argv.length) :
    (argv = [] →
      fb_cursor_check_inparams h i_sqlda argv exec paramts calls =
        Res.raise ⟨ExcClass.FbError, "Input parameters must be specified"⟩
          ⟨0, paramts, calls⟩) ∧
    (argv ≠ [] → (∀ row, argv.head? ≠ some (VALUE.array row)) →
      fb_cursor_check_inparams h i_sqlda argv exec paramts calls =
        Res.raise ⟨ExcClass.FbError,
            "statement requires " ++ toString i_sqlda.sqld ++ " items; "
              ++ toString (argv.length : Int) ++ " given"⟩
          ⟨0, paramts, calls⟩) := by
  constructor
  · intro hnil
    subst hnil
    simp [fb_cursor_check_inparams]
  · intro hnonnil hflat
    have hlen : ¬ argv.length = 0 := by
      intro hz
      exact hnonnil (List.length_eq_zero.mp hz)
    have hset := fb_cursor_set_inputparams_count h i_sqlda argv paramts calls hne
    unfold count_message at hset
    unfold fb_cursor_check_inparams
    rw [if_neg hlen]
    rcases hexec with rfl | rfl
    · rw [if_pos rfl]
      cases argv with
      | nil => exact absurd rfl hnonnil
      | cons a rest =>
        cases a with
        | array row => exact absurd rfl (hflat row)
        | _ => simp only [fb_cursor_execute_withparams, hset]
    · rw [if_neg (by decide), if_pos rfl]
      exact hset

theorem C7_parameter_count_witness :
    fb_cursor_check_inparams sample_host two_longs [VALUE.integer 7] EXECF_EXECDML [] [] =
      Res.raise ⟨ExcClass.FbError, "statement requires 2 items; 1 given"⟩ ⟨0, [], []⟩ :=
  (C7_parameter_count sample_host two_longs [VALUE.integer 7] EXECF_EXECDML [] []
    (Or.inl rfl) (by decide)).2 (by simp) (by simp)

/-- C7 fails as stated for an empty argument list: with two parameters to bind and no
argument given, the raised message is "Input parameters must be specified", which contains
no digit at all, hence neither the number 2 nor the number 0. -/
theorem C7_counterexample :
    ∃ msg, fb_cursor_check_inparams sample_host two_longs [] EXECF_EXECDML [] [] =
        Res.raise ⟨ExcClass.FbError, msg⟩ ⟨0, [], []⟩ ∧
      msg = "Input parameters must be specified" ∧
      (∀ c ∈ msg.toList, ¬ c.isDigit) ∧
      two_longs.sqld = 2 :=
  ⟨_, rfl, rfl, by decide, rfl⟩

/-! ## BLOB segments -/

/-- A blob value of exactly 65536 bytes leaves `length` at 0, so no segment is put. -/
theorem write_blob_65536 (h : Host) (s : List Nat) (calls : List DrvCall)
    (hs : s.length = 65536)
    (h1 : h.status_error (DrvCall.isc_create_blob2 :: calls) = none)
    (h2 : h.status_error (DrvCall.isc_close_blob :: DrvCall.isc_create_blob2 :: calls) = none) :
    write_blob h s calls =
      Res.ok (fit 8 (h.blob_id (DrvCall.isc_create_blob2 :: calls)))
        (DrvCall.isc_close_blob :: DrvCall.isc_create_blob2 :: calls) := by
  have hz : to_ushort (s.length : Int) = 0 := by rw [hs]; decide
  simp [write_blob, hz, h1, h2, put_segments]

/-- C8 fails on the code: for a BLOB parameter bound to a string of 65536 bytes, the driver
calls between `isc_create_blob2` and `isc_close_blob` contain no `isc_put_segment` at all,
so the blob that is stored is empty. -/
theorem C8_blob_of_65536_bytes_puts_no_segment :
    (List.replicate 65536 7).length = 65536 ∧
    write_blob sample_host (List.replicate 65536 7) [] =
      Res.ok (fit 8 []) [DrvCall.isc_close_blob, DrvCall.isc_create_blob2] :=
  ⟨List.length_replicate _ _,
    write_blob_65536 sample_host _ [] (List.length_replicate _ _) rfl rfl⟩

/-- The segment loop on a length that fits the `unsigned short`: when the driver reports no
error, the segments put are at most 4096 bytes each, every one of them carries as many bytes
as announced, and together, in call order, they are the first `length` bytes of the value. -/
theorem put_segments_spec (h : Host) (hq : ∀ c, h.status_error c = none) (fuel : Nat) :
    ∀ (length : Nat) (p : List Nat) (calls : List DrvCall),
      length / 4096 + 1 ≤ fuel → length ≤ p.length →
      ∃ puts : List DrvCall,
        put_segments h fuel length p calls = Res.ok () (puts ++ calls) ∧
        (puts.reverse.map put_payload).flatten = p.take length ∧
        ∀ c ∈ puts, ∃ len seg, c = DrvCall.isc_put_segment len seg ∧ len ≤ 4096 ∧
          seg.length = len := by
  induction fuel with
  | zero => intro length p calls hf _; omega
  | succ fuel ih =>
    intro length p calls hf hp
    by_cases hbig : 4096 ≤ length
    · obtain ⟨puts, h1, h2, h3⟩ := ih (length - 4096) (p.drop 4096)
        (DrvCall.isc_put_segment 4096 (p.take 4096) :: calls) (by omega)
        (by rw [List.length_drop]; omega)
      refine ⟨puts ++ [DrvCall.isc_put_segment 4096 (p.take 4096)], ?_, ?_, ?_⟩
      · simp only [put_segments, hbig, if_true, hq, h1, List.append_assoc, List.singleton_append]
      · simp only [List.reverse_append, List.reverse_singleton, List.singleton_append,
          List.map_cons, List.flatten_cons, put_payload, h2]
        have hsum : 4096 + (length - 4096) = length := by omega
        rw [← List.take_add, hsum]
      · intro c hc
        simp only [List.mem_append, List.mem_singleton] at hc
        rcases hc with hc | rfl
        · exact h3 c hc
        · exact ⟨4096, _, rfl, le_refl _, by rw [List.length_take]; omega⟩
    · by_cases hz : length = 0
      · refine ⟨[], ?_, ?_, ?_⟩
        · simp [put_segments, hz]
        · simp [hz]
        · intro c hc; simp at hc
      · refine ⟨[DrvCall.isc_put_segment length (p.take length)], ?_, ?_, ?_⟩
        · simp [put_segments, hbig, hz, hq]
        · simp [put_payload]
        · intro c hc
          simp only [List.mem_singleton] at hc
          subst hc
          exact ⟨length, _, rfl, by omega, by rw [List.length_take]; omega⟩

/-- A blob value shorter than 65536 bytes is passed to the driver whole: the segments put
between `isc_create_blob2` and `isc_close_blob` are at most 4096 bytes each and concatenate to
the value. -/
theorem write_blob_spec (h : Host) (hq : ∀ c, h.status_error c = none) (s : List Nat)
    (calls : List DrvCall) (hs : s.length < 65536) :
    ∃ puts : List DrvCall,
      write_blob h s calls =
        Res.ok (fit 8 (h.blob_id (DrvCall.isc_create_blob2 :: calls)))
          (DrvCall.isc_close_blob :: (puts ++ DrvCall.isc_create_blob2 :: calls)) ∧
      (puts.reverse.map put_payload).flatten = s ∧
      ∀ c ∈ puts, ∃ len seg, c = DrvCall.isc_put_segment len seg ∧ len ≤ 4096 ∧
        seg.length = len := by
  have hu : to_ushort (s.length : Int) = s.length := by
    unfold to_ushort
    omega
  obtain ⟨puts, h1, h2, h3⟩ := put_segments_spec h hq (s.length / 4096 + 1) s.length s
    (DrvCall.isc_create_blob2 :: calls) (le_refl _) (le_refl _)
  refine ⟨puts, ?_, ?_, h3⟩
  · simp only [write_blob, hq, hu, h1]
  · rw [h2, List.take_length]

/-! ## Decoder: scaled integers -/

/-- A column whose indicator (if the entry is nullable) is not negative is decoded from its
data. -/
theorem fetch_column_of_not_null (h : Host) (var : XSQLVAR) (results : Buffer)
    (calls : List DrvCall)
    (hind : var.nullable = true →
      ∃ i, var.sqlind = some i ∧ ¬ signed_of_bytes 2 (read_bytes results i 2) < 0) :
    fetch_column h var results calls = decode_value h var results calls := by
  unfold fetch_column
  by_cases hn : var.nullable = true
  · obtain ⟨i, hi, hb⟩ := hind hn
    simp only [hn, if_true, hi, hb, if_false]
  · simp only [hn, Bool.false_eq_true, if_false]

/-- The decoding of a `SHORT` or `LONG` column that is not null, for the integer `n` that
the code reads through the data pointer (2 bytes for `SHORT`, `sizeof(long)` bytes for `LONG`):
if the scale is negative the decoded value is the host float of `(double)n / ratio`, where
`ratio` is the product the loop makes; otherwise it is the integer `n` itself. -/
theorem scaled_decode (h : Host) (var : XSQLVAR) (results : Buffer) (calls : List DrvCall)
    (d : Int) (w : Nat) (hdata : var.sqldata = some d)
    (hind : var.nullable = true →
      ∃ i, var.sqlind = some i ∧ ¬ signed_of_bytes 2 (read_bytes results i 2) < 0)
    (hty : (var.dtp = SQL_SHORT ∧ w = 2) ∨ (var.dtp = SQL_LONG ∧ w = h.sizeof_long)) :
    (var.sqlscale < 0 →
      fetch_column h var results calls =
        Res.ok (h.rb_float_new
          (Dbl.div (Dbl.of_int (signed_of_bytes w (read_bytes results d w)))
            (scale_ratio (-var.sqlscale).toNat 0 var.sqlscale (Dbl.of_int 1))))
          calls) ∧
    (0 ≤ var.sqlscale →
      fetch_column h var results calls =
        Res.ok (VALUE.integer (signed_of_bytes w (read_bytes results d w))) calls) := by
  rw [fetch_column_of_not_null h var results calls hind]
  rcases hty with ⟨hd, rfl⟩ | ⟨hd, rfl⟩
  · constructor
    · intro hs
      simp [decode_value, hd, hdata, decode_scaled, hs, SQL_SHORT, SQL_ARRAY, SQL_TEXT,
        SQL_VARYING]
    · intro hs
      have hs2 : ¬ var.sqlscale < 0 := by omega
      simp [decode_value, hd, hdata, decode_scaled, hs2, SQL_SHORT, SQL_ARRAY, SQL_TEXT,
        SQL_VARYING]
  · constructor
    · intro hs
      simp [decode_value, hd, hdata, decode_scaled, hs, SQL_LONG, SQL_SHORT, SQL_ARRAY,
        SQL_TEXT, SQL_VARYING]
    · intro hs
      have hs2 : ¬ var.sqlscale < 0 := by omega
      simp [decode_value, hd, hdata, decode_scaled, hs2, SQL_LONG, SQL_SHORT, SQL_ARRAY,
        SQL_TEXT, SQL_VARYING]

set_option maxRecDepth 100000 in
/-- The loop of the scale makes the `double` 100 for the scale -2, and 12345 divided by it is
the `double` nearest to 123.45. -/
theorem scaled_decode_example :
    scale_ratio 2 0 (-2) (Dbl.of_int 1) = Dbl.of_int 100 ∧
    Dbl.div (Dbl.of_int 12345) (Dbl.of_int 100) = Dbl.fin false 8687021468732621 (-46) ∧
    fetch_column sample_host ⟨500, -2, 2, some 0, none⟩ (memcpy [] 0 (int_bytes 2 12345)) [] =
      Res.ok (sample_host.rb_float_new (Dbl.fin false 8687021468732621 (-46))) [] := by
  have h1 : scale_ratio 2 0 (-2) (Dbl.of_int 1) = Dbl.of_int 100 := by decide
  have h2 : Dbl.div (Dbl.of_int 12345) (Dbl.of_int 100) =
      Dbl.fin false 8687021468732621 (-46) := by decide
  have hn : signed_of_bytes 2 (read_bytes (memcpy [] 0 (int_bytes 2 12345)) 0 2) = 12345 := by
    decide
  refine ⟨h1, h2, ?_⟩
  rw [(scaled_decode sample_host ⟨500, -2, 2, some 0, none⟩ (memcpy [] 0 (int_bytes 2 12345))
    [] 0 2 rfl (fun hn => absurd hn (by decide)) (Or.inl ⟨by decide, rfl⟩)).1 (by decide), hn]
  show Res.ok (sample_host.rb_float_new
    (Dbl.div (Dbl.of_int 12345) (scale_ratio 2 0 (-2) (Dbl.of_int 1)))) [] = _
  rw [h1, h2]

set_option maxRecDepth 100000 in
/-- C10 fails on the code where `long` has 8 bytes.  The nullable `INTEGER` column of a
one-column row is laid out with its data at offset 0 and its indicator at offset 4; it holds
the stored integer -5 and is not null.  The decoder reads `*(long *)var->sqldata`, eight bytes
that run over the indicator: with the scale 0 it returns 4294967291, not -5, and with the
scale -2 the float nearest to 42949672.91, not to -0.05.  Where `long` has 4 bytes it returns
-5 and the float nearest to -0.05. -/
theorem C10_long_column_read_as_8_bytes :
    (fb_cursor_fetch_prep_layout ⟨10, 1, [nullable_long]⟩).1 = [nullable_long_column] ∧
    signed_of_bytes 4 (read_bytes row_minus_five 0 4) = -5 ∧
    signed_of_bytes 2 (read_bytes row_minus_five 4 2) = 0 ∧
    fetch_column lp64_host nullable_long_column row_minus_five [] =
      Res.ok (VALUE.integer 4294967291) [] ∧
    fetch_column lp64_host { nullable_long_column with sqlscale := -2 } row_minus_five [] =
      Res.ok (lp64_host.rb_float_new (Dbl.fin false 5764607516323348 (-27))) [] ∧
    fetch_column sample_host nullable_long_column row_minus_five [] =
      Res.ok (VALUE.integer (-5)) [] ∧
    fetch_column sample_host { nullable_long_column with sqlscale := -2 } row_minus_five [] =
      Res.ok (sample_host.rb_float_new (Dbl.fin true 7205759403792794 (-57))) [] := by
  have h8 : signed_of_bytes 8 (read_bytes row_minus_five 0 8) = 4294967291 := by decide
  have h4 : signed_of_bytes 4 (read_bytes row_minus_five 0 4) = -5 := by decide
  have hi : ¬ signed_of_bytes 2 (read_bytes row_minus_five 4 2) < 0 := by decide
  have hr : scale_ratio 2 0 (-2) (Dbl.of_int 1) = Dbl.of_int 100 := by decide
  have hq8 : Dbl.div (Dbl.of_int 4294967291) (Dbl.of_int 100) =
      Dbl.fin false 5764607516323348 (-27) := by decide
  have hq4 : Dbl.div (Dbl.of_int (-5)) (Dbl.of_int 100) =
      Dbl.fin true 7205759403792794 (-57) := by decide
  refine ⟨by decide, h4, by decide, ?_, ?_, ?_, ?_⟩
  · rw [(scaled_decode lp64_host nullable_long_column row_minus_five [] 0 8 rfl
      (fun _ => ⟨4, rfl, hi⟩) (Or.inr ⟨by decide, rfl⟩)).2 (by decide), h8]
  · rw [(scaled_decode lp64_host { nullable_long_column with sqlscale := -2 } row_minus_five
      [] 0 8 rfl (fun _ => ⟨4, rfl, hi⟩) (Or.inr ⟨by decide, rfl⟩)).1 (by decide), h8]
    show Res.ok (lp64_host.rb_float_new
      (Dbl.div (Dbl.of_int 4294967291) (scale_ratio 2 0 (-2) (Dbl.of_int 1)))) [] = _
    rw [hr, hq8]
  · rw [(scaled_decode sample_host nullable_long_column row_minus_five [] 0 4 rfl
      (fun _ => ⟨4, rfl, hi⟩) (Or.inr ⟨by decide, rfl⟩)).2 (by decide), h4]
  · rw [(scaled_decode sample_host { nullable_long_column with sqlscale := -2 } row_minus_five
      [] 0 4 rfl (fun _ => ⟨4, rfl, hi⟩) (Or.inr ⟨by decide, rfl⟩)).1 (by decide), h4]
    show Res.ok (sample_host.rb_float_new
      (Dbl.div (Dbl.of_int (-5)) (scale_ratio 2 0 (-2) (Dbl.of_int 1)))) [] = _
    rw [hr, hq4]

/-! ## Encoder and decoder: `VARYING` -/

theorem encode_value_varying (h : Host) (var : XSQLVAR) (obj : VALUE) (e : Enc)
    (hd : var.dtp = SQL_VARYING) :
    encode_value h var obj e =
      Res.ok { var with sqldata := some (ALIGN e.offset 2) }
        { e with offset := ALIGN e.offset 2 + (to_short (h.rb_obj_as_string obj).length + 2),
                 paramts := memcpy
                   (memcpy e.paramts (ALIGN e.offset 2 + 2) (h.rb_obj_as_string obj))
                   (ALIGN e.offset 2) (int_bytes 2 (to_short (h.rb_obj_as_string obj).length)) } := by
  simp [encode_value, hd, varying_ne_text, sizeof_short]

/-- C11. For every byte string `s` of length `n <= 32767` bound to a `VARYING` parameter, the
encoder places the data at the 2-aligned offset `d = ALIGN(offset, 2)`, stores there the
two-byte length prefix `n` immediately followed by the `n` bytes of `s`, leaves the running
offset at `d + n + 2`, and the decoder of `fb_cursor_fetch`, run on that slot, returns exactly
`s`. -/
theorem C11_varying_roundtrip (h : Host) (var : XSQLVAR) (obj : VALUE) (e : Enc)
    (calls : List DrvCall) (hobj : obj ≠ VALUE.nil) (hd : var.dtp = SQL_VARYING)
    (hn : (h.rb_obj_as_string obj).length ≤ 32767) :
    (2:Int) ∣ ALIGN e.offset 2 ∧
    (∃ var2 e2, encode_value h var obj e = Res.ok var2 e2 ∧
      var2.sqldata = some (ALIGN e.offset 2) ∧
      e2.offset = ALIGN e.offset 2 + ((h.rb_obj_as_string obj).length + 2)) ∧
    ∃ var1 e1, set_inputparam h var obj e = Res.ok var1 e1 ∧
      var1.sqldata = some (ALIGN e.offset 2) ∧
      read_bytes e1.paramts (ALIGN e.offset 2) 2
        = int_bytes 2 (h.rb_obj_as_string obj).length ∧
      read_bytes e1.paramts (ALIGN e.offset 2 + 2) (h.rb_obj_as_string obj).length
        = h.rb_obj_as_string obj ∧
      fetch_column h var1 e1.paramts calls
        = Res.ok (VALUE.string (h.rb_obj_as_string obj)) calls := by
  have hts := to_short_of_fits _ hn
  have henc := encode_value_varying h var obj e hd
  rw [hts] at henc
  have hpre : ∀ b : Buffer, read_bytes (memcpy (memcpy b (ALIGN e.offset 2 + 2)
      (h.rb_obj_as_string obj)) (ALIGN e.offset 2)
      (int_bytes 2 (h.rb_obj_as_string obj).length)) (ALIGN e.offset 2) 2
      = int_bytes 2 (h.rb_obj_as_string obj).length := by
    intro b
    have := read_bytes_memcpy_same (memcpy b (ALIGN e.offset 2 + 2) (h.rb_obj_as_string obj))
      (ALIGN e.offset 2) (int_bytes 2 (h.rb_obj_as_string obj).length)
    rwa [int_bytes_length] at this
  have hstr : ∀ b : Buffer, read_bytes (memcpy (memcpy b (ALIGN e.offset 2 + 2)
      (h.rb_obj_as_string obj)) (ALIGN e.offset 2)
      (int_bytes 2 (h.rb_obj_as_string obj).length)) (ALIGN e.offset 2 + 2)
      (h.rb_obj_as_string obj).length = h.rb_obj_as_string obj := by
    intro b
    rw [read_bytes_memcpy_outside _ _ _ _ _ (Or.inr (by rw [int_bytes_length]; omega))]
    exact read_bytes_memcpy_same _ _ _
  have hsig : signed_of_bytes 2 (int_bytes 2 ((h.rb_obj_as_string obj).length : Int))
      = (h.rb_obj_as_string obj).length :=
    signed_int_bytes_2 _ (by omega) (by omega)
  refine ⟨(ALIGN_two_bounds _).2.2, ⟨_, _, henc, rfl, rfl⟩, ?_⟩
  rw [set_inputparam_nonnil h var obj e hobj, henc]
  have hdec : ∀ (v : XSQLVAR) (buf : Buffer), v.dtp = SQL_VARYING →
      v.sqldata = some (ALIGN e.offset 2) →
      read_bytes buf (ALIGN e.offset 2) 2 = int_bytes 2 (h.rb_obj_as_string obj).length →
      read_bytes buf (ALIGN e.offset 2 + 2) (h.rb_obj_as_string obj).length
        = h.rb_obj_as_string obj →
      decode_value h v buf calls = Res.ok (VALUE.string (h.rb_obj_as_string obj)) calls := by
    intro v buf hv hdat h1 h2
    have hnn : ¬ ((h.rb_obj_as_string obj).length : Int) < 0 := by omega
    simp [decode_value, hv, hdat, h1, hsig, rb_tainted_str_new, hnn, h2, SQL_VARYING,
      SQL_ARRAY, SQL_TEXT]
  by_cases hnull : var.nullable = true
  · have hn2 : ({ var with sqldata := some (ALIGN e.offset 2) } : XSQLVAR).nullable = true :=
      hnull
    simp only [hn2, if_true, store_indicator, sizeof_short]
    have hb := ALIGN_two_bounds
      (ALIGN e.offset 2 + (((h.rb_obj_as_string obj).length : Int) + 2))
    have h1 : read_bytes (memcpy (memcpy (memcpy e.paramts (ALIGN e.offset 2 + 2)
        (h.rb_obj_as_string obj)) (ALIGN e.offset 2)
        (int_bytes 2 (h.rb_obj_as_string obj).length))
        (ALIGN (ALIGN e.offset 2 + (((h.rb_obj_as_string obj).length : Int) + 2)) 2)
        (int_bytes 2 0)) (ALIGN e.offset 2) 2
        = int_bytes 2 (h.rb_obj_as_string obj).length := by
      rw [read_bytes_memcpy_outside _ _ _ _ _ (Or.inl (by push_cast; omega))]
      exact hpre _
    have h2 : read_bytes (memcpy (memcpy (memcpy e.paramts (ALIGN e.offset 2 + 2)
        (h.rb_obj_as_string obj)) (ALIGN e.offset 2)
        (int_bytes 2 (h.rb_obj_as_string obj).length))
        (ALIGN (ALIGN e.offset 2 + (((h.rb_obj_as_string obj).length : Int) + 2)) 2)
        (int_bytes 2 0)) (ALIGN e.offset 2 + 2) (h.rb_obj_as_string obj).length
        = h.rb_obj_as_string obj := by
      rw [read_bytes_memcpy_outside _ _ _ _ _ (Or.inl (by omega))]
      exact hstr _
    refine ⟨_, _, rfl, rfl, h1, h2, ?_⟩
    rw [fetch_column_not_null h _ _ calls
      (fun _ => ⟨_, rfl, read_bytes_memcpy_same _ _ (int_bytes 2 0)⟩)]
    exact hdec _ _ hd rfl h1 h2
  · have hn2 : ¬ ({ var with sqldata := some (ALIGN e.offset 2) } : XSQLVAR).nullable = true :=
      hnull
    simp only [hn2, if_false]
    refine ⟨_, _, rfl, rfl, hpre _, hstr _, ?_⟩
    rw [fetch_column_not_null h _ _ calls (fun hc => absurd hc hn2)]
    exact hdec _ _ hd rfl (hpre _) (hstr _)

theorem C11_varying_roundtrip_witness :
    ∃ var1 e1,
      set_inputparam sample_host nullable_varchar10 (VALUE.string [104, 105]) ⟨0, [], []⟩
        = Res.ok var1 e1 ∧
      var1.sqldata = some (ALIGN 0 2) ∧
      read_bytes e1.paramts (ALIGN 0 2) 2 = [2, 0] ∧
      read_bytes e1.paramts (ALIGN 0 2 + 2) 2 = [104, 105] ∧
      fetch_column sample_host var1 e1.paramts [] = Res.ok (VALUE.string [104, 105]) [] :=
  (C11_varying_roundtrip sample_host nullable_varchar10 (VALUE.string [104, 105]) ⟨0, [], []⟩ []
    (fun hh => VALUE.noConfusion hh) (by decide) (by decide)).2.2

/-! ## TPB parser: results on option strings -/

theorem trans_parseopts_of_upper (opt trans : List Nat) (h : upper_copy opt = trans) :
    trans_parseopts opt = parse_trans trans := by
  unfold trans_parseopts
  rw [h]

/-- C12. For every option string that reads, in any letter case,
`READ COMMITTED [NO RECORD_VERSION | RECORD_VERSION]` optionally followed by `WAIT` or
`NO WAIT`, `trans_parseopts` returns the 5-byte block whose byte 0 is `version1`, byte 1 is
`write`, byte 2 is `read_committed`, byte 3 is the lock resolution (`nowait` unless `WAIT` is
given) and byte 4 is `rec_version` if `RECORD_VERSION` was given and `no_rec_version`
otherwise. -/
theorem C12_read_committed (opt : List Nat) (r : RecVersion) (l : LockOpt)
    (h : upper_copy opt = read_committed_string r l) :
    trans_parseopts opt =
      PRes.done [isc_tpb_version1, isc_tpb_write, isc_tpb_read_committed, l.byte, r.byte] := by
  rw [trans_parseopts_of_upper opt _ h]
  cases r <;> cases l <;> decide

theorem C12_read_committed_witness :
    trans_parseopts (bytes "Read Committed Wait") =
      PRes.done [isc_tpb_version1, isc_tpb_write, isc_tpb_read_committed, isc_tpb_wait,
        isc_tpb_no_rec_version] :=
  C12_read_committed (bytes "Read Committed Wait") RecVersion.absent LockOpt.wait (by decide)

set_option maxRecDepth 100000 in
theorem slot_directives_1 : ∀ a : SlotDirective,
    parse_trans (directives_string [a]) = PRes.done (slot_block [a]) := by
  decide

set_option maxRecDepth 100000 in
theorem slot_directives_2 : ∀ a b : SlotDirective, ([a, b].map SlotDirective.slot).Nodup →
    parse_trans (directives_string [a, b]) = PRes.done (slot_block [a, b]) := by
  decide

set_option maxRecDepth 100000 in
theorem slot_directives_3 : ∀ a b c : SlotDirective, ([a, b, c].map SlotDirective.slot).Nodup →
    parse_trans (directives_string [a, b, c]) = PRes.done (slot_block [a, b, c]) := by
  decide

theorem slot_directives_length (ds : List SlotDirective)
    (hnd : (ds.map SlotDirective.slot).Nodup) : ds.length ≤ 3 := by
  have hsub : ds.map SlotDirective.slot ⊆ [1, 2, 3] := by
    intro x hx
    obtain ⟨d, _, rfl⟩ := List.mem_map.mp hx
    cases d <;> simp [SlotDirective.slot]
  have := (List.subperm_of_subset hnd hsub).length_le
  simpa using this

theorem slot_block_perm (ds ds2 : List SlotDirective) (hp : ds2.Perm ds) :
    slot_block ds2 = slot_block ds := by
  unfold slot_block
  simp only [hp.mem_iff]

theorem slot_directives_parse (ds : List SlotDirective) (hne : ds ≠ [])
    (hnd : (ds.map SlotDirective.slot).Nodup) :
    parse_trans (directives_string ds) = PRes.done (slot_block ds) := by
  have hlen := slot_directives_length ds hnd
  match ds, hne, hnd, hlen with
  | [], hne, _, _ => exact absurd rfl hne
  | [a], _, _, _ => exact slot_directives_1 a
  | [a, b], _, hnd, _ => exact slot_directives_2 a b hnd
  | [a, b, c], _, hnd, _ => exact slot_directives_3 a b c hnd
  | _ :: _ :: _ :: _ :: _, _, _, hlen => simp at hlen

set_option maxRecDepth 100000 in
theorem slot_directives_upper_3 : ∀ a b c : SlotDirective,
    upper_copy (directives_string [a]) = directives_string [a] ∧
    upper_copy (directives_string [a, b]) = directives_string [a, b] ∧
    upper_copy (directives_string [a, b, c]) = directives_string [a, b, c] := by
  decide

theorem slot_directives_upper (ds : List SlotDirective) (hlen : ds.length ≤ 3) :
    upper_copy (directives_string ds) = directives_string ds := by
  match ds, hlen with
  | [], _ => rfl
  | [a], _ => exact (slot_directives_upper_3 a a a).1
  | [a, b], _ => exact (slot_directives_upper_3 a b b).2.1
  | [a, b, c], _ => exact (slot_directives_upper_3 a b c).2.2
  | _ :: _ :: _ :: _ :: _, hlen => simp at hlen

/-- C13. For every non-empty sequence of directives drawn from `READ WRITE`, `WAIT`,
`NO WAIT`, `SNAPSHOT`, `SNAPSHOT TABLE STABILITY`, `ISOLATION LEVEL SNAPSHOT`,
`ISOLATION LEVEL SNAPSHOT TABLE STABILITY` in which no two directives address the same slot,
written in any letter case, `trans_parseopts` returns the 4-byte default block with the
addressed slots replaced, and every reordering of the directives gives the same block. -/
theorem C13_slot_directives (opt : List Nat) (ds : List SlotDirective) (hne : ds ≠ [])
    (hnd : (ds.map SlotDirective.slot).Nodup) (h : upper_copy opt = directives_string ds) :
    trans_parseopts opt = PRes.done (slot_block ds) ∧
    ∀ ds2 : List SlotDirective, ds2.Perm ds →
      trans_parseopts (directives_string ds2) = trans_parseopts opt := by
  have h1 : trans_parseopts opt = PRes.done (slot_block ds) := by
    rw [trans_parseopts_of_upper opt _ h]
    exact slot_directives_parse ds hne hnd
  refine ⟨h1, ?_⟩
  intro ds2 hp
  have hne2 : ds2 ≠ [] := by
    intro hz
    rw [hz] at hp
    exact hne hp.symm.eq_nil
  have hnd2 : (ds2.map SlotDirective.slot).Nodup := (hp.map _).nodup_iff.mpr hnd
  have hup := slot_directives_upper ds2 (slot_directives_length ds2 hnd2)
  rw [h1, trans_parseopts_of_upper _ _ hup, slot_directives_parse ds2 hne2 hnd2,
    slot_block_perm ds ds2 hp]

theorem C13_slot_directives_witness :
    trans_parseopts (bytes "wait Snapshot Table Stability read write") =
      PRes.done [isc_tpb_version1, isc_tpb_write, isc_tpb_consistency, isc_tpb_wait] :=
  (C13_slot_directives (bytes "wait Snapshot Table Stability read write")
    [SlotDirective.wait, SlotDirective.snapshot_table_stability, SlotDirective.read_write]
    (by decide) (by decide) (by decide)).1

/-- C14, as the code has it. The option string `READ ONLY`, in any letter case, is parsed to
the default block with the first slot byte replaced by `isc_tpb_read`; the single token
`READ`, in any letter case, is rejected with "Illegal transaction option was specified". -/
theorem C14_read_only (opt : List Nat) :
    (upper_copy opt = bytes "READ ONLY" →
      trans_parseopts opt =
        PRes.done [isc_tpb_version1, isc_tpb_read, isc_tpb_concurrency, isc_tpb_nowait]) ∧
    (upper_copy opt = bytes "READ" →
      trans_parseopts opt = PRes.fail "Illegal transaction option was specified") := by
  constructor
  · intro h
    rw [trans_parseopts_of_upper opt _ h]
    decide
  · intro h
    rw [trans_parseopts_of_upper opt _ h]
    decide

theorem C14_read_only_witness :
    trans_parseopts (bytes "read only") =
      PRes.done [isc_tpb_version1, isc_tpb_read, isc_tpb_concurrency, isc_tpb_nowait] :=
  (C14_read_only (bytes "read only")).1 (by decide)

/-- C14 fails as stated: the option string `READ` is not parsed to a block; it is rejected
with "Illegal transaction option was specified". -/
theorem C14_counterexample :
    trans_parseopts (bytes "READ") = PRes.fail "Illegal transaction option was specified" ∧
    trans_parseopts (bytes "READ") ≠
      PRes.done [isc_tpb_version1, isc_tpb_read, isc_tpb_concurrency, isc_tpb_nowait] := by
  decide

/-- C17 fails on the code: with the comma ending the `READ` token, the table of the second
clause is read and dropped and the token `FOR` is taken for the next directive, so the string
is rejected; with a standalone comma, or a comma starting the next token, the two clauses
are parsed and each table carries the lock bytes of its own clause. -/
theorem C17_comma_after_lock_word_is_rejected :
    trans_parseopts (bytes "RESERVING a FOR SHARED READ, b FOR PROTECTED WRITE")
      = PRes.fail "Illegal transaction option was specified" ∧
    trans_parseopts (bytes "RESERVING a FOR SHARED READ , b FOR PROTECTED WRITE")
      = PRes.done [1, 9, 2, 7, isc_tpb_lock_read, 1, 65, isc_tpb_shared,
          isc_tpb_lock_write, 1, 66, isc_tpb_protected] ∧
    trans_parseopts (bytes "RESERVING a FOR SHARED READ ,b FOR PROTECTED WRITE")
      = PRes.done [1, 9, 2, 7, isc_tpb_lock_read, 1, 65, isc_tpb_shared,
          isc_tpb_lock_write, 1, 66, isc_tpb_protected] := by
  decide

/-- C18 fails on the code: with one space between `T1` and `FOR` the block reserves the
table `T1`; with two spaces the scan of the table list runs into the token `FOR` and the
block reserves a second table, named `FOR`. -/
theorem C18_second_space_adds_a_table :
    trans_parseopts (bytes "RESERVING T1 FOR SHARED READ")
      = PRes.done [1, 9, 2, 7, isc_tpb_lock_read, 2, 84, 49, isc_tpb_shared] ∧
    trans_parseopts (bytes "RESERVING T1  FOR SHARED READ")
      = PRes.done [1, 9, 2, 7, isc_tpb_lock_read, 2, 84, 49, isc_tpb_shared,
          isc_tpb_lock_read, 3, 70, 79, 82, isc_tpb_shared] := by
  decide

/-! ## TPB parser: C strings and `strtok` on a string of tokens -/

theorem takeWhile_append_stop {α : Type} (p : α → Bool) (l r : List α) (a : α)
    (hl : ∀ x ∈ l, p x = true) (ha : p a = false) : (l ++ a :: r).takeWhile p = l := by
  induction l with
  | nil => simp [List.takeWhile, ha]
  | cons x xs ih =>
    have hx : p x = true := hl x (List.mem_cons_self _ _)
    rw [List.cons_append, List.takeWhile_cons, hx]
    simp only [if_true]
    rw [ih (fun y hy => hl y (List.mem_cons_of_mem _ hy))]

theorem takeWhile_all {α : Type} (p : α → Bool) (l : List α) (hl : ∀ x ∈ l, p x = true) :
    l.takeWhile p = l := by
  induction l with
  | nil => rfl
  | cons x xs ih =>
    have hx : p x = true := hl x (List.mem_cons_self _ _)
    rw [List.takeWhile_cons, hx]
    simp only [if_true]
    rw [ih (fun y hy => hl y (List.mem_cons_of_mem _ hy))]

theorem peek_at (pre : List Nat) (x : Nat) (post : List Nat) :
    peek (pre ++ x :: post) pre.length = x := by
  unfold peek
  rw [List.getD_eq_getElem?_getD, List.getElem?_append_right (le_refl _)]
  simp

theorem peek_end (pre : List Nat) : peek pre pre.length = 0 := by
  simp [peek, List.getD_eq_getElem?_getD]

theorem peek_after (pre w : List Nat) (x : Nat) (post : List Nat) :
    peek (pre ++ (w ++ x :: post)) (pre.length + w.length) = x := by
  have := peek_at (pre ++ w) x post
  simpa [List.append_assoc] using this

theorem peek_after_end (pre w : List Nat) : peek (pre ++ w) (pre.length + w.length) = 0 := by
  have := peek_end (pre ++ w)
  simpa using this

theorem cstr_at_nul (pre w post : List Nat) (hw : ∀ c ∈ w, c ≠ 0) :
    cstr (pre ++ (w ++ 0 :: post)) pre.length = w := by
  unfold cstr
  rw [List.drop_left']
  · exact takeWhile_append_stop _ w post 0 (fun c hc => by simpa using hw c hc) (by simp)
  · rfl

theorem cstr_at_end (pre w : List Nat) (hw : ∀ c ∈ w, c ≠ 0) :
    cstr (pre ++ w) pre.length = w := by
  unfold cstr
  rw [List.drop_left']
  · exact takeWhile_all _ w (fun c hc => by simpa using hw c hc)
  · rfl

theorem strspn_at_stop (pre w post : List Nat) (x : Nat) (accept : List Nat)
    (hw : ∀ c ∈ w, c ∈ accept) (hx : x ∉ accept) :
    strspn (pre ++ (w ++ x :: post)) pre.length accept = w.length := by
  unfold strspn
  rw [List.drop_left' rfl, takeWhile_append_stop _ w post x
    (fun c hc => by simpa using hw c hc) (by simpa using hx)]

theorem strspn_at_end (pre w : List Nat) (accept : List Nat) (hw : ∀ c ∈ w, c ∈ accept) :
    strspn (pre ++ w) pre.length accept = w.length := by
  unfold strspn
  rw [List.drop_left' rfl, takeWhile_all _ w (fun c hc => by simpa using hw c hc)]

theorem strpbrk_at_stop (pre w post : List Nat) (x : Nat) (accept : List Nat)
    (hw : ∀ c ∈ w, c ≠ 0 ∧ c ∉ accept) (hx : x ∈ accept) :
    strpbrk (pre ++ (w ++ x :: post)) pre.length accept = some (pre.length + w.length) := by
  unfold strpbrk
  have htw : ((pre ++ (w ++ x :: post)).drop pre.length).takeWhile
      (fun c => c != 0 && !accept.contains c) = w := by
    rw [List.drop_left' rfl]
    refine takeWhile_append_stop _ w post x (fun c hc => ?_) ?_
    · have := hw c hc
      simp [this.1, this.2]
    · simp [hx]
  rw [htw, peek_after]
  simp [hx]

theorem strpbrk_at_nul (pre w post : List Nat) (accept : List Nat)
    (hw : ∀ c ∈ w, c ≠ 0 ∧ c ∉ accept) (h0 : 0 ∉ accept) :
    strpbrk (pre ++ (w ++ 0 :: post)) pre.length accept = none := by
  unfold strpbrk
  have htw : ((pre ++ (w ++ 0 :: post)).drop pre.length).takeWhile
      (fun c => c != 0 && !accept.contains c) = w := by
    rw [List.drop_left' rfl]
    refine takeWhile_append_stop _ w post 0 (fun c hc => ?_) ?_
    · have := hw c hc
      simp [this.1, this.2]
    · simp
  rw [htw, peek_after]
  simp [h0]

theorem strpbrk_at_end (pre w : List Nat) (accept : List Nat)
    (hw : ∀ c ∈ w, c ≠ 0 ∧ c ∉ accept) (h0 : 0 ∉ accept) :
    strpbrk (pre ++ w) pre.length accept = none := by
  unfold strpbrk
  have htw : ((pre ++ w).drop pre.length).takeWhile
      (fun c => c != 0 && !accept.contains c) = w := by
    rw [List.drop_left' rfl]
    refine takeWhile_all _ w (fun c hc => ?_)
    have := hw c hc
    simp [this.1, this.2]
  rw [htw, peek_after_end]
  simp [h0]

theorem set_after (pre w post : List Nat) (x v : Nat) :
    (pre ++ (w ++ x :: post)).set (pre.length + w.length) v = pre ++ (w ++ v :: post) := by
  rw [← List.append_assoc, ← List.append_assoc]
  have : pre.length + w.length = (pre ++ w).length := by simp
  rw [this, List.set_append_right _ _ (le_refl _)]
  simp

theorem strtok_word (pre w post : List Nat) (d : Nat) (hw : Wordy w)
    (hd : d ∈ CMND_DELIMIT) :
    strtok ⟨pre ++ (w ++ d :: post), pre.length⟩ CMND_DELIMIT =
      (some pre.length, ⟨pre ++ (w ++ 0 :: post), pre.length + w.length + 1⟩) := by
  obtain ⟨c, cs, rfl⟩ := List.exists_cons_of_ne_nil hw.1
  have hc := hw.2 c (List.mem_cons_self _ _)
  have hsp : strspn (pre ++ (c :: cs ++ d :: post)) pre.length CMND_DELIMIT = 0 := by
    have := strspn_at_stop pre [] (cs ++ d :: post) c CMND_DELIMIT (by simp) hc.2
    simpa using this
  have hpk : peek (pre ++ (c :: cs ++ d :: post)) pre.length = c := by
    simpa using peek_at pre c (cs ++ d :: post)
  unfold strtok
  simp only [hsp, Nat.add_zero, hpk, hc.1, if_false]
  rw [strpbrk_at_stop pre (c :: cs) post d CMND_DELIMIT hw.2 hd]
  simp only [set_after]

theorem strtok_last (pre w : List Nat) (hw : Wordy w) :
    strtok ⟨pre ++ w, pre.length⟩ CMND_DELIMIT =
      (some pre.length, ⟨pre ++ w, pre.length + w.length⟩) := by
  obtain ⟨c, cs, rfl⟩ := List.exists_cons_of_ne_nil hw.1
  have hc := hw.2 c (List.mem_cons_self _ _)
  have hsp : strspn (pre ++ (c :: cs)) pre.length CMND_DELIMIT = 0 := by
    cases cs with
    | nil =>
      have := strspn_at_end pre [] CMND_DELIMIT (by simp)
      unfold strspn at this ⊢
      simp [List.drop_left', hc.2]
    | cons c2 cs2 =>
      have := strspn_at_stop pre [] (c2 :: cs2) c CMND_DELIMIT (by simp) hc.2
      simpa using this
  have hpk : peek (pre ++ (c :: cs)) pre.length = c := by
    simpa using peek_at pre c cs
  unfold strtok
  simp only [hsp, Nat.add_zero, hpk, hc.1, if_false]
  rw [strpbrk_at_end pre (c :: cs) CMND_DELIMIT hw.2 (by decide)]
  simp only [strlen, cstr_at_end pre (c :: cs) (fun x hx => (hw.2 x hx).1)]

theorem strtok_none (pre : List Nat) :
    strtok ⟨pre, pre.length⟩ CMND_DELIMIT = (none, ⟨pre, pre.length⟩) := by
  have hsp : strspn pre pre.length CMND_DELIMIT = 0 := by
    unfold strspn
    simp
  unfold strtok
  simp only [hsp, Nat.add_zero, peek_end, if_true]

theorem term_length (g : List Nat) : (term g).length = g.length := by
  cases g <;> rfl

theorem term_cut (g : List Nat) : term g = List.replicate (cut g) 0 ++ g.tail := by
  cases g <;> rfl

theorem cstr_term (mem pre w g post : List Nat) (p : Nat)
    (hm : mem = pre ++ (w ++ (term g ++ post))) (hp : p = pre.length)
    (hw : ∀ c ∈ w, c ≠ 0) (hpost : g = [] → post = []) : cstr mem p = w := by
  subst hm hp
  cases g with
  | nil =>
    rw [hpost rfl]
    simpa [term] using cstr_at_end pre w hw
  | cons d g1 =>
    simpa [term] using cstr_at_nul pre w (g1 ++ post) hw

theorem strtok_gap_word (mem pre g w gr post : List Nat) (p : Nat)
    (hm : mem = pre ++ (g ++ (w ++ (gr ++ post)))) (hp : p = pre.length)
    (hg : Gap g) (hw : Wordy w) (hgr : Gap gr) (hpost : gr = [] → post = []) :
    strtok ⟨mem, p⟩ CMND_DELIMIT =
      (some (p + g.length),
        ⟨pre ++ (g ++ (w ++ (term gr ++ post))), p + g.length + w.length + cut gr⟩) := by
  subst hm hp
  obtain ⟨c, cs, rfl⟩ := List.exists_cons_of_ne_nil hw.1
  have hc := hw.2 c (List.mem_cons_self _ _)
  have hsp : strspn (pre ++ (g ++ (c :: cs ++ (gr ++ post)))) pre.length CMND_DELIMIT
      = g.length := by
    have := strspn_at_stop pre g (cs ++ (gr ++ post)) c CMND_DELIMIT hg hc.2
    simpa using this
  have hpk : peek (pre ++ (g ++ (c :: cs ++ (gr ++ post)))) (pre.length + g.length) = c := by
    simpa using peek_after pre g c (cs ++ (gr ++ post))
  unfold strtok
  simp only [hsp, hpk, hc.1, if_false]
  cases gr with
  | nil =>
    rw [hpost rfl]
    have h1 := strpbrk_at_end (pre ++ g) (c :: cs) CMND_DELIMIT hw.2 (by decide)
    have h2 := cstr_at_end (pre ++ g) (c :: cs) (fun x hx => (hw.2 x hx).1)
    simp only [List.length_append, List.append_assoc] at h1 h2
    simp only [List.nil_append, List.append_nil, h1, strlen, h2, term, cut, Nat.add_zero]
  | cons d gr1 =>
    have hd : d ∈ CMND_DELIMIT := hgr d (List.mem_cons_self _ _)
    have h1 := strpbrk_at_stop (pre ++ g) (c :: cs) (gr1 ++ post) d CMND_DELIMIT hw.2 hd
    have h2 := set_after (pre ++ g) (c :: cs) (gr1 ++ post) d 0
    simp only [List.length_append, List.append_assoc] at h1 h2
    simp only [List.cons_append, term, cut] at h1 h2 ⊢
    simp only [h1, h2]

theorem strtok_gap_none (mem pre g : List Nat) (p : Nat) (hm : mem = pre ++ g)
    (hp : p = pre.length) (hg : Gap g) :
    strtok ⟨mem, p⟩ CMND_DELIMIT = (none, ⟨mem, p + g.length⟩) := by
  subst hm hp
  have hsp : strspn (pre ++ g) pre.length CMND_DELIMIT = g.length :=
    strspn_at_end pre g CMND_DELIMIT hg
  unfold strtok
  simp only [hsp, peek_after_end, if_true]

/-! ## TPB parser: the directive loop on a string of tokens -/

theorem GapsOk_cons (w g : List Nat) (rest : List (List Nat × List Nat))
    (h : GapsOk ((w, g) :: rest)) :
    Wordy w ∧ Gap g ∧ (rest ≠ [] → g ≠ []) ∧ GapsOk rest := by
  cases rest with
  | nil => exact ⟨h.1, h.2, fun hne => absurd rfl hne, trivial⟩
  | cons r rs => exact ⟨h.1, h.2.1, fun _ => h.2.2.1, h.2.2.2⟩

theorem GapsOk_append_right (xs ys : List (List Nat × List Nat)) (h : GapsOk (xs ++ ys)) :
    GapsOk ys := by
  induction xs with
  | nil => exact h
  | cons x xs ih =>
    obtain ⟨w, g⟩ := x
    exact ih (GapsOk_cons w g (xs ++ ys) h).2.2.2

theorem Gap_tail (g : List Nat) (h : Gap g) : Gap g.tail :=
  fun c hc => h c (List.mem_of_mem_tail hc)

theorem term_of_ne_nil (g : List Nat) (h : g ≠ []) : term g = 0 :: g.tail := by
  cases g with
  | nil => exact absurd rfl h
  | cons d g1 => rfl

theorem cut_of_ne_nil (g : List Nat) (h : g ≠ []) : cut g = 1 := by
  cases g with
  | nil => exact absurd rfl h
  | cons d g1 => rfl

theorem length_term_eq (g : List Nat) : (term g).length = cut g + g.tail.length := by
  cases g with
  | nil => rfl
  | cons d g1 => simp [term, cut]; omega

theorem lay_with (pre : List Nat) (items : List (List Nat × List Nat)) (b b2 : Tpb)
    (cf cf2 : List Bool) :
    ({ lay pre items b cf with b := b2, check_f := cf2 } : PState) = lay pre items b2 cf2 := by
  match items with
  | [] => rfl
  | [_] => rfl
  | [_, _] => rfl
  | _ :: _ :: _ :: _ => rfl

theorem lay_b (pre : List Nat) (items : List (List Nat × List Nat)) (b : Tpb)
    (cf : List Bool) : (lay pre items b cf).b = b := by
  match items with
  | [] => rfl
  | [_] => rfl
  | [_, _] => rfl
  | _ :: _ :: _ :: _ => rfl

theorem lay_check_f (pre : List Nat) (items : List (List Nat × List Nat)) (b : Tpb)
    (cf : List Bool) : (lay pre items b cf).check_f = cf := by
  match items with
  | [] => rfl
  | [_] => rfl
  | [_, _] => rfl
  | _ :: _ :: _ :: _ => rfl

theorem lay_check1 (pre : List Nat) (items : List (List Nat × List Nat)) (b : Tpb)
    (cf : List Bool) (hw : GapsOk items) :
    (lay pre items b cf).check1_p.map (cstr (lay pre items b cf).t.mem) =
      (items.map Prod.fst).head? := by
  match items, hw with
  | [], _ => rfl
  | [(a, ga)], hw =>
    have ha := (GapsOk_cons a ga [] hw).1
    simp only [lay, Option.map_some', List.map_cons, List.head?_cons]
    rw [cstr_term _ pre a ga [] _ (by simp) rfl (fun c hc => (ha.2 c hc).1) (fun _ => rfl)]
  | [(a, ga), (c, gc)], hw =>
    have h := GapsOk_cons a ga _ hw
    simp only [lay, Option.map_some', List.map_cons, List.head?_cons]
    rw [cstr_term _ pre a ga (c ++ term gc) _ rfl rfl (fun c hc => (h.1.2 c hc).1)
      (fun hg => absurd hg (h.2.2.1 (by simp)))]
  | (a, ga) :: (c, gc) :: r :: rs, hw =>
    have h := GapsOk_cons a ga _ hw
    simp only [lay, Option.map_some', List.map_cons, List.head?_cons]
    rw [cstr_term _ pre a ga _ _ rfl rfl (fun c hc => (h.1.2 c hc).1)
      (fun hg => absurd hg (h.2.2.1 (by simp)))]

theorem lay_check2 (pre : List Nat) (items : List (List Nat × List Nat)) (b : Tpb)
    (cf : List Bool) (hw : GapsOk items) :
    (lay pre items b cf).check2_p.map (cstr (lay pre items b cf).t.mem) =
      (items.map Prod.fst).tail.head? := by
  match items, hw with
  | [], _ => rfl
  | [(a, ga)], hw => rfl
  | [(a, ga), (c, gc)], hw =>
    have h := GapsOk_cons a ga _ hw
    have hc := GapsOk_cons c gc _ h.2.2.2
    simp only [lay, Option.map_some', List.map_cons, List.tail_cons, List.head?_cons]
    rw [cstr_term _ (pre ++ (a ++ term ga)) c gc [] _ (by simp) (by simp; omega)
      (fun x hx => (hc.1.2 x hx).1) (fun _ => rfl)]
  | (a, ga) :: (c, gc) :: r :: rs, hw =>
    have h := GapsOk_cons a ga _ hw
    have hc := GapsOk_cons c gc _ h.2.2.2
    simp only [lay, Option.map_some', List.map_cons, List.tail_cons, List.head?_cons]
    rw [cstr_term _ (pre ++ (a ++ term ga)) c gc (spaced (r :: rs)) _ (by simp)
      (by simp; omega) (fun x hx => (hc.1.2 x hx).1) (fun hg => absurd hg (hc.2.2.1 (by simp)))]

theorem PState_ext (t t2 : Tok) (b : Tpb) (cf : List Bool) (c1 c2 d1 d2 : Option Nat)
    (ht : t = t2) (h1 : c1 = d1) (h2 : c2 = d2) :
    (⟨t, b, cf, c1, c2⟩ : PState) = ⟨t2, b, cf, d1, d2⟩ := by
  subst ht h1 h2
  rfl

theorem Tok_ext (m m2 : List Nat) (s s2 : Nat) (hm : m = m2) (hs : s = s2) :
    (⟨m, s⟩ : Tok) = ⟨m2, s2⟩ := by
  subst hm hs
  rfl

theorem advance_tokens_lay (pre a ga : List Nat) (items : List (List Nat × List Nat))
    (b : Tpb) (cf : List Bool) (hw : GapsOk ((a, ga) :: items)) :
    advance_tokens 1 (lay pre ((a, ga) :: items) b cf) =
      lay (pre ++ (a ++ term ga)) items b cf := by
  have h := GapsOk_cons a ga _ hw
  match items, h with
  | [], _ =>
    simp only [advance_tokens, lay]
    exact PState_ext _ _ _ _ _ _ _ _ (Tok_ext _ _ _ _ rfl (by simp; omega)) rfl rfl
  | [(c, gc)], h =>
    have hc := GapsOk_cons c gc _ h.2.2.2
    have hs := strtok_gap_none (pre ++ (a ++ (term ga ++ (c ++ term gc))))
      (pre ++ (a ++ (term ga ++ (c ++ List.replicate (cut gc) 0)))) gc.tail
      (pre.length + a.length + (term ga).length + c.length + cut gc)
      (by rw [term_cut gc]; simp) (by simp; omega) (Gap_tail gc hc.2.1)
    simp only [advance_tokens, lay, hs]
    exact PState_ext _ _ _ _ _ _ _ _
      (Tok_ext _ _ _ _ (by simp) (by simp [length_term_eq gc]; omega)) (by simp; omega) rfl
  | [(c, gc), (r, gr)], h =>
    have hc := GapsOk_cons c gc _ h.2.2.2
    have hr := GapsOk_cons r gr _ hc.2.2.2
    have hgc : gc ≠ [] := hc.2.2.1 (by simp)
    have hs := strtok_gap_word (pre ++ (a ++ (term ga ++ (c ++ (term gc ++ spaced [(r, gr)])))))
      (pre ++ (a ++ (term ga ++ (c ++ [0])))) gc.tail r gr []
      (pre.length + a.length + (term ga).length + c.length + cut gc)
      (by rw [term_of_ne_nil gc hgc]; simp [spaced])
      (by rw [cut_of_ne_nil gc hgc]; simp; omega) (Gap_tail gc hc.2.1) hr.1 hr.2.1 (fun _ => rfl)
    simp only [advance_tokens, lay, hs]
    exact PState_ext _ _ _ _ _ _ _ _
      (Tok_ext _ _ _ _ (by rw [term_of_ne_nil gc hgc]; simp)
        (by rw [term_of_ne_nil gc hgc, cut_of_ne_nil gc hgc]; simp; omega))
      (by simp; omega)
      (by rw [term_of_ne_nil gc hgc, cut_of_ne_nil gc hgc]; simp; omega)
  | (c, gc) :: (r, gr) :: r2 :: rs, h =>
    have hc := GapsOk_cons c gc _ h.2.2.2
    have hr := GapsOk_cons r gr _ hc.2.2.2
    have hgc : gc ≠ [] := hc.2.2.1 (by simp)
    have hgr : gr ≠ [] := hr.2.2.1 (by simp)
    have hs := strtok_gap_word
      (pre ++ (a ++ (term ga ++ (c ++ (term gc ++ spaced ((r, gr) :: r2 :: rs))))))
      (pre ++ (a ++ (term ga ++ (c ++ [0])))) gc.tail r gr (spaced (r2 :: rs))
      (pre.length + a.length + (term ga).length + c.length + cut gc)
      (by rw [term_of_ne_nil gc hgc]; simp [spaced])
      (by rw [cut_of_ne_nil gc hgc]; simp; omega) (Gap_tail gc hc.2.1) hr.1 hr.2.1
      (fun hg => absurd hg hgr)
    simp only [advance_tokens, lay, hs]
    exact PState_ext _ _ _ _ _ _ _ _
      (Tok_ext _ _ _ _ (by rw [term_of_ne_nil gc hgc]; simp)
        (by rw [term_of_ne_nil gc hgc, cut_of_ne_nil gc hgc]; simp; omega))
      (by simp; omega)
      (by rw [term_of_ne_nil gc hgc, cut_of_ne_nil gc hgc]; simp; omega)

theorem advance_tokens_add (m n : Nat) (st : PState) :
    advance_tokens (m + n) st = advance_tokens n (advance_tokens m st) := by
  induction m generalizing st with
  | zero => simp [advance_tokens]
  | succ m ih =>
    have : m + 1 + n = (m + n) + 1 := by omega
    rw [this]
    simp only [advance_tokens]
    cases st.check2_p with
    | none => simp only [ih]
    | some p => simp only [ih]

theorem advance_tokens_lay2 (pre a ga c gc : List Nat) (items : List (List Nat × List Nat))
    (b : Tpb) (cf : List Bool) (hw : GapsOk ((a, ga) :: (c, gc) :: items)) :
    advance_tokens 2 (lay pre ((a, ga) :: (c, gc) :: items) b cf) =
      lay (pre ++ (a ++ term ga) ++ (c ++ term gc)) items b cf := by
  have h := advance_tokens_add 1 1 (lay pre ((a, ga) :: (c, gc) :: items) b cf)
  simp only [Nat.reduceAdd] at h
  rw [h, advance_tokens_lay pre a ga _ b cf hw,
    advance_tokens_lay _ c gc items b cf (GapsOk_cons a ga _ hw).2.2.2]

theorem initial_state_spaced (g0 : List Nat) (items : List (List Nat × List Nat))
    (hg : Gap g0) (hw : GapsOk items) :
    initial_state (g0 ++ spaced items) =
      lay g0 items ⟨memcpy [] 0 isc_tpb_0, 4, TPBBUFF_ALLOC⟩ [false, false, false, false] := by
  match items, hw with
  | [], _ =>
    have h := strtok_gap_none (g0 ++ spaced []) [] g0 0 (by simp [spaced]) rfl hg
    simp only [initial_state, h, lay]
    simp [spaced]
  | [(a, ga)], hw =>
    have ha := GapsOk_cons a ga _ hw
    have h := strtok_gap_word (g0 ++ spaced [(a, ga)]) [] g0 a ga [] 0 (by simp [spaced]) rfl hg
      ha.1 ha.2.1 (fun _ => rfl)
    have h2 := strtok_gap_none (g0 ++ (a ++ term ga)) (g0 ++ (a ++ List.replicate (cut ga) 0))
      ga.tail (0 + g0.length + a.length + cut ga) (by rw [term_cut ga]; simp) (by simp; omega)
      (Gap_tail ga ha.2.1)
    simp only [List.nil_append, List.append_nil] at h
    simp only [initial_state, h, lay, h2]
    simp [length_term_eq ga]
    omega
  | [(a, ga), (c, gc)], hw =>
    have ha := GapsOk_cons a ga _ hw
    have hc := GapsOk_cons c gc _ ha.2.2.2
    have hga : ga ≠ [] := ha.2.2.1 (by simp)
    have h := strtok_gap_word (g0 ++ spaced [(a, ga), (c, gc)]) [] g0 a ga (spaced [(c, gc)]) 0
      (by simp [spaced]) rfl hg ha.1 ha.2.1 (fun hx => absurd hx hga)
    have h2 := strtok_gap_word (g0 ++ (a ++ (term ga ++ spaced [(c, gc)]))) (g0 ++ (a ++ [0]))
      ga.tail c gc [] (0 + g0.length + a.length + cut ga)
      (by rw [term_of_ne_nil ga hga]; simp [spaced])
      (by rw [cut_of_ne_nil ga hga]; simp; omega) (Gap_tail ga ha.2.1) hc.1 hc.2.1 (fun _ => rfl)
    simp only [List.nil_append, List.append_nil] at h h2
    simp only [initial_state, h, lay, h2]
    rw [term_of_ne_nil ga hga, cut_of_ne_nil ga hga]
    simp
    omega
  | (a, ga) :: (c, gc) :: r :: rs, hw =>
    have ha := GapsOk_cons a ga _ hw
    have hc := GapsOk_cons c gc _ ha.2.2.2
    have hga : ga ≠ [] := ha.2.2.1 (by simp)
    have hgc : gc ≠ [] := hc.2.2.1 (by simp)
    have h := strtok_gap_word (g0 ++ spaced ((a, ga) :: (c, gc) :: r :: rs)) [] g0 a ga
      (spaced ((c, gc) :: r :: rs)) 0
      (by simp [spaced]) rfl hg ha.1 ha.2.1 (fun hx => absurd hx hga)
    have h2 := strtok_gap_word (g0 ++ (a ++ (term ga ++ spaced ((c, gc) :: r :: rs))))
      (g0 ++ (a ++ [0])) ga.tail c gc (spaced (r :: rs)) (0 + g0.length + a.length + cut ga)
      (by rw [term_of_ne_nil ga hga]; simp [spaced])
      (by rw [cut_of_ne_nil ga hga]; simp; omega) (Gap_tail ga ha.2.1) hc.1 hc.2.1
      (fun hx => absurd hx hgc)
    simp only [List.nil_append, List.append_nil] at h h2
    simp only [initial_state, h, lay, h2]
    rw [term_of_ne_nil ga hga, cut_of_ne_nil ga hga]
    simp
    omega

theorem strtok_tk (pre a ga c gc : List Nat) (rest : List (List Nat × List Nat))
    (hw : GapsOk ((a, ga) :: (c, gc) :: rest)) :
    strtok (tk pre a ga ((c, gc) :: rest)) CMND_DELIMIT =
      (some (pre.length + a.length + ga.length), tk (pre ++ (a ++ term ga)) c gc rest) := by
  have ha := GapsOk_cons a ga _ hw
  have hc := GapsOk_cons c gc _ ha.2.2.2
  have hga : ga ≠ [] := ha.2.2.1 (by simp)
  have hs := strtok_gap_word (tk pre a ga ((c, gc) :: rest)).mem (pre ++ (a ++ [0])) ga.tail c gc
    (spaced rest) (tk pre a ga ((c, gc) :: rest)).sp
    (by simp [tk, term_of_ne_nil ga hga, spaced])
    (by simp [tk, cut_of_ne_nil ga hga]; omega) (Gap_tail ga ha.2.1) hc.1 hc.2.1
    (fun hg => by
      cases rest with
      | nil => rfl
      | cons r rs => exact absurd hg (hc.2.2.1 (by simp)))
  have hlen : ga.length = 1 + ga.tail.length := by
    cases ga with
    | nil => exact absurd rfl hga
    | cons d g1 => simp; omega
  show strtok ⟨(tk pre a ga ((c, gc) :: rest)).mem, (tk pre a ga ((c, gc) :: rest)).sp⟩ _ = _
  rw [hs]
  simp only [tk, term_of_ne_nil ga hga, cut_of_ne_nil ga hga, List.length_append,
    List.length_cons, List.append_assoc, List.cons_append, List.nil_append, List.length_nil]
  refine Prod.ext ?_ (Tok_ext _ _ _ _ rfl ?_)
  · simp only [Option.some.injEq]
    omega
  · show _ + _ = _
    omega

theorem strtok_tk_end (pre a ga : List Nat) (hw : GapsOk [(a, ga)]) :
    strtok (tk pre a ga []) CMND_DELIMIT =
      (none, ⟨pre ++ (a ++ term ga), pre.length + a.length + ga.length⟩) := by
  have ha := GapsOk_cons a ga _ hw
  have hs := strtok_gap_none (tk pre a ga []).mem (pre ++ (a ++ List.replicate (cut ga) 0))
    ga.tail (tk pre a ga []).sp (by simp [tk, spaced, term_cut ga]) (by simp [tk]; omega)
    (Gap_tail ga ha.2.1)
  show strtok ⟨(tk pre a ga []).mem, (tk pre a ga []).sp⟩ _ = _
  rw [hs]
  have hlen : ga.length = cut ga + ga.tail.length := by
    rw [← length_term_eq, term_length]
  simp only [tk, spaced, List.append_nil]
  refine Prod.ext rfl (Tok_ext _ _ _ _ rfl ?_)
  show _ + _ = _
  omega

theorem lay_cons_cons (pre a ga c gc : List Nat) (rest : List (List Nat × List Nat)) (b : Tpb)
    (cf : List Bool) :
    lay pre ((a, ga) :: (c, gc) :: rest) b cf =
      ⟨tk (pre ++ (a ++ term ga)) c gc rest, b, cf, some pre.length,
        some (pre.length + a.length + (term ga).length)⟩ := by
  cases rest with
  | nil =>
    simp only [lay, tk, spaced, List.append_nil]
    exact PState_ext _ _ _ _ _ _ _ _ (Tok_ext _ _ _ _ (by simp) (by simp; omega)) rfl rfl
  | cons r rs =>
    simp only [lay, tk]
    exact PState_ext _ _ _ _ _ _ _ _ (Tok_ext _ _ _ _ (by simp) (by simp; omega)) rfl rfl

theorem advance_tokens_lay_nil (n : Nat) (pre : List Nat) (b : Tpb) (cf : List Bool) :
    advance_tokens n (lay pre [] b cf) = lay pre [] b cf := by
  induction n with
  | zero => rfl
  | succ n ih =>
    simp only [advance_tokens, lay] at ih ⊢
    exact ih

theorem advance_tokens_skip (n : Nat) (pre : List Nat) (items : List (List Nat × List Nat))
    (b : Tpb) (cf : List Bool) (hw : GapsOk items) :
    advance_tokens n (lay pre items b cf) = lay (skip n pre items) (items.drop n) b cf := by
  induction n generalizing pre items with
  | zero => rfl
  | succ n ih =>
    cases items with
    | nil => exact advance_tokens_lay_nil _ _ _ _
    | cons x xs =>
      obtain ⟨a, ga⟩ := x
      have h := advance_tokens_add 1 n (lay pre ((a, ga) :: xs) b cf)
      rw [Nat.add_comm 1 n] at h
      rw [h, advance_tokens_lay pre a ga xs b cf hw, ih _ _ (GapsOk_cons a ga xs hw).2.2.2]
      rfl

theorem set_trans_option_of_store (target : trans_opts) (n : Nat) (st : PState)
    (hopt : 0 ≤ target.optval) :
    set_trans_option target n st =
      match slot_store target st.b st.check_f with
      | none => PRes.fail "Duplicate transaction option was specified"
      | some (b2, cf2) => PRes.done ({ st with b := b2, check_f := cf2 }, n) := by
  unfold set_trans_option slot_store
  by_cases h1 : target.optval > 0
  · simp only [h1, if_true]
    by_cases h2 : target.position > 0
    · simp only [h2, if_true]
      by_cases h3 : st.check_f.getD target.position.toNat false = true
      · simp only [h3, if_true]
      · simp only [h3]
        rfl
    · simp only [h2, if_false]
  · have h0 : target.optval = 0 := by omega
    have h4 : ¬ (0 : Int) > 0 := by decide
    simp only [h0, h4, if_false, ne_eq, not_true_eq_false]

theorem set_trans_option_store (target : trans_opts) (n : Nat) (pre : List Nat)
    (items : List (List Nat × List Nat)) (b : Tpb) (cf : List Bool)
    (hopt : 0 ≤ target.optval) :
    set_trans_option target n (lay pre items b cf) =
      match slot_store target b cf with
      | none => PRes.fail "Duplicate transaction option was specified"
      | some (b2, cf2) => PRes.done (lay pre items b2 cf2, n) := by
  rw [set_trans_option_of_store target n _ hopt, lay_b, lay_check_f]
  cases slot_store target b cf with
  | none => rfl
  | some r =>
    obtain ⟨b2, cf2⟩ := r
    simp only [lay_with]

theorem parse_loop_turn (fuel : Nat) (curr : OptTable) (pre : List Nat)
    (items : List (List Nat × List Nat)) (b : Tpb) (cf : List Bool) (hw : GapsOk items)
    (target : trans_opts) (n : Nat)
    (hft : find_target curr.entries (items.map Prod.fst).head? (items.map Prod.fst).tail.head?
      = some (target, n))
    (hopt : 0 ≤ target.optval) :
    parse_loop (fuel + 1) curr (lay pre items b cf) =
      match slot_store target b cf with
      | none => PRes.fail "Duplicate transaction option was specified"
      | some (b2, cf2) =>
        match target.sub_opts with
        | some sub => parse_loop fuel sub (lay (skip n pre items) (items.drop n) b2 cf2)
        | none =>
          if items.drop n = [] then PRes.done b2
          else parse_loop fuel OptTable.trans_opt_S
            (lay (skip n pre items) (items.drop n) b2 cf2) := by
  rw [parse_loop, lay_check1 pre items b cf hw, lay_check2 pre items b cf hw, hft]
  simp only [set_trans_option_store target n pre items b cf hopt]
  cases hs : slot_store target b cf with
  | none => rfl
  | some r =>
    obtain ⟨b2, cf2⟩ := r
    simp only [advance_tokens_skip n pre items b2 cf2 hw]
    cases target.sub_opts with
    | some sub => rfl
    | none =>
      simp only
      cases hd : items.drop n with
      | nil => simp [lay]
      | cons x xs =>
        match xs with
        | [] => simp [lay]
        | [_] => simp [lay]
        | _ :: _ :: _ => simp [lay]

theorem parse_loop_illegal (fuel : Nat) (curr : OptTable) (pre : List Nat)
    (items : List (List Nat × List Nat)) (b : Tpb) (cf : List Bool) (hw : GapsOk items)
    (hft : find_target curr.entries (items.map Prod.fst).head? (items.map Prod.fst).tail.head?
      = none) :
    parse_loop (fuel + 1) curr (lay pre items b cf) =
      PRes.fail "Illegal transaction option was specified" := by
  rw [parse_loop, lay_check1 pre items b cf hw, lay_check2 pre items b cf hw, hft]

/-! ## TPB parser: the turns of the directive loop -/

theorem skip_eq (n : Nat) (pre : List Nat) (items : List (List Nat × List Nat)) :
    skip n pre items = pre ++ termed (items.take n) := by
  induction n generalizing pre items with
  | zero => simp [skip, termed]
  | succ n ih =>
    cases items with
    | nil => simp [skip, termed]
    | cons x xs =>
      obtain ⟨a, ga⟩ := x
      simp [skip, termed, ih]

theorem find_target_trans_read (c2 : Option (List Nat)) :
    find_target OptTable.trans_opt_S.entries (some (bytes "READ")) c2 =
      some (⟨bytes "READ", none, 0, 0, some OptTable.read_opt_S⟩, 1) := by
  simp +decide only [OptTable.entries, find_target, if_true, if_false]

theorem find_target_trans_wait (c2 : Option (List Nat)) :
    find_target OptTable.trans_opt_S.entries (some (bytes "WAIT")) c2 =
      some (⟨bytes "WAIT", none, isc_tpb_wait, 3, none⟩, 1) := by
  simp +decide only [OptTable.entries, find_target, if_true, if_false]

theorem find_target_trans_snapshot (c2 : Option (List Nat)) :
    find_target OptTable.trans_opt_S.entries (some (bytes "SNAPSHOT")) c2 =
      some (⟨bytes "SNAPSHOT", none, 0, 0, some OptTable.snap_opt_S⟩, 1) := by
  simp +decide only [OptTable.entries, find_target, if_true, if_false]

theorem find_target_trans_reserving (c2 : Option (List Nat)) :
    find_target OptTable.trans_opt_S.entries (some (bytes "RESERVING")) c2 =
      some (⟨bytes "RESERVING", none, -1, 0, none⟩, 1) := by
  simp +decide only [OptTable.entries, find_target, if_true, if_false]

theorem find_target_read_write (c2 : Option (List Nat)) :
    find_target OptTable.read_opt_S.entries (some (bytes "WRITE")) c2 =
      some (⟨bytes "WRITE", none, isc_tpb_write, 1, none⟩, 1) := by
  simp +decide only [OptTable.entries, find_target, if_true, if_false]

theorem find_target_read_only (c2 : Option (List Nat)) :
    find_target OptTable.read_opt_S.entries (some (bytes "ONLY")) c2 =
      some (⟨bytes "ONLY", none, isc_tpb_read, 1, none⟩, 1) := by
  simp +decide only [OptTable.entries, find_target, if_true, if_false]

theorem find_target_read_committed (c2 : Option (List Nat)) :
    find_target OptTable.read_opt_S.entries (some (bytes "COMMITTED")) c2 =
      some (⟨bytes "COMMITTED", none, isc_tpb_read_committed, 2, some OptTable.rcom_opt_S⟩, 1) := by
  simp +decide only [OptTable.entries, find_target, if_true, if_false]

theorem find_target_isol_snapshot (c2 : Option (List Nat)) :
    find_target OptTable.isol_opt_S.entries (some (bytes "SNAPSHOT")) c2 =
      some (⟨bytes "SNAPSHOT", none, 0, 0, some OptTable.snap_opt_S⟩, 1) := by
  simp +decide only [OptTable.entries, find_target, if_true, if_false]

theorem find_target_rcom_version (c2 : Option (List Nat)) :
    find_target OptTable.rcom_opt_S.entries (some (bytes "RECORD_VERSION")) c2 =
      some (⟨bytes "RECORD_VERSION", none, isc_tpb_rec_version, -1, none⟩, 1) := by
  simp +decide only [OptTable.entries, find_target, if_true, if_false]

theorem find_target_rcom_star (c1 c2 : Option (List Nat))
    (h1 : c1 ≠ some (bytes "RECORD_VERSION"))
    (h2 : ¬ (c1 = some (bytes "NO") ∧ c2 = some (bytes "RECORD_VERSION"))) :
    find_target OptTable.rcom_opt_S.entries c1 c2 =
      some (⟨bytes "*", none, isc_tpb_no_rec_version, -1, none⟩, 0) := by
  simp +decide only [OptTable.entries, find_target, h1, if_true, if_false]
  by_cases h3 : c1 = some (bytes "NO")
  · have h4 : c2 ≠ some (bytes "RECORD_VERSION") := fun h => h2 ⟨h3, h⟩
    simp +decide only [h3, h4, if_true, if_false]
  · simp +decide only [h3, if_true, if_false]

theorem find_target_snap_star (c1 c2 : Option (List Nat))
    (h2 : ¬ (c1 = some (bytes "TABLE") ∧ c2 = some (bytes "STABILITY"))) :
    find_target OptTable.snap_opt_S.entries c1 c2 =
      some (⟨bytes "*", none, isc_tpb_concurrency, 2, none⟩, 0) := by
  simp +decide only [OptTable.entries, find_target, if_true, if_false]
  by_cases h3 : c1 = some (bytes "TABLE")
  · have h4 : c2 ≠ some (bytes "STABILITY") := fun h => h2 ⟨h3, h⟩
    simp +decide only [h3, h4, if_true, if_false]
  · simp +decide only [h3, if_true, if_false]

theorem find_target_trans_no_wait :
    find_target OptTable.trans_opt_S.entries (some (bytes "NO")) (some (bytes "WAIT")) =
      some (⟨bytes "NO", some (bytes "WAIT"), isc_tpb_nowait, 3, none⟩, 2) := by
  decide

theorem find_target_trans_isolation :
    find_target OptTable.trans_opt_S.entries (some (bytes "ISOLATION")) (some (bytes "LEVEL")) =
      some (⟨bytes "ISOLATION", some (bytes "LEVEL"), 0, 0, some OptTable.isol_opt_S⟩, 2) := by
  decide

theorem find_target_isol_read_committed :
    find_target OptTable.isol_opt_S.entries (some (bytes "READ")) (some (bytes "COMMITTED")) =
      some (⟨bytes "READ", some (bytes "COMMITTED"), isc_tpb_read_committed, 2,
        some OptTable.rcom_opt_S⟩, 2) := by
  decide

theorem find_target_snap_stability :
    find_target OptTable.snap_opt_S.entries (some (bytes "TABLE")) (some (bytes "STABILITY")) =
      some (⟨bytes "TABLE", some (bytes "STABILITY"), isc_tpb_consistency, 2, none⟩, 2) := by
  decide

theorem find_target_rcom_no_version :
    find_target OptTable.rcom_opt_S.entries (some (bytes "NO"))
        (some (bytes "RECORD_VERSION")) =
      some (⟨bytes "NO", some (bytes "RECORD_VERSION"), isc_tpb_no_rec_version, -1, none⟩, 2) := by
  decide

theorem map_fst_cons (items : List (List Nat × List Nat)) (a : List Nat)
    (ws : List (List Nat)) (h : items.map Prod.fst = a :: ws) :
    ∃ g rest, items = (a, g) :: rest ∧ rest.map Prod.fst = ws := by
  cases items with
  | nil => simp at h
  | cons x xs =>
    obtain ⟨w, g⟩ := x
    simp only [List.map_cons, List.cons.injEq] at h
    exact ⟨g, xs, by rw [h.1], h.2⟩

theorem map_fst_nil (items : List (List Nat × List Nat)) (h : items.map Prod.fst = []) :
    items = [] := by
  cases items with
  | nil => rfl
  | cons x xs => simp at h

theorem slot_store_pos (o1 : List Nat) (o2 : Option (List Nat)) (v : Nat) (k : Int)
    (sub : Option OptTable) (b : Tpb) (cf : List Bool) (hv : 0 < v) (hk : 0 < k) :
    slot_store ⟨o1, o2, (v : Int), k, sub⟩ b cf =
      if cf.getD k.toNat false then none
      else some (⟨memcpy b.buf k [v], b.used, b.size⟩, cf.set k.toNat true) := by
  have h1 : (v : Int) > 0 := by omega
  simp only [slot_store, h1, if_true, hk, gt_iff_lt, Int.toNat_ofNat]

theorem slot_store_zero (o1 : List Nat) (o2 : Option (List Nat)) (k : Int)
    (sub : Option OptTable) (b : Tpb) (cf : List Bool) :
    slot_store ⟨o1, o2, 0, k, sub⟩ b cf = some (b, cf) := by
  simp [slot_store]

theorem slot_store_append (o1 : List Nat) (o2 : Option (List Nat)) (v : Nat)
    (sub : Option OptTable) (b : Tpb) (cf : List Bool) (hv : 0 < v) :
    slot_store ⟨o1, o2, (v : Int), -1, sub⟩ b cf =
      some (⟨memcpy b.buf b.used [v], b.used + 1, (tpb_reserve b (b.used + 1)).size⟩, cf) := by
  have h1 : (v : Int) > 0 := by omega
  have h2 : ¬ ((-1 : Int) > 0) := by decide
  simp only [slot_store, h1, if_true, h2, if_false, Int.toNat_ofNat]

theorem toNat_1 : (1 : Int).toNat = 1 := rfl

theorem toNat_2 : (2 : Int).toNat = 2 := rfl

theorem toNat_3 : (3 : Int).toNat = 3 := rfl

theorem turn_wait (fuel : Nat) (pre g : List Nat) (rest : List (List Nat × List Nat))
    (b : Tpb) (cf : List Bool) (hg : GapsOk ((bytes "WAIT", g) :: rest)) :
    parse_loop (fuel + 1) OptTable.trans_opt_S (lay pre ((bytes "WAIT", g) :: rest) b cf) =
      if cf.getD 3 false then PRes.fail "Duplicate transaction option was specified"
      else if rest = [] then PRes.done ⟨memcpy b.buf 3 [isc_tpb_wait], b.used, b.size⟩
      else parse_loop fuel OptTable.trans_opt_S
        (lay (pre ++ (bytes "WAIT" ++ term g)) rest
          ⟨memcpy b.buf 3 [isc_tpb_wait], b.used, b.size⟩ (cf.set 3 true)) := by
  rw [parse_loop_turn fuel _ pre _ b cf hg _ 1 (find_target_trans_wait _) (by decide),
    slot_store_pos _ _ _ _ _ _ _ (by decide) (by decide), toNat_3]
  cases hc : cf.getD 3 false with
  | true => simp only [if_true]
  | false => simp only [Bool.false_eq_true, if_false, skip, List.drop_succ_cons, List.drop_zero]

theorem turn_no_wait (fuel : Nat) (pre g g2 : List Nat) (rest : List (List Nat × List Nat))
    (b : Tpb) (cf : List Bool) (hg : GapsOk ((bytes "NO", g) :: (bytes "WAIT", g2) :: rest)) :
    parse_loop (fuel + 1) OptTable.trans_opt_S
        (lay pre ((bytes "NO", g) :: (bytes "WAIT", g2) :: rest) b cf) =
      if cf.getD 3 false then PRes.fail "Duplicate transaction option was specified"
      else if rest = [] then PRes.done ⟨memcpy b.buf 3 [isc_tpb_nowait], b.used, b.size⟩
      else parse_loop fuel OptTable.trans_opt_S
        (lay (pre ++ (bytes "NO" ++ term g) ++ (bytes "WAIT" ++ term g2)) rest
          ⟨memcpy b.buf 3 [isc_tpb_nowait], b.used, b.size⟩ (cf.set 3 true)) := by
  rw [parse_loop_turn fuel _ pre _ b cf hg _ 2 find_target_trans_no_wait (by decide),
    slot_store_pos _ _ _ _ _ _ _ (by decide) (by decide), toNat_3]
  cases hc : cf.getD 3 false with
  | true => simp only [if_true]
  | false => simp only [Bool.false_eq_true, if_false, skip, List.drop_succ_cons, List.drop_zero]

theorem turn_read (fuel : Nat) (pre g : List Nat) (rest : List (List Nat × List Nat))
    (b : Tpb) (cf : List Bool) (hg : GapsOk ((bytes "READ", g) :: rest)) :
    parse_loop (fuel + 1) OptTable.trans_opt_S (lay pre ((bytes "READ", g) :: rest) b cf) =
      parse_loop fuel OptTable.read_opt_S (lay (pre ++ (bytes "READ" ++ term g)) rest b cf) := by
  rw [parse_loop_turn fuel _ pre _ b cf hg _ 1 (find_target_trans_read _) (by decide),
    slot_store_zero]
  simp only [skip, List.drop_succ_cons, List.drop_zero]

theorem turn_snapshot (fuel : Nat) (pre g : List Nat) (rest : List (List Nat × List Nat))
    (b : Tpb) (cf : List Bool) (hg : GapsOk ((bytes "SNAPSHOT", g) :: rest)) :
    parse_loop (fuel + 1) OptTable.trans_opt_S (lay pre ((bytes "SNAPSHOT", g) :: rest) b cf) =
      parse_loop fuel OptTable.snap_opt_S
        (lay (pre ++ (bytes "SNAPSHOT" ++ term g)) rest b cf) := by
  rw [parse_loop_turn fuel _ pre _ b cf hg _ 1 (find_target_trans_snapshot _) (by decide),
    slot_store_zero]
  simp only [skip, List.drop_succ_cons, List.drop_zero]

theorem turn_isolation (fuel : Nat) (pre g g2 : List Nat) (rest : List (List Nat × List Nat))
    (b : Tpb) (cf : List Bool)
    (hg : GapsOk ((bytes "ISOLATION", g) :: (bytes "LEVEL", g2) :: rest)) :
    parse_loop (fuel + 1) OptTable.trans_opt_S
        (lay pre ((bytes "ISOLATION", g) :: (bytes "LEVEL", g2) :: rest) b cf) =
      parse_loop fuel OptTable.isol_opt_S
        (lay (pre ++ (bytes "ISOLATION" ++ term g) ++ (bytes "LEVEL" ++ term g2)) rest b cf) := by
  rw [parse_loop_turn fuel _ pre _ b cf hg _ 2 find_target_trans_isolation (by decide),
    slot_store_zero]
  simp only [skip, List.drop_succ_cons, List.drop_zero]

theorem turn_isol_snapshot (fuel : Nat) (pre g : List Nat) (rest : List (List Nat × List Nat))
    (b : Tpb) (cf : List Bool) (hg : GapsOk ((bytes "SNAPSHOT", g) :: rest)) :
    parse_loop (fuel + 1) OptTable.isol_opt_S (lay pre ((bytes "SNAPSHOT", g) :: rest) b cf) =
      parse_loop fuel OptTable.snap_opt_S
        (lay (pre ++ (bytes "SNAPSHOT" ++ term g)) rest b cf) := by
  rw [parse_loop_turn fuel _ pre _ b cf hg _ 1 (find_target_isol_snapshot _) (by decide),
    slot_store_zero]
  simp only [skip, List.drop_succ_cons, List.drop_zero]

theorem turn_isol_read_committed (fuel : Nat) (pre g g2 : List Nat)
    (rest : List (List Nat × List Nat)) (b : Tpb) (cf : List Bool)
    (hg : GapsOk ((bytes "READ", g) :: (bytes "COMMITTED", g2) :: rest)) :
    parse_loop (fuel + 1) OptTable.isol_opt_S
        (lay pre ((bytes "READ", g) :: (bytes "COMMITTED", g2) :: rest) b cf) =
      if cf.getD 2 false then PRes.fail "Duplicate transaction option was specified"
      else parse_loop fuel OptTable.rcom_opt_S
        (lay (pre ++ (bytes "READ" ++ term g) ++ (bytes "COMMITTED" ++ term g2)) rest
          ⟨memcpy b.buf 2 [isc_tpb_read_committed], b.used, b.size⟩ (cf.set 2 true)) := by
  rw [parse_loop_turn fuel _ pre _ b cf hg _ 2 find_target_isol_read_committed (by decide),
    slot_store_pos _ _ _ _ _ _ _ (by decide) (by decide), toNat_2]
  cases hc : cf.getD 2 false with
  | true => simp only [if_true]
  | false => simp only [Bool.false_eq_true, if_false, skip, List.drop_succ_cons, List.drop_zero]

theorem turn_read_write (fuel : Nat) (pre g : List Nat) (rest : List (List Nat × List Nat))
    (b : Tpb) (cf : List Bool) (hg : GapsOk ((bytes "WRITE", g) :: rest)) :
    parse_loop (fuel + 1) OptTable.read_opt_S (lay pre ((bytes "WRITE", g) :: rest) b cf) =
      if cf.getD 1 false then PRes.fail "Duplicate transaction option was specified"
      else if rest = [] then PRes.done ⟨memcpy b.buf 1 [isc_tpb_write], b.used, b.size⟩
      else parse_loop fuel OptTable.trans_opt_S
        (lay (pre ++ (bytes "WRITE" ++ term g)) rest
          ⟨memcpy b.buf 1 [isc_tpb_write], b.used, b.size⟩ (cf.set 1 true)) := by
  rw [parse_loop_turn fuel _ pre _ b cf hg _ 1 (find_target_read_write _) (by decide),
    slot_store_pos _ _ _ _ _ _ _ (by decide) (by decide), toNat_1]
  cases hc : cf.getD 1 false with
  | true => simp only [if_true]
  | false => simp only [Bool.false_eq_true, if_false, skip, List.drop_succ_cons, List.drop_zero]

theorem turn_read_only (fuel : Nat) (pre g : List Nat) (rest : List (List Nat × List Nat))
    (b : Tpb) (cf : List Bool) (hg : GapsOk ((bytes "ONLY", g) :: rest)) :
    parse_loop (fuel + 1) OptTable.read_opt_S (lay pre ((bytes "ONLY", g) :: rest) b cf) =
      if cf.getD 1 false then PRes.fail "Duplicate transaction option was specified"
      else if rest = [] then PRes.done ⟨memcpy b.buf 1 [isc_tpb_read], b.used, b.size⟩
      else parse_loop fuel OptTable.trans_opt_S
        (lay (pre ++ (bytes "ONLY" ++ term g)) rest
          ⟨memcpy b.buf 1 [isc_tpb_read], b.used, b.size⟩ (cf.set 1 true)) := by
  rw [parse_loop_turn fuel _ pre _ b cf hg _ 1 (find_target_read_only _) (by decide),
    slot_store_pos _ _ _ _ _ _ _ (by decide) (by decide), toNat_1]
  cases hc : cf.getD 1 false with
  | true => simp only [if_true]
  | false => simp only [Bool.false_eq_true, if_false, skip, List.drop_succ_cons, List.drop_zero]

theorem turn_read_committed (fuel : Nat) (pre g : List Nat) (rest : List (List Nat × List Nat))
    (b : Tpb) (cf : List Bool) (hg : GapsOk ((bytes "COMMITTED", g) :: rest)) :
    parse_loop (fuel + 1) OptTable.read_opt_S (lay pre ((bytes "COMMITTED", g) :: rest) b cf) =
      if cf.getD 2 false then PRes.fail "Duplicate transaction option was specified"
      else parse_loop fuel OptTable.rcom_opt_S
        (lay (pre ++ (bytes "COMMITTED" ++ term g)) rest
          ⟨memcpy b.buf 2 [isc_tpb_read_committed], b.used, b.size⟩ (cf.set 2 true)) := by
  rw [parse_loop_turn fuel _ pre _ b cf hg _ 1 (find_target_read_committed _) (by decide),
    slot_store_pos _ _ _ _ _ _ _ (by decide) (by decide), toNat_2]
  cases hc : cf.getD 2 false with
  | true => simp only [if_true]
  | false => simp only [Bool.false_eq_true, if_false, skip, List.drop_succ_cons, List.drop_zero]

theorem turn_snap_stability (fuel : Nat) (pre g g2 : List Nat)
    (rest : List (List Nat × List Nat)) (b : Tpb) (cf : List Bool)
    (hg : GapsOk ((bytes "TABLE", g) :: (bytes "STABILITY", g2) :: rest)) :
    parse_loop (fuel + 1) OptTable.snap_opt_S
        (lay pre ((bytes "TABLE", g) :: (bytes "STABILITY", g2) :: rest) b cf) =
      if cf.getD 2 false then PRes.fail "Duplicate transaction option was specified"
      else if rest = [] then PRes.done ⟨memcpy b.buf 2 [isc_tpb_consistency], b.used, b.size⟩
      else parse_loop fuel OptTable.trans_opt_S
        (lay (pre ++ (bytes "TABLE" ++ term g) ++ (bytes "STABILITY" ++ term g2)) rest
          ⟨memcpy b.buf 2 [isc_tpb_consistency], b.used, b.size⟩ (cf.set 2 true)) := by
  rw [parse_loop_turn fuel _ pre _ b cf hg _ 2 find_target_snap_stability (by decide),
    slot_store_pos _ _ _ _ _ _ _ (by decide) (by decide), toNat_2]
  cases hc : cf.getD 2 false with
  | true => simp only [if_true]
  | false => simp only [Bool.false_eq_true, if_false, skip, List.drop_succ_cons, List.drop_zero]

theorem turn_snap_star (fuel : Nat) (pre : List Nat) (rest : List (List Nat × List Nat))
    (b : Tpb) (cf : List Bool) (hg : GapsOk rest)
    (hc : ¬ ((rest.map Prod.fst).head? = some (bytes "TABLE") ∧
      (rest.map Prod.fst).tail.head? = some (bytes "STABILITY"))) :
    parse_loop (fuel + 1) OptTable.snap_opt_S (lay pre rest b cf) =
      if cf.getD 2 false then PRes.fail "Duplicate transaction option was specified"
      else if rest = [] then PRes.done ⟨memcpy b.buf 2 [isc_tpb_concurrency], b.used, b.size⟩
      else parse_loop fuel OptTable.trans_opt_S
        (lay pre rest ⟨memcpy b.buf 2 [isc_tpb_concurrency], b.used, b.size⟩ (cf.set 2 true)) := by
  rw [parse_loop_turn fuel _ pre _ b cf hg _ 0 (find_target_snap_star _ _ hc) (by decide),
    slot_store_pos _ _ _ _ _ _ _ (by decide) (by decide), toNat_2]
  cases hc : cf.getD 2 false with
  | true => simp only [if_true]
  | false => simp only [Bool.false_eq_true, if_false, skip, List.drop_zero]

theorem turn_rcom_no_version (fuel : Nat) (pre g g2 : List Nat)
    (rest : List (List Nat × List Nat)) (b : Tpb) (cf : List Bool)
    (hg : GapsOk ((bytes "NO", g) :: (bytes "RECORD_VERSION", g2) :: rest)) :
    parse_loop (fuel + 1) OptTable.rcom_opt_S
        (lay pre ((bytes "NO", g) :: (bytes "RECORD_VERSION", g2) :: rest) b cf) =
      if rest = [] then
        PRes.done ⟨memcpy b.buf b.used [isc_tpb_no_rec_version], b.used + 1,
          (tpb_reserve b (b.used + 1)).size⟩
      else parse_loop fuel OptTable.trans_opt_S
        (lay (pre ++ (bytes "NO" ++ term g) ++ (bytes "RECORD_VERSION" ++ term g2)) rest
          ⟨memcpy b.buf b.used [isc_tpb_no_rec_version], b.used + 1,
            (tpb_reserve b (b.used + 1)).size⟩ cf) := by
  rw [parse_loop_turn fuel _ pre _ b cf hg _ 2 find_target_rcom_no_version (by decide),
    slot_store_append _ _ _ _ _ _ (by decide)]
  simp only [skip, List.drop_succ_cons, List.drop_zero]

theorem turn_rcom_version (fuel : Nat) (pre g : List Nat)
    (rest : List (List Nat × List Nat)) (b : Tpb) (cf : List Bool)
    (hg : GapsOk ((bytes "RECORD_VERSION", g) :: rest)) :
    parse_loop (fuel + 1) OptTable.rcom_opt_S
        (lay pre ((bytes "RECORD_VERSION", g) :: rest) b cf) =
      if rest = [] then
        PRes.done ⟨memcpy b.buf b.used [isc_tpb_rec_version], b.used + 1,
          (tpb_reserve b (b.used + 1)).size⟩
      else parse_loop fuel OptTable.trans_opt_S
        (lay (pre ++ (bytes "RECORD_VERSION" ++ term g)) rest
          ⟨memcpy b.buf b.used [isc_tpb_rec_version], b.used + 1,
            (tpb_reserve b (b.used + 1)).size⟩ cf) := by
  rw [parse_loop_turn fuel _ pre _ b cf hg _ 1 (find_target_rcom_version _) (by decide),
    slot_store_append _ _ _ _ _ _ (by decide)]
  simp only [skip, List.drop_succ_cons, List.drop_zero]

theorem turn_rcom_star (fuel : Nat) (pre : List Nat) (rest : List (List Nat × List Nat))
    (b : Tpb) (cf : List Bool) (hg : GapsOk rest)
    (h1 : (rest.map Prod.fst).head? ≠ some (bytes "RECORD_VERSION"))
    (h2 : ¬ ((rest.map Prod.fst).head? = some (bytes "NO") ∧
      (rest.map Prod.fst).tail.head? = some (bytes "RECORD_VERSION"))) :
    parse_loop (fuel + 1) OptTable.rcom_opt_S (lay pre rest b cf) =
      if rest = [] then
        PRes.done ⟨memcpy b.buf b.used [isc_tpb_no_rec_version], b.used + 1,
          (tpb_reserve b (b.used + 1)).size⟩
      else parse_loop fuel OptTable.trans_opt_S
        (lay pre rest ⟨memcpy b.buf b.used [isc_tpb_no_rec_version], b.used + 1,
            (tpb_reserve b (b.used + 1)).size⟩ cf) := by
  rw [parse_loop_turn fuel _ pre _ b cf hg _ 0 (find_target_rcom_star _ _ h1 h2) (by decide),
    slot_store_append _ _ _ _ _ _ (by decide)]
  simp only [skip, List.drop_zero]

/-! ## TPB parser: the directives without table list -/

theorem map_fst_append (items : List (List Nat × List Nat)) (xs ys : List (List Nat))
    (h : items.map Prod.fst = xs ++ ys) :
    ∃ i1 i2, items = i1 ++ i2 ∧ i1.map Prod.fst = xs ∧ i2.map Prod.fst = ys := by
  induction xs generalizing items with
  | nil => exact ⟨[], items, rfl, rfl, h⟩
  | cons x xs ih =>
    obtain ⟨g, rest, rfl, hr⟩ := map_fst_cons items x (xs ++ ys) h
    obtain ⟨i1, i2, rfl, h1, h2⟩ := ih rest hr
    exact ⟨(x, g) :: i1, i2, rfl, by simp [h1], h2⟩

theorem tail_snap (stability : Bool) (sitems rest : List (List Nat × List Nat))
    (hwords : sitems.map Prod.fst =
      if stability then [bytes "TABLE", bytes "STABILITY"] else [])
    (hg : GapsOk (sitems ++ rest))
    (hcont : stability = false → ¬ ((rest.map Prod.fst).head? = some (bytes "TABLE") ∧
      (rest.map Prod.fst).tail.head? = some (bytes "STABILITY")))
    (pre : List Nat) (b : Tpb) (cf : List Bool) (fuel : Nat) :
    ∃ pre2, parse_loop (fuel + 1) OptTable.snap_opt_S (lay pre (sitems ++ rest) b cf) =
      if cf.getD 2 false then PRes.fail "Duplicate transaction option was specified"
      else if rest = [] then
        PRes.done ⟨memcpy b.buf 2
          [if stability then isc_tpb_consistency else isc_tpb_concurrency], b.used, b.size⟩
      else parse_loop fuel OptTable.trans_opt_S
        (lay pre2 rest ⟨memcpy b.buf 2
          [if stability then isc_tpb_consistency else isc_tpb_concurrency], b.used, b.size⟩
          (cf.set 2 true)) := by
  cases stability with
  | true =>
    simp only [if_true] at hwords ⊢
    obtain ⟨g1, r1, rfl, h1⟩ := map_fst_cons sitems _ _ hwords
    obtain ⟨g2, r2, rfl, h2⟩ := map_fst_cons r1 _ _ h1
    have h3 := map_fst_nil r2 h2
    subst h3
    exact ⟨_, turn_snap_stability fuel pre g1 g2 rest b cf hg⟩
  | false =>
    simp only [Bool.false_eq_true, if_false] at hwords ⊢
    have h3 := map_fst_nil sitems hwords
    subst h3
    exact ⟨_, turn_snap_star fuel pre rest b cf hg (hcont rfl)⟩

theorem tail_rcom (version : RecVersion) (ritems rest : List (List Nat × List Nat))
    (hwords : ritems.map Prod.fst = version.words) (hg : GapsOk (ritems ++ rest))
    (hcont : version = RecVersion.absent →
      (rest.map Prod.fst).head? ≠ some (bytes "RECORD_VERSION") ∧
      ¬ ((rest.map Prod.fst).head? = some (bytes "NO") ∧
        (rest.map Prod.fst).tail.head? = some (bytes "RECORD_VERSION")))
    (pre : List Nat) (b : Tpb) (cf : List Bool) (fuel : Nat) :
    ∃ pre2, parse_loop (fuel + 1) OptTable.rcom_opt_S (lay pre (ritems ++ rest) b cf) =
      if rest = [] then
        PRes.done ⟨memcpy b.buf b.used [version.byte], b.used + 1,
          (tpb_reserve b (b.used + 1)).size⟩
      else parse_loop fuel OptTable.trans_opt_S
        (lay pre2 rest ⟨memcpy b.buf b.used [version.byte], b.used + 1,
          (tpb_reserve b (b.used + 1)).size⟩ cf) := by
  cases version with
  | absent =>
    have h3 := map_fst_nil ritems hwords
    subst h3
    exact ⟨_, turn_rcom_star fuel pre rest b cf hg (hcont rfl).1 (hcont rfl).2⟩
  | no_record_version =>
    obtain ⟨g1, r1, rfl, h1⟩ := map_fst_cons ritems _ _ hwords
    obtain ⟨g2, r2, rfl, h2⟩ := map_fst_cons r1 _ _ h1
    have h3 := map_fst_nil r2 h2
    subst h3
    exact ⟨_, turn_rcom_no_version fuel pre g1 g2 rest b cf hg⟩
  | record_version =>
    obtain ⟨g1, r1, rfl, h1⟩ := map_fst_cons ritems _ _ hwords
    have h3 := map_fst_nil r1 h1
    subst h3
    exact ⟨_, turn_rcom_version fuel pre g1 rest b cf hg⟩

theorem head_snapshot (level : Bool) (hitems rest : List (List Nat × List Nat))
    (hwords : hitems.map Prod.fst = level_words level ++ [bytes "SNAPSHOT"])
    (hg : GapsOk (hitems ++ rest)) (pre : List Nat) (b : Tpb) (cf : List Bool) (fuel : Nat) :
    ∃ pre2, parse_loop (fuel + (if level then 2 else 1)) OptTable.trans_opt_S
        (lay pre (hitems ++ rest) b cf) =
      parse_loop fuel OptTable.snap_opt_S (lay pre2 rest b cf) := by
  cases level with
  | true =>
    obtain ⟨g1, r1, rfl, h1⟩ := map_fst_cons hitems _ _ hwords
    obtain ⟨g2, r2, rfl, h2⟩ := map_fst_cons r1 _ _ h1
    obtain ⟨g3, r3, rfl, h3⟩ := map_fst_cons r2 _ _ h2
    have h4 := map_fst_nil r3 h3
    subst h4
    apply Exists.intro
    simp only [if_true, List.cons_append, List.nil_append]
    rw [show fuel + 2 = fuel + 1 + 1 from rfl,
      turn_isolation (fuel + 1) pre g1 g2 ((bytes "SNAPSHOT", g3) :: rest) b cf hg,
      turn_isol_snapshot fuel _ g3 rest b cf
        (GapsOk_append_right [(bytes "ISOLATION", g1), (bytes "LEVEL", g2)] _ hg)]
  | false =>
    obtain ⟨g1, r1, rfl, h1⟩ := map_fst_cons hitems _ _ hwords
    have h4 := map_fst_nil r1 h1
    subst h4
    exact ⟨_, turn_snapshot fuel pre g1 rest b cf hg⟩

theorem head_read_committed (level : Bool) (hitems rest : List (List Nat × List Nat))
    (hwords : hitems.map Prod.fst = level_words level ++ [bytes "READ", bytes "COMMITTED"])
    (hg : GapsOk (hitems ++ rest)) (pre : List Nat) (b : Tpb) (cf : List Bool) (fuel : Nat) :
    ∃ pre2, parse_loop (fuel + 2) OptTable.trans_opt_S (lay pre (hitems ++ rest) b cf) =
      if cf.getD 2 false then PRes.fail "Duplicate transaction option was specified"
      else parse_loop fuel OptTable.rcom_opt_S
        (lay pre2 rest ⟨memcpy b.buf 2 [isc_tpb_read_committed], b.used, b.size⟩
          (cf.set 2 true)) := by
  cases level with
  | true =>
    obtain ⟨g1, r1, rfl, h1⟩ := map_fst_cons hitems _ _ hwords
    obtain ⟨g2, r2, rfl, h2⟩ := map_fst_cons r1 _ _ h1
    obtain ⟨g3, r3, rfl, h3⟩ := map_fst_cons r2 _ _ h2
    obtain ⟨g4, r4, rfl, h4⟩ := map_fst_cons r3 _ _ h3
    have h5 := map_fst_nil r4 h4
    subst h5
    apply Exists.intro
    simp only [List.cons_append, List.nil_append]
    rw [show fuel + 2 = fuel + 1 + 1 from rfl,
      turn_isolation (fuel + 1) pre g1 g2 ((bytes "READ", g3) :: (bytes "COMMITTED", g4) :: rest)
        b cf hg,
      turn_isol_read_committed fuel _ g3 g4 rest b cf
        (GapsOk_append_right [(bytes "ISOLATION", g1), (bytes "LEVEL", g2)] _ hg)]
  | false =>
    obtain ⟨g1, r1, rfl, h1⟩ := map_fst_cons hitems _ _ hwords
    obtain ⟨g2, r2, rfl, h2⟩ := map_fst_cons r1 _ _ h1
    have h5 := map_fst_nil r2 h2
    subst h5
    apply Exists.intro
    simp only [List.cons_append, List.nil_append]
    rw [show fuel + 2 = fuel + 1 + 1 from rfl,
      turn_read (fuel + 1) pre g1 ((bytes "COMMITTED", g2) :: rest) b cf hg,
      turn_read_committed fuel _ g2 rest b cf (GapsOk_append_right [(bytes "READ", g1)] _ hg)]

theorem directive_step_plain (d : Directive)
    (hd : ∀ ns s w, d ≠ Directive.reserving ns s w)
    (ditems rest : List (List Nat × List Nat)) (hwords : ditems.map Prod.fst = d.words)
    (hg : GapsOk (ditems ++ rest))
    (hcont : ¬ d.continues (rest.map Prod.fst).head? (rest.map Prod.fst).tail.head?)
    (pre : List Nat) (b : Tpb) (cf : List Bool) (fuel : Nat) :
    ∃ pre2, parse_loop (fuel + d.turns) OptTable.trans_opt_S (lay pre (ditems ++ rest) b cf) =
      if cf.getD d.slot false then PRes.fail "Duplicate transaction option was specified"
      else if rest = [] then PRes.done (d.store b)
      else parse_loop fuel OptTable.trans_opt_S
        (lay pre2 rest (d.store b) (cf.set d.slot true)) := by
  cases d with
  | read_write =>
    obtain ⟨g1, r1, rfl, h1⟩ := map_fst_cons ditems _ _ hwords
    obtain ⟨g2, r2, rfl, h2⟩ := map_fst_cons r1 _ _ h1
    have h3 := map_fst_nil r2 h2
    subst h3
    apply Exists.intro
    simp only [Directive.turns, Directive.slot, Directive.store, List.cons_append,
      List.nil_append]
    rw [show fuel + 2 = fuel + 1 + 1 from rfl,
      turn_read (fuel + 1) pre g1 ((bytes "WRITE", g2) :: rest) b cf hg,
      turn_read_write fuel _ g2 rest b cf (GapsOk_append_right [(bytes "READ", g1)] _ hg)]
  | read_only =>
    obtain ⟨g1, r1, rfl, h1⟩ := map_fst_cons ditems _ _ hwords
    obtain ⟨g2, r2, rfl, h2⟩ := map_fst_cons r1 _ _ h1
    have h3 := map_fst_nil r2 h2
    subst h3
    apply Exists.intro
    simp only [Directive.turns, Directive.slot, Directive.store, List.cons_append,
      List.nil_append]
    rw [show fuel + 2 = fuel + 1 + 1 from rfl,
      turn_read (fuel + 1) pre g1 ((bytes "ONLY", g2) :: rest) b cf hg,
      turn_read_only fuel _ g2 rest b cf (GapsOk_append_right [(bytes "READ", g1)] _ hg)]
  | wait =>
    obtain ⟨g1, r1, rfl, h1⟩ := map_fst_cons ditems _ _ hwords
    have h3 := map_fst_nil r1 h1
    subst h3
    exact ⟨_, turn_wait fuel pre g1 rest b cf hg⟩
  | no_wait =>
    obtain ⟨g1, r1, rfl, h1⟩ := map_fst_cons ditems _ _ hwords
    obtain ⟨g2, r2, rfl, h2⟩ := map_fst_cons r1 _ _ h1
    have h3 := map_fst_nil r2 h2
    subst h3
    exact ⟨_, turn_no_wait fuel pre g1 g2 rest b cf hg⟩
  | snapshot level stability =>
    obtain ⟨i1, i2, rfl, h1, h2⟩ := map_fst_append ditems _ _ hwords
    rw [List.append_assoc] at hg ⊢
    obtain ⟨p1, e1⟩ := head_snapshot level i1 (i2 ++ rest) h1 hg pre b cf (fuel + 1)
    obtain ⟨p2, e2⟩ := tail_snap stability i2 rest h2 (GapsOk_append_right i1 _ hg)
      (fun hs => by
        subst hs
        exact hcont) p1 b cf fuel
    refine ⟨p2, ?_⟩
    simp only [Directive.turns, Directive.slot, Directive.store]
    rw [← e2, ← e1]
    cases level <;> rfl
  | read_committed level version =>
    obtain ⟨i1, i2, rfl, h1, h2⟩ := map_fst_append ditems _ _ hwords
    rw [List.append_assoc] at hg ⊢
    obtain ⟨p1, e1⟩ := head_read_committed level i1 (i2 ++ rest) h1 hg pre b cf (fuel + 1)
    obtain ⟨p2, e2⟩ := tail_rcom version i2 rest h2 (GapsOk_append_right i1 _ hg)
      (fun hs => by
        subst hs
        exact ⟨fun h => hcont (Or.inl h), fun h => hcont (Or.inr h)⟩) p1
      ⟨memcpy b.buf 2 [isc_tpb_read_committed], b.used, b.size⟩ (cf.set 2 true) fuel
    refine ⟨p2, ?_⟩
    simp only [Directive.turns, Directive.slot, Directive.store]
    rw [show fuel + 3 = fuel + 1 + 2 from rfl, e1]
    cases hc : cf.getD 2 false with
    | true => simp only [if_true]
    | false =>
      simp only [Bool.false_eq_true, if_false]
      rw [e2]
  | reserving ns s w => exact absurd rfl (hd ns s w)

/-! ## TPB parser: the reservation clause -/

theorem cstr_tk (pre c gc : List Nat) (rest : List (List Nat × List Nat))
    (hg : GapsOk ((c, gc) :: rest)) : cstr (tk pre c gc rest).mem pre.length = c := by
  have h := GapsOk_cons c gc rest hg
  refine cstr_term _ pre c gc (spaced rest) _ rfl rfl (fun x hx => (h.1.2 x hx).1) ?_
  intro hgc
  cases rest with
  | nil => rfl
  | cons r rs => exact absurd hgc (h.2.2.1 (by simp))

theorem termed_append (xs ys : List (List Nat × List Nat)) :
    termed (xs ++ ys) = termed xs ++ termed ys := by
  induction xs with
  | nil => rfl
  | cons x xs ih =>
    obtain ⟨w, g⟩ := x
    simp [termed, ih]

theorem termed_length_ge (xs : List (List Nat × List Nat)) (h : ∀ x ∈ xs, x.1 ≠ []) :
    xs.length ≤ (termed xs).length := by
  induction xs with
  | nil => simp
  | cons x xs ih =>
    obtain ⟨w, g⟩ := x
    have hw : 0 < w.length := List.length_pos.2 (h (w, g) (List.mem_cons_self _ _))
    have := ih (fun y hy => h y (List.mem_cons_of_mem _ hy))
    simp only [termed, List.length_cons, List.length_append]
    omega

theorem find_resend_tk (ms : List (List Nat × List Nat)) :
    ∀ (pre a ga gf : List Nat) (tail : List (List Nat × List Nat)) (fuel : Nat),
      GapsOk ((a, ga) :: (ms ++ (bytes "FOR", gf) :: tail)) →
      (∀ x ∈ ms, x.1 ≠ bytes "FOR") → ms.length < fuel →
      find_resend fuel (tk pre a ga (ms ++ (bytes "FOR", gf) :: tail)) =
        (some (pre ++ (a ++ term ga) ++ termed ms).length,
          tk (pre ++ (a ++ term ga) ++ termed ms) (bytes "FOR") gf tail) := by
  induction ms with
  | nil =>
    intro pre a ga gf tail fuel hg _ hf
    obtain ⟨f, rfl⟩ : ∃ f, fuel = f + 1 := ⟨fuel - 1, by omega⟩
    have hs := strtok_tk pre a ga (bytes "FOR") gf tail hg
    have hc := cstr_tk (pre ++ (a ++ term ga)) (bytes "FOR") gf tail
      (GapsOk_cons a ga _ hg).2.2.2
    have hl : pre.length + a.length + ga.length = (pre ++ (a ++ term ga)).length := by
      simp [term_length]
      omega
    simp only [find_resend, List.nil_append, hs, hl, hc, if_true, termed, List.append_nil]
  | cons x ms ih =>
    intro pre a ga gf tail fuel hg hne hf
    obtain ⟨c, gc⟩ := x
    obtain ⟨f, rfl⟩ : ∃ f, fuel = f + 1 := ⟨fuel - 1, by omega⟩
    have hg2 := (GapsOk_cons a ga _ hg).2.2.2
    have hs := strtok_tk pre a ga c gc (ms ++ (bytes "FOR", gf) :: tail) hg
    have hc := cstr_tk (pre ++ (a ++ term ga)) c gc (ms ++ (bytes "FOR", gf) :: tail) hg2
    have hl : pre.length + a.length + ga.length = (pre ++ (a ++ term ga)).length := by
      simp [term_length]
      omega
    have hcne : c ≠ bytes "FOR" := hne (c, gc) (List.mem_cons_self _ _)
    simp only [find_resend, List.cons_append, hs, hl, hc, hcne, if_false]
    rw [ih (pre ++ (a ++ term ga)) c gc gf tail f hg2
      (fun y hy => hne y (List.mem_cons_of_mem _ hy))
      (by simp only [List.length_cons] at hf; omega)]
    simp [termed, List.append_assoc]

theorem scan_done (fuel p resend : Nat) (mem : List Nat) (b : Tpb) (rc : Nat)
    (h : ¬ p < resend) :
    scan_tables (fuel + 1) p resend mem b rc = PRes.done (b, rc) := by
  simp only [scan_tables, h, if_false]

theorem scan_nul_step (fuel p resend : Nat) (mem pre post : List Nat) (b : Tpb) (rc : Nat)
    (hm : mem = pre ++ 0 :: post) (hp : p = pre.length) (h : p < resend) :
    scan_tables (fuel + 1) p resend mem b rc = scan_tables fuel (p + 1) resend mem b rc := by
  subst hm hp
  simp only [scan_tables, h, if_true, peek_at]

theorem LIST_of_CMND (c : Nat) (h : c ∈ CMND_DELIMIT) : c ∈ LIST_DELIMIT := by
  simp only [CMND_DELIMIT, LIST_DELIMIT, List.mem_cons, List.mem_singleton,
    List.not_mem_nil, or_false] at h ⊢
  omega

theorem CMND_ne_zero (c : Nat) (h : c ∈ CMND_DELIMIT) : c ≠ 0 := by
  simp only [CMND_DELIMIT, List.mem_cons, List.mem_singleton, List.not_mem_nil, or_false] at h
  omega

theorem scan_comma_step (fuel p resend : Nat) (mem pre post : List Nat) (b : Tpb) (rc : Nat)
    (hm : mem = pre ++ 44 :: 0 :: post) (hp : p = pre.length) (h : p < resend) :
    scan_tables (fuel + 1) p resend mem b rc = scan_tables fuel (p + 1) resend mem b rc := by
  subst hm hp
  have hpk : peek (pre ++ 44 :: 0 :: post) pre.length = 44 := peek_at pre 44 (0 :: post)
  have hsp : strspn (pre ++ 44 :: 0 :: post) pre.length LIST_DELIMIT = 1 := by
    have := strspn_at_stop pre [44] post 0 LIST_DELIMIT (by decide) (by decide)
    simpa using this
  have hbrk : strpbrk (pre ++ 44 :: 0 :: post) (pre.length + 1) LIST_DELIMIT = none := by
    have := strpbrk_at_nul (pre ++ [44]) [] post LIST_DELIMIT (by simp) (by decide)
    simpa using this
  have hlen : strlen (pre ++ 44 :: 0 :: post) (pre.length + 1) = 0 := by
    have := cstr_at_nul (pre ++ [44]) [] post (by simp)
    simp only [List.append_assoc, List.cons_append, List.nil_append, List.length_append,
      List.length_cons, List.length_nil] at this
    simp only [strlen, this, List.length_nil]
  have h31 : ¬ (0 > META_NAME_MAX) := by decide
  simp only [scan_tables, h, if_true, hpk, hsp, hbrk, hlen, h31, if_false,
    Nat.add_zero, gt_iff_lt, Nat.lt_irrefl]
  simp

theorem scan_name_facts (mem pre junk n post : List Nat) (x : Nat)
    (hm : mem = pre ++ (junk ++ (n ++ x :: post))) (hx : x = 0 ∨ x = 44)
    (hj : Gap junk) (hn : Namey n) :
    peek mem pre.length ≠ 0 ∧ strspn mem pre.length LIST_DELIMIT = junk.length ∧
      (strpbrk mem (pre.length + junk.length) LIST_DELIMIT =
          some (pre.length + junk.length + n.length) ∨
        (strpbrk mem (pre.length + junk.length) LIST_DELIMIT = none ∧
          strlen mem (pre.length + junk.length) = n.length)) ∧
      (mem.drop (pre.length + junk.length)).take n.length = n := by
  subst hm
  obtain ⟨c, cs, rfl⟩ := List.exists_cons_of_ne_nil hn.1
  have hc := hn.2 c (List.mem_cons_self _ _)
  refine ⟨?_, ?_, ?_, ?_⟩
  · cases junk with
    | nil =>
      have := peek_at pre c (cs ++ x :: post)
      simp only [List.nil_append, List.cons_append]
      rw [this]
      exact hc.1
    | cons d ds =>
      have := peek_at pre d (ds ++ (c :: cs ++ x :: post))
      simp only [List.cons_append, List.append_assoc] at this ⊢
      rw [this]
      exact CMND_ne_zero d (hj d (List.mem_cons_self _ _))
  · have := strspn_at_stop pre junk (cs ++ x :: post) c LIST_DELIMIT
      (fun y hy => LIST_of_CMND y (hj y hy)) hc.2
    simpa using this
  · rcases hx with rfl | rfl
    · have h1 := strpbrk_at_nul (pre ++ junk) (c :: cs) post LIST_DELIMIT hn.2 (by decide)
      have h2 := cstr_at_nul (pre ++ junk) (c :: cs) post (fun y hy => (hn.2 y hy).1)
      simp only [List.append_assoc, List.length_append] at h1 h2
      exact Or.inr ⟨h1, by simp only [strlen, h2]⟩
    · have h1 := strpbrk_at_stop (pre ++ junk) (c :: cs) post 44 LIST_DELIMIT hn.2 (by decide)
      simp only [List.append_assoc, List.length_append] at h1
      exact Or.inl h1
  · have h1 : pre.length + junk.length = (pre ++ junk).length := by simp
    rw [h1, ← List.append_assoc, List.drop_left, List.take_left]

theorem scan_name_step (fuel p resend : Nat) (mem pre junk n post : List Nat) (x : Nat)
    (b : Tpb) (rc : Nat) (hm : mem = pre ++ (junk ++ (n ++ x :: post))) (hx : x = 0 ∨ x = 44)
    (hj : Gap junk) (hn : Namey n) (hl : n.length ≤ META_NAME_MAX) (hp : p = pre.length)
    (h : p < resend) :
    scan_tables (fuel + 1) p resend mem b rc =
      scan_tables fuel (p + junk.length + n.length) resend mem (push_name b n) (rc + 1) := by
  obtain ⟨h1, h2, h3, h4⟩ := scan_name_facts mem pre junk n post x hm hx hj hn
  subst hp
  have h5 : ¬ (n.length > META_NAME_MAX) := by omega
  have h6 : n.length > 0 := List.length_pos.2 hn.1
  rcases h3 with h3 | ⟨h3, h7⟩
  · simp only [scan_tables, h, if_true, h1, if_false, h2, h3, Nat.add_sub_cancel_left, h4, h5,
      h6, push_name]
  · simp only [scan_tables, h, if_true, h1, if_false, h2, h3, h7, h4, h5, h6, push_name]

theorem scan_name_long (fuel p resend : Nat) (mem pre junk n post : List Nat) (x : Nat)
    (b : Tpb) (rc : Nat) (hm : mem = pre ++ (junk ++ (n ++ x :: post))) (hx : x = 0 ∨ x = 44)
    (hj : Gap junk) (hn : Namey n) (hl : META_NAME_MAX < n.length) (hp : p = pre.length)
    (h : p < resend) :
    scan_tables (fuel + 1) p resend mem b rc =
      PRes.fail "Illegal table name was specified" := by
  obtain ⟨h1, h2, h3, h4⟩ := scan_name_facts mem pre junk n post x hm hx hj hn
  subst hp
  have h5 : n.length > META_NAME_MAX := hl
  rcases h3 with h3 | ⟨h3, h7⟩
  · simp only [scan_tables, h, if_true, h1, if_false, h2, h3, Nat.add_sub_cancel_left, h5]
  · simp only [scan_tables, h, if_true, h1, if_false, h2, h3, h7, h5]

theorem table_tokens_cons (n : List Nat) (rest : List (List Nat)) :
    table_tokens (n :: rest) =
      (n ++ (if rest = [] then [] else [44])) :: table_tokens rest := by
  cases rest with
  | nil => simp [table_tokens]
  | cons r rs => simp [table_tokens]

theorem scan_names (names : List (List Nat)) :
    ∀ (nitems : List (List Nat × List Nat)) (junk pre post : List Nat) (b : Tpb) (rc fuel : Nat)
      (mem : List Nat) (resend : Nat),
      nitems.map Prod.fst = table_tokens names →
      (∀ n ∈ names, Namey n) →
      (∀ x ∈ nitems, Gap x.2 ∧ x.2 ≠ []) →
      Gap junk →
      mem = pre ++ (junk ++ (termed nitems ++ (bytes "FOR" ++ 0 :: post))) →
      resend = pre.length + junk.length + (termed nitems).length →
      junk.length + (termed nitems).length < fuel →
      scan_tables fuel pre.length resend mem b rc =
        scan_result (names ++ extra_for junk nitems) b rc := by
  induction names with
  | nil =>
    intro nitems junk pre post b rc fuel mem resend hw _ _ hj hm hr hf
    have h1 := map_fst_nil nitems hw
    subst h1
    simp only [termed, List.length_nil, Nat.add_zero, List.nil_append] at hm hr hf
    by_cases hj0 : junk = []
    · subst hj0
      obtain ⟨f, rfl⟩ : ∃ f, fuel = f + 1 := ⟨fuel - 1, by omega⟩
      rw [scan_done f pre.length resend mem b rc (by simp at hr; omega)]
      rfl
    · have hjl : 0 < junk.length := List.length_pos.2 hj0
      obtain ⟨f, rfl⟩ : ∃ f, fuel = f + 2 := ⟨fuel - 2, by omega⟩
      rw [scan_name_step (f + 1) pre.length resend mem pre junk (bytes "FOR") post 0 b rc hm
          (Or.inl rfl) hj (by decide) (by decide) rfl (by omega),
        scan_done f _ resend mem _ _ (by omega)]
      simp only [List.nil_append, extra_for, hj0, if_false, scan_result]
      rfl
  | cons n rest ih =>
    intro nitems junk pre post b rc fuel mem resend hw hn hgap hj hm hr hf
    rw [table_tokens_cons] at hw
    obtain ⟨g, nitems2, rfl, hw2⟩ := map_fst_cons nitems _ _ hw
    have hg := hgap _ (List.mem_cons_self _ _)
    have hnn := hn n (List.mem_cons_self _ _)
    have hnpos : 0 < n.length := List.length_pos.2 hnn.1
    obtain ⟨d, gt, rfl⟩ := List.exists_cons_of_ne_nil hg.2
    have hgt : Gap gt := fun c hc => hg.1 c (List.mem_cons_of_mem _ hc)
    have hih := fun (pre2 : List Nat) (b2 : Tpb) (rc2 f2 : Nat)
        (hm2 : mem = pre2 ++ (gt ++ (termed nitems2 ++ (bytes "FOR" ++ 0 :: post))))
        (hr2 : resend = pre2.length + gt.length + (termed nitems2).length)
        (hf2 : gt.length + (termed nitems2).length < f2) =>
      ih nitems2 gt pre2 post b2 rc2 f2 mem resend hw2
        (fun m hm3 => hn m (List.mem_cons_of_mem _ hm3))
        (fun y hy => hgap y (List.mem_cons_of_mem _ hy))
        hgt hm2 hr2 hf2
    simp only [termed, term, List.length_append, List.length_cons] at hr hf
    simp only [List.cons_append, extra_for, List.tail_cons]
    by_cases hlong : n.length > META_NAME_MAX
    · obtain ⟨f, rfl⟩ : ∃ f, fuel = f + 1 := ⟨fuel - 1, by omega⟩
      simp only [scan_result, hlong, if_true]
      by_cases hre : rest = []
      · simp only [hre, if_true, List.append_nil] at hm
        exact scan_name_long f pre.length resend mem pre junk n
          (gt ++ (termed nitems2 ++ (bytes "FOR" ++ 0 :: post))) 0 b rc
          (by rw [hm]; simp [termed, term]) (Or.inl rfl) hj hnn hlong rfl (by omega)
      · simp only [hre, if_false] at hm
        exact scan_name_long f pre.length resend mem pre junk n
          (0 :: (gt ++ (termed nitems2 ++ (bytes "FOR" ++ 0 :: post)))) 44 b rc
          (by rw [hm]; simp [termed, term]) (Or.inr rfl) hj hnn hlong rfl (by omega)
    have hshort : n.length ≤ META_NAME_MAX := by omega
    simp only [scan_result, hlong, if_false]
    by_cases hre : rest = []
    · simp only [hre, if_true, List.append_nil, List.length_nil] at hm hr hf hih ⊢
      obtain ⟨f, rfl⟩ : ∃ f, fuel = f + 2 := ⟨fuel - 2, by omega⟩
      rw [scan_name_step (f + 1) pre.length resend mem pre junk n
          (gt ++ (termed nitems2 ++ (bytes "FOR" ++ 0 :: post))) 0 b rc
          (by rw [hm]; simp [termed, term]) (Or.inl rfl) hj hnn hshort rfl (by omega),
        scan_nul_step f _ resend mem (pre ++ (junk ++ n))
          (gt ++ (termed nitems2 ++ (bytes "FOR" ++ 0 :: post)))
          _ _ (by rw [hm]; simp [termed, term]) (by simp; omega) (by omega)]
      have := hih (pre ++ (junk ++ (n ++ [0]))) (push_name b n) (rc + 1) f
        (by rw [hm]; simp [termed, term])
        (by simp; omega) (by omega)
      simp only [List.length_append, List.length_cons, List.length_nil] at this
      rw [show pre.length + junk.length + n.length + 1 =
        pre.length + (junk.length + (n.length + (0 + 1))) by omega, this]
    · simp only [hre, if_false, List.length_append, List.length_cons, List.length_nil]
        at hm hr hf hih ⊢
      obtain ⟨f, rfl⟩ : ∃ f, fuel = f + 3 := ⟨fuel - 3, by omega⟩
      rw [scan_name_step (f + 2) pre.length resend mem pre junk n
          (0 :: (gt ++ (termed nitems2 ++ (bytes "FOR" ++ 0 :: post)))) 44 b rc
          (by rw [hm]; simp [termed, term]) (Or.inr rfl) hj hnn hshort rfl (by omega),
        scan_comma_step (f + 1) _ resend mem (pre ++ (junk ++ n))
          (gt ++ (termed nitems2 ++ (bytes "FOR" ++ 0 :: post)))
          _ _ (by rw [hm]; simp [termed, term]) (by simp; omega) (by omega),
        scan_nul_step f _ resend mem (pre ++ (junk ++ (n ++ [44])))
          (gt ++ (termed nitems2 ++ (bytes "FOR" ++ 0 :: post)))
          _ _ (by rw [hm]; simp [termed, term]) (by simp; omega) (by omega)]
      have := hih (pre ++ (junk ++ (n ++ [44, 0]))) (push_name b n) (rc + 1) f
        (by rw [hm]; simp [termed, term])
        (by simp; omega) (by omega)
      simp only [List.length_append, List.length_cons, List.length_nil] at this
      rw [show pre.length + junk.length + n.length + 1 + 1 =
        pre.length + (junk.length + (n.length + (0 + 1 + 1))) by omega, this]

theorem extra_for_tight (nitems : List (List Nat × List Nat)) (junk : List Nat)
    (hne : nitems ≠ []) (h : ∀ x, nitems.getLast? = some x → x.2.length = 1) :
    extra_for junk nitems = [] := by
  induction nitems generalizing junk with
  | nil => exact absurd rfl hne
  | cons x xs ih =>
    obtain ⟨w, g⟩ := x
    cases xs with
    | nil =>
      have h1 := h (w, g) rfl
      have h2 : g.tail = [] := by
        apply List.eq_nil_of_length_eq_zero
        simp only [List.length_tail]
        simp only at h1
        omega
      simp [extra_for, h2]
    | cons y ys =>
      show extra_for g.tail (y :: ys) = []
      exact ih g.tail (by simp) (fun z hz => h z (by simpa [List.getLast?_cons_cons] using hz))

theorem extra_for_short (nitems : List (List Nat × List Nat)) (junk : List Nat) :
    ∀ n ∈ extra_for junk nitems, n.length ≤ META_NAME_MAX := by
  induction nitems generalizing junk with
  | nil =>
    intro n hn
    simp only [extra_for] at hn
    split at hn
    · simp at hn
    · simp only [List.mem_singleton] at hn
      subst hn
      decide
  | cons x xs ih =>
    obtain ⟨w, g⟩ := x
    show ∀ n ∈ extra_for g.tail xs, n.length ≤ META_NAME_MAX
    exact ih g.tail

theorem scan_result_short (names : List (List Nat)) (b : Tpb) (rc : Nat)
    (h : ∀ n ∈ names, n.length ≤ META_NAME_MAX) :
    scan_result names b rc = PRes.done (names.foldl push_name b, rc + names.length) := by
  induction names generalizing b rc with
  | nil => rfl
  | cons n rest ih =>
    have h1 : ¬ n.length > META_NAME_MAX := by
      have := h n (List.mem_cons_self _ _)
      omega
    simp only [scan_result, h1, if_false, List.foldl_cons, List.length_cons]
    rw [ih _ _ (fun m hm => h m (List.mem_cons_of_mem _ hm))]
    congr 2
    omega

theorem strtok_tk2 (pre a ga c gc : List Nat) (rest : List (List Nat × List Nat))
    (hw : GapsOk ((a, ga) :: (c, gc) :: rest)) :
    strtok (tk pre a ga ((c, gc) :: rest)) CMND_DELIMIT =
      (some (pre ++ (a ++ term ga)).length, tk (pre ++ (a ++ term ga)) c gc rest) := by
  rw [strtok_tk pre a ga c gc rest hw]
  simp [term_length]
  omega

theorem strtok_tk_end2 (pre a ga : List Nat) (hw : GapsOk [(a, ga)]) :
    strtok (tk pre a ga []) CMND_DELIMIT =
      (none, ⟨pre ++ (a ++ term ga), (pre ++ (a ++ term ga)).length⟩) := by
  rw [strtok_tk_end pre a ga hw]
  simp [term_length]
  omega

theorem tk_mem_length (pre a ga : List Nat) (rest : List (List Nat × List Nat)) :
    pre.length ≤ (tk pre a ga rest).mem.length := by
  simp [tk]

theorem lock_word_facts (RW : List Nat) (h : RW = bytes "READ" ∨ RW = bytes "WRITE") :
    (∀ c ∈ RW, c ≠ 0 ∧ c ∉ LIST_DELIMIT) ∧ ∃ init l, RW = init ++ [l] ∧ l ≠ RESV_CONTINUE := by
  rcases h with rfl | rfl
  · exact ⟨by decide, [82, 69, 65], 68, by decide, by decide⟩
  · exact ⟨by decide, [87, 82, 73, 84], 69, by decide, by decide⟩

theorem lock_word_tk (P2 RW gr : List Nat) (rest : List (List Nat × List Nat))
    (h : RW = bytes "READ" ∨ RW = bytes "WRITE") (hg : GapsOk ((RW, gr) :: rest)) :
    strlen (tk P2 RW gr rest).mem P2.length = RW.length ∧
      peek (tk P2 RW gr rest).mem (P2.length + RW.length - 1) ≠ RESV_CONTINUE ∧
      strpbrk (tk P2 RW gr rest).mem P2.length LIST_DELIMIT = none := by
  obtain ⟨h1, init, l, h2, h3⟩ := lock_word_facts RW h
  have hgo := GapsOk_cons RW gr rest hg
  refine ⟨by simp only [strlen, cstr_tk P2 RW gr rest hg], ?_, ?_⟩
  · have := peek_at (P2 ++ init) l (term gr ++ spaced rest)
    subst h2
    simp only [tk, List.append_assoc, List.length_append, List.length_cons, List.length_nil,
      List.cons_append, List.nil_append] at this ⊢
    rw [show P2.length + (init.length + (0 + 1)) - 1 = P2.length + init.length by omega, this]
    exact h3
  · cases gr with
    | nil =>
      have hr : rest = [] := by
        by_contra hne
        exact hgo.2.2.1 hne rfl
      subst hr
      have := strpbrk_at_end P2 RW LIST_DELIMIT h1 (by decide)
      simpa [tk, term, spaced] using this
    | cons d gr1 =>
      have := strpbrk_at_nul P2 RW (gr1 ++ spaced rest) LIST_DELIMIT h1 (by decide)
      simpa [tk, term] using this

theorem table_tokens_ne_for (names : List (List Nat)) (hn : ∀ n ∈ names, Namey n)
    (hlast : names.getLast? ≠ some (bytes "FOR")) :
    ∀ w ∈ table_tokens names, w ≠ bytes "FOR" := by
  induction names with
  | nil => simp [table_tokens]
  | cons n rest ih =>
    intro w hw
    rw [table_tokens_cons] at hw
    rcases List.mem_cons.1 hw with rfl | hw2
    · by_cases hre : rest = []
      · subst hre
        simp only [if_true, List.append_nil]
        intro h
        exact hlast (by simp [h])
      · simp only [hre, if_false]
        intro h
        have h2 : (n ++ [44]).getLast? = (bytes "FOR").getLast? := by rw [h]
        have hF : (bytes "FOR").getLast? = some 82 := by decide
        rw [List.getLast?_append, hF] at h2
        simp at h2
    · refine ih (fun m hm => hn m (List.mem_cons_of_mem _ hm)) ?_ w hw2
      cases rest with
      | nil => simp [table_tokens] at hw2
      | cons r rs => simpa [List.getLast?_cons_cons] using hlast

theorem GapsOk_mem (items : List (List Nat × List Nat)) (h : GapsOk items) :
    ∀ x ∈ items, Wordy x.1 ∧ Gap x.2 := by
  induction items with
  | nil => simp
  | cons y ys ih =>
    obtain ⟨w, g⟩ := y
    have h1 := GapsOk_cons w g ys h
    intro x hx
    rcases List.mem_cons.1 hx with rfl | hx2
    · exact ⟨h1.1, h1.2.1⟩
    · exact ih h1.2.2.2 x hx2

theorem GapsOk_inner_gap (xs : List (List Nat × List Nat)) (y : List Nat × List Nat)
    (ys : List (List Nat × List Nat)) (h : GapsOk (xs ++ y :: ys)) :
    ∀ x ∈ xs, x.2 ≠ [] := by
  induction xs with
  | nil => simp
  | cons z zs ih =>
    obtain ⟨w, g⟩ := z
    have h1 := GapsOk_cons w g (zs ++ y :: ys) h
    intro x hx
    rcases List.mem_cons.1 hx with rfl | hx2
    · exact h1.2.2.1 (by simp)
    · exact ih h1.2.2.2 x hx2

theorem spaced_append (xs ys : List (List Nat × List Nat)) :
    spaced (xs ++ ys) = spaced xs ++ spaced ys := by
  induction xs with
  | nil => rfl
  | cons x xs ih =>
    obtain ⟨w, g⟩ := x
    simp [spaced, ih]

theorem spaced_length (xs : List (List Nat × List Nat)) :
    (spaced xs).length = (termed xs).length := by
  induction xs with
  | nil => rfl
  | cons x xs ih =>
    obtain ⟨w, g⟩ := x
    simp [spaced, termed, ih, term_length]

theorem reserving_clause (names : List (List Nat)) (SP RW : List Nat)
    (a ga gf gs gr : List Nat) (ms rest : List (List Nat × List Nat)) (pre : List Nat)
    (b : Tpb) (fuel : Nat)
    (hw : ((a, ga) :: ms).map Prod.fst = table_tokens names)
    (hn : ∀ n ∈ names, Namey n) (hlast : names.getLast? ≠ some (bytes "FOR"))
    (hSP : SP = bytes "SHARED" ∨ SP = bytes "PROTECTED")
    (hRW : RW = bytes "READ" ∨ RW = bytes "WRITE")
    (hg : GapsOk ((a, ga) :: (ms ++ (bytes "FOR", gf) :: (SP, gs) :: (RW, gr) :: rest)))
    (hcont : ∀ w, (rest.map Prod.fst).head? ≠ some (RESV_CONTINUE :: w)) :
    reserving (fuel + 1) pre.length
        (tk pre a ga (ms ++ (bytes "FOR", gf) :: (SP, gs) :: (RW, gr) :: rest)) b =
      match scan_result (names ++ extra_for [] ((a, ga) :: ms)) b 0 with
      | PRes.timeout => PRes.timeout
      | PRes.fail desc => PRes.fail desc
      | PRes.done (b1, rc) =>
        PRes.done
          (match rest with
            | [] => ResvEnd.finished
            | _ :: _ =>
              ResvEnd.next (pre ++ termed ((a, ga) :: ms) ++ (bytes "FOR" ++ term gf) ++
                (SP ++ term gs) ++ (RW ++ term gr)).length,
           match rest with
            | [] =>
              ⟨pre ++ termed ((a, ga) :: ms) ++ (bytes "FOR" ++ term gf) ++ (SP ++ term gs) ++
                  (RW ++ term gr),
                (pre ++ termed ((a, ga) :: ms) ++ (bytes "FOR" ++ term gf) ++ (SP ++ term gs) ++
                  (RW ++ term gr)).length⟩
            | (r1, gr1) :: rest2 =>
              tk (pre ++ termed ((a, ga) :: ms) ++ (bytes "FOR" ++ term gf) ++ (SP ++ term gs) ++
                (RW ++ term gr)) r1 gr1 rest2,
           ⟨fill_records rc b.used
              (if RW = bytes "READ" then isc_tpb_lock_read else isc_tpb_lock_write)
              (if SP = bytes "SHARED" then isc_tpb_shared else isc_tpb_protected) b1.buf,
            b1.used, b1.size⟩) := by
  have hms : ∀ x ∈ ms, x.1 ≠ bytes "FOR" := by
    intro x hx
    have h1 := table_tokens_ne_for names hn hlast x.1
    apply h1
    rw [← hw]
    exact List.mem_map_of_mem _ (List.mem_cons_of_mem _ hx)
  have hg1 := (GapsOk_cons a ga _ hg).2.2.2
  have hgF : GapsOk ((bytes "FOR", gf) :: (SP, gs) :: (RW, gr) :: rest) :=
    GapsOk_append_right ms _ hg1
  have hgS := (GapsOk_cons _ gf _ hgF).2.2.2
  have hgR := (GapsOk_cons SP gs _ hgS).2.2.2
  have hall := GapsOk_mem _ hg
  have hwords : ∀ x ∈ (a, ga) :: ms, x.1 ≠ [] := by
    intro x hx
    refine (hall x ?_).1.1
    rcases List.mem_cons.1 hx with rfl | hx2
    · exact List.mem_cons_self _ _
    · exact List.mem_cons_of_mem _ (List.mem_append_left _ hx2)
  have hgaps : ∀ x ∈ (a, ga) :: ms, Gap x.2 ∧ x.2 ≠ [] := by
    intro x hx
    have hx3 : x ∈ (a, ga) :: (ms ++ (bytes "FOR", gf) :: (SP, gs) :: (RW, gr) :: rest) := by
      rcases List.mem_cons.1 hx with rfl | hx2
      · exact List.mem_cons_self _ _
      · exact List.mem_cons_of_mem _ (List.mem_append_left _ hx2)
    exact ⟨(hall x hx3).2, GapsOk_inner_gap ((a, ga) :: ms) (bytes "FOR", gf) _ hg x hx⟩
  have hlen1 : ((a, ga) :: ms).length ≤ (termed ((a, ga) :: ms)).length :=
    termed_length_ge _ hwords
  have hF : pre ++ (a ++ term ga) ++ termed ms = pre ++ termed ((a, ga) :: ms) := by
    simp [termed]
  have hfind := find_resend_tk ms pre a ga gf ((SP, gs) :: (RW, gr) :: rest)
    ((tk pre a ga (ms ++ (bytes "FOR", gf) :: (SP, gs) :: (RW, gr) :: rest)).mem.length + 1)
    hg hms (by
      simp only [tk, List.length_append, spaced_append, spaced_length, List.length_cons,
        termed, term_length] at hlen1 ⊢
      omega)
  rw [hF] at hfind
  have hgf : gf ≠ [] := (GapsOk_cons _ gf _ hgF).2.2.1 (by simp)
  have hscan := scan_names names ((a, ga) :: ms) [] pre
    (gf.tail ++ spaced ((SP, gs) :: (RW, gr) :: rest)) b 0
    ((tk (pre ++ termed ((a, ga) :: ms)) (bytes "FOR") gf
      ((SP, gs) :: (RW, gr) :: rest)).mem.length + 1)
    (tk (pre ++ termed ((a, ga) :: ms)) (bytes "FOR") gf ((SP, gs) :: (RW, gr) :: rest)).mem
    (pre ++ termed ((a, ga) :: ms)).length hw hn hgaps (fun c hc => by simp at hc)
    (by simp [tk, term_of_ne_nil gf hgf]) (by simp)
    (by
      have := tk_mem_length (pre ++ termed ((a, ga) :: ms)) (bytes "FOR") gf
        ((SP, gs) :: (RW, gr) :: rest)
      simp only [List.length_append, List.length_nil] at this ⊢
      omega)
  have hs1 := strtok_tk2 (pre ++ termed ((a, ga) :: ms)) (bytes "FOR") gf SP gs
    ((RW, gr) :: rest) hgF
  have hc1 := cstr_tk (pre ++ termed ((a, ga) :: ms) ++ (bytes "FOR" ++ term gf)) SP gs
    ((RW, gr) :: rest) hgS
  have hs2 := strtok_tk2 (pre ++ termed ((a, ga) :: ms) ++ (bytes "FOR" ++ term gf)) SP gs RW gr
    rest hgS
  have hc2 := cstr_tk (pre ++ termed ((a, ga) :: ms) ++ (bytes "FOR" ++ term gf) ++
    (SP ++ term gs)) RW gr rest hgR
  obtain ⟨hl1, hl2, hl3⟩ := lock_word_tk (pre ++ termed ((a, ga) :: ms) ++
    (bytes "FOR" ++ term gf) ++ (SP ++ term gs)) RW gr rest hRW hgR
  have hSP2 : ¬ (SP ≠ bytes "SHARED" ∧ SP ≠ bytes "PROTECTED") := by
    rcases hSP with h | h
    · exact fun hx => hx.1 h
    · exact fun hx => hx.2 h
  have hRW2 : ¬ (RW ≠ bytes "READ" ∧ RW ≠ bytes "WRITE") := by
    rcases hRW with h | h
    · exact fun hx => hx.1 h
    · exact fun hx => hx.2 h
  rw [reserving, hfind]
  simp only [hscan]
  cases scan_result (names ++ extra_for [] ((a, ga) :: ms)) b 0 with
  | timeout => rfl
  | fail desc => rfl
  | done r =>
    obtain ⟨b1, rc⟩ := r
    simp only [hs1, hc1, hSP2, if_false, hs2, hl1, hl2, hl3, hc2, hRW2]
    have h01 : ¬ ((0 : Nat) = 1) := by decide
    simp only [h01, if_false]
    cases rest with
    | nil =>
      simp only [strtok_tk_end2 _ RW gr hgR]
    | cons r rest2 =>
      obtain ⟨r1, gr1⟩ := r
      have hs3 := strtok_tk2 (pre ++ termed ((a, ga) :: ms) ++ (bytes "FOR" ++ term gf) ++
        (SP ++ term gs)) RW gr r1 gr1 rest2 hgR
      have hgN := (GapsOk_cons RW gr _ hgR).2.2.2
      have hr1 := (GapsOk_cons r1 gr1 _ hgN).1
      obtain ⟨c, cs, rfl⟩ := List.exists_cons_of_ne_nil hr1.1
      have hpk : peek (tk (pre ++ termed ((a, ga) :: ms) ++ (bytes "FOR" ++ term gf) ++
          (SP ++ term gs) ++ (RW ++ term gr)) (c :: cs) gr1 rest2).mem
          (pre ++ termed ((a, ga) :: ms) ++ (bytes "FOR" ++ term gf) ++
          (SP ++ term gs) ++ (RW ++ term gr)).length = c := by
        have := peek_at (pre ++ termed ((a, ga) :: ms) ++ (bytes "FOR" ++ term gf) ++
          (SP ++ term gs) ++ (RW ++ term gr)) c (cs ++ (term gr1 ++ spaced rest2))
        simpa [tk] using this
      have hc44 : c ≠ RESV_CONTINUE := by
        intro h
        subst h
        exact hcont cs rfl
      simp only [hs3, hpk, hc44, and_false, if_false]

theorem advance_one_check1 (t : Tok) (b : Tpb) (cf : List Bool) (c1 c3 : Option Nat) (q : Nat) :
    advance_tokens 1 ⟨t, b, cf, c1, some q⟩ = advance_tokens 1 ⟨t, b, cf, c3, some q⟩ := rfl

theorem turn_reserving (names : List (List Nat)) (SP RW : List Nat)
    (g0 a ga gf gs gr : List Nat) (ms rest : List (List Nat × List Nat)) (pre : List Nat)
    (b : Tpb) (cf : List Bool) (fuel : Nat)
    (hw : ((a, ga) :: ms).map Prod.fst = table_tokens names)
    (hn : ∀ n ∈ names, Namey n) (hlast : names.getLast? ≠ some (bytes "FOR"))
    (hSP : SP = bytes "SHARED" ∨ SP = bytes "PROTECTED")
    (hRW : RW = bytes "READ" ∨ RW = bytes "WRITE")
    (hg : GapsOk ((bytes "RESERVING", g0) :: (a, ga) ::
      (ms ++ (bytes "FOR", gf) :: (SP, gs) :: (RW, gr) :: rest)))
    (hcont : ∀ w, (rest.map Prod.fst).head? ≠ some (RESV_CONTINUE :: w)) :
    ∃ pre2, parse_loop (fuel + 1) OptTable.trans_opt_S
        (lay pre ((bytes "RESERVING", g0) :: (a, ga) ::
          (ms ++ (bytes "FOR", gf) :: (SP, gs) :: (RW, gr) :: rest)) b cf) =
      if cf.getD 0 false then PRes.fail "Duplicate transaction option was specified"
      else
        match scan_result (names ++ extra_for [] ((a, ga) :: ms)) b 0 with
        | PRes.timeout => PRes.timeout
        | PRes.fail desc => PRes.fail desc
        | PRes.done (b1, rc) =>
          if rest = [] then
            PRes.done ⟨fill_records rc b.used
              (if RW = bytes "READ" then isc_tpb_lock_read else isc_tpb_lock_write)
              (if SP = bytes "SHARED" then isc_tpb_shared else isc_tpb_protected) b1.buf,
              b1.used, b1.size⟩
          else parse_loop fuel OptTable.trans_opt_S
            (lay pre2 rest ⟨fill_records rc b.used
              (if RW = bytes "READ" then isc_tpb_lock_read else isc_tpb_lock_write)
              (if SP = bytes "SHARED" then isc_tpb_shared else isc_tpb_protected) b1.buf,
              b1.used, b1.size⟩ (cf.set 0 true)) := by
  have hg1 := (GapsOk_cons _ g0 _ hg).2.2.2
  have hgR : GapsOk ((RW, gr) :: rest) :=
    GapsOk_append_right ((a, ga) :: (ms ++ [(bytes "FOR", gf), (SP, gs)])) _
      (by simpa [List.append_assoc] using hg1)
  have hc1 := lay_check1 pre _ b cf hg
  have hc2 := lay_check2 pre _ b cf hg
  have hlay := lay_cons_cons pre (bytes "RESERVING") g0 a ga
    (ms ++ (bytes "FOR", gf) :: (SP, gs) :: (RW, gr) :: rest) b cf
  have hpos : pre.length + (bytes "RESERVING").length + (term g0).length =
      (pre ++ (bytes "RESERVING" ++ term g0)).length := by
    simp
    omega
  rw [hpos] at hlay
  have hcl := reserving_clause names SP RW a ga gf gs gr ms rest
    (pre ++ (bytes "RESERVING" ++ term g0)) b
    (tk (pre ++ (bytes "RESERVING" ++ term g0)) a ga
      (ms ++ (bytes "FOR", gf) :: (SP, gs) :: (RW, gr) :: rest)).mem.length
    hw hn hlast hSP hRW hg1 hcont
  have hca := cstr_tk (pre ++ (bytes "RESERVING" ++ term g0)) a ga
    (ms ++ (bytes "FOR", gf) :: (SP, gs) :: (RW, gr) :: rest) hg1
  have hane : a ≠ bytes "FOR" := by
    apply table_tokens_ne_for names hn hlast a
    rw [← hw]
    exact List.mem_cons_self _ _
  refine ⟨pre ++ (bytes "RESERVING" ++ term g0) ++ termed ((a, ga) :: ms) ++
    (bytes "FOR" ++ term gf) ++ (SP ++ term gs) ++ (RW ++ term gr), ?_⟩
  rw [parse_loop, hc1, hc2]
  simp only [List.map_cons, List.head?_cons, find_target_trans_reserving]
  rw [hlay]
  have hneg : ¬ ((-1 : Int) > 0) := by decide
  have hne0 : (-1 : Int) ≠ 0 := by decide
  simp only [set_trans_option, hneg, if_false, hne0, ne_eq, not_false_eq_true, if_true, hca,
    hane, hcl]
  cases hcf : cf.getD 0 false with
  | true => simp only [if_true]
  | false =>
    simp only [Bool.false_eq_true, if_false]
    cases scan_result (names ++ extra_for [] ((a, ga) :: ms)) b 0 with
    | timeout => rfl
    | fail desc => rfl
    | done r =>
      obtain ⟨b1, rc⟩ := r
      cases rest with
      | nil =>
        simp only [advance_tokens, Option.isSome_none, Bool.false_eq_true, if_false, if_true]
      | cons r rest2 =>
        obtain ⟨r1, gr1⟩ := r
        have hl2 := lay_cons_cons (pre ++ (bytes "RESERVING" ++ term g0) ++
          termed ((a, ga) :: ms) ++ (bytes "FOR" ++ term gf) ++ (SP ++ term gs)) RW gr r1 gr1
          rest2 ⟨fill_records rc b.used
              (if RW = bytes "READ" then isc_tpb_lock_read else isc_tpb_lock_write)
              (if SP = bytes "SHARED" then isc_tpb_shared else isc_tpb_protected) b1.buf,
              b1.used, b1.size⟩ (cf.set 0 true)
        have hadv := advance_tokens_lay (pre ++ (bytes "RESERVING" ++ term g0) ++
          termed ((a, ga) :: ms) ++ (bytes "FOR" ++ term gf) ++ (SP ++ term gs)) RW gr
          ((r1, gr1) :: rest2) ⟨fill_records rc b.used
              (if RW = bytes "READ" then isc_tpb_lock_read else isc_tpb_lock_write)
              (if SP = bytes "SHARED" then isc_tpb_shared else isc_tpb_protected) b1.buf,
              b1.used, b1.size⟩ (cf.set 0 true) hgR
        rw [hl2] at hadv
        have hq : (pre ++ (bytes "RESERVING" ++ term g0) ++ termed ((a, ga) :: ms) ++
            (bytes "FOR" ++ term gf) ++ (SP ++ term gs)).length + RW.length + (term gr).length =
            (pre ++ (bytes "RESERVING" ++ term g0) ++ termed ((a, ga) :: ms) ++
            (bytes "FOR" ++ term gf) ++ (SP ++ term gs) ++ (RW ++ term gr)).length := by
          simp only [List.length_append]
          omega
        rw [hq] at hadv
        simp only [List.cons_ne_nil, if_false]
        rw [advance_one_check1 _ _ _ (some pre.length)
          (some (pre ++ (bytes "RESERVING" ++ term g0) ++ termed ((a, ga) :: ms) ++
            (bytes "FOR" ++ term gf) ++ (SP ++ term gs)).length), hadv]
        have hsome : (lay (pre ++ (bytes "RESERVING" ++ term g0) ++ termed ((a, ga) :: ms) ++
            (bytes "FOR" ++ term gf) ++ (SP ++ term gs) ++ (RW ++ term gr)) ((r1, gr1) :: rest2)
            ⟨fill_records rc b.used
              (if RW = bytes "READ" then isc_tpb_lock_read else isc_tpb_lock_write)
              (if SP = bytes "SHARED" then isc_tpb_shared else isc_tpb_protected) b1.buf,
              b1.used, b1.size⟩ (cf.set 0 true)).check1_p.isSome = true := by
          cases rest2 with
          | nil => rfl
          | cons z zs =>
            cases zs with
            | nil => rfl
            | cons z2 zs2 => rfl
        simp only [hsome, if_true]

theorem TightFor_tail (x : List Nat × List Nat) (xs : List (List Nat × List Nat))
    (h : TightFor (x :: xs)) : TightFor xs := by
  cases xs with
  | nil => trivial
  | cons y ys =>
    obtain ⟨w, g⟩ := x
    obtain ⟨w2, g2⟩ := y
    exact h.2

theorem TightFor_append_right (xs ys : List (List Nat × List Nat)) (h : TightFor (xs ++ ys)) :
    TightFor ys := by
  induction xs with
  | nil => exact h
  | cons x xs ih => exact ih (TightFor_tail x _ h)

theorem TightFor_last (xs : List (List Nat × List Nat)) (gf : List Nat)
    (ys : List (List Nat × List Nat)) (h : TightFor (xs ++ (bytes "FOR", gf) :: ys)) :
    ∀ x, xs.getLast? = some x → x.2.length = 1 := by
  induction xs with
  | nil => simp
  | cons z zs ih =>
    intro x hx
    cases zs with
    | nil =>
      obtain ⟨w, g⟩ := z
      simp only [List.getLast?_singleton, Option.some.injEq] at hx
      subst hx
      exact h.1 rfl
    | cons z2 zs2 =>
      rw [List.getLast?_cons_cons] at hx
      exact ih (TightFor_tail z _ h) x hx

theorem TightFor_append_left (xs ys : List (List Nat × List Nat)) (h : TightFor (xs ++ ys)) :
    TightFor xs := by
  induction xs with
  | nil => trivial
  | cons x xs ih =>
    cases xs with
    | nil => trivial
    | cons y ys2 =>
      obtain ⟨w, g⟩ := x
      obtain ⟨w2, g2⟩ := y
      exact ⟨h.1, ih h.2⟩

theorem table_tokens_ne_nil (names : List (List Nat)) (h : names ≠ []) :
    table_tokens names ≠ [] := by
  cases names with
  | nil => exact absurd rfl h
  | cons n rest =>
    rw [table_tokens_cons]
    simp

theorem reserving_step_any (names : List (List Nat)) (shared write : Bool)
    (hne : names ≠ []) (hn : ∀ n ∈ names, Namey n)
    (hlast : names.getLast? ≠ some (bytes "FOR"))
    (ditems rest : List (List Nat × List Nat))
    (hwords : ditems.map Prod.fst = (Directive.reserving names shared write).words)
    (hg : GapsOk (ditems ++ rest))
    (hcont : ∀ w, (rest.map Prod.fst).head? ≠ some (RESV_CONTINUE :: w))
    (pre : List Nat) (b : Tpb) (cf : List Bool) (fuel : Nat) :
    ∃ pre2 extra, (∀ n ∈ extra, n.length ≤ META_NAME_MAX) ∧ (TightFor ditems → extra = []) ∧
      parse_loop (fuel + 1) OptTable.trans_opt_S (lay pre (ditems ++ rest) b cf) =
      if cf.getD 0 false then PRes.fail "Duplicate transaction option was specified"
      else
        match scan_result (names ++ extra) b 0 with
        | PRes.timeout => PRes.timeout
        | PRes.fail desc => PRes.fail desc
        | PRes.done (b1, rc) =>
          if rest = [] then
            PRes.done ⟨fill_records rc b.used
              (if write then isc_tpb_lock_write else isc_tpb_lock_read)
              (if shared then isc_tpb_shared else isc_tpb_protected) b1.buf,
              b1.used, b1.size⟩
          else parse_loop fuel OptTable.trans_opt_S
            (lay pre2 rest ⟨fill_records rc b.used
              (if write then isc_tpb_lock_write else isc_tpb_lock_read)
              (if shared then isc_tpb_shared else isc_tpb_protected) b1.buf,
              b1.used, b1.size⟩ (cf.set 0 true)) := by
  obtain ⟨g0, r1, rfl, h1⟩ := map_fst_cons ditems _ _ hwords
  obtain ⟨nitems, i2, rfl, h2, h3⟩ := map_fst_append r1 _ _ h1
  obtain ⟨gf, r2, rfl, h4⟩ := map_fst_cons i2 _ _ h3
  obtain ⟨gs, r3, rfl, h5⟩ := map_fst_cons r2 _ _ h4
  obtain ⟨gr, r4, rfl, h6⟩ := map_fst_cons r3 _ _ h5
  have h7 := map_fst_nil r4 h6
  subst h7
  obtain ⟨x, ms, rfl⟩ : ∃ x ms, nitems = x :: ms := by
    cases nitems with
    | nil => exact absurd h2.symm (table_tokens_ne_nil names hne)
    | cons x ms => exact ⟨x, ms, rfl⟩
  obtain ⟨a, ga⟩ := x
  have hg2 : GapsOk ((bytes "RESERVING", g0) :: (a, ga) ::
      (ms ++ (bytes "FOR", gf) :: (if shared then bytes "SHARED" else bytes "PROTECTED", gs) ::
        (if write then bytes "WRITE" else bytes "READ", gr) :: rest)) := by
    simpa [List.append_assoc] using hg
  obtain ⟨pre2, e⟩ := turn_reserving names (if shared then bytes "SHARED" else bytes "PROTECTED")
    (if write then bytes "WRITE" else bytes "READ") g0 a ga gf gs gr ms rest pre b cf fuel h2
    hn hlast (by cases shared <;> simp) (by cases write <;> simp) hg2 hcont
  refine ⟨pre2, extra_for [] ((a, ga) :: ms), extra_for_short _ _, ?_, ?_⟩
  · intro ht
    have ht2 : TightFor (((a, ga) :: ms) ++ (bytes "FOR", gf) ::
        [(if shared then bytes "SHARED" else bytes "PROTECTED", gs),
          (if write then bytes "WRITE" else bytes "READ", gr)]) := by
      have := TightFor_tail _ _ ht
      simpa [List.append_assoc] using this
    exact extra_for_tight _ _ (by simp) (TightFor_last _ gf _ ht2)
  have hitems : (bytes "RESERVING", g0) ::
      (((a, ga) :: ms) ++ [(bytes "FOR", gf),
        (if shared then bytes "SHARED" else bytes "PROTECTED", gs),
        (if write then bytes "WRITE" else bytes "READ", gr)]) ++ rest =
      (bytes "RESERVING", g0) :: (a, ga) ::
      (ms ++ (bytes "FOR", gf) :: (if shared then bytes "SHARED" else bytes "PROTECTED", gs) ::
        (if write then bytes "WRITE" else bytes "READ", gr) :: rest) := by
    simp [List.append_assoc]
  have hrw : (if (if write then bytes "WRITE" else bytes "READ") = bytes "READ"
      then isc_tpb_lock_read else isc_tpb_lock_write) =
      (if write then isc_tpb_lock_write else isc_tpb_lock_read) := by
    cases write <;> decide
  have hsp : (if (if shared then bytes "SHARED" else bytes "PROTECTED") = bytes "SHARED"
      then isc_tpb_shared else isc_tpb_protected) =
      (if shared then isc_tpb_shared else isc_tpb_protected) := by
    cases shared <;> decide
  rw [hitems, e, hrw, hsp]

theorem reserving_step (names : List (List Nat)) (shared write : Bool)
    (hne : names ≠ []) (hn : ∀ n ∈ names, Namey n)
    (hlast : names.getLast? ≠ some (bytes "FOR"))
    (ditems rest : List (List Nat × List Nat))
    (hwords : ditems.map Prod.fst = (Directive.reserving names shared write).words)
    (hg : GapsOk (ditems ++ rest)) (ht : TightFor ditems)
    (hcont : ∀ w, (rest.map Prod.fst).head? ≠ some (RESV_CONTINUE :: w))
    (pre : List Nat) (b : Tpb) (cf : List Bool) (fuel : Nat) :
    ∃ pre2, parse_loop (fuel + 1) OptTable.trans_opt_S (lay pre (ditems ++ rest) b cf) =
      if cf.getD 0 false then PRes.fail "Duplicate transaction option was specified"
      else
        match scan_result names b 0 with
        | PRes.timeout => PRes.timeout
        | PRes.fail desc => PRes.fail desc
        | PRes.done (b1, rc) =>
          if rest = [] then
            PRes.done ⟨fill_records rc b.used
              (if write then isc_tpb_lock_write else isc_tpb_lock_read)
              (if shared then isc_tpb_shared else isc_tpb_protected) b1.buf,
              b1.used, b1.size⟩
          else parse_loop fuel OptTable.trans_opt_S
            (lay pre2 rest ⟨fill_records rc b.used
              (if write then isc_tpb_lock_write else isc_tpb_lock_read)
              (if shared then isc_tpb_shared else isc_tpb_protected) b1.buf,
              b1.used, b1.size⟩ (cf.set 0 true)) := by
  obtain ⟨pre2, extra, _, h2, e⟩ := reserving_step_any names shared write hne hn hlast ditems
    rest hwords hg hcont pre b cf fuel
  have := h2 ht
  subst this
  rw [List.append_nil] at e
  exact ⟨pre2, e⟩

theorem directive_step_any (d : Directive) (hv : d.valid)
    (ditems rest : List (List Nat × List Nat)) (hwords : ditems.map Prod.fst = d.words)
    (hg : GapsOk (ditems ++ rest))
    (hcont : ¬ d.continues (rest.map Prod.fst).head? (rest.map Prod.fst).tail.head?)
    (pre : List Nat) (b : Tpb) (cf : List Bool) (fuel : Nat) :
    ∃ pre2 b2, parse_loop (fuel + d.turns) OptTable.trans_opt_S
        (lay pre (ditems ++ rest) b cf) =
      if cf.getD d.slot false then PRes.fail "Duplicate transaction option was specified"
      else if rest = [] then PRes.done b2
      else parse_loop fuel OptTable.trans_opt_S (lay pre2 rest b2 (cf.set d.slot true)) := by
  by_cases hd : ∀ ns s w, d ≠ Directive.reserving ns s w
  · obtain ⟨pre2, e⟩ := directive_step_plain d hd ditems rest hwords hg hcont pre b cf fuel
    exact ⟨pre2, d.store b, e⟩
  · obtain ⟨names, shared, write, rfl⟩ : ∃ ns s w, d = Directive.reserving ns s w := by
      by_contra hne
      exact hd (fun ns s w h => hne ⟨ns, s, w, h⟩)
    obtain ⟨hne, hn, hlast⟩ := hv
    obtain ⟨pre2, extra, hx, _, e⟩ := reserving_step_any names shared write hne
      (fun n hn2 => (hn n hn2).1) hlast ditems rest hwords hg (fun w h => hcont ⟨w, h⟩) pre b cf
      fuel
    rw [scan_result_short (names ++ extra) b 0 (fun n hn2 => by
      rcases List.mem_append.1 hn2 with h | h
      · exact (hn n h).2
      · exact hx n h)] at e
    exact ⟨pre2, _, e⟩

theorem directive_step (d : Directive) (hv : d.valid)
    (ditems rest : List (List Nat × List Nat)) (hwords : ditems.map Prod.fst = d.words)
    (hg : GapsOk (ditems ++ rest)) (ht : TightFor ditems)
    (hcont : ¬ d.continues (rest.map Prod.fst).head? (rest.map Prod.fst).tail.head?)
    (pre : List Nat) (b : Tpb) (cf : List Bool) (fuel : Nat) :
    ∃ pre2, parse_loop (fuel + d.turns) OptTable.trans_opt_S (lay pre (ditems ++ rest) b cf) =
      if cf.getD d.slot false then PRes.fail "Duplicate transaction option was specified"
      else if rest = [] then PRes.done (d.store b)
      else parse_loop fuel OptTable.trans_opt_S
        (lay pre2 rest (d.store b) (cf.set d.slot true)) := by
  by_cases hd : ∀ ns s w, d ≠ Directive.reserving ns s w
  · exact directive_step_plain d hd ditems rest hwords hg hcont pre b cf fuel
  · obtain ⟨names, shared, write, rfl⟩ : ∃ ns s w, d = Directive.reserving ns s w := by
      by_contra hne
      exact hd (fun ns s w h => hne ⟨ns, s, w, h⟩)
    obtain ⟨hne, hn, hlast⟩ := hv
    obtain ⟨pre2, e⟩ := reserving_step names shared write hne (fun n hn2 => (hn n hn2).1) hlast
      ditems rest hwords hg ht (fun w h => hcont ⟨w, h⟩) pre b cf fuel
    refine ⟨pre2, ?_⟩
    simp only [Directive.turns, Directive.slot, Directive.store]
    rw [e, scan_result_short names b 0 (fun n hn2 => (hn n hn2).2)]
    simp only [Nat.zero_add]

/-! ## TPB parser: sequences of directives -/

theorem words_ne_nil (d : Directive) : d.words ≠ [] := by
  cases d with
  | read_write => simp [Directive.words]
  | read_only => simp [Directive.words]
  | wait => simp [Directive.words]
  | no_wait => simp [Directive.words]
  | snapshot level stability => cases level <;> simp [Directive.words, level_words]
  | read_committed level version => cases level <;> simp [Directive.words, level_words]
  | reserving ns s w => simp [Directive.words]

/-- The first two words of a directive: a keyword of the top table, and `WAIT` after `NO`. -/
theorem words_head (d : Directive) :
    ∃ k, d.words.head? = some k ∧
      (k ∈ top_keywords ∨ (k = bytes "NO" ∧ d.words.tail.head? = some (bytes "WAIT"))) := by
  cases d with
  | read_write => exact ⟨_, rfl, Or.inl (by decide)⟩
  | read_only => exact ⟨_, rfl, Or.inl (by decide)⟩
  | wait => exact ⟨_, rfl, Or.inl (by decide)⟩
  | no_wait => exact ⟨_, rfl, Or.inr ⟨rfl, rfl⟩⟩
  | snapshot level stability => cases level <;> exact ⟨_, rfl, Or.inl (by decide)⟩
  | read_committed level version => cases level <;> exact ⟨_, rfl, Or.inl (by decide)⟩
  | reserving ns s w => exact ⟨_, rfl, Or.inl (by decide)⟩

theorem head_append_of_ne_nil {α : Type} (xs ys : List α) (h : xs ≠ []) :
    (xs ++ ys).head? = xs.head? := by
  cases xs with
  | nil => exact absurd rfl h
  | cons x xs => rfl

theorem top_keywords_facts (k : List Nat) (hk : k ∈ top_keywords) :
    k.head? ≠ some RESV_CONTINUE ∧ k ≠ bytes "TABLE" ∧ k ≠ bytes "RECORD_VERSION" ∧
      k ≠ bytes "NO" := by
  simp only [top_keywords, List.mem_cons, List.mem_singleton, List.not_mem_nil, or_false] at hk
  rcases hk with rfl | rfl | rfl | rfl | rfl <;> decide

theorem not_continues_keyword (d : Directive) (k : List Nat) (h2 : Option (List Nat))
    (hk : k ∈ top_keywords ∨ (k = bytes "NO" ∧ h2 = some (bytes "WAIT"))) :
    ¬ d.continues (some k) h2 := by
  have hfacts : k.head? ≠ some RESV_CONTINUE ∧ k ≠ bytes "TABLE" ∧
      k ≠ bytes "RECORD_VERSION" ∧ (k = bytes "NO" → h2 ≠ some (bytes "RECORD_VERSION")) := by
    rcases hk with hm | ⟨rfl, h4⟩
    · obtain ⟨f1, f2, f3, f4⟩ := top_keywords_facts k hm
      exact ⟨f1, f2, f3, fun h => absurd h f4⟩
    · refine ⟨by decide, by decide, by decide, fun _ => ?_⟩
      rw [h4]
      decide
  obtain ⟨f1, f2, f3, f4⟩ := hfacts
  cases d with
  | read_write => exact fun h => h
  | read_only => exact fun h => h
  | wait => exact fun h => h
  | no_wait => exact fun h => h
  | snapshot level stability =>
    cases stability
    · exact fun h => f2 (Option.some.inj h.1)
    · exact fun h => h
  | read_committed level version =>
    cases version
    · rintro (h | h)
      · exact f3 (Option.some.inj h)
      · exact f4 (Option.some.inj h.1) h.2
    · exact fun h => h
    · exact fun h => h
  | reserving ns s w =>
    rintro ⟨w2, h⟩
    apply f1
    rw [Option.some.inj h]
    rfl

theorem tail_head_append (xs ys : List (List Nat)) (k : List Nat)
    (h : xs.tail.head? = some k) : (xs ++ ys).tail.head? = some k := by
  cases xs with
  | nil => simp at h
  | cons x xs =>
    cases xs with
    | nil => simp at h
    | cons y ys2 => simpa using h

theorem slot_lt (d : Directive) : d.slot < 4 := by
  cases d <;> simp [Directive.slot]

theorem turns_le_head (d : Directive) :
    ∃ k rest, d.words = k :: rest ∧ d.turns ≤ k.length := by
  cases d with
  | read_write => exact ⟨_, _, rfl, by decide⟩
  | read_only => exact ⟨_, _, rfl, by decide⟩
  | wait => exact ⟨_, _, rfl, by decide⟩
  | no_wait => exact ⟨_, _, rfl, by decide⟩
  | snapshot level stability =>
    cases level <;> exact ⟨_, _, rfl, by simp only [Directive.turns]; decide⟩
  | read_committed level version =>
    cases level <;> exact ⟨_, _, rfl, by simp only [Directive.turns]; decide⟩
  | reserving ns s w => exact ⟨_, _, rfl, by simp only [Directive.turns]; decide⟩

theorem turns_le_spaced (ds : List Directive) :
    ∀ items : List (List Nat × List Nat), items.map Prod.fst = ds.flatMap Directive.words →
      (ds.map Directive.turns).sum ≤ (spaced items).length := by
  induction ds with
  | nil => simp
  | cons d ds ih =>
    intro items h
    simp only [List.flatMap_cons] at h
    obtain ⟨i1, i2, rfl, h1, h2⟩ := map_fst_append items _ _ h
    obtain ⟨k, rest, hk, hle⟩ := turns_le_head d
    rw [hk] at h1
    obtain ⟨g, r1, rfl, _⟩ := map_fst_cons i1 _ _ h1
    have := ih i2 h2
    have h3 : k.length ≤ (spaced ((k, g) :: r1)).length := by
      simp only [spaced, List.length_append]
      omega
    rw [spaced_append]
    simp only [List.map_cons, List.sum_cons, List.length_append]
    omega

theorem parse_trans_fail (g0 : List Nat) (items : List (List Nat × List Nat))
    (hg0 : Gap g0) (hg : GapsOk items) (desc : String)
    (h : parse_loop ((g0 ++ spaced items).length + 3) OptTable.trans_opt_S
      (lay g0 items ⟨memcpy [] 0 isc_tpb_0, 4, TPBBUFF_ALLOC⟩ [false, false, false, false]) =
        PRes.fail desc) :
    parse_trans (g0 ++ spaced items) = PRes.fail desc := by
  rw [parse_trans, initial_state_spaced g0 items hg0 hg, h]

theorem takeWhile_length_le {α : Type} (p : α → Bool) (l : List α) :
    (l.takeWhile p).length ≤ l.length := by
  induction l with
  | nil => simp
  | cons x xs ih =>
    rw [List.takeWhile_cons]
    split
    · simp only [List.length_cons]
      omega
    · simp

theorem strlen_le (mem : List Nat) (p : Nat) : strlen mem p ≤ (mem.drop p).length := by
  unfold strlen cstr
  exact takeWhile_length_le _ _

theorem getD_set_ne (cf : List Bool) (k j : Nat) (h : j ≠ k) :
    (cf.set k true).getD j false = cf.getD j false := by
  simp only [List.getD_eq_getElem?_getD, List.getElem?_set]
  have : ¬ k = j := fun e => h e.symm
  simp only [this, if_false]

theorem pass_directives (ds : List Directive) :
    ∀ (pitems rest : List (List Nat × List Nat)) (pre : List Nat) (b : Tpb) (cf : List Bool)
      (fuel : Nat),
      pitems.map Prod.fst = ds.flatMap Directive.words → GapsOk (pitems ++ rest) →
      (∀ d ∈ ds, d.valid) → (ds.map Directive.slot).Nodup →
      (∀ d ∈ ds, cf.getD d.slot false = false) → rest ≠ [] →
      (∀ d, ds.getLast? = some d →
        ¬ d.continues (rest.map Prod.fst).head? (rest.map Prod.fst).tail.head?) →
      ∃ pre2 b2 cf2, parse_loop (fuel + (ds.map Directive.turns).sum) OptTable.trans_opt_S
          (lay pre (pitems ++ rest) b cf) =
        parse_loop fuel OptTable.trans_opt_S (lay pre2 rest b2 cf2) := by
  induction ds with
  | nil =>
    intro pitems rest pre b cf fuel hw _ _ _ _ _ _
    have := map_fst_nil pitems hw
    subst this
    exact ⟨pre, b, cf, rfl⟩
  | cons d ds ih =>
    intro pitems rest pre b cf fuel hw hg hv hnd hcf hrest hcont
    simp only [List.flatMap_cons] at hw
    obtain ⟨i1, i2, rfl, h1, h2⟩ := map_fst_append pitems _ _ hw
    rw [List.append_assoc] at hg ⊢
    have hc : ¬ d.continues ((i2 ++ rest).map Prod.fst).head?
        ((i2 ++ rest).map Prod.fst).tail.head? := by
      cases ds with
      | nil =>
        have := map_fst_nil i2 h2
        subst this
        exact hcont d rfl
      | cons d2 ds2 =>
        obtain ⟨k, hk1, hk2⟩ := words_head d2
        have hne : i2.map Prod.fst ≠ [] := by
          rw [h2]
          simp only [List.flatMap_cons]
          intro h
          exact words_ne_nil d2 (List.append_eq_nil.1 h).1
        have hh : ((i2 ++ rest).map Prod.fst).head? = some k := by
          rw [List.map_append, head_append_of_ne_nil _ _ hne, h2]
          simp only [List.flatMap_cons]
          rw [head_append_of_ne_nil _ _ (words_ne_nil d2), hk1]
        rw [hh]
        refine not_continues_keyword d k _ (hk2.imp_right (And.imp_right (fun h3 => ?_)))
        rw [List.map_append, h2]
        simp only [List.flatMap_cons, List.append_assoc]
        exact tail_head_append _ _ _ h3
    obtain ⟨pre2, b2, e⟩ := directive_step_any d (hv d (List.mem_cons_self _ _)) i1 (i2 ++ rest)
      h1 hg hc pre b cf (fuel + (ds.map Directive.turns).sum)
    have hne2 : i2 ++ rest ≠ [] := by
      intro h
      exact hrest (List.append_eq_nil.1 h).2
    have hcd := hcf d (List.mem_cons_self _ _)
    simp only [hcd, Bool.false_eq_true, if_false, hne2] at e
    simp only [List.map_cons, List.nodup_cons] at hnd
    obtain ⟨pre3, b3, cf3, e3⟩ := ih i2 rest pre2 b2 (cf.set d.slot true) fuel h2
      (GapsOk_append_right _ _ hg)
      (fun d2 hd2 => hv d2 (List.mem_cons_of_mem _ hd2)) hnd.2
      (fun d2 hd2 => by
        have hne : d2.slot ≠ d.slot := by
          intro h
          exact hnd.1 (List.mem_map.2 ⟨d2, hd2, h⟩)
        rw [getD_set_ne cf _ _ hne]
        exact hcf d2 (List.mem_cons_of_mem _ hd2))
      hrest
      (fun d2 hd2 => hcont d2 (by
        cases ds with
        | nil => simp at hd2
        | cons d3 ds3 => simpa [List.getLast?_cons_cons] using hd2))
    refine ⟨pre3, b3, cf3, ?_⟩
    simp only [List.map_cons, List.sum_cons]
    rw [show fuel + (d.turns + (ds.map Directive.turns).sum) =
      fuel + (ds.map Directive.turns).sum + d.turns by omega, e, e3]

/-- C19: when the tokens at a directive position match no entry of the active table, the
option string is rejected with "Illegal transaction option was specified".  The string is
any sequence of valid directives that address distinct slots, followed by nothing, by `READ`
or by `ISOLATION LEVEL`, and then by tokens `bitems` (possibly none) that select no entry of
the table active there; white space is arbitrary.  The empty and the all-blank string are the
case without any token. -/
theorem C19_illegal_option (opt g0 : List Nat)
    (pitems oitems bitems : List (List Nat × List Nat)) (ds : List Directive) (op : Opening)
    (hopt : upper_copy opt = g0 ++ spaced (pitems ++ oitems ++ bitems))
    (hp : pitems.map Prod.fst = ds.flatMap Directive.words)
    (ho : oitems.map Prod.fst = op.words) (hg0 : Gap g0)
    (hg : GapsOk (pitems ++ oitems ++ bitems))
    (hv : ∀ d ∈ ds, d.valid) (hnd : (ds.map Directive.slot).Nodup)
    (hft : find_target op.table.entries (bitems.map Prod.fst).head?
      (bitems.map Prod.fst).tail.head? = none)
    (hend : op = Opening.top → bitems = [] → ds = [])
    (hcont : op = Opening.top → ∀ d, ds.getLast? = some d →
      ¬ d.continues (bitems.map Prod.fst).head? (bitems.map Prod.fst).tail.head?) :
    trans_parseopts opt = PRes.fail "Illegal transaction option was specified" := by
  rw [trans_parseopts, hopt]
  refine parse_trans_fail g0 _ hg0 hg _ ?_
  have hlen := turns_le_spaced ds pitems hp
  obtain ⟨f, hf⟩ : ∃ f, (g0 ++ spaced (pitems ++ oitems ++ bitems)).length + 3 =
      (f + 2) + (ds.map Directive.turns).sum := by
    refine ⟨(g0 ++ spaced (pitems ++ oitems ++ bitems)).length + 1 -
      (ds.map Directive.turns).sum, ?_⟩
    simp only [List.length_append, spaced_append] at hlen ⊢
    omega
  rw [hf]
  have hgo : GapsOk (oitems ++ bitems) := by
    rw [List.append_assoc] at hg
    exact GapsOk_append_right _ _ hg
  by_cases hrest : oitems ++ bitems = []
  · obtain ⟨ho2, hb2⟩ := List.append_eq_nil.1 hrest
    subst ho2 hb2
    have hop : op = Opening.top := by
      cases op with
      | top => rfl
      | read => simp [Opening.words] at ho
      | isolation_level => simp [Opening.words] at ho
    have hds := hend hop rfl
    subst hds hop
    have := map_fst_nil pitems hp
    subst this
    exact parse_loop_illegal _ _ g0 [] _ _ trivial hft
  · have hc : ∀ d, ds.getLast? = some d →
        ¬ d.continues ((oitems ++ bitems).map Prod.fst).head?
          ((oitems ++ bitems).map Prod.fst).tail.head? := by
      intro d hd
      cases op with
      | top =>
        have := map_fst_nil oitems ho
        subst this
        exact hcont rfl d hd
      | read =>
        rw [List.map_append, ho]
        exact not_continues_keyword d _ _ (Or.inl (by decide))
      | isolation_level =>
        rw [List.map_append, ho]
        exact not_continues_keyword d _ _ (Or.inl (by decide))
    rw [List.append_assoc] at hg ⊢
    obtain ⟨pre2, b2, cf2, e⟩ := pass_directives ds pitems (oitems ++ bitems) g0
      ⟨memcpy [] 0 isc_tpb_0, 4, TPBBUFF_ALLOC⟩ [false, false, false, false] (f + 2) hp hg hv
      hnd (fun d _ => by
        have := slot_lt d
        interval_cases d.slot <;> rfl) hrest hc
    rw [e]
    cases op with
    | top =>
      have := map_fst_nil oitems ho
      subst this
      exact parse_loop_illegal _ _ pre2 _ _ _ hgo hft
    | read =>
      obtain ⟨g1, r1, rfl, h1⟩ := map_fst_cons oitems _ _ ho
      have := map_fst_nil r1 h1
      subst this
      rw [show f + 2 = f + 1 + 1 from rfl]
      simp only [List.cons_append, List.nil_append]
      rw [turn_read (f + 1) pre2 g1 bitems b2 cf2 hgo]
      exact parse_loop_illegal _ _ _ _ _ _ (GapsOk_append_right [(bytes "READ", g1)] _ hgo) hft
    | isolation_level =>
      obtain ⟨g1, r1, rfl, h1⟩ := map_fst_cons oitems _ _ ho
      obtain ⟨g2, r2, rfl, h2⟩ := map_fst_cons r1 _ _ h1
      have := map_fst_nil r2 h2
      subst this
      rw [show f + 2 = f + 1 + 1 from rfl]
      simp only [List.cons_append, List.nil_append]
      rw [turn_isolation (f + 1) pre2 g1 g2 bitems b2 cf2 hgo]
      exact parse_loop_illegal _ _ _ _ _ _
        (GapsOk_append_right [(bytes "ISOLATION", g1), (bytes "LEVEL", g2)] _ hgo) hft

theorem C19_illegal_option_witness :
    trans_parseopts (bytes "") = PRes.fail "Illegal transaction option was specified" ∧
      trans_parseopts [32, 9, 32] = PRes.fail "Illegal transaction option was specified" ∧
      trans_parseopts (bytes "commit") =
        PRes.fail "Illegal transaction option was specified" ∧
      trans_parseopts (bytes "READ WRITE WAIT ISOLATION LEVEL SERIALIZABLE") =
        PRes.fail "Illegal transaction option was specified" ∧
      trans_parseopts (bytes "SNAPSHOT READ") =
        PRes.fail "Illegal transaction option was specified" :=
  ⟨C19_illegal_option (bytes "") [] [] [] [] [] Opening.top
      (by decide) (by decide) (by decide) (by decide) (by decide) (by decide) (by decide)
      (by decide) (by decide) (fun _ d h => by simp at h),
    C19_illegal_option [32, 9, 32] [32, 9, 32] [] [] [] [] Opening.top
      (by decide) (by decide) (by decide) (by decide) (by decide) (by decide) (by decide)
      (by decide) (by decide) (fun _ d h => by simp at h),
    C19_illegal_option (bytes "commit") [] [] [] [(bytes "COMMIT", [])] [] Opening.top
      (by decide) (by decide) (by decide) (by decide) (by decide) (by decide) (by decide)
      (by decide) (by decide) (fun _ d h => by simp at h),
    C19_illegal_option (bytes "READ WRITE WAIT ISOLATION LEVEL SERIALIZABLE") []
      [(bytes "READ", [32]), (bytes "WRITE", [32]), (bytes "WAIT", [32])]
      [(bytes "ISOLATION", [32]), (bytes "LEVEL", [32])] [(bytes "SERIALIZABLE", [])]
      [Directive.read_write, Directive.wait] Opening.isolation_level
      (by decide) (by decide) (by decide) (by decide) (by decide) (by decide) (by decide)
      (by decide) (by decide) (fun h => absurd h (by decide)),
    C19_illegal_option (bytes "SNAPSHOT READ") []
      [(bytes "SNAPSHOT", [32])] [(bytes "READ", [])] []
      [Directive.snapshot false false] Opening.read
      (by decide) (by decide) (by decide) (by decide) (by decide) (by decide) (by decide)
      (by decide) (by decide) (fun h => absurd h (by decide))⟩

/-! ## C20: the length of a table name -/

@[simp] theorem Run.bind_ok {α β : Type} (a : α) (w : World) (f : α → World → Run β) :
    (Run.ok a w).bind f = f a w := rfl

@[simp] theorem Run.bind_raise {α β : Type} (e : Exception) (w : World)
    (f : α → World → Run β) : (Run.raise e w : Run α).bind f = Run.raise e w := rfl

@[simp] theorem Run.bind_timeout {α β : Type} (f : α → World → Run β) :
    (Run.timeout : Run α).bind f = Run.timeout := rfl

theorem Run.bind_eq_ok {α β : Type} {r : Run α} {f : α → World → Run β} {b : β} {w : World}
    (h : r.bind f = Run.ok b w) : ∃ a w1, r = Run.ok a w1 ∧ f a w1 = Run.ok b w := by
  cases r with
  | ok a w1 => exact ⟨a, w1, rfl, h⟩
  | raise e w1 => simp at h
  | timeout => simp at h

/-- The messages with which the option parser fails. -/
theorem scan_tables_fail (fuel resv_p resend_p : Nat) (mem : List Nat) (b : Tpb) (n : Nat)
    (desc : String) (h : scan_tables fuel resv_p resend_p mem b n = PRes.fail desc) :
    desc = "Illegal table name was specified" := by
  induction fuel generalizing resv_p b n with
  | zero => simp [scan_tables] at h
  | succ fuel ih =>
    rw [scan_tables] at h
    split at h
    · split at h
      · exact ih _ _ _ h
      · simp only at h
        split at h
        · injection h with h; exact h.symm
        · split at h
          · exact ih _ _ _ h
          · exact ih _ _ _ h
    · simp at h

theorem reserving_fail (fuel resv_p : Nat) (t : Tok) (b : Tpb) (desc : String)
    (h : reserving fuel resv_p t b = PRes.fail desc) :
    desc ≠ "The transaction has been already started" := by
  induction fuel generalizing resv_p t b with
  | zero => simp [reserving] at h
  | succ fuel ih =>
    rw [reserving] at h
    repeat' (first | split at h | simp only [] at h)
    all_goals first
      | exact ih _ _ _ h
      | (injection h with h; subst h; first
          | decide
          | (rename_i hs; rw [scan_tables_fail _ _ _ _ _ _ _ hs]; decide))
      | simp at h

theorem set_trans_option_fail (target : trans_opts) (next_c : Nat) (st : PState)
    (desc : String) (h : set_trans_option target next_c st = PRes.fail desc) :
    desc ≠ "The transaction has been already started" := by
  rw [set_trans_option] at h
  repeat' split at h
  all_goals first
    | (injection h with h; subst h; first
        | decide
        | (rename_i hs; exact reserving_fail _ _ _ _ _ hs))
    | simp at h

theorem parse_loop_fail (fuel : Nat) (curr_p : OptTable) (st : PState) (desc : String)
    (h : parse_loop fuel curr_p st = PRes.fail desc) :
    desc ≠ "The transaction has been already started" := by
  induction fuel generalizing curr_p st with
  | zero => simp [parse_loop] at h
  | succ fuel ih =>
    rw [parse_loop] at h
    repeat' split at h
    all_goals first
      | exact ih _ _ h
      | (injection h with h; subst h; first
          | decide
          | (rename_i hs; exact set_trans_option_fail _ _ _ _ hs))
      | simp at h

theorem trans_parseopts_fail (opt : List Nat) (desc : String)
    (h : trans_parseopts opt = PRes.fail desc) :
    desc ≠ "The transaction has been already started" := by
  rw [trans_parseopts, parse_trans] at h
  split at h
  · simp at h
  · rename_i hs
    injection h with h
    subst h
    exact parse_loop_fail _ _ _ _ hs
  · simp at h

/-! ## The ambient transaction -/

theorem fb_error_check_calls (h : Host) (w : World) :
    (∃ ex, fb_error_check h w = Run.raise ex w) ∨ fb_error_check h w = Run.ok () w := by
  unfold fb_error_check
  cases h.status_error w.calls with
  | none => exact Or.inr rfl
  | some ex => exact Or.inl ⟨ex, rfl⟩

theorem teb_of_list_error (w : World) (tpb : Option (List Nat)) (len : Int) (fuel : Nat)
    (p : Option Nat) (e : Exception)
    (h : teb_of_list w tpb len fuel p = some (Except.error e)) : e = bad_pointer := by
  induction fuel generalizing p with
  | zero => cases p <;> simp [teb_of_list] at h
  | succ fuel ih =>
    cases p with
    | none => simp [teb_of_list] at h
    | some a =>
      rw [teb_of_list] at h
      split at h
      · simp at h; exact h.symm
      · split at h
        · simp at h
        · rename_i hs
          simp at h
          subst h
          exact ih _ hs
        · simp at h

theorem teb_of_args_error (w : World) (tpb : Option (List Nat)) (len : Int) (n : Int)
    (argv : List VALUE) (e : Exception)
    (h : teb_of_args w tpb len n argv = Except.error e) : e.cls ≠ ExcClass.FbError := by
  induction argv generalizing n with
  | nil => simp [teb_of_args] at h
  | cons data rest ih =>
    rw [teb_of_args] at h
    split at h
    · rename_i e1 hs
      simp at h
      subst h
      unfold fb_connection_check_retrieve at hs
      repeat' split at hs
      all_goals first
        | (simp at hs; subst hs; simp)
        | simp at hs
    · split at h
      · simp at h; subst h; simp [bad_pointer]
      · split at h
        · rename_i hs
          simp at h
          subst h
          exact ih _ hs
        · simp at h

theorem transaction_start_teb_ne (h : Host) (d : Driver) (tpb : Option (List Nat))
    (tpb_len : Int) (argv : List VALUE) (w : World) :
    transaction_start_teb h d tpb tpb_len argv w ≠
      Run.raise ⟨ExcClass.FbError, "The transaction has been already started"⟩ w := by
  unfold transaction_start_teb
  have hcalls : ∀ n vec, fb_error_check h (start_multiple d n vec w) ≠
      Run.raise ⟨ExcClass.FbError, "The transaction has been already started"⟩ w := by
    intro n vec hc
    have hlen : (start_multiple d n vec w).calls ≠ w.calls := by
      intro hl
      have := congrArg List.length hl
      simp [start_multiple] at this
    rcases fb_error_check_calls h (start_multiple d n vec w) with ⟨ex, he⟩ | he
    · rw [he] at hc
      injection hc with _ hw
      exact hlen (by rw [hw])
    · rw [he] at hc
      simp at hc
  split
  · intro hc
    injection hc with he _
    revert he
    decide
  · split
    · split
      · simp
      · rename_i e hs
        intro hc
        injection hc with he _
        rw [teb_of_list_error _ _ _ _ _ _ hs] at he
        revert he
        decide
      · split
        · intro hc
          injection hc with he _
          revert he
          decide
        · exact hcalls _ _
    · split
      · rename_i e hs
        intro hc
        injection hc with he _
        have := teb_of_args_error _ _ _ _ _ _ hs
        rw [he] at this
        exact this rfl
      · exact hcalls _ _

theorem transaction_start_ne (h : Host) (d : Driver) (opt : VALUE) (argv : List VALUE)
    (w : World) (hw : w.transact = 0) :
    transaction_start h d opt argv w ≠
      Run.raise ⟨ExcClass.FbError, "The transaction has been already started"⟩ w := by
  unfold transaction_start
  rw [if_neg (by simp [hw])]
  split
  · exact transaction_start_teb_ne h d _ _ _ _
  · split
    · rename_i e hs
      intro hc
      injection hc with he _
      subst he
      unfold STR2CSTR at hs
      split at hs <;> simp at hs
    · split
      · simp
      · rename_i desc hs
        intro hc
        injection hc with he _
        injection he with _ hm
        exact trans_parseopts_fail _ _ hs hm
      · exact transaction_start_teb_ne h d _ _ _ _

theorem end_transaction_transact (h : Host) (w1 : World) (wt : World) (v : VALUE) (w' : World)
    (hr : ((if w1.transact ≠ 0 then
        (fb_error_check h wt).bind fun _ w => Run.ok () { w with transact := 0 }
       else Run.ok () w1).bind fun _ w => Run.ok VALUE.nil w) = Run.ok v w') :
    w'.transact = 0 := by
  by_cases ht : w1.transact = 0
  · rw [if_neg (by simp [ht])] at hr
    simp at hr
    rw [← hr.2]
    exact ht
  · rw [if_pos ht] at hr
    rcases fb_error_check_calls h wt with ⟨ex, he⟩ | he
    · rw [he] at hr
      simp at hr
    · rw [he] at hr
      simp at hr
      rw [← hr.2]

/-- C21: while a transaction is started, `transaction_start` raises "The transaction has
been already started" in the unchanged state (no driver call, same handle); a commit or a
rollback that returns leaves the handle 0 and `transaction_started` false, and in the state
it leaves `transaction_start` is not rejected that way, whatever its arguments. -/
theorem C21_transaction_singularity (h : Host) (d : Driver) (w : World) :
    (w.transact ≠ 0 → ∀ opt argv, transaction_start h d opt argv w =
      Run.raise ⟨ExcClass.FbError, "The transaction has been already started"⟩ w) ∧
    (∀ v w', global_commit h d w = Run.ok v w' ∨ global_rollback h d w = Run.ok v w' →
      w'.transact = 0 ∧ global_transaction_started w' = VALUE.bool false ∧
      ∀ opt argv, transaction_start h d opt argv w' ≠
        Run.raise ⟨ExcClass.FbError, "The transaction has been already started"⟩ w') := by
  refine ⟨fun ht opt argv => ?_, fun v w' hr => ?_⟩
  · unfold transaction_start
    rw [if_pos ht]
  · have h0 : w'.transact = 0 := by
      rcases hr with hr | hr
      · unfold global_commit at hr
        obtain ⟨_, w1, _, hr⟩ := Run.bind_eq_ok hr
        exact end_transaction_transact h w1 _ v w' hr
      · unfold global_rollback at hr
        obtain ⟨_, w1, _, hr⟩ := Run.bind_eq_ok hr
        exact end_transaction_transact h w1 _ v w' hr
    refine ⟨h0, ?_, fun opt argv => transaction_start_ne h d opt argv w' h0⟩
    unfold global_transaction_started
    rw [if_neg (by simp [h0])]

theorem C21_transaction_singularity_witness :
    started.transact ≠ 0 ∧
    transaction_start sample_host sample_driver VALUE.nil [] started =
      Run.raise ⟨ExcClass.FbError, "The transaction has been already started"⟩ started ∧
    global_commit sample_host sample_driver started = Run.ok VALUE.nil committed ∧
    committed.transact = 0 ∧ global_transaction_started committed = VALUE.bool false :=
  ⟨by decide,
   (C21_transaction_singularity sample_host sample_driver started).1 (by decide) VALUE.nil [],
   rfl,
   ((C21_transaction_singularity sample_host sample_driver started).2 VALUE.nil committed
     (Or.inl rfl)).1,
   ((C21_transaction_singularity sample_host sample_driver started).2 VALUE.nil committed
     (Or.inl rfl)).2.1⟩

theorem set_teb_vec_none (a : Nat) (len : Int) :
    (set_teb_vec a none len).tpb_ptr = none ∧ (set_teb_vec a none len).tpb_len = 0 ∧
      (set_teb_vec a none len).dbb_ptr = a := ⟨rfl, rfl, rfl⟩

theorem teb_of_list_none (w : World) (len : Int) (fuel : Nat) (p : Option Nat)
    (vec : List ISC_TEB) (h : teb_of_list w none len fuel p = some (Except.ok vec)) :
    ∀ teb ∈ vec, teb.tpb_ptr = none ∧ teb.tpb_len = 0 := by
  induction fuel generalizing p vec with
  | zero =>
    cases p <;> simp [teb_of_list] at h
    subst h
    simp
  | succ fuel ih =>
    cases p with
    | none =>
      simp [teb_of_list] at h
      subst h
      simp
    | some a =>
      rw [teb_of_list] at h
      split at h
      · simp at h
      · split at h
        · simp at h
        · simp at h
        · rename_i vec1 hs
          simp at h
          subst h
          intro teb ht
          rcases List.mem_cons.mp ht with rfl | ht
          · exact ⟨rfl, rfl⟩
          · exact ih _ _ hs teb ht

theorem teb_of_args_none (w : World) (len : Int) (n : Int) (argv : List VALUE)
    (vec : List ISC_TEB) (h : teb_of_args w none len n argv = Except.ok vec) :
    ∀ teb ∈ vec, teb.tpb_ptr = none ∧ teb.tpb_len = 0 := by
  induction argv generalizing n vec with
  | nil =>
    simp [teb_of_args] at h
    subst h
    simp
  | cons data rest ih =>
    rw [teb_of_args] at h
    split at h
    · simp at h
    · split at h
      · simp at h
      · split at h
        · simp at h
        · rename_i vec1 hs
          simp at h
          subst h
          intro teb ht
          rcases List.mem_cons.mp ht with rfl | ht
          · exact ⟨rfl, rfl⟩
          · exact ih _ _ hs teb ht

theorem fb_error_check_state (h : Host) (w w' : World)
    (hs : (fb_error_check h w).state = some w') : w' = w := by
  rcases fb_error_check_calls h w with ⟨ex, he⟩ | he <;> rw [he] at hs <;>
    simp [Run.state] at hs <;> exact hs.symm

/-- C22 (amended): `transaction_start` with `opt = nil` either makes no driver call, or
makes the one call `isc_start_multiple`, and every entry of the vector it passes has a null
`tpb_ptr` and `tpb_len = 0`: no parameter block is passed, the default is left to the
driver. -/
theorem C22_nil_options_pass_no_tpb (h : Host) (d : Driver) (argv : List VALUE)
    (w w' : World) (hs : (transaction_start h d VALUE.nil argv w).state = some w') :
    w'.calls = w.calls ∨
    ∃ n vec, w'.calls = DrvCall.isc_start_multiple n vec :: w.calls ∧
      ∀ teb ∈ vec, teb.tpb_ptr = none ∧ teb.tpb_len = 0 := by
  unfold transaction_start at hs
  split at hs
  · simp [Run.state] at hs
    exact Or.inl (by rw [hs])
  · simp only [transaction_start_teb] at hs
    split at hs
    · simp [Run.state] at hs
      exact Or.inl (by rw [hs])
    · split at hs
      · split at hs
        · simp [Run.state] at hs
        · simp [Run.state] at hs
          exact Or.inl (by rw [hs])
        · rename_i vec hv
          split at hs
          · simp [Run.state] at hs
            exact Or.inl (by rw [hs])
          · have := fb_error_check_state h _ _ hs
            subst this
            exact Or.inr ⟨_, vec, rfl, teb_of_list_none _ _ _ _ _ hv⟩
      · split at hs
        · simp [Run.state] at hs
          exact Or.inl (by rw [hs])
        · rename_i vec hv
          have := fb_error_check_state h _ _ hs
          subst this
          exact Or.inr ⟨_, vec, rfl, teb_of_args_none _ _ _ _ _ hv⟩

theorem C22_nil_options_witness :
    started.calls = connected.calls ∨
    ∃ n vec, started.calls = DrvCall.isc_start_multiple n vec :: connected.calls ∧
      ∀ teb ∈ vec, teb.tpb_ptr = none ∧ teb.tpb_len = 0 :=
  C22_nil_options_pass_no_tpb sample_host sample_driver [] connected started rfl

/-- C22, counterexample: with one connection and no transaction, `transaction_start` with
`opt = nil` passes a vector whose one entry has a null `tpb_ptr` and `tpb_len = 0`, not the
block `isc_tpb_0` with length 4. -/
theorem C22_counterexample :
    (transaction_start sample_host sample_driver VALUE.nil [] connected).state = some started ∧
    started.calls.head? = some (DrvCall.isc_start_multiple 1
      [{ dbb_ptr := 0, tpb_len := 0, tpb_ptr := none }]) ∧
    ¬ ∀ teb ∈ [({ dbb_ptr := 0, tpb_len := 0, tpb_ptr := none } : ISC_TEB)],
        teb.tpb_ptr = some isc_tpb_0 ∧ teb.tpb_len = 4 :=
  ⟨rfl, by decide, by decide⟩

theorem teb_of_list_chain (w : World) (tpb : Option (List Nat)) (len : Int) (fuel : Nat)
    (p : Option Nat) (l : List Nat) (h : chain w fuel p = some l) :
    teb_of_list w tpb len fuel p = some (Except.ok (l.map fun a => set_teb_vec a tpb len)) := by
  induction fuel generalizing p l with
  | zero =>
    cases p <;> simp [chain] at h
    subst h
    simp [teb_of_list]
  | succ fuel ih =>
    cases p with
    | none =>
      simp [chain] at h
      subst h
      simp [teb_of_list]
    | some a =>
      rw [chain] at h
      rw [teb_of_list]
      cases hc : w.connection a with
      | none => simp [hc] at h
      | some c =>
        simp only [hc] at h ⊢
        cases hl : chain w fuel c.next with
        | none => simp [hl] at h
        | some l1 =>
          simp [hl] at h
          subst h
          rw [ih _ _ hl]
          simp

theorem teb_of_args_objects (w : World) (tpb : Option (List Nat)) (len : Int) (n : Int)
    (dbs : List Nat) (hc : ∀ a ∈ dbs, (w.connection a).isSome)
    (hn : n + dbs.length ≤ SHRT_MAX) :
    teb_of_args w tpb len n (dbs.map VALUE.object) =
      Except.ok (dbs.map fun a => set_teb_vec a tpb len) := by
  induction dbs generalizing n with
  | nil => simp [teb_of_args]
  | cons a rest ih =>
    have ha : (w.connection a).isSome := hc a (List.mem_cons_self _ _)
    obtain ⟨c, hca⟩ := Option.isSome_iff_exists.mp ha
    have hlen : n + 1 + rest.length ≤ SHRT_MAX := by
      simp only [List.length_cons] at hn
      push_cast at hn
      omega
    have hn1 : ¬ SHRT_MAX < n + 1 := by
      have : (0 : Int) ≤ rest.length := Int.natCast_nonneg _
      omega
    simp only [List.map_cons, teb_of_args, fb_connection_check_retrieve, hca, if_neg hn1]
    rw [ih (n + 1) (fun b hb => hc b (List.mem_cons_of_mem _ hb)) hlen]

/-- C23: on a state without a transaction whose registry is the sequence `l` of distinct
connections and whose counter `db_num` is the length of `l`, and for options that are nil or
are compiled to the block `tpb`, `transaction_start` with `k` arguments raises "Too many
databases specified for the transaction" when `k` exceeds the number of registered
connections; with no argument it passes to `isc_start_multiple` one entry for each
connection of the registry, in order (`db_num` entries, each connection once); with
`0 < k ≤ SHRT_MAX` connection objects `dbs` it passes exactly `k` entries, entry `i` pointing
to the handle of `dbs[i]`; in both cases no more than `db_num` entries are written. -/
theorem C23_transaction_targets (h : Host) (d : Driver) (opt : VALUE) (tpb : Option (List Nat))
    (w : World) (l : List Nat) (ht : w.transact = 0) (hreg : registry w = some l)
    (hnodup : l.Nodup) (hnum : w.db_num = l.length)
    (hopt : (opt = VALUE.nil ∧ tpb = none) ∨
      ∃ s bs, opt = VALUE.string s ∧ trans_parseopts (cstr s 0) = PRes.done bs ∧ tpb = some bs) :
    (∀ argv : List VALUE, l.length < argv.length →
      transaction_start h d opt argv w =
        Run.raise ⟨ExcClass.FbError, "Too many databases specified for the transaction"⟩ w) ∧
    (∃ vec, (transaction_start h d opt [] w).state =
        some (start_multiple d (to_short w.db_num) vec w) ∧
      vec.map ISC_TEB.dbb_ptr = l ∧ (vec.map ISC_TEB.dbb_ptr).Nodup ∧
      (vec.length : Int) = w.db_num ∧ ∀ teb ∈ vec, teb.tpb_ptr = tpb) ∧
    (∀ dbs : List Nat, dbs ≠ [] → dbs.length ≤ l.length → (dbs.length : Int) ≤ SHRT_MAX →
      (∀ a ∈ dbs, (w.connection a).isSome) →
      ∃ vec, (transaction_start h d opt (dbs.map VALUE.object) w).state =
          some (start_multiple d dbs.length vec w) ∧
        vec.map ISC_TEB.dbb_ptr = dbs ∧ vec.length = dbs.length ∧
        (vec.length : Int) ≤ w.db_num ∧ ∀ teb ∈ vec, teb.tpb_ptr = tpb) := by
  have hstart : ∀ argv, ∃ len, transaction_start h d opt argv w =
      transaction_start_teb h d tpb len argv w := by
    intro argv
    unfold transaction_start
    rw [if_neg (by simp [ht])]
    rcases hopt with ⟨rfl, rfl⟩ | ⟨s, bs, rfl, hp, rfl⟩
    · exact ⟨0, rfl⟩
    · exact ⟨bs.length, by simp [STR2CSTR, hp]⟩
  have hptr : ∀ (len : Int) (xs : List Nat),
      (xs.map fun a => set_teb_vec a tpb len).map ISC_TEB.dbb_ptr = xs := by
    intro len xs
    induction xs with
    | nil => rfl
    | cons a xs ih =>
      simp only [List.map_cons, ih]
      cases tpb <;> rfl
  have htpb : ∀ (len : Int) (xs : List Nat),
      ∀ teb ∈ (xs.map fun a => set_teb_vec a tpb len), teb.tpb_ptr = tpb := by
    intro len xs teb hm
    obtain ⟨a, _, rfl⟩ := List.mem_map.mp hm
    cases tpb <;> rfl
  refine ⟨fun argv hk => ?_, ?_, fun dbs hne hk hshort hconn => ?_⟩
  · obtain ⟨len, hs⟩ := hstart argv
    rw [hs, transaction_start_teb, if_pos (by rw [hnum]; exact_mod_cast hk)]
  · obtain ⟨len, hs⟩ := hstart []
    refine ⟨l.map fun a => set_teb_vec a tpb len, ?_, hptr len l, ?_, ?_, htpb len l⟩
    · rw [hs, transaction_start_teb, if_neg (by simp [hnum])]
      simp only [List.length_nil, if_true]
      rw [teb_of_list_chain w tpb len _ _ l hreg]
      simp only [List.length_map]
      rw [if_neg (by simp [hnum])]
      rcases fb_error_check_calls h (start_multiple d (to_short w.db_num)
        (l.map fun a => set_teb_vec a tpb len) w) with ⟨ex, he⟩ | he <;> rw [he] <;> rfl
    · rw [hptr len l]
      exact hnodup
    · simp [hnum]
  · obtain ⟨len, hs⟩ := hstart (dbs.map VALUE.object)
    refine ⟨dbs.map fun a => set_teb_vec a tpb len, ?_, hptr len dbs, by simp, ?_, htpb len dbs⟩
    · have hpos : dbs.length ≠ 0 := by
        intro h0
        exact hne (List.length_eq_zero.mp h0)
      rw [hs, transaction_start_teb, if_neg (by simp [hnum]; exact_mod_cast hk),
        if_neg (by simpa using hne),
        teb_of_args_objects w tpb len 0 dbs hconn (by simpa using hshort)]
      simp only [List.length_map]
      rcases fb_error_check_calls h (start_multiple d (dbs.length : Int)
        (dbs.map fun a => set_teb_vec a tpb len) w) with ⟨ex, he⟩ | he <;> rw [he] <;> rfl
    · simp [hnum]
      exact_mod_cast hk

theorem C23_transaction_targets_witness :
    connected_twice.transact = 0 ∧ registry connected_twice = some [1, 0] ∧
    connected_twice.db_num = 2 ∧
    (∃ vec, (transaction_start sample_host sample_driver VALUE.nil [] connected_twice).state =
        some (start_multiple sample_driver (to_short connected_twice.db_num) vec
          connected_twice) ∧
      vec.map ISC_TEB.dbb_ptr = [1, 0]) ∧
    (∃ vec, (transaction_start sample_host sample_driver VALUE.nil
        ([0].map VALUE.object) connected_twice).state =
        some (start_multiple sample_driver ([0] : List Nat).length vec connected_twice) ∧
      vec.map ISC_TEB.dbb_ptr = [0]) :=
  ⟨by decide, by decide, by decide,
   (C23_transaction_targets sample_host sample_driver VALUE.nil none connected_twice [1, 0]
      (by decide) (by decide) (by decide) (by decide) (Or.inl ⟨rfl, rfl⟩)).2.1.imp
      fun _ hv => ⟨hv.1, hv.2.1⟩,
   ((C23_transaction_targets sample_host sample_driver VALUE.nil none connected_twice [1, 0]
      (by decide) (by decide) (by decide) (by decide) (Or.inl ⟨rfl, rfl⟩)).2.2 [0]
      (by decide) (by decide) (by decide) (by decide)).imp fun _ hv => ⟨hv.1, hv.2.1⟩⟩

/-! ## Statement and connection layer: the heap -/

@[simp] theorem World.store_calls (w : World) (a : Nat) (o : Obj) :
    (w.store a o).calls = w.calls := rfl

@[simp] theorem World.store_transact (w : World) (a : Nat) (o : Obj) :
    (w.store a o).transact = w.transact := rfl

@[simp] theorem World.store_o_sqlda (w : World) (a : Nat) (o : Obj) :
    (w.store a o).o_sqlda = w.o_sqlda := rfl

@[simp] theorem World.store_isc_info_buff (w : World) (a : Nat) (o : Obj) :
    (w.store a o).isc_info_buff = w.isc_info_buff := rfl

@[simp] theorem World.store_fb_connection_list (w : World) (a : Nat) (o : Obj) :
    (w.store a o).fb_connection_list = w.fb_connection_list := rfl

@[simp] theorem World.store_db_num (w : World) (a : Nat) (o : Obj) :
    (w.store a o).db_num = w.db_num := rfl

@[simp] theorem World.store_heap_length (w : World) (a : Nat) (o : Obj) :
    (w.store a o).heap.length = w.heap.length := by
  simp [World.store]

theorem World.cursor_iff (w : World) (a : Nat) (c : FbCursor) :
    w.cursor a = some c ↔ w.heap[a]? = some (Obj.cursor c) := by
  unfold World.cursor
  constructor
  · intro h
    split at h
    · rename_i c1 hc1
      simp at h
      rw [← h]
      exact hc1
    · simp at h
  · intro h
    rw [h]

theorem World.connection_iff (w : World) (a : Nat) (c : FbConnection) :
    w.connection a = some c ↔ w.heap[a]? = some (Obj.connection c) := by
  unfold World.connection
  constructor
  · intro h
    split at h
    · rename_i c1 hc1
      simp at h
      rw [← h]
      exact hc1
    · simp at h
  · intro h
    rw [h]

theorem World.cursor_lt (w : World) (a : Nat) (c : FbCursor) (h : w.cursor a = some c) :
    a < w.heap.length := by
  rw [World.cursor_iff] at h
  by_contra hn
  rw [List.getElem?_eq_none (by omega)] at h
  simp at h

theorem World.connection_lt (w : World) (a : Nat) (c : FbConnection)
    (h : w.connection a = some c) : a < w.heap.length := by
  rw [World.connection_iff] at h
  by_contra hn
  rw [List.getElem?_eq_none (by omega)] at h
  simp at h

theorem World.cursor_store_cursor (w : World) (a b : Nat) (c : FbCursor)
    (ha : a < w.heap.length) :
    (w.store a (Obj.cursor c)).cursor b = if b = a then some c else w.cursor b := by
  unfold World.cursor World.store
  simp only [List.getElem?_set]
  by_cases hb : b = a
  · subst hb
    simp [ha]
  · rw [if_neg (fun h => hb h.symm), if_neg hb]

theorem World.connection_store_cursor (w : World) (a b : Nat) (c0 c : FbCursor)
    (ha : w.cursor a = some c0) :
    (w.store a (Obj.cursor c)).connection b = w.connection b := by
  have hlt := World.cursor_lt w a c0 ha
  rw [World.cursor_iff] at ha
  unfold World.connection World.store
  simp only [List.getElem?_set]
  by_cases hb : a = b
  · subst hb
    simp [hlt, ha]
  · rw [if_neg hb]

theorem World.connection_store_connection (w : World) (a b : Nat) (k : FbConnection)
    (ha : a < w.heap.length) :
    (w.store a (Obj.connection k)).connection b = if b = a then some k else w.connection b := by
  unfold World.connection World.store
  simp only [List.getElem?_set]
  by_cases hb : b = a
  · subst hb
    simp [ha]
  · rw [if_neg (fun h => hb h.symm), if_neg hb]

theorem World.cursor_store_connection (w : World) (a b : Nat) (k0 k : FbConnection)
    (ha : w.connection a = some k0) :
    (w.store a (Obj.connection k)).cursor b = w.cursor b := by
  have hlt := World.connection_lt w a k0 ha
  rw [World.connection_iff] at ha
  unfold World.cursor World.store
  simp only [List.getElem?_set]
  by_cases hb : a = b
  · subst hb
    simp [hlt, ha]
  · rw [if_neg hb]

theorem fb_error_check_ok {h : Host} {w w' : World} {u : Unit}
    (hr : fb_error_check h w = Run.ok u w') : w' = w := by
  rcases fb_error_check_calls h w with ⟨ex, he⟩ | he <;> rw [he] at hr
  · simp at hr
  · injection hr with _ hw
    exact hw.symm

theorem Run.of_ok {α : Type} {r : Except Exception α} {w w' : World} {a : α}
    (hr : Run.of r w = Run.ok a w') : r = Except.ok a ∧ w' = w := by
  cases r with
  | ok b =>
    simp [Run.of] at hr
    exact ⟨by rw [hr.1], hr.2.symm⟩
  | error e => simp [Run.of] at hr

theorem set_cursor_ok {w w' : World} {a : Nat} {f : FbCursor → FbCursor} {u : Unit}
    (hr : w.set_cursor a f = Run.ok u w') :
    ∃ c, w.cursor a = some c ∧ w' = w.store a (Obj.cursor (f c)) := by
  unfold World.set_cursor at hr
  split at hr
  · simp at hr
  · rename_i c hc
    injection hr with _ hw
    exact ⟨c, hc, hw.symm⟩

theorem free_statement_ok {d : Driver} {w w' : World} {a option : Nat} {u : Unit}
    (hr : free_statement d a option w = Run.ok u w') :
    ∃ c, w.cursor a = some c ∧
      w' = (w.call (DrvCall.isc_dsql_free_statement c.stmt option)).store a
        (Obj.cursor { c with stmt := (d.handle
          (DrvCall.isc_dsql_free_statement c.stmt option :: w.calls) c.stmt) }) := by
  unfold free_statement at hr
  split at hr
  · simp at hr
  · rename_i c hc
    injection hr with _ hw
    exact ⟨c, hc, hw.symm⟩

theorem Data_Get_Struct_FbCursor_ok {w : World} {self : VALUE} {a : Nat}
    (hr : Data_Get_Struct_FbCursor w self = Except.ok a) :
    self = VALUE.object a ∧ ∃ c, w.cursor a = some c := by
  unfold Data_Get_Struct_FbCursor at hr
  split at hr
  · rename_i b
    split at hr
    · rename_i c hc
      injection hr with hr
      subst hr
      exact ⟨rfl, c, (World.cursor_iff w b c).mpr hc⟩
    · simp at hr
    · simp at hr
  · simp at hr

theorem Data_Get_Struct_FbCursor_eq {w : World} {a : Nat} {c : FbCursor}
    (hc : w.cursor a = some c) : Data_Get_Struct_FbCursor w (VALUE.object a) = Except.ok a := by
  rw [World.cursor_iff] at hc
  simp [Data_Get_Struct_FbCursor, hc]

/-! ## `cursor_execute` -/

theorem fb_connection_check_ok {a : Nat} {w w' : World} {u : Unit}
    (hr : fb_connection_check a w = Run.ok u w') :
    w' = w ∧ ∃ k, w.connection a = some k ∧ k.db ≠ 0 := by
  unfold fb_connection_check at hr
  split at hr
  · simp at hr
  · rename_i k hk
    split at hr
    · simp at hr
    · rename_i hdb
      injection hr with _ hw
      exact ⟨hw.symm, k, hk, hdb⟩

theorem transaction_start_heap (h : Host) (d : Driver) (opt : VALUE) (argv : List VALUE)
    (w w' : World) (hs : (transaction_start h d opt argv w).state = some w') :
    w'.heap = w.heap ∧ w'.o_sqlda = w.o_sqlda ∧ w'.isc_info_buff = w.isc_info_buff ∧
    w'.fb_connection_list = w.fb_connection_list ∧ w'.db_num = w.db_num ∧
    w'.ressize = w.ressize ∧ w'.prmsize = w.prmsize := by
  unfold transaction_start at hs
  simp only [transaction_start_teb] at hs
  repeat' split at hs
  all_goals first
    | (have hst := fb_error_check_state h _ _ hs; subst hst
       exact ⟨rfl, rfl, rfl, rfl, rfl, rfl, rfl⟩)
    | (simp only [Run.state, Option.some.injEq] at hs; subst hs
       exact ⟨rfl, rfl, rfl, rfl, rfl, rfl, rfl⟩)
    | simp [Run.state] at hs

/-- What a successful first part of `cursor_execute` establishes: the object is a cursor,
the statement type is the one decoded from the driver's answer to `isc_dsql_sql_info`, the
output descriptors are the driver's answer to the `isc_dsql_describe` that follows, and the
cursor structure is in place with `open` cleared. -/
theorem cursor_execute_prepare_ok (h : Host) (d : Driver) (argv : List VALUE) (self : VALUE)
    (w w1 : World) (p : Nat × List VALUE × Int × Int)
    (hr : cursor_execute_prepare h d argv self w = Run.ok p w1) :
    self = VALUE.object p.1 ∧
    (∃ c, w1.cursor p.1 = some c ∧ c.open_ = false) ∧
    ∃ stmt calls0 o,
      p.2.2.1 = statement_type (fit 16 (d.info (DrvCall.isc_dsql_sql_info stmt :: calls0))) ∧
      w1.isc_info_buff = fit 16 (d.info (DrvCall.isc_dsql_sql_info stmt :: calls0)) ∧
      w1.o_sqlda = d.sqlda (DrvCall.isc_dsql_describe stmt ::
        DrvCall.isc_dsql_describe_bind stmt :: DrvCall.isc_dsql_sql_info stmt :: calls0) o := by
  unfold cursor_execute_prepare at hr
  obtain ⟨fb_cursor, wa, ha, hr1⟩ := Run.bind_eq_ok hr
  clear hr
  obtain ⟨hself, hwa⟩ := Run.of_ok ha
  subst wa
  obtain ⟨hso, c0, hc0⟩ := Data_Get_Struct_FbCursor_ok hself
  subst hso
  simp only [hc0] at hr1
  obtain ⟨fb_connection, wb, hb, hr2⟩ := Run.bind_eq_ok hr1
  clear hr1
  obtain ⟨_, hwb⟩ := Run.of_ok hb
  subst wb
  obtain ⟨_, wc, hcc, hr3⟩ := Run.bind_eq_ok hr2
  clear hr2
  obtain ⟨hwc, _⟩ := fb_connection_check_ok hcc
  subst wc
  cases argv with
  | nil => simp at hr3
  | cons text args =>
    simp only at hr3
    obtain ⟨sql, wd, hd, hr4⟩ := Run.bind_eq_ok hr3
    clear hr3
    obtain ⟨_, hwd⟩ := Run.of_ok hd
    subst wd
    obtain ⟨_, we, he, hr5⟩ := Run.bind_eq_ok hr4
    clear hr4
    -- after the close of an open cursor, `open` is false
    have hopen : ∃ c, we.cursor fb_cursor = some c ∧ c.open_ = false := by
      by_cases ho : c0.open_ = true
      · rw [if_pos ho] at he
        obtain ⟨_, w2, h2, he2⟩ := Run.bind_eq_ok he
        obtain ⟨_, w3, h3, he3⟩ := Run.bind_eq_ok he2
        obtain ⟨c2, hc2, hw2⟩ := free_statement_ok h2
        have hw3 := fb_error_check_ok h3
        obtain ⟨c3, hc3, hw4⟩ := set_cursor_ok he3
        refine ⟨{ c3 with open_ := false }, ?_, rfl⟩
        rw [hw4, World.cursor_store_cursor _ _ _ _ (World.cursor_lt _ _ _ hc3), if_pos rfl]
      · rw [if_neg ho] at he
        injection he with _ he
        subst he
        exact ⟨c0, hc0, by simpa using ho⟩
    obtain ⟨_, wf, hf, hr6⟩ := Run.bind_eq_ok hr5
    clear hr5
    -- starting the transaction leaves the heap alone
    have hheap : wf.heap = we.heap := by
      by_cases ht : we.transact = 0
      · rw [if_pos ht] at hf
        exact (transaction_start_heap h d _ _ _ _ (by rw [hf]; rfl)).1
      · rw [if_neg ht] at hf
        injection hf with _ hf
        rw [hf]
    obtain ⟨c1, hc1, ho1⟩ := hopen
    have hc1f : wf.cursor fb_cursor = some c1 := by
      rw [World.cursor_iff] at hc1 ⊢
      rw [hheap]
      exact hc1
    simp only [hc1f] at hr6
    split at hr6
    · rename_i c k hck hkk
      injection hck with hck
      subst hck
      obtain ⟨_, w5, h5, hr7⟩ := Run.bind_eq_ok hr6
      have hw5 := fb_error_check_ok h5
      obtain ⟨_, w6, h6, hr8⟩ := Run.bind_eq_ok hr7
      have hw6 := fb_error_check_ok h6
      obtain ⟨_, w7, h7, hr9⟩ := Run.bind_eq_ok hr8
      have hw7 := fb_error_check_ok h7
      obtain ⟨_, w8, h8, hr10⟩ := Run.bind_eq_ok hr9
      have hw8 := fb_error_check_ok h8
      obtain ⟨_, w9, h9, hr11⟩ := Run.bind_eq_ok hr10
      injection hr11 with hp hw
      -- the last steps touch the input descriptors and the size of the parameter buffer
      have h9' : w9.heap = w8.heap ∧ w9.isc_info_buff = w8.isc_info_buff ∧
          w9.o_sqlda = w8.o_sqlda := by
        split at h9
        · have := fb_error_check_ok h9
          subst this
          exact ⟨rfl, rfl, rfl⟩
        · injection h9 with _ h9
          subst h9
          exact ⟨rfl, rfl, rfl⟩
      have hw1 : w1.heap = w9.heap ∧ w1.isc_info_buff = w9.isc_info_buff ∧
          w1.o_sqlda = w9.o_sqlda := by
        rw [← hw]
        split <;> exact ⟨rfl, rfl, rfl⟩
      subst hp
      refine ⟨rfl, ⟨c1, ?_, ho1⟩, c1.stmt, w5.calls, w5.o_sqlda, ?_, ?_, ?_⟩
      · rw [World.cursor_iff] at hc1f ⊢
        rw [hw1.1, h9'.1, hw8, hw7, hw6]
        show w5.heap[fb_cursor]? = _
        rw [hw5]
        exact hc1f
      · simp only [hw6]
        rfl
      · rw [hw1.2.1, h9'.2.1, hw8, hw7, hw6]
        rfl
      · rw [hw1.2.2, h9'.2.2, hw8, hw7, hw6]
        rfl
    · simp at hr6

theorem check_inparams_state (h : Host) (argv : List VALUE) (exec : Int) (w w' : World)
    (hs : (check_inparams h argv exec w).state = some w') :
    w'.heap = w.heap ∧ w'.isc_info_buff = w.isc_info_buff ∧ w'.o_sqlda = w.o_sqlda ∧
    w'.o_sqlname = w.o_sqlname ∧ w'.transact = w.transact ∧ w'.ressize = w.ressize ∧
    w'.prmsize = w.prmsize ∧ w'.fb_connection_list = w.fb_connection_list ∧
    w'.db_num = w.db_num := by
  unfold check_inparams at hs
  split at hs <;> simp only [Run.state, Option.some.injEq] at hs <;> subst hs <;>
    exact ⟨rfl, rfl, rfl, rfl, rfl, rfl, rfl, rfl, rfl⟩

theorem execute2_ok {h : Host} {b : Bool} {w w' : World} {u : Unit}
    (hr : execute2 h b w = Run.ok u w') : w' = w.call (DrvCall.isc_dsql_execute2 b) :=
  fb_error_check_ok hr

theorem return_object_nil (st : Int) :
    return_object st = VALUE.nil ↔
      st = isc_info_sql_stmt_select ∨ st = isc_info_sql_stmt_select_for_upd := by
  unfold return_object
  split
  · simp [*]
  · rename_i hs
    split <;> simp [hs]

theorem return_object_ddl (st : Int) :
    return_object st = VALUE.integer STATEMENT_DDL ↔ st = isc_info_sql_stmt_ddl := by
  unfold return_object
  simp only [isc_info_sql_stmt_select, isc_info_sql_stmt_select_for_upd,
    isc_info_sql_stmt_ddl, STATEMENT_DDL, STATEMENT_DML]
  split
  · constructor
    · intro hv
      cases hv
    · intro hd
      omega
  · split
    · simp [*]
    · constructor
      · intro hv
        injection hv with hv
        omega
      · intro hd
        contradiction

theorem return_object_dml (st : Int) :
    return_object st = VALUE.integer STATEMENT_DML ↔
      ¬ (st = isc_info_sql_stmt_select ∨ st = isc_info_sql_stmt_select_for_upd ∨
        st = isc_info_sql_stmt_ddl) := by
  unfold return_object
  simp only [isc_info_sql_stmt_select, isc_info_sql_stmt_select_for_upd,
    isc_info_sql_stmt_ddl, STATEMENT_DDL, STATEMENT_DML]
  split
  · constructor
    · intro hv
      cases hv
    · intro hd
      omega
  · split
    · constructor
      · intro hv
        injection hv with hv
        omega
      · intro hd
        omega
    · constructor
      · intro _
        omega
      · intro _
        rfl

/-- What a successful second part of `cursor_execute` establishes: the value is the one
chosen by the statement type; the cursor is open exactly if the statement has output
columns or the cursor was open before; no other structure of the heap changes. -/
theorem cursor_execute_run_ok (h : Host) (d : Driver) (a : Nat) (args : List VALUE)
    (st inp : Int) (w1 w' : World) (v : VALUE) (c : FbCursor) (hc : w1.cursor a = some c)
    (hr : cursor_execute_run h d a args st inp w1 = Run.ok v w') :
    v = return_object st ∧ w'.isc_info_buff = w1.isc_info_buff ∧
    w'.heap.length = w1.heap.length ∧
    (∀ b, b ≠ a → w'.heap[b]? = w1.heap[b]?) ∧
    ∃ c', w'.cursor a = some c' ∧ c'.stmt = c.stmt ∧
      (c'.open_ = true ↔ (w1.o_sqlda.sqld ≠ 0 ∨ c.open_ = true)) := by
  unfold cursor_execute_run at hr
  obtain ⟨_, w2, h2, hr1⟩ := Run.bind_eq_ok hr
  clear hr
  injection hr1 with hv hw
  subst hw
  refine ⟨hv.symm, ?_⟩
  by_cases h0 : w1.o_sqlda.sqld = 0
  · rw [if_pos h0] at h2
    have hst : w2.heap = w1.heap ∧ w2.isc_info_buff = w1.isc_info_buff := by
      repeat' split at h2
      all_goals first
        | (have hst := execute2_ok h2; subst hst; exact ⟨rfl, rfl⟩)
        | (have hst := check_inparams_state h _ _ _ _ (by rw [h2]; rfl)
           exact ⟨hst.1, hst.2.1⟩)
        | simp at h2
    refine ⟨hst.2, by rw [hst.1], fun b _ => by rw [hst.1], c, ?_, rfl, ?_⟩
    · rw [World.cursor_iff] at hc ⊢
      rw [hst.1]
      exact hc
    · simp [h0]
  · rw [if_neg h0] at h2
    simp only [hc] at h2
    obtain ⟨_, w3, h3, hr3⟩ := Run.bind_eq_ok h2
    clear h2
    have hw3 : w3.heap = w1.heap ∧ w3.isc_info_buff = w1.isc_info_buff := by
      split at h3
      · have := fb_error_check_ok h3
        subst this
        exact ⟨rfl, rfl⟩
      · injection h3 with _ h3
        subst h3
        exact ⟨rfl, rfl⟩
    obtain ⟨_, w4, h4, hr4⟩ := Run.bind_eq_ok hr3
    clear hr3
    have hw4 : w4.heap = w3.heap ∧ w4.isc_info_buff = w3.isc_info_buff := by
      split at h4
      · have := check_inparams_state h _ _ _ _ (by rw [h4]; rfl)
        exact ⟨this.1, this.2.1⟩
      · injection h4 with _ h4
        subst h4
        exact ⟨rfl, rfl⟩
    obtain ⟨_, w5, h5, hr5⟩ := Run.bind_eq_ok hr4
    clear hr4
    have hw5 := execute2_ok h5
    obtain ⟨_, w6, h6, hr6⟩ := Run.bind_eq_ok hr5
    clear hr5
    obtain ⟨c6, hc6, hw6⟩ := set_cursor_ok h6
    obtain ⟨_, w7, h7, hr7⟩ := Run.bind_eq_ok hr6
    clear hr6
    injection h7 with _ hw7
    obtain ⟨c7, hc7, hw8⟩ := set_cursor_ok hr7
    have hc5 : w5.cursor a = some c := by
      rw [World.cursor_iff] at hc ⊢
      rw [hw5]
      show w4.heap[a]? = _
      rw [hw4.1, hw3.1]
      exact hc
    rw [hc5] at hc6
    injection hc6 with hc6
    subst hc6
    have hlt : a < w5.heap.length := World.cursor_lt _ _ _ hc5
    have hheap7 : w7.heap = w6.heap := by
      rw [← hw7]
      split <;> rfl
    have hbuf7 : w7.isc_info_buff = w6.isc_info_buff := by
      rw [← hw7]
      split <;> rfl
    have hc7' : w7.cursor a = some { c with open_ := true } := by
      rw [World.cursor_iff, hheap7, ← World.cursor_iff, hw6,
        World.cursor_store_cursor _ _ _ _ hlt, if_pos rfl]
    rw [hc7'] at hc7
    injection hc7 with hc7
    subst hc7
    have hlt7 : a < w7.heap.length := World.cursor_lt _ _ _ hc7'
    have hheap5 : w5.heap = w1.heap := by
      rw [hw5]
      show w4.heap = _
      rw [hw4.1, hw3.1]
    refine ⟨?_, ?_, ?_,
      { c with open_ := true, describe := fb_cursor_description w7.o_sqlda w7.o_sqlname },
      ?_, rfl, ?_⟩
    · rw [hw8]
      show w7.isc_info_buff = _
      rw [hbuf7, hw6]
      show w5.isc_info_buff = _
      rw [hw5]
      show w4.isc_info_buff = _
      rw [hw4.2, hw3.2]
    · rw [hw8, World.store_heap_length, hheap7, hw6, World.store_heap_length, hheap5]
    · intro b hb
      rw [hw8]
      simp only [World.store, List.getElem?_set, if_neg (Ne.symm hb)]
      rw [hheap7, hw6]
      simp only [World.store, List.getElem?_set, if_neg (Ne.symm hb)]
      rw [hheap5]
    · rw [hw8, World.cursor_store_cursor _ _ _ _ hlt7, if_pos rfl]
    · simp [h0]

/-- What a successful `cursor_execute` establishes: the object is a cursor; the value is
the one chosen by the statement type decoded from the driver's answer to
`isc_dsql_sql_info`, which is still in `isc_info_buff`; the cursor is open exactly if the
driver described output columns in the `isc_dsql_describe` that followed. -/
theorem cursor_execute_ok (h : Host) (d : Driver) (argv : List VALUE) (self : VALUE)
    (w w' : World) (v : VALUE) (hr : cursor_execute h d argv self w = Run.ok v w') :
    v = return_object (statement_type w'.isc_info_buff) ∧
    ∃ a c stmt calls0 o, self = VALUE.object a ∧ w'.cursor a = some c ∧
      w'.isc_info_buff = fit 16 (d.info (DrvCall.isc_dsql_sql_info stmt :: calls0)) ∧
      (c.open_ = true ↔ (d.sqlda (DrvCall.isc_dsql_describe stmt ::
        DrvCall.isc_dsql_describe_bind stmt :: DrvCall.isc_dsql_sql_info stmt :: calls0)
          o).sqld ≠ 0) := by
  unfold cursor_execute at hr
  obtain ⟨p, w1, hp, hr1⟩ := Run.bind_eq_ok hr
  clear hr
  obtain ⟨hself, ⟨c1, hc1, ho1⟩, stmt, calls0, o, hst, hbuf, hsq⟩ :=
    cursor_execute_prepare_ok h d argv self w w1 p hp
  obtain ⟨hv, hbuf', _, _, c', hc', _, hopen⟩ :=
    cursor_execute_run_ok h d p.1 p.2.1 p.2.2.1 p.2.2.2 w1 w' v c1 hc1 hr1
  refine ⟨?_, p.1, c', stmt, calls0, o, hself, hc', ?_, ?_⟩
  · rw [hv, hbuf', hbuf, hst]
  · rw [hbuf', hbuf]
  · rw [hopen, hsq]
    simp [ho1]

/-- C25: a `cursor_execute` that returns yields nil exactly when the statement type the
driver reported is `select` or `select_for_upd`, `STATEMENT_DDL` exactly when it is `ddl`,
and `STATEMENT_DML` for every other type; and, for a driver that describes at least one
output column for every statement it reports as a select, the cursor is open whenever the
value is nil. -/
theorem C25_cursor_execute_value (h : Host) (d : Driver) (argv : List VALUE) (self : VALUE)
    (w w' : World) (v : VALUE)
    (hcols : ∀ stmt calls0 o,
      statement_type (fit 16 (d.info (DrvCall.isc_dsql_sql_info stmt :: calls0))) =
          isc_info_sql_stmt_select ∨
        statement_type (fit 16 (d.info (DrvCall.isc_dsql_sql_info stmt :: calls0))) =
          isc_info_sql_stmt_select_for_upd →
      (d.sqlda (DrvCall.isc_dsql_describe stmt :: DrvCall.isc_dsql_describe_bind stmt ::
        DrvCall.isc_dsql_sql_info stmt :: calls0) o).sqld ≠ 0)
    (hr : cursor_execute h d argv self w = Run.ok v w') :
    (∃ stmt calls0,
      w'.isc_info_buff = fit 16 (d.info (DrvCall.isc_dsql_sql_info stmt :: calls0))) ∧
    (v = VALUE.nil ↔ statement_type w'.isc_info_buff = isc_info_sql_stmt_select ∨
      statement_type w'.isc_info_buff = isc_info_sql_stmt_select_for_upd) ∧
    (v = VALUE.integer STATEMENT_DDL ↔
      statement_type w'.isc_info_buff = isc_info_sql_stmt_ddl) ∧
    (v = VALUE.integer STATEMENT_DML ↔
      ¬ (statement_type w'.isc_info_buff = isc_info_sql_stmt_select ∨
        statement_type w'.isc_info_buff = isc_info_sql_stmt_select_for_upd ∨
        statement_type w'.isc_info_buff = isc_info_sql_stmt_ddl)) ∧
    (v = VALUE.nil → ∃ a c, self = VALUE.object a ∧ w'.cursor a = some c ∧ c.open_ = true) := by
  obtain ⟨hv, a, c, stmt, calls0, o, hself, hc, hbuf, hopen⟩ :=
    cursor_execute_ok h d argv self w w' v hr
  refine ⟨⟨stmt, calls0, hbuf⟩, ?_, ?_, ?_, fun hnil => ⟨a, c, hself, hc, ?_⟩⟩
  · rw [hv]
    exact return_object_nil _
  · rw [hv]
    exact return_object_ddl _
  · rw [hv]
    exact return_object_dml _
  · rw [hopen]
    apply hcols
    rw [← hbuf]
    rw [hv] at hnil
    exact (return_object_nil _).mp hnil

/-- C26 (amended): `connection_execute` called without a block returns nil for every
statement it executes whose type is `ddl`, and for every one whose type is neither a select
nor `ddl`; for a select it returns the cursor it made.  The values `STATEMENT_DDL` and
`STATEMENT_DML` of `cursor_execute` are not passed on. -/
theorem C26_connection_execute_value (h : Host) (d : Driver) (argv : List VALUE)
    (self : VALUE) (w w' : World) (v : VALUE)
    (hr : connection_execute h d argv self none w = Run.ok v w') :
    (statement_type w'.isc_info_buff = isc_info_sql_stmt_ddl → v = VALUE.nil) ∧
    (¬ (statement_type w'.isc_info_buff = isc_info_sql_stmt_select ∨
        statement_type w'.isc_info_buff = isc_info_sql_stmt_select_for_upd ∨
        statement_type w'.isc_info_buff = isc_info_sql_stmt_ddl) → v = VALUE.nil) ∧
    (statement_type w'.isc_info_buff = isc_info_sql_stmt_select ∨
      statement_type w'.isc_info_buff = isc_info_sql_stmt_select_for_upd →
        v = VALUE.object w.heap.length) := by
  unfold connection_execute at hr
  obtain ⟨cursor, w2, hcur, hr1⟩ := Run.bind_eq_ok hr
  clear hr
  obtain ⟨val, w3, hex, hr2⟩ := Run.bind_eq_ok hr1
  clear hr1
  have hcursor : cursor = VALUE.object w.heap.length := by
    unfold connection_cursor at hcur
    obtain ⟨fbc, wa, ha, hcur1⟩ := Run.bind_eq_ok hcur
    obtain ⟨_, hwa⟩ := Run.of_ok ha
    subst wa
    obtain ⟨_, wb, hb, hcur2⟩ := Run.bind_eq_ok hcur1
    obtain ⟨hwb, _⟩ := fb_connection_check_ok hb
    subst wb
    split at hcur2
    · simp at hcur2
    · obtain ⟨_, wc, _, hcur3⟩ := Run.bind_eq_ok hcur2
      injection hcur3 with hcur3 _
      exact hcur3.symm
  obtain ⟨hval, _⟩ := cursor_execute_ok h d argv cursor w2 w3 val hex
  have hnil := return_object_nil (statement_type w3.isc_info_buff)
  have hddl := return_object_ddl (statement_type w3.isc_info_buff)
  have hdml := return_object_dml (statement_type w3.isc_info_buff)
  rw [← hval] at hnil hddl hdml
  split at hr2
  · injection hr2 with hv hw
    subst hw
    have hsel := hnil.mp rfl
    refine ⟨fun h5 => ?_, fun hn => ?_, fun _ => by rw [← hv, hcursor]⟩
    · rcases hsel with hs | hs <;> rw [h5] at hs <;> exact absurd hs (by decide)
    · exact absurd (hsel.imp_right Or.inl) hn
  · rename_i hne
    injection hr2 with hv hw
    subst hw
    refine ⟨fun _ => hv.symm, fun _ => hv.symm, fun hs => ?_⟩
    exact absurd (hnil.mpr hs) hne

theorem prepare_select_eq :
    cursor_execute_prepare sample_host sample_driver [select_text] (VALUE.object 1)
      cursor_made = Run.ok (1, [], 1, 0) prepared_select := rfl

theorem run_select_eq :
    cursor_execute_run sample_host sample_driver 1 [] 1 0 prepared_select =
      Run.ok VALUE.nil executed_select := rfl

theorem execute_select_eq :
    cursor_execute sample_host sample_driver [select_text] (VALUE.object 1) cursor_made =
      Run.ok VALUE.nil executed_select := by
  unfold cursor_execute
  rw [prepare_select_eq]
  exact run_select_eq

theorem sample_driver_statement_type (stmt : Nat) (calls0 : List DrvCall) :
    statement_type (fit 16 (sample_driver.info (DrvCall.isc_dsql_sql_info stmt :: calls0))) =
      sample_type (last_sql calls0) := by
  show statement_type (fit 16 [21, 4, 0, sample_type (last_sql calls0), 0, 0, 0, 1]) = _
  unfold sample_type
  split_ifs <;> decide

theorem sample_driver_select_columns (stmt : Nat) (calls0 : List DrvCall) (o : XSQLDA)
    (hs : statement_type (fit 16 (sample_driver.info
        (DrvCall.isc_dsql_sql_info stmt :: calls0))) = isc_info_sql_stmt_select ∨
      statement_type (fit 16 (sample_driver.info
        (DrvCall.isc_dsql_sql_info stmt :: calls0))) = isc_info_sql_stmt_select_for_upd) :
    (sample_driver.sqlda (DrvCall.isc_dsql_describe stmt ::
      DrvCall.isc_dsql_describe_bind stmt :: DrvCall.isc_dsql_sql_info stmt :: calls0)
        o).sqld ≠ 0 := by
  rw [sample_driver_statement_type] at hs
  have ht : sample_type (last_sql calls0) = 1 := by
    unfold sample_type at hs ⊢
    split_ifs at hs ⊢ <;> first | rfl | (revert hs; decide)
  show (if sample_type (last_sql calls0) = 1 then
      ({ o with sqld := 1, sqlvar := [⟨496, 0, 4, none, none⟩] } : XSQLDA)
    else { o with sqld := 0, sqlvar := [] }).sqld ≠ 0
  rw [if_pos ht]
  exact one_ne_zero

theorem C25_cursor_execute_value_witness :
    cursor_execute sample_host sample_driver [select_text] (VALUE.object 1) cursor_made =
      Run.ok VALUE.nil executed_select ∧
    statement_type executed_select.isc_info_buff = isc_info_sql_stmt_select ∧
    ∃ a c, VALUE.object 1 = VALUE.object a ∧ executed_select.cursor a = some c ∧
      c.open_ = true :=
  ⟨execute_select_eq, by decide,
   (C25_cursor_execute_value sample_host sample_driver [select_text] (VALUE.object 1)
      cursor_made executed_select VALUE.nil sample_driver_select_columns
      execute_select_eq).2.2.2.2 rfl⟩

theorem cursor_made_eq :
    connection_cursor sample_host sample_driver (VALUE.object 0) connected =
      Run.ok (VALUE.object 1) cursor_made := rfl

theorem execute_create_eq :
    cursor_execute sample_host sample_driver [create_text] (VALUE.object 1) cursor_made =
      Run.ok (VALUE.integer STATEMENT_DDL) executed_create := by
  unfold cursor_execute
  rw [show cursor_execute_prepare sample_host sample_driver [create_text] (VALUE.object 1)
      cursor_made = Run.ok (1, [], 5, 0) prepared_create from rfl]
  exact (rfl : cursor_execute_run sample_host sample_driver 1 [] 5 0 prepared_create =
    Run.ok (VALUE.integer STATEMENT_DDL) executed_create)

theorem execute_insert_eq :
    cursor_execute sample_host sample_driver [insert_text, VALUE.integer 42] (VALUE.object 1)
      cursor_made = Run.ok (VALUE.integer STATEMENT_DML) executed_insert := by
  unfold cursor_execute
  rw [show cursor_execute_prepare sample_host sample_driver [insert_text, VALUE.integer 42]
      (VALUE.object 1) cursor_made = Run.ok (1, [VALUE.integer 42], 2, 1) prepared_insert
      from rfl]
  exact (rfl : cursor_execute_run sample_host sample_driver 1 [VALUE.integer 42] 2 1
    prepared_insert = Run.ok (VALUE.integer STATEMENT_DML) executed_insert)

theorem connection_execute_create_eq :
    connection_execute sample_host sample_driver [create_text] (VALUE.object 0) none
      connected = Run.ok VALUE.nil executed_create := by
  unfold connection_execute
  rw [cursor_made_eq, Run.bind_ok, execute_create_eq]
  rfl

theorem connection_execute_insert_eq :
    connection_execute sample_host sample_driver [insert_text, VALUE.integer 42]
      (VALUE.object 0) none connected = Run.ok VALUE.nil executed_insert := by
  unfold connection_execute
  rw [cursor_made_eq, Run.bind_ok, execute_insert_eq]
  rfl

/-- C26, counterexample: on a fresh connection, `connection_execute` without a block
returns nil for `CREATE TABLE T (I INTEGER)` and for `INSERT INTO T VALUES (?)` with the
argument 42, although both are executed, the driver reports the types `ddl` and `insert`,
and `cursor_execute` yields `STATEMENT_DDL` and `STATEMENT_DML` for them. -/
theorem C26_counterexample :
    connection_execute sample_host sample_driver [create_text] (VALUE.object 0) none
      connected = Run.ok VALUE.nil executed_create ∧
    statement_type executed_create.isc_info_buff = isc_info_sql_stmt_ddl ∧
    connection_execute sample_host sample_driver [insert_text, VALUE.integer 42]
      (VALUE.object 0) none connected = Run.ok VALUE.nil executed_insert ∧
    statement_type executed_insert.isc_info_buff = 2 ∧
    executed_insert.calls.head? = some (DrvCall.isc_dsql_execute2 true) :=
  ⟨connection_execute_create_eq, by decide, connection_execute_insert_eq, by decide,
   by decide⟩

theorem C26_connection_execute_value_witness :
    connection_execute sample_host sample_driver [create_text] (VALUE.object 0) none
      connected = Run.ok VALUE.nil executed_create ∧
    statement_type executed_create.isc_info_buff = isc_info_sql_stmt_ddl ∧
    VALUE.nil = VALUE.nil :=
  ⟨connection_execute_create_eq, by decide,
   (C26_connection_execute_value sample_host sample_driver [create_text] (VALUE.object 0)
      connected executed_create VALUE.nil connection_execute_create_eq).1 (by decide)⟩

/-! ## Which operations open a cursor -/

theorem Shrinks.refl (w : World) : Shrinks w w := fun _ c' hc ho => ⟨c', hc, ho⟩

theorem Shrinks.trans {w1 w2 w3 : World} (h12 : Shrinks w1 w2) (h23 : Shrinks w2 w3) :
    Shrinks w1 w3 := fun a c3 hc ho =>
  let ⟨c2, hc2, ho2⟩ := h23 a c3 hc ho
  h12 a c2 hc2 ho2

theorem Shrinks.of_heap {w w' : World} (hh : w'.heap = w.heap) : Shrinks w w' := by
  intro a c' hc ho
  refine ⟨c', ?_, ho⟩
  rw [World.cursor_iff] at hc ⊢
  rw [← hh]
  exact hc

theorem Run.Ends.ok {α : Type} {P : World → Prop} {a : α} {w : World} (hp : P w) :
    (Run.ok a w).Ends P := by
  intro w' hs
  simp only [Run.state, Option.some.injEq] at hs
  rw [← hs]
  exact hp

theorem Run.Ends.raise {α : Type} {P : World → Prop} {e : Exception} {w : World} (hp : P w) :
    (Run.raise e w : Run α).Ends P := by
  intro w' hs
  simp only [Run.state, Option.some.injEq] at hs
  rw [← hs]
  exact hp

theorem Run.Ends.timeout {α : Type} {P : World → Prop} : (Run.timeout : Run α).Ends P := by
  intro w' hs
  simp [Run.state] at hs

theorem Run.Ends.bind {α β : Type} {P Q : World → Prop} {r : Run α}
    {f : α → World → Run β} (hr : r.Ends Q) (hq : ∀ w, Q w → P w)
    (hf : ∀ a w, Q w → (f a w).Ends P) : (r.bind f).Ends P := by
  cases r with
  | ok a w => exact hf a w (hr w rfl)
  | raise e w => exact Run.Ends.raise (hq w (hr w rfl))
  | timeout => exact Run.Ends.timeout

/-- Sequencing for a step relation that is transitive: the first part and every
continuation take steps. -/
theorem Run.Ends.seq {α β : Type} {R : World → World → Prop}
    (htrans : ∀ {w1 w2 w3}, R w1 w2 → R w2 w3 → R w1 w3) {w : World} {r : Run α}
    {f : α → World → Run β} (hr : r.Ends (R w)) (hf : ∀ a w1, (f a w1).Ends (R w1)) :
    (r.bind f).Ends (R w) :=
  Run.Ends.bind hr (fun _ h => h) fun a w1 h1 w' hs => htrans h1 (hf a w1 w' hs)

theorem Run.Ends.of {α : Type} {P : World → Prop} {r : Except Exception α} {w : World}
    (hp : P w) : (Run.of r w).Ends P := by
  cases r with
  | ok a => exact Run.Ends.ok hp
  | error e => exact Run.Ends.raise hp

theorem fb_error_check_ends {P : World → Prop} (h : Host) {w : World} (hp : P w) :
    (fb_error_check h w).Ends P := by
  intro w' hs
  rw [fb_error_check_state h w w' hs]
  exact hp

theorem fb_connection_check_ends {P : World → Prop} (a : Nat) {w : World} (hp : P w) :
    (fb_connection_check a w).Ends P := by
  unfold fb_connection_check
  repeat' split
  all_goals first | exact Run.Ends.raise hp | exact Run.Ends.ok hp

theorem fb_cursor_check_ends {P : World → Prop} (a : Nat) {w : World} (hp : P w) :
    (fb_cursor_check a w).Ends P := by
  unfold fb_cursor_check
  repeat' split
  all_goals first | exact Run.Ends.raise hp | exact Run.Ends.ok hp

theorem Shrinks.store_cursor {w : World} {a : Nat} {c c' : FbCursor}
    (hc : w.cursor a = some c) (ho : c'.open_ = true → c.open_ = true) :
    Shrinks w (w.store a (Obj.cursor c')) := by
  intro b cb hb hob
  rw [World.cursor_store_cursor _ _ _ _ (World.cursor_lt _ _ _ hc)] at hb
  by_cases hba : b = a
  · subst hba
    rw [if_pos rfl] at hb
    injection hb with hb
    subst hb
    exact ⟨c, hc, ho hob⟩
  · rw [if_neg hba] at hb
    exact ⟨cb, hb, hob⟩

theorem Shrinks.store_connection {w : World} {a : Nat} {k k' : FbConnection}
    (hk : w.connection a = some k) : Shrinks w (w.store a (Obj.connection k')) := by
  intro b cb hb hob
  rw [World.cursor_store_connection _ _ _ _ _ hk] at hb
  exact ⟨cb, hb, hob⟩

theorem Shrinks.store_freed (w : World) (a : Nat) : Shrinks w (w.store a Obj.freed) := by
  intro b cb hb hob
  refine ⟨cb, ?_, hob⟩
  rw [World.cursor_iff] at hb ⊢
  simp only [World.store, List.getElem?_set] at hb
  split at hb
  · split at hb <;> simp at hb
  · exact hb

theorem set_cursor_shrinks (w : World) (a : Nat) (f : FbCursor → FbCursor)
    (hf : ∀ c, (f c).open_ = true → c.open_ = true) : (w.set_cursor a f).Ends (Shrinks w) := by
  unfold World.set_cursor
  split
  · exact Run.Ends.raise (Shrinks.refl w)
  · rename_i c hc
    exact Run.Ends.ok (Shrinks.store_cursor hc (hf c))

theorem set_connection_shrinks (w : World) (a : Nat) (f : FbConnection → FbConnection) :
    (w.set_connection a f).Ends (Shrinks w) := by
  unfold World.set_connection
  split
  · exact Run.Ends.raise (Shrinks.refl w)
  · rename_i k hk
    exact Run.Ends.ok (Shrinks.store_connection hk)

theorem free_statement_shrinks (d : Driver) (a option : Nat) (w : World) :
    (free_statement d a option w).Ends (Shrinks w) := by
  unfold free_statement
  split
  · exact Run.Ends.raise (Shrinks.refl w)
  · rename_i c hc
    refine Run.Ends.ok ?_
    have h1 : Shrinks w (w.call (DrvCall.isc_dsql_free_statement c.stmt option)) :=
      Shrinks.of_heap rfl
    exact h1.trans (@Shrinks.store_cursor _ a c _ hc (fun ho => ho))

theorem Shrinks.step_seq {α β : Type} {w : World} {r : Run α} {f : α → World → Run β}
    (hr : r.Ends (Shrinks w)) (hf : ∀ a w1, (f a w1).Ends (Shrinks w1)) :
    (r.bind f).Ends (Shrinks w) :=
  Run.Ends.bind hr (fun _ h => h) fun a w1 h1 w' hs => Shrinks.trans h1 (hf a w1 w' hs)

theorem Shrinks.of_except {α : Type} (r : Except Exception α) (w : World) :
    (Run.of r w).Ends (Shrinks w) := Run.Ends.of (Shrinks.refl w)

theorem Shrinks.error_check (h : Host) (w : World) :
    (fb_error_check h w).Ends (Shrinks w) := fb_error_check_ends h (Shrinks.refl w)

theorem Shrinks.error_check_of (h : Host) {w w1 : World} (hh : w1.heap = w.heap) :
    (fb_error_check h w1).Ends (Shrinks w) := fb_error_check_ends h (Shrinks.of_heap hh)

theorem Shrinks.connection_check (a : Nat) (w : World) :
    (fb_connection_check a w).Ends (Shrinks w) := fb_connection_check_ends a (Shrinks.refl w)

theorem Shrinks.cursor_check (a : Nat) (w : World) :
    (fb_cursor_check a w).Ends (Shrinks w) := fb_cursor_check_ends a (Shrinks.refl w)

theorem Shrinks.step_ok {α : Type} (a : α) (w : World) : (Run.ok a w).Ends (Shrinks w) :=
  Run.Ends.ok (Shrinks.refl w)

theorem Shrinks.step_raise {α : Type} (e : Exception) (w : World) :
    (Run.raise e w : Run α).Ends (Shrinks w) := Run.Ends.raise (Shrinks.refl w)

theorem cursor_close_shrinks (h : Host) (d : Driver) (self : VALUE) (w : World) :
    (cursor_close h d self w).Ends (Shrinks w) := by
  unfold cursor_close
  refine Shrinks.step_seq (Shrinks.of_except _ w) fun a w1 => ?_
  refine Shrinks.step_seq (Shrinks.cursor_check a w1) fun _ w2 => ?_
  refine Shrinks.step_seq ?_ fun _ w3 => ?_
  · split
    · exact Shrinks.step_raise _ w2
    · split
      · refine Shrinks.step_seq (free_statement_shrinks d a _ w2) fun _ w4 => ?_
        refine Shrinks.step_seq (Shrinks.error_check h w4) fun _ w5 => ?_
        exact set_cursor_shrinks w5 a _ (fun c ho => by simp at ho)
      · exact Shrinks.step_ok _ w2
  · refine Shrinks.step_seq (set_cursor_shrinks w3 a _ (fun c ho => ho)) fun _ w4 => ?_
    exact Shrinks.step_ok _ w4

theorem cursor_description_shrinks (self : VALUE) (w : World) :
    (cursor_description self w).Ends (Shrinks w) := by
  unfold cursor_description
  refine Shrinks.step_seq (Shrinks.of_except _ w) fun a w1 => ?_
  split
  · exact Shrinks.step_raise _ w1
  · exact Shrinks.step_ok _ w1

theorem fb_error_check_warn_shrinks (h : Host) (w : World) :
    (fb_error_check_warn h w).Ends (Shrinks w) := Shrinks.step_ok _ w

theorem fb_cursor_drop_shrinks (h : Host) (d : Driver) (a : Nat) (w : World) :
    (fb_cursor_drop h d a w).Ends (Shrinks w) := by
  unfold fb_cursor_drop
  split
  · exact Shrinks.step_raise _ w
  · refine Shrinks.step_seq ?_ fun _ w1 => ?_
    · split
      · exact Shrinks.step_seq (free_statement_shrinks d a _ w) fun _ w2 =>
          Shrinks.error_check h w2
      · exact Shrinks.step_ok _ w
    · refine Shrinks.step_seq (free_statement_shrinks d a _ w1) fun _ w2 => ?_
      refine Shrinks.step_seq (Shrinks.error_check h w2) fun _ w3 => ?_
      exact set_cursor_shrinks w3 a _ (fun c ho => ho)

theorem fb_cursor_drop_warn_shrinks (h : Host) (d : Driver) (a : Nat) (w : World) :
    (fb_cursor_drop_warn h d a w).Ends (Shrinks w) := by
  unfold fb_cursor_drop_warn
  split
  · exact Shrinks.step_raise _ w
  · refine Shrinks.step_seq ?_ fun _ w1 => ?_
    · split
      · exact Shrinks.step_seq (free_statement_shrinks d a _ w) fun _ w2 =>
          fb_error_check_warn_shrinks h w2
      · exact Shrinks.step_ok _ w
    · refine Shrinks.step_seq (free_statement_shrinks d a _ w1) fun _ w2 => ?_
      refine Shrinks.step_seq (fb_error_check_warn_shrinks h w2) fun _ w3 => ?_
      exact set_cursor_shrinks w3 a _ (fun c ho => ho)

theorem fb_cursor_free_shrinks (h : Host) (d : Driver) (a : Nat) (w : World) :
    (fb_cursor_free h d a w).Ends (Shrinks w) := by
  unfold fb_cursor_free
  split
  · exact Shrinks.step_raise _ w
  · refine Shrinks.step_seq ?_ fun _ w1 => Run.Ends.ok (Shrinks.store_freed w1 a)
    split
    · exact fb_cursor_drop_warn_shrinks h d a w
    · exact Shrinks.step_ok _ w

theorem cursor_drop_shrinks (h : Host) (d : Driver) (self : VALUE) (w : World) :
    (cursor_drop h d self w).Ends (Shrinks w) := by
  unfold cursor_drop
  refine Shrinks.step_seq (Shrinks.of_except _ w) fun a w1 => ?_
  refine Shrinks.step_seq (fb_cursor_drop_shrinks h d a w1) fun _ w2 => ?_
  refine Shrinks.step_seq (set_cursor_shrinks w2 a _ (fun c ho => ho)) fun _ w3 => ?_
  split
  · exact Shrinks.step_raise _ w3
  · refine Shrinks.step_seq (Shrinks.of_except _ w3) fun k w4 => ?_
    refine Shrinks.step_seq (set_connection_shrinks w4 k _) fun _ w5 => ?_
    exact Shrinks.step_ok _ w5

theorem close_cursor_array_shrinks (h : Host) (d : Driver) (list : Nat) (fuel i : Nat)
    (w : World) : (close_cursor_array h d list fuel i w).Ends (Shrinks w) := by
  induction fuel generalizing i w with
  | zero =>
    unfold close_cursor_array
    split
    · exact Shrinks.step_raise _ w
    · split
      · exact Run.Ends.timeout
      · exact Shrinks.step_ok _ w
  | succ fuel ih =>
    unfold close_cursor_array
    split
    · exact Shrinks.step_raise _ w
    · split
      · exact Shrinks.step_seq (cursor_close_shrinks h d _ w) fun _ w1 => ih _ w1
      · exact Shrinks.step_ok _ w

theorem close_cursors_loop_shrinks (h : Host) (d : Driver) (fuel : Nat) (p : Option Nat)
    (w : World) : (close_cursors_loop h d fuel p w).Ends (Shrinks w) := by
  induction fuel generalizing p w with
  | zero =>
    cases p with
    | none => exact Shrinks.step_ok _ w
    | some a => exact Run.Ends.timeout
  | succ fuel ih =>
    cases p with
    | none => exact Shrinks.step_ok _ w
    | some a =>
      unfold close_cursors_loop
      split
      · exact Shrinks.step_raise _ w
      · refine Shrinks.step_seq (close_cursor_array_shrinks h d a _ 0 w) fun _ w1 => ?_
        split
        · exact Shrinks.step_raise _ w1
        · exact ih _ w1

theorem fb_connection_close_cursors_shrinks (h : Host) (d : Driver) (w : World) :
    (fb_connection_close_cursors h d w).Ends (Shrinks w) :=
  close_cursors_loop_shrinks h d _ _ w

theorem drop_cursor_array_shrinks (h : Host) (d : Driver) (k : Nat) (fuel i : Nat)
    (w : World) : (drop_cursor_array h d k fuel i w).Ends (Shrinks w) := by
  induction fuel generalizing i w with
  | zero =>
    unfold drop_cursor_array
    split
    · exact Shrinks.step_raise _ w
    · split
      · exact Run.Ends.timeout
      · exact Shrinks.step_ok _ w
  | succ fuel ih =>
    unfold drop_cursor_array
    split
    · exact Shrinks.step_raise _ w
    · split
      · exact Shrinks.step_seq (cursor_drop_shrinks h d _ w) fun _ w1 => ih _ w1
      · exact Shrinks.step_ok _ w

theorem fb_connection_drop_cursors_shrinks (h : Host) (d : Driver) (k : Nat) (w : World) :
    (fb_connection_drop_cursors h d k w).Ends (Shrinks w) := by
  unfold fb_connection_drop_cursors
  split
  · exact Shrinks.step_raise _ w
  · exact Shrinks.step_seq (drop_cursor_array_shrinks h d k _ 0 w) fun _ w1 =>
      set_connection_shrinks w1 k _

theorem unlink_loop_shrinks (k : Nat) (fuel list : Nat) (w : World) :
    (unlink_loop k fuel list w).Ends (Shrinks w) := by
  induction fuel generalizing list w with
  | zero => exact Run.Ends.timeout
  | succ fuel ih =>
    unfold unlink_loop
    split
    · exact Shrinks.step_raise _ w
    · rename_i l hl
      split
      · exact Shrinks.step_ok _ w
      · split
        · split
          · exact Shrinks.step_raise _ w
          · exact Run.Ends.ok (Shrinks.store_connection hl)
        · exact ih _ w

theorem fb_connection_remove_shrinks (k : Nat) (w : World) :
    (fb_connection_remove k w).Ends (Shrinks w) := by
  unfold fb_connection_remove
  split
  · exact Shrinks.step_ok _ w
  · refine Shrinks.step_seq ?_ fun _ w1 => ?_
    · split
      · split
        · exact Shrinks.step_raise _ w
        · exact Run.Ends.ok (Shrinks.of_heap rfl)
      · exact unlink_loop_shrinks k _ _ w
    · refine Shrinks.step_seq (set_connection_shrinks w1 k _) fun _ w2 => ?_
      exact Run.Ends.ok (Shrinks.of_heap rfl)

theorem detach_database_shrinks (d : Driver) (k : Nat) (w : World) :
    (detach_database d k w).Ends (Shrinks w) := by
  unfold detach_database
  split
  · exact Shrinks.step_raise _ w
  · rename_i c hc
    refine Run.Ends.ok ?_
    have h1 : Shrinks w (w.call (DrvCall.isc_detach_database c.db)) := Shrinks.of_heap rfl
    exact h1.trans (@Shrinks.store_connection _ k c _ hc)

theorem fb_connection_disconnect_shrinks (h : Host) (d : Driver) (k : Nat) (w : World) :
    (fb_connection_disconnect h d k w).Ends (Shrinks w) := by
  unfold fb_connection_disconnect
  refine Shrinks.step_seq ?_ fun _ w1 => ?_
  · split
    · exact Shrinks.error_check_of h rfl
    · exact Shrinks.step_ok _ w
  · refine Shrinks.step_seq (detach_database_shrinks d k w1) fun _ w2 => ?_
    exact Shrinks.step_seq (Shrinks.error_check h w2) fun _ w3 => fb_connection_remove_shrinks k w3

theorem fb_connection_disconnect_warn_shrinks (h : Host) (d : Driver) (k : Nat) (w : World) :
    (fb_connection_disconnect_warn h d k w).Ends (Shrinks w) := by
  unfold fb_connection_disconnect_warn
  refine Shrinks.step_seq ?_ fun _ w1 => ?_
  · split
    · exact Run.Ends.ok (Shrinks.of_heap rfl)
    · exact Shrinks.step_ok _ w
  · refine Shrinks.step_seq (detach_database_shrinks d k w1) fun _ w2 => ?_
    exact Shrinks.step_seq (fb_error_check_warn_shrinks h w2) fun _ w3 =>
      fb_connection_remove_shrinks k w3

theorem fb_connection_free_shrinks (h : Host) (d : Driver) (k : Nat) (w : World) :
    (fb_connection_free h d k w).Ends (Shrinks w) := by
  unfold fb_connection_free
  split
  · exact Shrinks.step_raise _ w
  · refine Shrinks.step_seq ?_ fun _ w1 => Run.Ends.ok (Shrinks.store_freed w1 k)
    split
    · exact fb_connection_disconnect_warn_shrinks h d k w
    · exact Shrinks.step_ok _ w

theorem connection_close_shrinks (h : Host) (d : Driver) (self : VALUE) (w : World) :
    (connection_close h d self w).Ends (Shrinks w) := by
  unfold connection_close
  refine Shrinks.step_seq (Shrinks.of_except _ w) fun k w1 => ?_
  refine Shrinks.step_seq (Shrinks.connection_check k w1) fun _ w2 => ?_
  refine Shrinks.step_seq (fb_connection_disconnect_shrinks h d k w2) fun _ w3 => ?_
  exact Shrinks.step_seq (fb_connection_drop_cursors_shrinks h d k w3) fun _ w4 => Shrinks.step_ok _ w4

theorem transaction_start_shrinks (h : Host) (d : Driver) (opt : VALUE) (argv : List VALUE)
    (w : World) : (transaction_start h d opt argv w).Ends (Shrinks w) := fun w' hs =>
  Shrinks.of_heap (transaction_start_heap h d opt argv w w' hs).1

theorem global_transaction_shrinks (h : Host) (d : Driver) (argv : List VALUE) (w : World) :
    (global_transaction h d argv w).Ends (Shrinks w) := by
  unfold global_transaction
  split
  · exact Shrinks.step_seq (transaction_start_shrinks h d _ _ w) fun _ w1 => Shrinks.step_ok _ w1
  · exact Shrinks.step_seq (transaction_start_shrinks h d _ _ w) fun _ w1 => Shrinks.step_ok _ w1

theorem global_commit_shrinks (h : Host) (d : Driver) (w : World) :
    (global_commit h d w).Ends (Shrinks w) := by
  unfold global_commit
  refine Shrinks.step_seq (fb_connection_close_cursors_shrinks h d w) fun _ w1 => ?_
  refine Shrinks.step_seq ?_ fun _ w2 => Shrinks.step_ok _ w2
  split
  · exact Shrinks.step_seq (Shrinks.error_check_of h rfl) fun _ w3 =>
      Run.Ends.ok (Shrinks.of_heap rfl)
  · exact Shrinks.step_ok _ w1

theorem global_rollback_shrinks (h : Host) (d : Driver) (w : World) :
    (global_rollback h d w).Ends (Shrinks w) := by
  unfold global_rollback
  refine Shrinks.step_seq (fb_connection_close_cursors_shrinks h d w) fun _ w1 => ?_
  refine Shrinks.step_seq ?_ fun _ w2 => Shrinks.step_ok _ w2
  split
  · exact Shrinks.step_seq (Shrinks.error_check_of h rfl) fun _ w3 =>
      Run.Ends.ok (Shrinks.of_heap rfl)
  · exact Shrinks.step_ok _ w1

theorem fb_cursor_fetch_prep_shrinks (h : Host) (d : Driver) (a : Nat) (w : World) :
    (fb_cursor_fetch_prep h d a w).Ends (Shrinks w) := by
  unfold fb_cursor_fetch_prep
  refine Shrinks.step_seq (Shrinks.cursor_check a w) fun _ w1 => ?_
  split
  · exact Shrinks.step_raise _ w1
  · refine Shrinks.step_seq (Shrinks.of_except _ w1) fun k w2 => ?_
    refine Shrinks.step_seq (Shrinks.connection_check k w2) fun _ w3 => ?_
    split
    · exact Shrinks.step_raise _ w3
    · exact Shrinks.step_seq (Shrinks.error_check_of h rfl) fun _ w4 =>
        Run.Ends.ok (Shrinks.of_heap rfl)

theorem fb_cursor_fetch_shrinks (h : Host) (d : Driver) (a : Nat) (w : World) :
    (fb_cursor_fetch h d a w).Ends (Shrinks w) := by
  unfold fb_cursor_fetch
  split
  · exact Shrinks.step_raise _ w
  · refine Shrinks.step_seq (Shrinks.of_except _ w) fun k w2 => ?_
    refine Shrinks.step_seq (Shrinks.connection_check k w2) fun _ w3 => ?_
    simp only
    split
    · exact Run.Ends.ok (Shrinks.of_heap rfl)
    · refine Shrinks.step_seq (Shrinks.error_check_of h rfl) fun _ w4 => ?_
      split
      · exact Run.Ends.ok (Shrinks.of_heap rfl)
      · exact Run.Ends.raise (Shrinks.of_heap rfl)

theorem cursor_fetch_shrinks (h : Host) (d : Driver) (self : VALUE) (w : World) :
    (cursor_fetch h d self w).Ends (Shrinks w) := by
  unfold cursor_fetch
  refine Shrinks.step_seq (Shrinks.of_except _ w) fun a w1 => ?_
  exact Shrinks.step_seq (fb_cursor_fetch_prep_shrinks h d a w1) fun _ w2 =>
    fb_cursor_fetch_shrinks h d a w2

theorem fetchall_loop_shrinks (h : Host) (d : Driver) (a : Nat) (fuel : Nat) (w : World) :
    (fetchall_loop h d a fuel w).Ends (Shrinks w) := by
  induction fuel generalizing w with
  | zero => exact Run.Ends.timeout
  | succ fuel ih =>
    unfold fetchall_loop
    refine Shrinks.step_seq (fb_cursor_fetch_shrinks h d a w) fun row w1 => ?_
    split
    · exact Shrinks.step_ok _ w1
    · exact Shrinks.step_seq (ih w1) fun _ w2 => Shrinks.step_ok _ w2

theorem cursor_fetchall_shrinks (h : Host) (d : Driver) (fuel : Nat) (self : VALUE)
    (w : World) : (cursor_fetchall h d fuel self w).Ends (Shrinks w) := by
  unfold cursor_fetchall
  refine Shrinks.step_seq (Shrinks.of_except _ w) fun a w1 => ?_
  refine Shrinks.step_seq (fb_cursor_fetch_prep_shrinks h d a w1) fun _ w2 => ?_
  exact Shrinks.step_seq (fetchall_loop_shrinks h d a fuel w2) fun _ w3 => Shrinks.step_ok _ w3

theorem each_loop_shrinks (h : Host) (d : Driver) (a : Nat) (fuel : Nat) (w : World) :
    (each_loop h d a no_effect fuel w).Ends (Shrinks w) := by
  induction fuel generalizing w with
  | zero => exact Run.Ends.timeout
  | succ fuel ih =>
    unfold each_loop
    refine Shrinks.step_seq (fb_cursor_fetch_shrinks h d a w) fun row w1 => ?_
    split
    · exact Shrinks.step_ok _ w1
    · exact Shrinks.step_seq (Shrinks.step_ok _ w1) fun _ w2 => ih w2

theorem cursor_each_shrinks (h : Host) (d : Driver) (fuel : Nat) (self : VALUE)
    (w : World) : (cursor_each h d fuel self no_effect w).Ends (Shrinks w) := by
  unfold cursor_each
  refine Shrinks.step_seq (Shrinks.of_except _ w) fun a w1 => ?_
  refine Shrinks.step_seq (fb_cursor_fetch_prep_shrinks h d a w1) fun _ w2 => ?_
  exact Shrinks.step_seq (each_loop_shrinks h d a fuel w2) fun _ w3 => Shrinks.step_ok _ w3

theorem Shrinks.append (w : World) (o : Obj) (w' : World) (hh : w'.heap = w.heap ++ [o])
    (ho : ∀ c, o = Obj.cursor c → c.open_ = false) : Shrinks w w' := by
  intro a c' hc hopen
  rw [World.cursor_iff, hh, List.getElem?_append] at hc
  split at hc
  · exact ⟨c', (World.cursor_iff _ _ _).mpr hc, hopen⟩
  · rename_i hlt
    by_cases ha : a - w.heap.length = 0
    · rw [ha] at hc
      simp only [List.getElem?_cons_zero, Option.some.injEq] at hc
      rw [ho c' hc] at hopen
      cases hopen
    · obtain ⟨n, hn⟩ := Nat.exists_eq_succ_of_ne_zero ha
      rw [hn] at hc
      simp at hc

theorem fb_connection_db_SQL_Dialect_shrinks (h : Host) (d : Driver) (k : Nat) (w : World) :
    (fb_connection_db_SQL_Dialect h d k w).Ends (Shrinks w) := by
  unfold fb_connection_db_SQL_Dialect
  split
  · exact Shrinks.step_raise _ w
  · exact Shrinks.step_seq (Shrinks.error_check_of h rfl) fun _ w1 => Shrinks.step_ok _ w1

theorem connection_create_shrinks (h : Host) (d : Driver) (handle : Nat) (w : World) :
    (connection_create h d handle w).Ends (Shrinks w) := by
  unfold connection_create
  simp only
  refine Run.Ends.bind (fb_connection_db_SQL_Dialect_shrinks h d _ _) (fun w1 h1 => ?_)
    fun n w1 h1 => ?_
  · exact Shrinks.trans (Shrinks.append w _ _ rfl (fun c hc => by cases hc)) h1
  · have h0 : Shrinks w w1 :=
      Shrinks.trans (Shrinks.append w _ _ rfl (fun c hc => by cases hc)) h1
    refine Run.Ends.bind (set_connection_shrinks w1 _ _) (fun w2 h2 => h0.trans h2)
      fun _ w2 h2 => Run.Ends.ok (h0.trans h2)

theorem database_connect_open_shrinks (h : Host) (d : Driver) (self : Database) (w : World) :
    (database_connect_open h d self w).Ends (Shrinks w) := by
  unfold database_connect_open
  refine Shrinks.step_seq (Shrinks.of_except _ w) fun _ w1 => ?_
  refine Shrinks.step_seq (Shrinks.of_except _ w1) fun _ w2 => ?_
  exact Shrinks.step_seq (Shrinks.error_check_of h rfl) fun _ w3 =>
    connection_create_shrinks h d _ w3

theorem database_create_open_shrinks (h : Host) (d : Driver) (self : Database) (b : Bool)
    (w : World) : (database_create_open h d self b w).Ends (Shrinks w) := by
  unfold database_create_open
  refine Shrinks.step_seq (Shrinks.of_except _ w) fun _ w1 => ?_
  simp only
  refine Shrinks.step_seq ?_ fun _ w2 => ?_
  · split
    · exact Shrinks.error_check_of h rfl
    · exact Run.Ends.ok (Shrinks.of_heap rfl)
  · split
    · split
      · exact Shrinks.step_seq (connection_create_shrinks h d _ w2) fun _ w3 => Shrinks.step_ok _ w3
      · exact Shrinks.step_seq (Shrinks.error_check_of h rfl) fun _ w3 => Shrinks.step_ok _ w3
    · exact Shrinks.step_ok _ w2

theorem database_drop_shrinks (h : Host) (d : Driver) (self : Database) (w : World) :
    (database_drop h d self w).Ends (Shrinks w) := by
  unfold database_drop database_connect
  refine Shrinks.step_seq ?_ fun c w1 => ?_
  · exact Shrinks.step_seq (database_connect_open_shrinks h d self w) fun _ w2 => Shrinks.step_ok _ w2
  · refine Shrinks.step_seq (Shrinks.of_except _ w1) fun k w2 => ?_
    split
    · exact Shrinks.step_raise _ w2
    · rename_i c hc
      simp only
      refine Shrinks.step_seq ?_ fun _ w3 => ?_
      · refine fb_error_check_ends h ?_
        have h1 : Shrinks w2 (w2.call (DrvCall.isc_drop_database c.db)) := Shrinks.of_heap rfl
        exact h1.trans (@Shrinks.store_connection _ k c _ hc)
      · exact Shrinks.step_seq (fb_connection_remove_shrinks k w3) fun _ w4 => Shrinks.step_ok _ w4

theorem connection_cursor_shrinks (h : Host) (d : Driver) (self : VALUE) (w : World) :
    (connection_cursor h d self w).Ends (Shrinks w) := by
  unfold connection_cursor
  refine Shrinks.step_seq (Shrinks.of_except _ w) fun k w1 => ?_
  refine Shrinks.step_seq (Shrinks.connection_check k w1) fun _ w2 => ?_
  split
  · exact Shrinks.step_raise _ w2
  · simp only
    refine Shrinks.step_seq ?_ fun _ w3 => Shrinks.step_ok _ w3
    refine fb_error_check_ends h ?_
    exact Shrinks.append w2 _ _ rfl (fun c hc => by
      injection hc with hc
      rw [← hc])

theorem cursor_execute_prepare_shrinks (h : Host) (d : Driver) (argv : List VALUE)
    (self : VALUE) (w : World) : (cursor_execute_prepare h d argv self w).Ends (Shrinks w) := by
  unfold cursor_execute_prepare
  refine Shrinks.step_seq (Shrinks.of_except _ w) fun a w1 => ?_
  split
  · exact Shrinks.step_raise _ w1
  · refine Shrinks.step_seq (Shrinks.of_except _ w1) fun k w2 => ?_
    refine Shrinks.step_seq (Shrinks.connection_check k w2) fun _ w3 => ?_
    split
    · exact Shrinks.step_raise _ w3
    · refine Shrinks.step_seq (Shrinks.of_except _ w3) fun sql w4 => ?_
      refine Shrinks.step_seq ?_ fun _ w5 => ?_
      · split
        · refine Shrinks.step_seq (free_statement_shrinks d a _ w4) fun _ w6 => ?_
          refine Shrinks.step_seq (Shrinks.error_check h w6) fun _ w7 => ?_
          exact set_cursor_shrinks w7 a _ (fun c ho => by simp at ho)
        · exact Shrinks.step_ok _ w4
      · refine Shrinks.step_seq ?_ fun _ w6 => ?_
        · split
          · exact transaction_start_shrinks h d _ _ w5
          · exact Shrinks.step_ok _ w5
        · split
          · refine Shrinks.step_seq (Shrinks.error_check_of h rfl) fun _ w7 => ?_
            refine Shrinks.step_seq (Shrinks.error_check_of h rfl) fun _ w8 => ?_
            simp only
            refine Shrinks.step_seq (Shrinks.error_check_of h rfl) fun _ w9 => ?_
            refine Shrinks.step_seq (Shrinks.error_check_of h rfl) fun _ w10 => ?_
            refine Shrinks.step_seq ?_ fun _ w11 => ?_
            · split
              · exact Shrinks.error_check_of h rfl
              · exact Shrinks.step_ok _ w10
            · refine Run.Ends.ok ?_
              split <;> exact Shrinks.of_heap rfl
          · exact Shrinks.step_raise _ w6

theorem Run.bind_eq_raise {α β : Type} {r : Run α} {f : α → World → Run β} {e : Exception}
    {w : World} (h : r.bind f = Run.raise e w) :
    r = Run.raise e w ∨ ∃ a w1, r = Run.ok a w1 ∧ f a w1 = Run.raise e w := by
  cases r with
  | ok a w1 => exact Or.inr ⟨a, w1, rfl, h⟩
  | raise e1 w1 =>
    simp only [Run.bind_raise] at h
    injection h with he hw
    subst he
    subst hw
    exact Or.inl rfl
  | timeout => simp at h

theorem fb_error_check_raise {h : Host} {w w' : World} {e : Exception}
    (hr : fb_error_check h w = Run.raise e w') : w' = w :=
  fb_error_check_state h w w' (by rw [hr]; rfl)

theorem set_cursor_raise {w w' : World} {a : Nat} {f : FbCursor → FbCursor} {e : Exception}
    (hr : w.set_cursor a f = Run.raise e w') : w' = w ∧ w.cursor a = none := by
  unfold World.set_cursor at hr
  split at hr
  · rename_i hc
    injection hr with _ hw
    exact ⟨hw.symm, hc⟩
  · simp at hr

/-- A second part of `cursor_execute` that raises leaves every structure of the heap as it
was: the cursor is marked open only after the last call that can fail. -/
theorem cursor_execute_run_raise (h : Host) (d : Driver) (a : Nat) (args : List VALUE)
    (st inp : Int) (w1 w' : World) (e : Exception) (c : FbCursor) (hc : w1.cursor a = some c)
    (hr : cursor_execute_run h d a args st inp w1 = Run.raise e w') : w'.heap = w1.heap := by
  unfold cursor_execute_run at hr
  rcases Run.bind_eq_raise hr with hr1 | ⟨_, _, _, hr1⟩
  swap
  · simp at hr1
  clear hr
  by_cases h0 : w1.o_sqlda.sqld = 0
  · rw [if_pos h0] at hr1
    repeat' split at hr1
    all_goals first
      | (injection hr1 with _ hw; rw [← hw])
      | (have hst := fb_error_check_raise hr1; subst hst; rfl)
      | exact (check_inparams_state h _ _ _ _ (by rw [hr1]; rfl)).1
  · rw [if_neg h0] at hr1
    simp only [hc] at hr1
    rcases Run.bind_eq_raise hr1 with h3 | ⟨_, w3, h3, hr3⟩
    · split at h3
      · have := fb_error_check_raise h3
        subst this
        rfl
      · simp at h3
    have hw3 : w3.heap = w1.heap := by
      split at h3
      · have := fb_error_check_ok h3
        subst this
        rfl
      · injection h3 with _ h3
        subst h3
        rfl
    rcases Run.bind_eq_raise hr3 with h4 | ⟨_, w4, h4, hr4⟩
    · split at h4
      · rw [(check_inparams_state h _ _ _ _ (by rw [h4]; rfl)).1, hw3]
      · simp at h4
    have hw4 : w4.heap = w3.heap := by
      split at h4
      · exact (check_inparams_state h _ _ _ _ (by rw [h4]; rfl)).1
      · injection h4 with _ h4
        subst h4
        rfl
    rcases Run.bind_eq_raise hr4 with h5 | ⟨_, w5, h5, hr5⟩
    · have := fb_error_check_raise h5
      subst this
      show w4.heap = _
      rw [hw4, hw3]
    have hw5 := execute2_ok h5
    have hheap5 : w5.heap = w1.heap := by
      rw [hw5]
      show w4.heap = _
      rw [hw4, hw3]
    rcases Run.bind_eq_raise hr5 with h6 | ⟨_, w6, h6, hr6⟩
    · rw [(set_cursor_raise h6).1, hheap5]
    obtain ⟨c6, hc6, hw6⟩ := set_cursor_ok h6
    rcases Run.bind_eq_raise hr6 with h7 | ⟨_, w7, h7, hr7⟩
    · simp at h7
    injection h7 with _ hw7
    have hheap7 : w7.heap = w6.heap := by
      rw [← hw7]
      split <;> rfl
    obtain ⟨_, hnone⟩ := set_cursor_raise hr7
    have hsome : w7.cursor a = some { c6 with open_ := true } := by
      rw [World.cursor_iff, hheap7, ← World.cursor_iff, hw6,
        World.cursor_store_cursor _ _ _ _ (World.cursor_lt _ _ _ hc6), if_pos rfl]
    rw [hsome] at hnone
    cases hnone

/-- The conclusion of one step: a cursor that is open afterwards is the object of an
execute that returned, for a statement with output columns, or was open before. -/
theorem execute_step (h : Host) (d : Driver) (argv : List VALUE) (self : VALUE)
    (w w1 : World) (hs : (cursor_execute h d argv self w).state = some w1) (a : Nat)
    (c1 : FbCursor) (hc : w1.cursor a = some c1) (ho : c1.open_ = true) :
    (∃ n, execute_columns h d argv self w = some (a, n) ∧ n ≠ 0) ∨
    ((∀ n, execute_columns h d argv self w ≠ some (a, n)) ∧
      ∃ c, w.cursor a = some c ∧ c.open_ = true) := by
  unfold cursor_execute at hs
  unfold execute_columns
  have hprep := cursor_execute_prepare_shrinks h d argv self w
  cases hp : cursor_execute_prepare h d argv self w with
  | timeout =>
    rw [hp] at hs
    simp [Run.state] at hs
  | raise e wp =>
    rw [hp] at hs hprep
    simp only [Run.bind_raise, Run.state, Option.some.injEq] at hs
    subst hs
    exact Or.inr ⟨fun n => by simp, hprep wp rfl a c1 hc ho⟩
  | ok p wp =>
    rw [hp] at hs hprep
    simp only [Run.bind_ok] at hs
    have hsh : Shrinks w wp := hprep wp rfl
    obtain ⟨_, ⟨cp, hcp, hop⟩, _⟩ := cursor_execute_prepare_ok h d argv self w wp p hp
    cases hrun : cursor_execute_run h d p.1 p.2.1 p.2.2.1 p.2.2.2 wp with
    | timeout =>
      rw [hrun] at hs
      simp [Run.state] at hs
    | raise e w' =>
      rw [hrun] at hs
      simp only [Run.state, Option.some.injEq] at hs
      subst hs
      have hheap := cursor_execute_run_raise h d p.1 _ _ _ wp w' e cp hcp hrun
      obtain ⟨c2, hc2, ho2⟩ := Shrinks.of_heap hheap a c1 hc ho
      simp only [hrun]
      exact Or.inr ⟨fun n => by simp, hsh a c2 hc2 ho2⟩
    | ok v w' =>
      rw [hrun] at hs
      simp only [Run.state, Option.some.injEq] at hs
      subst hs
      obtain ⟨_, _, _, hframe, c', hc', _, hopen⟩ :=
        cursor_execute_run_ok h d p.1 _ _ _ wp w' v cp hcp hrun
      simp only [hrun]
      by_cases hap : a = p.1
      · subst hap
        rw [hc] at hc'
        injection hc' with hc'
        subst hc'
        left
        refine ⟨wp.o_sqlda.sqld, rfl, ?_⟩
        rcases hopen.mp ho with hn | hn
        · exact hn
        · rw [hop] at hn
          cases hn
      · right
        refine ⟨fun n => ?_, ?_⟩
        · simp only [ne_eq, Option.some.injEq, Prod.mk.injEq, not_and]
          intro hpa
          exact absurd hpa.symm hap
        · apply hsh a c1 _ ho
          rw [World.cursor_iff] at hc ⊢
          rw [← hframe a hap]
          exact hc

theorem perform_step (h : Host) (d : Driver) (op : Op) (w w1 : World)
    (hs : (perform h d op w).state = some w1) (a : Nat) (c1 : FbCursor)
    (hc : w1.cursor a = some c1) (ho : c1.open_ = true) :
    (∃ n, executed_columns h d op w = some (a, n) ∧ n ≠ 0) ∨
    ((∀ n, executed_columns h d op w ≠ some (a, n)) ∧
      ∃ c, w.cursor a = some c ∧ c.open_ = true) := by
  have hnone : ∀ r : Run VALUE, r.Ends (Shrinks w) → r.state = some w1 →
      (∀ n, (none : Option (Nat × Int)) ≠ some (a, n)) ∧
        ∃ c, w.cursor a = some c ∧ c.open_ = true :=
    fun r hr hst => ⟨fun n => by simp, hr w1 hst a c1 hc ho⟩
  cases op with
  | connect self => exact Or.inr (hnone _ (database_connect_open_shrinks h d self w) hs)
  | create self b =>
    exact Or.inr (hnone _ (Shrinks.step_seq (database_create_open_shrinks h d self b w)
      fun _ w2 => Shrinks.step_ok _ w2) hs)
  | drop self => exact Or.inr (hnone _ (database_drop_shrinks h d self w) hs)
  | connection_close self => exact Or.inr (hnone _ (connection_close_shrinks h d self w) hs)
  | connection_free k =>
    refine Or.inr (hnone _ ?_ hs)
    unfold perform
    simp only
    split
    · exact Shrinks.step_ok _ w
    · exact Shrinks.step_seq (fb_connection_free_shrinks h d k w) fun _ w2 => Shrinks.step_ok _ w2
  | cursor_free k =>
    refine Or.inr (hnone _ ?_ hs)
    unfold perform
    simp only
    split
    · exact Shrinks.step_ok _ w
    · exact Shrinks.step_seq (fb_cursor_free_shrinks h d k w) fun _ w2 => Shrinks.step_ok _ w2
  | transaction argv => exact Or.inr (hnone _ (global_transaction_shrinks h d argv w) hs)
  | commit => exact Or.inr (hnone _ (global_commit_shrinks h d w) hs)
  | rollback => exact Or.inr (hnone _ (global_rollback_shrinks h d w) hs)
  | fetch self => exact Or.inr (hnone _ (cursor_fetch_shrinks h d self w) hs)
  | fetchall fuel self => exact Or.inr (hnone _ (cursor_fetchall_shrinks h d fuel self w) hs)
  | each fuel self => exact Or.inr (hnone _ (cursor_each_shrinks h d fuel self w) hs)
  | cursor_close self => exact Or.inr (hnone _ (cursor_close_shrinks h d self w) hs)
  | cursor_drop self => exact Or.inr (hnone _ (cursor_drop_shrinks h d self w) hs)
  | description self => exact Or.inr (hnone _ (cursor_description_shrinks self w) hs)
  | cursor_execute self argv => exact execute_step h d argv self w w1 hs a c1 hc ho
  | execute self argv =>
    simp only [perform, connection_execute] at hs
    simp only [executed_columns]
    have hcur := connection_cursor_shrinks h d self w
    cases hcc : connection_cursor h d self w with
    | timeout =>
      rw [hcc] at hs
      simp [Run.state] at hs
    | raise e w2 =>
      rw [hcc] at hs hcur
      simp only [Run.bind_raise, Run.state, Option.some.injEq] at hs
      subst hs
      exact Or.inr ⟨fun n => by simp, hcur w2 rfl a c1 hc ho⟩
    | ok cursor w2 =>
      rw [hcc] at hs hcur
      simp only [Run.bind_ok] at hs
      have hsh : Shrinks w w2 := hcur w2 rfl
      have hs2 : (cursor_execute h d argv cursor w2).state = some w1 := by
        cases hex : cursor_execute h d argv cursor w2 with
        | timeout =>
          rw [hex] at hs
          simp [Run.state] at hs
        | raise e w3 =>
          rw [hex] at hs
          exact hs
        | ok val w3 =>
          rw [hex] at hs
          simp only [Run.bind_ok] at hs
          split at hs <;> exact hs
      rcases execute_step h d argv cursor w2 w1 hs2 a c1 hc ho with h1 | ⟨h1, c2, hc2, ho2⟩
      · exact Or.inl h1
      · exact Or.inr ⟨h1, hsh a c2 hc2 ho2⟩

/-- Along any sequence of operations: a cursor that is open at the end was open at the
start, unless an execute on it returned, and then the last such execute was of a statement
with output columns. -/
theorem open_history (h : Host) (d : Driver) (ops : List Op) (w w' : World)
    (hr : run_ops h d ops w = some w') (a : Nat) (c' : FbCursor)
    (hc : w'.cursor a = some c') (ho : c'.open_ = true) :
    (∃ n, last_columns h d ops w a = some n ∧ n ≠ 0) ∨
    (last_columns h d ops w a = none ∧ ∃ c, w.cursor a = some c ∧ c.open_ = true) := by
  induction ops generalizing w with
  | nil =>
    simp only [run_ops, Option.some.injEq] at hr
    subst hr
    exact Or.inr ⟨rfl, c', hc, ho⟩
  | cons op ops ih =>
    simp only [run_ops] at hr
    simp only [last_columns]
    cases hs : (perform h d op w).state with
    | none =>
      rw [hs] at hr
      simp at hr
    | some w1 =>
      rw [hs] at hr
      simp only at hr ⊢
      rcases ih w1 hr with ⟨n, hn, hn0⟩ | ⟨hnone, c1, hc1, ho1⟩
      · left
        exact ⟨n, by rw [hn], hn0⟩
      · rw [hnone]
        simp only
        rcases perform_step h d op w w1 hs a c1 hc1 ho1 with ⟨n, hn, hn0⟩ | ⟨hne, hopen⟩
        · left
          rw [hn]
          exact ⟨n, by simp, hn0⟩
        · right
          refine ⟨?_, hopen⟩
          cases hex : executed_columns h d op w with
          | none => rfl
          | some bn =>
            obtain ⟨b, n⟩ := bn
            simp only
            by_cases hb : b = a
            · subst hb
              exact absurd hex (hne n)
            · rw [if_neg hb]

theorem fetch_prep_dropped (h : Host) (d : Driver) (a : Nat) (c : FbCursor) (w : World)
    (hc : w.cursor a = some c) (hs : c.stmt = 0) :
    fb_cursor_fetch_prep h d a w = Run.raise ⟨ExcClass.FbError, "dropped db cursor"⟩ w := by
  simp [fb_cursor_fetch_prep, fb_cursor_check, hc, hs]

theorem fetch_prep_closed (h : Host) (d : Driver) (a : Nat) (c : FbCursor) (w : World)
    (hc : w.cursor a = some c) (hs : c.stmt ≠ 0) (ho : c.open_ = false) :
    fb_cursor_fetch_prep h d a w = Run.raise ⟨ExcClass.FbError, "closed db cursor"⟩ w := by
  simp [fb_cursor_fetch_prep, fb_cursor_check, hc, hs, ho]

theorem fetch_prep_ok (h : Host) (d : Driver) (a : Nat) (c : FbCursor) (w w' : World)
    (u : Unit) (hc : w.cursor a = some c) (hr : fb_cursor_fetch_prep h d a w = Run.ok u w') :
    c.stmt ≠ 0 ∧ c.open_ = true := by
  by_cases hs : c.stmt = 0
  · rw [fetch_prep_dropped h d a c w hc hs] at hr
    cases hr
  · cases ho : c.open_ with
    | false =>
      rw [fetch_prep_closed h d a c w hc hs ho] at hr
      cases hr
    | true => exact ⟨hs, rfl⟩

/-- C27: on a cursor whose statement handle is 0, `fetch`, `fetchall` and `each` raise
"dropped db cursor", and on a cursor with a live handle that is not open they raise "closed
db cursor", in the unchanged state (no driver call); so they return only on a cursor with a
live handle that is open.  And after any sequence of operations from the initial state, a
cursor is open only if an execute on it returned and the last such execute was of a
statement with at least one output column. -/
theorem C27_fetch_needs_open_cursor (h : Host) (d : Driver) :
    (∀ (a : Nat) (c : FbCursor) (w : World) (fuel : Nat) (block : Block),
      w.cursor a = some c →
      (c.stmt = 0 →
        cursor_fetch h d (VALUE.object a) w =
          Run.raise ⟨ExcClass.FbError, "dropped db cursor"⟩ w ∧
        cursor_fetchall h d fuel (VALUE.object a) w =
          Run.raise ⟨ExcClass.FbError, "dropped db cursor"⟩ w ∧
        cursor_each h d fuel (VALUE.object a) block w =
          Run.raise ⟨ExcClass.FbError, "dropped db cursor"⟩ w) ∧
      (c.stmt ≠ 0 → c.open_ = false →
        cursor_fetch h d (VALUE.object a) w =
          Run.raise ⟨ExcClass.FbError, "closed db cursor"⟩ w ∧
        cursor_fetchall h d fuel (VALUE.object a) w =
          Run.raise ⟨ExcClass.FbError, "closed db cursor"⟩ w ∧
        cursor_each h d fuel (VALUE.object a) block w =
          Run.raise ⟨ExcClass.FbError, "closed db cursor"⟩ w) ∧
      (∀ v w', cursor_fetch h d (VALUE.object a) w = Run.ok v w' ∨
          cursor_fetchall h d fuel (VALUE.object a) w = Run.ok v w' ∨
          cursor_each h d fuel (VALUE.object a) block w = Run.ok v w' →
        c.stmt ≠ 0 ∧ c.open_ = true)) ∧
    (∀ (ops : List Op) (w' : World) (a : Nat) (c : FbCursor),
      run_ops h d ops World.initial = some w' → w'.cursor a = some c → c.open_ = true →
      ∃ n, last_columns h d ops World.initial a = some n ∧ n ≠ 0) := by
  refine ⟨fun a c w fuel block hc => ⟨fun hs => ?_, fun hs ho => ?_, fun v w' hr => ?_⟩,
    fun ops w' a c hr hc ho => ?_⟩
  · have hd := Data_Get_Struct_FbCursor_eq hc
    have hp := fetch_prep_dropped h d a c w hc hs
    simp [cursor_fetch, cursor_fetchall, cursor_each, hd, Run.of, hp]
  · have hd := Data_Get_Struct_FbCursor_eq hc
    have hp := fetch_prep_closed h d a c w hc hs ho
    simp [cursor_fetch, cursor_fetchall, cursor_each, hd, Run.of, hp]
  · have hd := Data_Get_Struct_FbCursor_eq hc
    rcases hr with hr | hr | hr
    · simp only [cursor_fetch, hd, Run.of, Run.bind_ok] at hr
      obtain ⟨u, w1, hp, _⟩ := Run.bind_eq_ok hr
      exact fetch_prep_ok h d a c w w1 u hc hp
    · simp only [cursor_fetchall, hd, Run.of, Run.bind_ok] at hr
      obtain ⟨u, w1, hp, _⟩ := Run.bind_eq_ok hr
      exact fetch_prep_ok h d a c w w1 u hc hp
    · simp only [cursor_each, hd, Run.of, Run.bind_ok] at hr
      obtain ⟨u, w1, hp, _⟩ := Run.bind_eq_ok hr
      exact fetch_prep_ok h d a c w w1 u hc hp
  · rcases open_history h d ops World.initial w' hr a c hc ho with h1 | ⟨_, c0, hc0, _⟩
    · exact h1
    · simp [World.cursor, World.initial] at hc0

theorem C27_fetch_needs_open_cursor_witness :
    cursor_made.cursor 1 = some ⟨false, 3, VALUE.nil, VALUE.object 0⟩ ∧
    cursor_fetch sample_host sample_driver (VALUE.object 1) cursor_made =
      Run.raise ⟨ExcClass.FbError, "closed db cursor"⟩ cursor_made ∧
    cursor_fetch sample_host sample_driver (VALUE.object 1) dropped =
      Run.raise ⟨ExcClass.FbError, "dropped db cursor"⟩ dropped :=
  ⟨rfl,
   (((C27_fetch_needs_open_cursor sample_host sample_driver).1 1
      ⟨false, 3, VALUE.nil, VALUE.object 0⟩ cursor_made 0 no_effect rfl).2.1
      (by decide) rfl).1,
   (((C27_fetch_needs_open_cursor sample_host sample_driver).1 1
      ⟨false, 0, VALUE.nil, VALUE.object 0⟩ dropped 0 no_effect rfl).1 rfl).1⟩

/-! ## Closing and dropping a cursor -/

/-- C29 (amended): on a cursor with a live statement handle that is open, `close` makes
the one driver call `isc_dsql_free_statement` with `DSQL_close` and, when the driver reports
no error, returns nil and leaves the cursor with `open` false, no description, and the
handle as the driver left it; on a cursor with a live handle that is not open, `close`
raises "closed db cursor" in the unchanged state, without a driver call. -/
theorem C29_close_live_cursor (h : Host) (d : Driver) (a : Nat) (c : FbCursor) (w : World)
    (hc : w.cursor a = some c) (hs : c.stmt ≠ 0) :
    (c.open_ = true →
      h.status_error (DrvCall.isc_dsql_free_statement c.stmt DSQL_close :: w.calls) = none →
      ∃ w', cursor_close h d (VALUE.object a) w = Run.ok VALUE.nil w' ∧
        w'.calls = DrvCall.isc_dsql_free_statement c.stmt DSQL_close :: w.calls ∧
        w'.cursor a = some
          { open_ := false, describe := VALUE.nil, connection := c.connection,
            stmt := d.handle (DrvCall.isc_dsql_free_statement c.stmt DSQL_close :: w.calls)
              c.stmt }) ∧
    (c.open_ = false →
      cursor_close h d (VALUE.object a) w =
        Run.raise ⟨ExcClass.FbError, "closed db cursor"⟩ w) := by
  have hd := Data_Get_Struct_FbCursor_eq hc
  have hlt := World.cursor_lt w a c hc
  refine ⟨fun ho herr => ?_, fun ho => ?_⟩
  · have hchk : fb_cursor_check a w = Run.ok () w := by
      simp [fb_cursor_check, hc, hs, ho]
    have hfree : free_statement d a DSQL_close w =
        Run.ok () ((w.call (DrvCall.isc_dsql_free_statement c.stmt DSQL_close)).store a
          (Obj.cursor { c with stmt := (d.handle
            (DrvCall.isc_dsql_free_statement c.stmt DSQL_close :: w.calls) c.stmt) })) := by
      simp [free_statement, hc, World.call]
    have herr1 : ∀ w1 : World,
        w1.calls = DrvCall.isc_dsql_free_statement c.stmt DSQL_close :: w.calls →
        fb_error_check h w1 = Run.ok () w1 := by
      intro w1 h1
      simp [fb_error_check, h1, herr]
    have hset : ∀ (w1 : World) (c1 : FbCursor) (f : FbCursor → FbCursor),
        w1.cursor a = some c1 → w1.set_cursor a f = Run.ok () (w1.store a (Obj.cursor (f c1))) := by
      intro w1 c1 f h1
      simp [World.set_cursor, h1]
    have hget : ∀ (w1 : World) (c1 : FbCursor), a < w1.heap.length →
        (w1.store a (Obj.cursor c1)).cursor a = some c1 := by
      intro w1 c1 h1
      rw [World.cursor_store_cursor _ _ _ _ h1, if_pos rfl]
    have hlen : ∀ (o : Obj), a < ((w.call
        (DrvCall.isc_dsql_free_statement c.stmt DSQL_close)).store a o).heap.length := by
      intro o
      simpa using hlt
    refine ⟨?w, ?h1, ?h2, ?h3⟩
    case h1 =>
      simp only [cursor_close, hd, Run.of, Run.bind_ok, hchk, hc, hs, ne_eq,
        not_false_eq_true, if_true, hfree]
      rw [herr1 _ rfl, Run.bind_ok, hset _ _ _ (hget (w.call _) _ hlt), Run.bind_ok,
        hset _ _ _ (hget _ _ (hlen _)), Run.bind_ok]
      exact rfl
    case h2 => rfl
    case h3 =>
      rw [hget _ _ (by simpa using hlt)]
  · simp [cursor_close, hd, Run.of, fb_cursor_check, hc, hs, ho]

theorem C29_close_live_cursor_witness :
    cursor_made.cursor 1 = some ⟨false, 3, VALUE.nil, VALUE.object 0⟩ ∧
    cursor_close sample_host sample_driver (VALUE.object 1) cursor_made =
      Run.raise ⟨ExcClass.FbError, "closed db cursor"⟩ cursor_made ∧
    ∃ w', cursor_close sample_host sample_driver (VALUE.object 1) executed_select =
        Run.ok VALUE.nil w' ∧
      w'.calls = DrvCall.isc_dsql_free_statement 3 DSQL_close :: executed_select.calls :=
  ⟨rfl,
   (C29_close_live_cursor sample_host sample_driver 1 ⟨false, 3, VALUE.nil, VALUE.object 0⟩
      cursor_made rfl (by decide)).2 rfl,
   ((C29_close_live_cursor sample_host sample_driver 1
      ⟨true, 3, fb_cursor_description executed_select.o_sqlda executed_select.o_sqlname,
        VALUE.object 0⟩ executed_select rfl (by decide)).1 rfl rfl).imp
      fun _ hw => ⟨hw.1, hw.2.1⟩⟩

/-- C29, counterexample: the cursor of a fresh `connection_cursor` has a live statement
handle and is not open; `close` on it raises "closed db cursor" and makes no driver call. -/
theorem C29_counterexample :
    cursor_made.cursor 1 = some ⟨false, 3, VALUE.nil, VALUE.object 0⟩ ∧
    cursor_close sample_host sample_driver (VALUE.object 1) cursor_made =
      Run.raise ⟨ExcClass.FbError, "closed db cursor"⟩ cursor_made :=
  ⟨rfl, rfl⟩

/-- C28 (amended): on a cursor whose statement handle is 0, `fetch`, `fetchall`, `each` and
`close` raise "dropped db cursor" in the unchanged state, whatever the driver does;
`description` returns the stored description without an error; `drop` on such a cursor that
is not open calls the driver with the zero handle and returns when the driver reports no
error; `execute` passes the zero handle to `isc_dsql_prepare` and raises the error the
driver reports for that call. -/
theorem C28_dropped_cursor (h : Host) (d : Driver) (a : Nat) (c : FbCursor) (w : World)
    (hc : w.cursor a = some c) (hs : c.stmt = 0) :
    (∀ (fuel : Nat) (block : Block),
      cursor_fetch h d (VALUE.object a) w =
        Run.raise ⟨ExcClass.FbError, "dropped db cursor"⟩ w ∧
      cursor_fetchall h d fuel (VALUE.object a) w =
        Run.raise ⟨ExcClass.FbError, "dropped db cursor"⟩ w ∧
      cursor_each h d fuel (VALUE.object a) block w =
        Run.raise ⟨ExcClass.FbError, "dropped db cursor"⟩ w ∧
      cursor_close h d (VALUE.object a) w =
        Run.raise ⟨ExcClass.FbError, "dropped db cursor"⟩ w) ∧
    cursor_description (VALUE.object a) w = Run.ok c.describe w ∧
    (∀ (k : Nat) (kc : FbConnection), c.open_ = false → c.connection = VALUE.object k →
      w.connection k = some kc →
      h.status_error (DrvCall.isc_dsql_free_statement 0 DSQL_drop :: w.calls) = none →
      ∃ w', cursor_drop h d (VALUE.object a) w = Run.ok VALUE.nil w' ∧
        w'.calls = DrvCall.isc_dsql_free_statement 0 DSQL_drop :: w.calls) ∧
    (∀ (k : Nat) (kc : FbConnection) (s : List Nat) (argv : List VALUE) (ex : Exception),
      c.open_ = false → c.connection = VALUE.object k → w.connection k = some kc →
      kc.db ≠ 0 → w.transact ≠ 0 →
      h.status_error (DrvCall.isc_dsql_prepare 0 (cstr s 0) kc.dialect :: w.calls) = some ex →
      cursor_execute h d (VALUE.string s :: argv) (VALUE.object a) w =
        Run.raise ex (describe_output d (DrvCall.isc_dsql_prepare 0 (cstr s 0) kc.dialect)
          w)) := by
  have hd := Data_Get_Struct_FbCursor_eq hc
  have hlt := World.cursor_lt w a c hc
  have hp := fetch_prep_dropped h d a c w hc hs
  refine ⟨fun fuel block => ?_, ?_, fun k kc ho hk hkc herr => ?_,
    fun k kc s argv ex ho hk hkc hdb ht herr => ?_⟩
  · simp [cursor_fetch, cursor_fetchall, cursor_each, cursor_close, hd, Run.of, hp,
      fb_cursor_check, hc, hs]
  · simp [cursor_description, hd, Run.of, hc]
  · have hkh : w.heap[k]? = some (Obj.connection kc) := (World.connection_iff w k kc).mp hkc
    have hch : w.heap[a]? = some (Obj.cursor c) := (World.cursor_iff w a c).mp hc
    have hka : k ≠ a := by
      intro hka
      rw [hka, hch] at hkh
      cases hkh
    have hget : ∀ (w1 : World) (c1 : FbCursor), a < w1.heap.length →
        (w1.store a (Obj.cursor c1)).cursor a = some c1 := by
      intro w1 c1 h1
      rw [World.cursor_store_cursor _ _ _ _ h1, if_pos rfl]
    have hset : ∀ (w1 : World) (c1 : FbCursor) (f : FbCursor → FbCursor),
        w1.cursor a = some c1 → w1.set_cursor a f = Run.ok () (w1.store a (Obj.cursor (f c1))) := by
      intro w1 c1 f h1
      simp [World.set_cursor, h1]
    have hlen : ∀ (o : Obj), a < ((w.call
        (DrvCall.isc_dsql_free_statement c.stmt DSQL_drop)).store a o).heap.length := by
      intro o
      simpa using hlt
    have hlen2 : ∀ (o o2 : Obj), a < (((w.call
        (DrvCall.isc_dsql_free_statement c.stmt DSQL_drop)).store a o).store a o2).heap.length := by
      intro o o2
      simpa using hlt
    have hfree : free_statement d a DSQL_drop w =
        Run.ok () ((w.call (DrvCall.isc_dsql_free_statement c.stmt DSQL_drop)).store a
          (Obj.cursor { c with stmt := (d.handle
            (DrvCall.isc_dsql_free_statement c.stmt DSQL_drop :: w.calls) c.stmt) })) := by
      simp [free_statement, hc, World.call]
    have herr1 : ∀ w1 : World,
        w1.calls = DrvCall.isc_dsql_free_statement c.stmt DSQL_drop :: w.calls →
        fb_error_check h w1 = Run.ok () w1 := by
      intro w1 h1
      simp [fb_error_check, h1, hs, herr]
    refine ⟨?w, ?h1, ?h2⟩
    case h1 =>
      simp only [cursor_drop, hd, Run.of, Run.bind_ok, fb_cursor_drop, hc, ho, hfree,
        Bool.false_eq_true, if_false]
      rw [herr1 _ rfl, Run.bind_ok, hset _ _ _ (hget (w.call _) _ hlt), Run.bind_ok,
        hset _ _ _ (hget _ _ (hlen _)), Run.bind_ok, hget _ _ (hlen2 _ _)]
      simp only [hk, Data_Get_Struct_FbConnection]
      have hk3 : ∀ (o1 o2 o3 : Obj), ((((w.call
          (DrvCall.isc_dsql_free_statement c.stmt DSQL_drop)).store a o1).store a o2).store a
          o3).heap[k]? = some (Obj.connection kc) := by
        intro o1 o2 o3
        simp only [World.store, World.call, List.getElem?_set, if_neg (Ne.symm hka)]
        exact hkh
      rw [hk3]
      simp only [Run.bind_ok, World.set_connection, World.connection, hk3]
      exact rfl
    case h2 =>
      rw [hs]
      rfl
  · have hchk : fb_connection_check k w = Run.ok () w := by
      simp [fb_connection_check, hkc, hdb]
    have hkh : w.heap[k]? = some (Obj.connection kc) := (World.connection_iff w k kc).mp hkc
    simp only [cursor_execute, cursor_execute_prepare, hd, Run.of, Run.bind_ok, hc, hk,
      Data_Get_Struct_FbConnection, hkh, hchk, STR2CSTR, ho, Bool.false_eq_true, if_false,
      ht, hkc, hs, fb_error_check, describe_output, herr, Run.bind_raise]

theorem C28_dropped_cursor_witness :
    dropped.cursor 1 = some ⟨false, 0, VALUE.nil, VALUE.object 0⟩ ∧
    cursor_close sample_host sample_driver (VALUE.object 1) dropped =
      Run.raise ⟨ExcClass.FbError, "dropped db cursor"⟩ dropped ∧
    cursor_description (VALUE.object 1) dropped = Run.ok VALUE.nil dropped :=
  ⟨rfl,
   ((C28_dropped_cursor sample_host sample_driver 1 ⟨false, 0, VALUE.nil, VALUE.object 0⟩
      dropped rfl rfl).1 0 no_effect).2.2.2,
   (C28_dropped_cursor sample_host sample_driver 1 ⟨false, 0, VALUE.nil, VALUE.object 0⟩
      dropped rfl rfl).2.1⟩

theorem execute_on_dropped_eq :
    cursor_execute sample_host sample_driver [select_text] (VALUE.object 1) dropped =
      Run.ok VALUE.nil executed_on_dropped := by
  unfold cursor_execute
  rw [show cursor_execute_prepare sample_host sample_driver [select_text] (VALUE.object 1)
      dropped = Run.ok (1, [], 1, 0) prepared_on_dropped from rfl]
  exact (rfl : cursor_execute_run sample_host sample_driver 1 [] 1 0 prepared_on_dropped =
    Run.ok VALUE.nil executed_on_dropped)

/-- C28, counterexample: after `drop` has cleared the statement handle of a cursor,
`description` returns nil without an error, and with a driver that reports no error for
the zero handle a second `drop` and an `execute` return as well. -/
theorem C28_counterexample :
    cursor_drop sample_host sample_driver (VALUE.object 1) cursor_made =
      Run.ok VALUE.nil dropped ∧
    dropped.cursor 1 = some ⟨false, 0, VALUE.nil, VALUE.object 0⟩ ∧
    cursor_description (VALUE.object 1) dropped = Run.ok VALUE.nil dropped ∧
    cursor_drop sample_host sample_driver (VALUE.object 1) dropped =
      Run.ok VALUE.nil dropped_twice ∧
    cursor_execute sample_host sample_driver [select_text] (VALUE.object 1) dropped =
      Run.ok VALUE.nil executed_on_dropped :=
  ⟨rfl, rfl, rfl, rfl, execute_on_dropped_eq⟩

/-! ## Cursors and the end of a transaction -/

theorem connection_execute_select_eq :
    connection_execute sample_host sample_driver [select_text] (VALUE.object 0) none
      connected = Run.ok (VALUE.object 1) executed_select := by
  unfold connection_execute
  rw [cursor_made_eq, Run.bind_ok, execute_select_eq]
  rfl

/-- C24, the divergence: `Connection#execute` of a query on a fresh connection returns an
open cursor, which is in no cursor array; a commit (or a rollback) that follows returns,
ends the transaction, makes no `DSQL_close` call, and leaves the cursor open on the live
connection. -/
theorem C24_open_cursor_survives_commit :
    connection_execute sample_host sample_driver [select_text] (VALUE.object 0) none
      connected = Run.ok (VALUE.object 1) executed_select ∧
    (executed_select.connection 0).map (fun k => (k.db, k.cursor.length)) = some (1, 0) ∧
    (executed_select.cursor 1).map (fun c => (c.open_, c.stmt)) = some (true, 3) ∧
    global_commit sample_host sample_driver executed_select = Run.ok VALUE.nil committed_open ∧
    committed_open.transact = 0 ∧
    (committed_open.connection 0).map (fun k => k.db) = some 1 ∧
    (committed_open.cursor 1).map (fun c => (c.open_, c.stmt)) = some (true, 3) ∧
    DrvCall.isc_dsql_free_statement 3 DSQL_close ∉ committed_open.calls ∧
    global_rollback sample_host sample_driver executed_select =
      Run.ok VALUE.nil rolled_back_open ∧
    (rolled_back_open.cursor 1).map (fun c => (c.open_, c.stmt)) = some (true, 3) ∧
    DrvCall.isc_dsql_free_statement 3 DSQL_close ∉ rolled_back_open.calls :=
  ⟨connection_execute_select_eq, by decide, by decide, rfl, by decide, by decide, by decide,
   by decide, rfl, by decide, by decide⟩

/-! ## The registry -/

theorem IsChain.of_next {w w' : World} {p : Option Nat} {l : List Nat}
    (hn : ∀ a ∈ l, ∀ k, w.connection a = some k →
      ∃ k', w'.connection a = some k' ∧ k'.next = k.next)
    (hc : IsChain w p l) : IsChain w' p l := by
  induction l generalizing p with
  | nil => exact hc
  | cons a l ih =>
    obtain ⟨hp, k, hk, hrest⟩ := hc
    obtain ⟨k', hk', hnext⟩ := hn a (List.mem_cons_self _ _) k hk
    refine ⟨hp, k', hk', ?_⟩
    rw [hnext]
    exact ih (fun b hb => hn b (List.mem_cons_of_mem _ hb)) hrest

theorem IsChain.lt {w : World} {p : Option Nat} {l : List Nat} (hc : IsChain w p l) :
    ∀ a ∈ l, a < w.heap.length := by
  induction l generalizing p with
  | nil => simp
  | cons a l ih =>
    obtain ⟨_, k, hk, hrest⟩ := hc
    intro b hb
    rcases List.mem_cons.mp hb with rfl | hb
    · exact World.connection_lt _ _ _ hk
    · exact ih hrest b hb

theorem IsChain.connection {w : World} {p : Option Nat} {l : List Nat} (hc : IsChain w p l) :
    ∀ a ∈ l, ∃ k, w.connection a = some k := by
  induction l generalizing p with
  | nil => simp
  | cons a l ih =>
    obtain ⟨_, k, hk, hrest⟩ := hc
    intro b hb
    rcases List.mem_cons.mp hb with rfl | hb
    · exact ⟨k, hk⟩
    · exact ih hrest b hb

theorem nodup_length_le (l : List Nat) (n : Nat) (hn : l.Nodup) (hlt : ∀ a ∈ l, a < n) :
    l.length ≤ n := by
  have h1 : l.Subperm (List.range n) :=
    List.subperm_of_subset hn (fun a ha => List.mem_range.mpr (hlt a ha))
  simpa using h1.length_le

theorem IsChain.walk {w : World} {p : Option Nat} {l : List Nat} (hc : IsChain w p l)
    (fuel : Nat) (hf : l.length ≤ fuel) : chain w fuel p = some l := by
  induction l generalizing p fuel with
  | nil =>
    have hp : p = none := hc
    subst hp
    cases fuel <;> rfl
  | cons a l ih =>
    obtain ⟨hp, k, hk, hrest⟩ := hc
    subst hp
    cases fuel with
    | zero => simp at hf
    | succ fuel =>
      have h1 := ih hrest fuel (by simpa using hf)
      show (match w.connection a with
        | none => none
        | some c => (chain w fuel c.next).map fun l => a :: l) = _
      rw [hk]
      show (chain w fuel k.next).map _ = _
      rw [h1]
      rfl

theorem Linked.registry {w : World} {l : List Nat} (hc : Linked w l) :
    registry w = some l :=
  hc.1.walk _ (Nat.le_succ_of_le (nodup_length_le l _ hc.2.1 hc.1.lt))

theorem connection_of_heap {w w' : World} (hh : w'.heap = w.heap) (a : Nat) :
    w'.connection a = w.connection a := by
  simp only [World.connection, hh]

theorem cursor_of_heap {w w' : World} (hh : w'.heap = w.heap) (a : Nat) :
    w'.cursor a = w.cursor a := by
  simp only [World.cursor, hh]

/-- A change of the state that leaves the heap and the head of the list alone. -/
theorem Linked.linked_of_eq {w w' : World} {l : List Nat} (hh : w'.heap = w.heap)
    (hl : w'.fb_connection_list = w.fb_connection_list) (hc : Linked w l) : Linked w' l := by
  obtain ⟨h1, h2, h5, h6⟩ := hc
  refine ⟨?_, h2, ?_, ?_⟩
  · rw [hl]
    exact IsChain.of_next
      (fun a _ k hk => ⟨k, by rw [connection_of_heap hh]; exact hk, rfl⟩) h1
  · intro a k hk
    rw [connection_of_heap hh] at hk
    exact h5 a k hk
  · intro a
    rw [cursor_of_heap hh]
    exact h6 a

theorem Dead.dead_of_eq {w w' : World} {l : List Nat} (hh : w'.heap = w.heap) (hc : Dead w l) :
    Dead w' l := by
  intro a k hk
  rw [connection_of_heap hh] at hk
  exact hc a k hk

theorem Live.live_of_eq {w w' : World} {l : List Nat} (hh : w'.heap = w.heap) (hc : Live w l) :
    Live w' l := by
  intro a k ha hk
  rw [connection_of_heap hh] at hk
  exact hc a k ha hk

theorem RegInv.of_eq {w w' : World} {l : List Nat} (hh : w'.heap = w.heap)
    (hl : w'.fb_connection_list = w.fb_connection_list) (hn : w'.db_num = w.db_num)
    (hc : RegInv w l) : RegInv w' l :=
  ⟨hc.1.linked_of_eq hh hl, hc.2.1.dead_of_eq hh, hc.2.2.1.live_of_eq hh,
    by rw [hn]; exact hc.2.2.2⟩

/-- A store to a connection structure that keeps `next` and leaves the cursor array
empty. -/
theorem Linked.linked_store {w : World} {l : List Nat} {a : Nat} {k k' : FbConnection}
    (hk : w.connection a = some k) (hnext : k'.next = k.next) (hcur : k'.cursor = [])
    (hc : Linked w l) : Linked (w.store a (Obj.connection k')) l := by
  have hlt := World.connection_lt w a k hk
  obtain ⟨h1, h2, h5, h6⟩ := hc
  refine ⟨?_, h2, ?_, ?_⟩
  · refine IsChain.of_next (fun b _ kb hkb => ?_) h1
    rw [World.connection_store_connection _ _ _ _ hlt]
    by_cases hb : b = a
    · subst hb
      rw [hk] at hkb
      injection hkb with hkb
      subst hkb
      exact ⟨k', by rw [if_pos rfl], hnext⟩
    · exact ⟨kb, by rw [if_neg hb]; exact hkb, rfl⟩
  · intro b kb hkb
    rw [World.connection_store_connection _ _ _ _ hlt] at hkb
    by_cases hb : b = a
    · subst hb
      rw [if_pos rfl] at hkb
      injection hkb with hkb
      subst hkb
      exact hcur
    · rw [if_neg hb] at hkb
      exact h5 b kb hkb
  · intro b
    rw [World.cursor_store_connection _ _ _ _ _ hk]
    exact h6 b

theorem Dead.dead_store {w : World} {l : List Nat} {a : Nat} {k' : FbConnection}
    (hlt : a < w.heap.length) (hdb : a ∉ l → k'.db = 0) (hc : Dead w l) :
    Dead (w.store a (Obj.connection k')) l := by
  intro b kb hkb hbl
  rw [World.connection_store_connection _ _ _ _ hlt] at hkb
  by_cases hb : b = a
  · subst hb
    rw [if_pos rfl] at hkb
    injection hkb with hkb
    subst hkb
    exact hdb hbl
  · rw [if_neg hb] at hkb
    exact hc b kb hkb hbl

theorem Live.live_store {w : World} {l : List Nat} {a : Nat} {k' : FbConnection}
    (hlt : a < w.heap.length) (hdb : a ∈ l → k'.db ≠ 0) (hc : Live w l) :
    Live (w.store a (Obj.connection k')) l := by
  intro b kb hbl hkb
  rw [World.connection_store_connection _ _ _ _ hlt] at hkb
  by_cases hb : b = a
  · subst hb
    rw [if_pos rfl] at hkb
    injection hkb with hkb
    subst hkb
    exact hdb hbl
  · rw [if_neg hb] at hkb
    exact hc b kb hbl hkb

theorem connection_append_lt (w : World) (o : Obj) (a : Nat) (ha : a < w.heap.length)
    (f : World) (hf : f.heap = w.heap ++ [o]) : f.connection a = w.connection a := by
  simp only [World.connection, hf, List.getElem?_append_left ha]

theorem cursor_append_lt (w : World) (o : Obj) (a : Nat) (ha : a < w.heap.length)
    (f : World) (hf : f.heap = w.heap ++ [o]) : f.cursor a = w.cursor a := by
  simp only [World.cursor, hf, List.getElem?_append_left ha]

theorem connection_append_new (w : World) (k : FbConnection)
    (f : World) (hf : f.heap = w.heap ++ [Obj.connection k]) :
    f.connection w.heap.length = some k := by
  simp [World.connection, hf]

/-- The registry after `connection_create` has linked the new structure. -/
theorem RegInv.push {w f : World} {l : List Nat} {k : FbConnection}
    (hf : f.heap = w.heap ++ [Obj.connection k]) (hnext : k.next = w.fb_connection_list)
    (hcur : k.cursor = []) (hdb : k.db ≠ 0)
    (hl : f.fb_connection_list = some w.heap.length) (hn : f.db_num = w.db_num + 1)
    (hc : RegInv w l) : RegInv f (w.heap.length :: l) := by
  obtain ⟨⟨h1, h2, h5, h6⟩, hd, hv, hnum⟩ := hc
  have hlt := IsChain.lt h1
  have hnew := connection_append_new w k f hf
  have hlen : f.heap.length = w.heap.length + 1 := by rw [hf]; simp
  have hfresh : w.heap.length ∉ l := fun hm => Nat.lt_irrefl _ (hlt _ hm)
  have hold : ∀ a kk, f.connection a = some kk → a ≠ w.heap.length →
      w.connection a = some kk := by
    intro a kk hkk hne
    have h3 := World.connection_lt f a kk hkk
    rw [hlen] at h3
    rw [← connection_append_lt w _ a (by omega) f hf]
    exact hkk
  refine ⟨⟨?_, ?_, ?_, ?_⟩, ?_, ?_, ?_⟩
  · rw [hl]
    refine ⟨rfl, k, hnew, ?_⟩
    rw [hnext]
    refine IsChain.of_next (fun b hb kb hkb => ⟨kb, ?_, rfl⟩) h1
    rw [connection_append_lt w _ b (hlt b hb) f hf]
    exact hkb
  · exact List.nodup_cons.mpr ⟨hfresh, h2⟩
  · intro a kk hkk
    by_cases ha : a = w.heap.length
    · subst ha
      rw [hnew] at hkk
      injection hkk with hkk
      subst hkk
      exact hcur
    · exact h5 a kk (hold a kk hkk ha)
  · intro a
    by_cases ha : a < w.heap.length
    · rw [cursor_append_lt w _ a ha f hf]
      exact h6 a
    · by_cases hb : a = w.heap.length
      · subst hb
        cases hcc : f.cursor w.heap.length with
        | none => rfl
        | some c =>
          rw [World.cursor_iff] at hcc
          rw [World.connection_iff] at hnew
          rw [hnew] at hcc
          cases hcc
      · cases hcc : f.cursor a with
        | none => rfl
        | some c =>
          have := World.cursor_lt f a c hcc
          omega
  · intro a kk hkk hal
    have ha : a ≠ w.heap.length := fun he => hal (by rw [he]; exact List.mem_cons_self _ _)
    exact hd a kk (hold a kk hkk ha) (fun hm => hal (List.mem_cons_of_mem _ hm))
  · intro a kk hal hkk
    by_cases ha : a = w.heap.length
    · subst ha
      rw [hnew] at hkk
      injection hkk with hkk
      subst hkk
      exact hdb
    · rcases List.mem_cons.mp hal with he | hm
      · exact absurd he ha
      · exact hv a kk hm (hold a kk hkk ha)
  · rw [hn, hnum]
    simp

/-- The loop of `fb_connection_remove` on a chain that holds `a` behind its first node: it
ends, and it has redirected the one pointer to `a`. -/
theorem unlink_loop_spec (a : Nat) (w : World) (l2 : List Nat) :
    ∀ (l1 : List Nat) (x fuel : Nat), IsChain w (some x) (x :: l1 ++ a :: l2) →
      (x :: l1 ++ a :: l2).Nodup → l1.length < fuel →
      ∃ p kp ka, p ∈ x :: l1 ∧ w.connection p = some kp ∧ w.connection a = some ka ∧
        unlink_loop a fuel x w =
          Run.ok () (w.store p (Obj.connection { kp with next := ka.next })) ∧
        IsChain (w.store p (Obj.connection { kp with next := ka.next })) (some x)
          (x :: l1 ++ l2) := by
  intro l1
  induction l1 with
  | nil =>
    intro x fuel hc hn hf
    obtain ⟨_, kx, hkx, hrest⟩ := hc
    obtain ⟨hnx, ka, hka, hrest2⟩ := hrest
    have hlt := World.connection_lt w x kx hkx
    have hxl2 : x ∉ l2 := by
      intro hm
      have := (List.nodup_cons.mp hn).1
      exact this (by simp [hm])
    refine ⟨x, kx, ka, List.mem_cons_self _ _, hkx, hka, ?_, ?_⟩
    · cases fuel with
      | zero => simp at hf
      | succ fuel =>
        simp only [unlink_loop, hkx, hnx, if_true, hka]
    · refine ⟨rfl, { kx with next := ka.next }, ?_, ?_⟩
      · rw [World.connection_store_connection _ _ _ _ hlt, if_pos rfl]
      · refine IsChain.of_next (fun b hb kb hkb => ⟨kb, ?_, rfl⟩) hrest2
        rw [World.connection_store_connection _ _ _ _ hlt, if_neg]
        · exact hkb
        · intro he
          exact hxl2 (he ▸ hb)
  | cons y l1 ih =>
    intro x fuel hc hn hf
    obtain ⟨_, kx, hkx, hrest⟩ := hc
    have hny : kx.next = some y := hrest.1
    have hn2 := (List.nodup_cons.mp hn).2
    have hxn := (List.nodup_cons.mp hn).1
    have hya : y ≠ a := by
      intro he
      have := (List.nodup_cons.mp hn2).1
      exact this (by simp [he])
    cases fuel with
    | zero => simp at hf
    | succ fuel =>
      have hc2 : IsChain w (some y) (y :: l1 ++ a :: l2) := by
        rw [← hny]
        exact hrest
      obtain ⟨p, kp, ka, hp, hkp, hka, hrun, hch⟩ :=
        ih y fuel hc2 hn2 (by simpa using hf)
      have hltp := World.connection_lt w p kp hkp
      have hxp : x ≠ p := by
        intro he
        apply hxn
        rw [he]
        rcases List.mem_cons.mp hp with h1 | h1
        · rw [h1]
          simp
        · simp [h1]
      refine ⟨p, kp, ka, List.mem_cons_of_mem _ hp, hkp, hka, ?_, ?_⟩
      · simp only [unlink_loop, hkx, hny, if_neg hya]
        exact hrun
      · refine ⟨rfl, kx, ?_, ?_⟩
        · rw [World.connection_store_connection _ _ _ _ hltp, if_neg hxp]
          exact hkx
        · rw [hny]
          exact hch

theorem db_store_next (w : World) (p : Nat) (kp : FbConnection) (nx : Option Nat)
    (hkp : w.connection p = some kp) (b : Nat) :
    ((w.store p (Obj.connection { kp with next := nx })).connection b).map (fun k => k.db) =
      (w.connection b).map (fun k => k.db) := by
  rw [World.connection_store_connection _ _ _ _ (World.connection_lt w p kp hkp)]
  by_cases hb : b = p
  · subst hb
    rw [if_pos rfl, hkp]
    rfl
  · rw [if_neg hb]

/-- The first part of `fb_connection_remove` for a member of the registry: the list is the
registry without it; no handle has changed. -/
theorem unlink_spec (a : Nat) (w : World) (l : List Nat) (hc : Linked w l) (ha : a ∈ l)
    (head : Nat) (hh : w.fb_connection_list = some head) :
    ∃ w1 l1, (if head = a then
        match w.connection head with
        | none => Run.raise bad_pointer w
        | some c => Run.ok () { w with fb_connection_list := c.next }
       else unlink_loop a (w.heap.length + 1) head w) = Run.ok () w1 ∧
      Linked w1 l1 ∧ (∀ b, b ∈ l1 ↔ (b ∈ l ∧ b ≠ a)) ∧ (l1.length : Int) + 1 = l.length ∧
      w1.db_num = w.db_num ∧ w1.heap.length = w.heap.length ∧
      (∀ b, (w1.connection b).map (fun k => k.db) = (w.connection b).map (fun k => k.db)) := by
  obtain ⟨h1, h2, h5, h6⟩ := hc
  cases l with
  | nil => simp at ha
  | cons x rest =>
    have hx : head = x := by
      have := h1.1
      rw [hh] at this
      injection this
    subst hx
    obtain ⟨_, kx, hkx, hrest⟩ := h1
    have hxr := (List.nodup_cons.mp h2).1
    have hnr := (List.nodup_cons.mp h2).2
    by_cases hha : head = a
    · subst hha
      refine ⟨{ w with fb_connection_list := kx.next }, rest, ?_, ?_, ?_, ?_, rfl, rfl,
        fun b => rfl⟩
      · rw [if_pos rfl, hkx]
      · exact ⟨@IsChain.of_next w _ _ _ (fun b _ kb hkb => ⟨kb, hkb, rfl⟩) hrest, hnr, h5, h6⟩
      · intro b
        constructor
        · intro hb
          exact ⟨List.mem_cons_of_mem _ hb, fun he => hxr (he ▸ hb)⟩
        · rintro ⟨hb, hne⟩
          rcases List.mem_cons.mp hb with he | hm
          · exact absurd he hne
          · exact hm
      · simp
    · have har : a ∈ rest := by
        rcases List.mem_cons.mp ha with he | hm
        · exact absurd he.symm hha
        · exact hm
      obtain ⟨l1, l2, hsplit⟩ := List.append_of_mem har
      subst hsplit
      have hlen : l1.length < w.heap.length + 1 := by
        have := nodup_length_le _ _ h2
          (IsChain.lt (⟨rfl, kx, hkx, hrest⟩ : IsChain w (some head) (head :: (l1 ++ a :: l2))))
        simp at this
        omega
      obtain ⟨p, kp, ka, hp, hkp, hka, hrun, hch⟩ :=
        unlink_loop_spec a w l2 l1 head (w.heap.length + 1) ⟨rfl, kx, hkx, hrest⟩ h2 hlen
      have hltp := World.connection_lt w p kp hkp
      have hnd : (head :: l1 ++ l2).Nodup := by
        have h3 : (head :: l1 ++ l2).Sublist (head :: l1 ++ a :: l2) := by
          simp only [List.cons_append]
          exact List.Sublist.cons₂ _
            (List.Sublist.append (List.Sublist.refl _) (List.sublist_cons_self _ _))
        exact h3.nodup h2
      have hal : a ∉ head :: l1 ++ l2 := by
        have h4 : (a :: (head :: l1 ++ l2)).Perm (head :: l1 ++ a :: l2) := by
          simp only [List.cons_append]
          exact (@List.perm_middle _ a (head :: l1) l2).symm
        exact (List.nodup_cons.mp (h4.nodup_iff.mpr h2)).1
      refine ⟨w.store p (Obj.connection { kp with next := ka.next }), head :: l1 ++ l2,
        ?_, ?_, ?_, ?_, rfl, ?_, db_store_next w p kp _ hkp⟩
      · rw [if_neg hha]
        exact hrun
      · refine ⟨?_, hnd, ?_, ?_⟩
        · show IsChain _ w.fb_connection_list _
          rw [hh]
          exact hch
        · intro b kb hkb
          rw [World.connection_store_connection _ _ _ _ hltp] at hkb
          by_cases hb : b = p
          · subst hb
            rw [if_pos rfl] at hkb
            injection hkb with hkb
            subst hkb
            exact h5 b kp hkp
          · rw [if_neg hb] at hkb
            exact h5 b kb hkb
        · intro b
          rw [World.cursor_store_connection _ _ _ _ _ hkp]
          exact h6 b
      · intro b
        constructor
        · intro hb
          refine ⟨?_, fun he => hal (he ▸ hb)⟩
          simp only [List.cons_append, List.mem_cons, List.mem_append] at hb ⊢
          tauto
        · rintro ⟨hb, hne⟩
          simp only [List.cons_append, List.mem_cons, List.mem_append] at hb ⊢
          tauto
      · simp
        omega
      · simp [World.store]

theorem Run.Ends.bind_of {α β : Type} {P : World → Prop} {r : Run α} {f : α → World → Run β}
    (hraise : ∀ e w1, r = Run.raise e w1 → P w1)
    (hok : ∀ a w1, r = Run.ok a w1 → (f a w1).Ends P) : (r.bind f).Ends P := by
  cases r with
  | ok a w => exact hok a w rfl
  | raise e w => exact Run.Ends.raise (hraise e w rfl)
  | timeout => exact Run.Ends.timeout

theorem db_of_map {w w1 : World} {b : Nat} {kb : FbConnection}
    (hm : (w1.connection b).map (fun k => k.db) = (w.connection b).map (fun k => k.db))
    (hkb : w1.connection b = some kb) : ∃ k, w.connection b = some k ∧ k.db = kb.db := by
  rw [hkb] at hm
  cases hw : w.connection b with
  | none =>
    rw [hw] at hm
    simp at hm
  | some k =>
    rw [hw] at hm
    simp only [Option.map_some', Option.some.injEq] at hm
    exact ⟨k, rfl, hm.symm⟩

/-- A store to a connection that keeps `next`, `db` and an empty cursor array. -/
theorem RegInv.store_same {w : World} {l : List Nat} {a : Nat} {k k' : FbConnection}
    (hk : w.connection a = some k) (hnext : k'.next = k.next) (hcur : k'.cursor = [])
    (hdb : k'.db = k.db) (hc : RegInv w l) : RegInv (w.store a (Obj.connection k')) l := by
  have hlt := World.connection_lt w a k hk
  obtain ⟨h1, h2, h3, h4⟩ := hc
  refine ⟨h1.linked_store hk hnext hcur, h2.dead_store hlt ?_, h3.live_store hlt ?_, h4⟩
  · intro hal
    rw [hdb]
    exact h2 a k hk hal
  · intro hal
    rw [hdb]
    exact h3 a k hal hk

/-- The function `fb_connection_remove` on a member of the registry, whose handle may be
zero already. -/
theorem remove_spec (a : Nat) (w : World) (l : List Nat) (hc : Linked w l) (hd : Dead w l)
    (hv : ∀ b k, b ∈ l → b ≠ a → w.connection b = some k → k.db ≠ 0)
    (hn : w.db_num = l.length) (ha : a ∈ l) :
    ∃ w1 l1, fb_connection_remove a w = Run.ok () w1 ∧ RegInv w1 l1 ∧
      (∃ k, w1.connection a = some k) ∧ a ∉ l1 := by
  have hhead : ∃ head, w.fb_connection_list = some head := by
    cases l with
    | nil => simp at ha
    | cons x rest => exact ⟨x, hc.1.1⟩
  obtain ⟨head, hh⟩ := hhead
  obtain ⟨w1, l1, hrun, hl1, hmem, hlen, hnum, hheap, hdb⟩ := unlink_spec a w l hc ha head hh
  obtain ⟨ka, hka⟩ := hc.1.connection a ha
  have hk1 : ∃ k1, w1.connection a = some k1 := by
    have := hdb a
    rw [hka] at this
    cases h1 : w1.connection a with
    | none =>
      rw [h1] at this
      simp at this
    | some k1 => exact ⟨k1, rfl⟩
  obtain ⟨k1, hk1⟩ := hk1
  have hlt := World.connection_lt w1 a k1 hk1
  have hal1 : a ∉ l1 := fun hm => ((hmem a).mp hm).2 rfl
  refine ⟨{ (w1.store a (Obj.connection { k1 with db := 0 })) with db_num := w1.db_num - 1 },
    l1, ?_, ?_, ?_, hal1⟩
  · unfold fb_connection_remove
    simp only [hh]
    refine Eq.trans (congrArg (fun r => Run.bind r _) hrun) ?_
    simp only [Run.bind_ok, World.set_connection, hk1]
    rfl
  · refine ⟨?_, ?_, ?_, ?_⟩
    · exact @Linked.linked_of_eq (w1.store a (Obj.connection { k1 with db := 0 })) _ l1 rfl rfl
        (@Linked.linked_store w1 l1 a k1 { k1 with db := 0 } hk1 rfl (hl1.2.2.1 a k1 hk1) hl1)
    · intro b kb hkb hbl
      have hkb2 : (w1.store a (Obj.connection { k1 with db := 0 })).connection b = some kb :=
        hkb
      rw [World.connection_store_connection _ _ _ _ hlt] at hkb2
      by_cases hb : b = a
      · subst hb
        rw [if_pos rfl] at hkb2
        injection hkb2 with hkb2
        subst hkb2
        rfl
      · rw [if_neg hb] at hkb2
        obtain ⟨k, hk, hkdb⟩ := db_of_map (hdb b) hkb2
        rw [← hkdb]
        exact hd b k hk (fun hm => hbl ((hmem b).mpr ⟨hm, hb⟩))
    · intro b kb hbl hkb
      have hkb2 : (w1.store a (Obj.connection { k1 with db := 0 })).connection b = some kb :=
        hkb
      have hb : b ≠ a := ((hmem b).mp hbl).2
      rw [World.connection_store_connection _ _ _ _ hlt, if_neg hb] at hkb2
      obtain ⟨k, hk, hkdb⟩ := db_of_map (hdb b) hkb2
      rw [← hkdb]
      exact hv b k ((hmem b).mp hbl).1 hb hk
    · show w1.db_num - 1 = (l1.length : Int)
      rw [hnum, hn]
      omega
  · refine ⟨{ k1 with db := 0 }, ?_⟩
    show (w1.store a (Obj.connection { k1 with db := 0 })).connection a = _
    rw [World.connection_store_connection _ _ _ _ hlt, if_pos rfl]

/-- The call `isc_detach_database` on a member of the registry. -/
theorem detach_spec (d : Driver) (a : Nat) (w : World) (l : List Nat) (hc : RegInv w l)
    (ha : a ∈ l) :
    ∃ k, w.connection a = some k ∧ k.db ≠ 0 ∧
      detach_database d a w = Run.ok ()
        ((w.call (DrvCall.isc_detach_database k.db)).store a (Obj.connection { k with
          db := d.handle (DrvCall.isc_detach_database k.db :: w.calls) k.db })) ∧
      Linked ((w.call (DrvCall.isc_detach_database k.db)).store a (Obj.connection { k with
          db := d.handle (DrvCall.isc_detach_database k.db :: w.calls) k.db })) l ∧
      Dead ((w.call (DrvCall.isc_detach_database k.db)).store a (Obj.connection { k with
          db := d.handle (DrvCall.isc_detach_database k.db :: w.calls) k.db })) l ∧
      (∀ b kb, b ∈ l → b ≠ a →
        ((w.call (DrvCall.isc_detach_database k.db)).store a (Obj.connection { k with
          db := d.handle (DrvCall.isc_detach_database k.db :: w.calls) k.db })).connection b =
            some kb → kb.db ≠ 0) := by
  obtain ⟨k, hk⟩ := hc.1.1.connection a ha
  have hlt := World.connection_lt w a k hk
  have hk2 : (w.call (DrvCall.isc_detach_database k.db)).connection a = some k := hk
  refine ⟨k, hk, hc.2.2.1 a k ha hk, ?_, ?_, ?_, ?_⟩
  · unfold detach_database
    simp only [hk]
    rfl
  · exact Linked.linked_store hk2 rfl (hc.1.2.2.1 a k hk)
      (@Linked.linked_of_eq w (w.call (DrvCall.isc_detach_database k.db)) l rfl rfl hc.1)
  · exact @Dead.dead_store (w.call (DrvCall.isc_detach_database k.db)) l a _ hlt
      (fun hal => absurd ha hal)
      (@Dead.dead_of_eq w (w.call (DrvCall.isc_detach_database k.db)) l rfl hc.2.1)
  · intro b kb hbl hba hkb
    rw [World.connection_store_connection (w.call _) _ _ _ hlt, if_neg hba] at hkb
    exact hc.2.2.1 b kb hbl hkb

theorem commit_transaction_reg (d : Driver) {w : World} {l : List Nat} (hc : RegInv w l) :
    RegInv (commit_transaction d w) l :=
  @RegInv.of_eq w (commit_transaction d w) l rfl rfl rfl hc

/-- The function `fb_connection_disconnect` on a member of the registry: it raises with the
registry as it was, or returns with the connection removed. -/
theorem disconnect_spec (h : Host) (d : Driver) (hk : handles_kept h d) (a : Nat) (w : World)
    (l : List Nat) (hc : RegInv w l) (ha : a ∈ l) :
    (∃ e w1, fb_connection_disconnect h d a w = Run.raise e w1 ∧ RegInv w1 l) ∨
    (∃ w1 l1, fb_connection_disconnect h d a w = Run.ok () w1 ∧ RegInv w1 l1 ∧
      ∃ k, w1.connection a = some k) := by
  have htail : ∀ w0, RegInv w0 l →
      (∃ e w1, ((detach_database d a w0).bind fun _ w =>
          (fb_error_check h w).bind fun _ w => fb_connection_remove a w) = Run.raise e w1 ∧
        RegInv w1 l) ∨
      (∃ w1 l1, ((detach_database d a w0).bind fun _ w =>
          (fb_error_check h w).bind fun _ w => fb_connection_remove a w) = Run.ok () w1 ∧
        RegInv w1 l1 ∧ ∃ k, w1.connection a = some k) := by
    intro w0 hc0
    obtain ⟨k, hk0, hdb, hrun, hlk, hdd, hlv⟩ := detach_spec d a w0 l hc0 ha
    rw [hrun, Run.bind_ok]
    have hlt := World.connection_lt w0 a k hk0
    cases hs : h.status_error (DrvCall.isc_detach_database k.db :: w0.calls) with
    | some ex =>
      left
      refine ⟨ex, _, ?_, hlk, hdd, ?_, hc0.2.2.2⟩
      · simp only [fb_error_check, World.store, World.call, hs, Run.bind_raise]
      · intro b kb hbl hkb
        by_cases hb : b = a
        · subst hb
          rw [World.connection_store_connection (w0.call _) _ _ _ hlt, if_pos rfl] at hkb
          injection hkb with hkb
          subst hkb
          exact hk.2.1 k.db w0.calls hdb (by rw [hs]; simp)
        · exact hlv b kb hbl hb hkb
    | none =>
      right
      obtain ⟨w1, l1, hrem, hinv, hex, _⟩ := remove_spec a _ l hlk hdd hlv hc0.2.2.2 ha
      refine ⟨w1, l1, ?_, hinv, hex⟩
      simp only [fb_error_check, World.store, World.call, hs, Run.bind_ok]
      exact hrem
  unfold fb_connection_disconnect
  by_cases ht : w.transact ≠ 0
  · rw [if_pos ht]
    rcases fb_error_check_calls h (commit_transaction d w) with ⟨ex, he⟩ | he
    · left
      exact ⟨ex, _, by rw [he, Run.bind_raise], commit_transaction_reg d hc⟩
    · rw [he, Run.bind_ok]
      exact htail _ (commit_transaction_reg d hc)
  · rw [if_neg ht, Run.bind_ok]
    exact htail w hc

/-- The function `fb_connection_disconnect_warn` on a member of the registry: it returns
with the connection removed. -/
theorem disconnect_warn_spec (h : Host) (d : Driver) (a : Nat) (w : World)
    (l : List Nat) (hc : RegInv w l) (ha : a ∈ l) :
    ∃ w1 l1, fb_connection_disconnect_warn h d a w = Run.ok () w1 ∧ RegInv w1 l1 ∧
      (∃ k, w1.connection a = some k) ∧ a ∉ l1 := by
  have htail : ∀ w0, RegInv w0 l →
      ∃ w1 l1, ((detach_database d a w0).bind fun _ w =>
          (fb_error_check_warn h w).bind fun _ w => fb_connection_remove a w) = Run.ok () w1 ∧
        RegInv w1 l1 ∧ (∃ k, w1.connection a = some k) ∧ a ∉ l1 := by
    intro w0 hc0
    obtain ⟨k, hk0, hdb, hrun, hlk, hdd, hlv⟩ := detach_spec d a w0 l hc0 ha
    rw [hrun, Run.bind_ok]
    obtain ⟨w1, l1, hrem, hinv, hex, hal⟩ := remove_spec a _ l hlk hdd hlv hc0.2.2.2 ha
    refine ⟨w1, l1, ?_, hinv, hex, hal⟩
    simp only [fb_error_check_warn, Run.bind_ok]
    exact hrem
  unfold fb_connection_disconnect_warn
  by_cases ht : w.transact ≠ 0
  · rw [if_pos ht]
    simp only [fb_error_check_warn, Run.bind_ok]
    exact htail _ (commit_transaction_reg d hc)
  · rw [if_neg ht, Run.bind_ok]
    exact htail w hc

theorem connection_store_freed (w : World) (a b : Nat) :
    (w.store a Obj.freed).connection b = if b = a then none else w.connection b := by
  unfold World.connection World.store
  simp only [List.getElem?_set]
  by_cases hb : b = a
  · subst hb
    rw [if_pos rfl, if_pos rfl]
    by_cases hlt : b < w.heap.length
    · rw [if_pos hlt]
    · rw [if_neg hlt]
  · rw [if_neg hb, if_neg (fun he => hb he.symm)]

theorem cursor_store_freed (w : World) (a b : Nat) :
    (w.store a Obj.freed).cursor b = if b = a then none else w.cursor b := by
  unfold World.cursor World.store
  simp only [List.getElem?_set]
  by_cases hb : b = a
  · subst hb
    rw [if_pos rfl, if_pos rfl]
    by_cases hlt : b < w.heap.length
    · rw [if_pos hlt]
    · rw [if_neg hlt]
  · rw [if_neg hb, if_neg (fun he => hb he.symm)]

/-- The memory of a structure outside of the registry is released. -/
theorem RegInv.inv_store_freed {w : World} {l : List Nat} {a : Nat} (hal : a ∉ l)
    (hc : RegInv w l) : RegInv (w.store a Obj.freed) l := by
  obtain ⟨⟨h1, h2, h5, h6⟩, hd, hv, hn⟩ := hc
  refine ⟨⟨?_, h2, ?_, ?_⟩, ?_, ?_, hn⟩
  · refine @IsChain.of_next w _ _ _ (fun b hb kb hkb => ⟨kb, ?_, rfl⟩) h1
    have hba : b ≠ a := by
      intro he
      rw [he] at hb
      exact hal hb
    rw [connection_store_freed, if_neg hba]
    exact hkb
  · intro b kb hkb
    rw [connection_store_freed] at hkb
    by_cases hb : b = a
    · rw [if_pos hb] at hkb
      cases hkb
    · rw [if_neg hb] at hkb
      exact h5 b kb hkb
  · intro b
    rw [cursor_store_freed]
    by_cases hb : b = a
    · rw [if_pos hb]
    · rw [if_neg hb]
      exact h6 b
  · intro b kb hkb hbl
    rw [connection_store_freed] at hkb
    by_cases hb : b = a
    · rw [if_pos hb] at hkb
      cases hkb
    · rw [if_neg hb] at hkb
      exact hd b kb hkb hbl
  · intro b kb hbl hkb
    rw [connection_store_freed] at hkb
    by_cases hb : b = a
    · rw [if_pos hb] at hkb
      cases hkb
    · rw [if_neg hb] at hkb
      exact hv b kb hbl hkb

/-- Membership in the registry is the test `db != 0`. -/
theorem RegInv.mem_iff {w : World} {l : List Nat} (hc : RegInv w l) (a : Nat)
    (k : FbConnection) (hk : w.connection a = some k) : a ∈ l ↔ k.db ≠ 0 := by
  constructor
  · intro ha
    exact hc.2.2.1 a k ha hk
  · intro hdb
    by_contra hal
    exact hdb (hc.2.1 a k hk hal)

/-- The finaliser of a connection. -/
theorem fb_connection_free_reg (h : Host) (d : Driver) (a : Nat) (w : World) (l : List Nat)
    (hc : RegInv w l) : (fb_connection_free h d a w).Ends fun w1 => ∃ l1, RegInv w1 l1 := by
  unfold fb_connection_free
  cases hk : w.connection a with
  | none => exact Run.Ends.raise ⟨l, hc⟩
  | some k =>
    simp only []
    by_cases hdb : k.db ≠ 0
    · rw [if_pos hdb]
      obtain ⟨w1, l1, hrun, hinv, _, hal⟩ :=
        disconnect_warn_spec h d a w l hc ((hc.mem_iff a k hk).mpr hdb)
      rw [hrun, Run.bind_ok]
      exact Run.Ends.ok ⟨l1, hinv.inv_store_freed hal⟩
    · rw [if_neg hdb, Run.bind_ok]
      exact Run.Ends.ok ⟨l, hc.inv_store_freed (fun hal => hdb ((hc.mem_iff a k hk).mp hal))⟩

/-- The function `connection_close`. -/
theorem connection_close_reg (h : Host) (d : Driver) (hk : handles_kept h d) (self : VALUE)
    (w : World) (l : List Nat) (hc : RegInv w l) :
    (connection_close h d self w).Ends fun w1 => ∃ l1, RegInv w1 l1 := by
  unfold connection_close
  refine Run.Ends.bind_of (fun e w1 he => ?_) (fun a w1 he => ?_)
  · have := Run.Ends.of (P := fun w1 => ∃ l1, RegInv w1 l1)
      (r := Data_Get_Struct_FbConnection w self) (w := w) ⟨l, hc⟩
    exact this w1 (by rw [he]; rfl)
  · obtain ⟨_, hw⟩ := Run.of_ok he
    subst hw
    refine Run.Ends.bind_of (fun e w2 he2 => ?_) (fun _ w2 he2 => ?_)
    · exact fb_connection_check_ends (P := fun w1 => ∃ l1, RegInv w1 l1) a ⟨l, hc⟩ w2
        (by rw [he2]; rfl)
    · obtain ⟨hw2, k, hka, hdb⟩ := fb_connection_check_ok he2
      subst hw2
      have ha : a ∈ l := (hc.mem_iff a k hka).mpr hdb
      rcases disconnect_spec h d hk a w2 l hc ha with ⟨e, w3, hrun, hinv⟩ |
        ⟨w3, l3, hrun, hinv, k3, hk3⟩
      · rw [hrun, Run.bind_raise]
        exact Run.Ends.raise ⟨l, hinv⟩
      · rw [hrun, Run.bind_ok]
        have hcur : k3.cursor = [] := hinv.1.2.2.1 a k3 hk3
        unfold fb_connection_drop_cursors
        simp only [hk3, hcur, List.length_nil]
        have hloop : drop_cursor_array h d a 0 0 w3 = Run.ok () w3 := by
          unfold drop_cursor_array
          simp only [hk3, hcur, List.length_nil, Nat.lt_irrefl, if_false]
        rw [hloop]
        simp only [Run.bind_ok, World.set_connection, hk3]
        exact Run.Ends.ok ⟨l3, hinv.store_same hk3 rfl rfl rfl⟩

/-- The second part of `connection_create`: the dialect query and the dialect fields. -/
theorem connection_create_tail (h : Host) (d : Driver) (n : Nat) (w0 : World) (l : List Nat)
    (k : FbConnection) (hc : RegInv w0 l) (hk : w0.connection n = some k) (hdb : k.db ≠ 0) :
    (∃ e w1, ((fb_connection_db_SQL_Dialect h d n w0).bind fun db_dialect w =>
        (w.set_connection n fun c =>
          { c with dialect := if db_dialect < SQL_DIALECT_CURRENT then db_dialect
                              else SQL_DIALECT_CURRENT,
                   db_dialect := db_dialect }).bind fun _ w =>
        Run.ok (VALUE.object n) w) = Run.raise e w1 ∧ RegInv w1 l) ∨
    (∃ w1, ((fb_connection_db_SQL_Dialect h d n w0).bind fun db_dialect w =>
        (w.set_connection n fun c =>
          { c with dialect := if db_dialect < SQL_DIALECT_CURRENT then db_dialect
                              else SQL_DIALECT_CURRENT,
                   db_dialect := db_dialect }).bind fun _ w =>
        Run.ok (VALUE.object n) w) = Run.ok (VALUE.object n) w1 ∧ RegInv w1 l ∧
      ∃ k1, w1.connection n = some k1 ∧ k1.db ≠ 0) := by
  unfold fb_connection_db_SQL_Dialect
  simp only [hk]
  have hinv1 : RegInv
      { w0 with calls := DrvCall.isc_database_info k.db :: w0.calls,
                isc_info_buff := fit 16 (d.info (DrvCall.isc_database_info k.db :: w0.calls)) }
      l :=
    @RegInv.of_eq w0 _ _ rfl rfl rfl hc
  have hnew1 : World.connection
      { w0 with calls := DrvCall.isc_database_info k.db :: w0.calls,
                isc_info_buff := fit 16 (d.info (DrvCall.isc_database_info k.db :: w0.calls)) }
      n = some k := hk
  rcases fb_error_check_calls h
      { w0 with calls := DrvCall.isc_database_info k.db :: w0.calls,
                isc_info_buff := fit 16 (d.info (DrvCall.isc_database_info k.db :: w0.calls)) }
    with ⟨ex, he⟩ | he
  · left
    exact ⟨ex, _, by rw [he]; rfl, hinv1⟩
  · right
    rw [he]
    simp only [Run.bind_ok, World.set_connection, hnew1]
    refine ⟨_, rfl, RegInv.store_same hnew1 rfl (hinv1.1.2.2.1 n k hnew1) rfl hinv1, ?_⟩
    rw [World.connection_store_connection _ _ _ _ (World.connection_lt _ _ _ hnew1),
      if_pos rfl]
    exact ⟨_, rfl, hdb⟩

/-- The function `connection_create` with a non-zero handle: the new connection is the head
of the registry, whether the dialect query raises or not. -/
theorem connection_create_spec (h : Host) (d : Driver) (handle : Nat) (hne : handle ≠ 0)
    (w : World) (l : List Nat) (hc : RegInv w l) :
    (∃ e w1, connection_create h d handle w = Run.raise e w1 ∧
      RegInv w1 (w.heap.length :: l)) ∨
    (∃ w1, connection_create h d handle w = Run.ok (VALUE.object w.heap.length) w1 ∧
      RegInv w1 (w.heap.length :: l) ∧ ∃ k, w1.connection w.heap.length = some k ∧
        k.db ≠ 0) := by
  unfold connection_create
  exact connection_create_tail h d w.heap.length _ (w.heap.length :: l)
    { db := handle, cursor := [], dialect := 0, db_dialect := 0, next := w.fb_connection_list }
    (RegInv.push rfl rfl rfl hne rfl rfl hc) (connection_append_new w _ _ rfl) hne

theorem connection_create_reg (h : Host) (d : Driver) (handle : Nat) (hne : handle ≠ 0)
    (w : World) (l : List Nat) (hc : RegInv w l) :
    (connection_create h d handle w).Ends fun w1 => ∃ l1, RegInv w1 l1 := by
  rcases connection_create_spec h d handle hne w l hc with ⟨e, w1, hr, hinv⟩ |
    ⟨w1, hr, hinv, _⟩
  · rw [hr]
    exact Run.Ends.raise ⟨_, hinv⟩
  · rw [hr]
    exact Run.Ends.ok ⟨_, hinv⟩

/-- The function `database_connect` up to its block. -/
theorem database_connect_open_spec (h : Host) (d : Driver) (hk : handles_kept h d)
    (self : Database) (w : World) (l : List Nat) (hc : RegInv w l) :
    (∃ e w1 l1, database_connect_open h d self w = Run.raise e w1 ∧ RegInv w1 l1) ∨
    (∃ n w1 l1, database_connect_open h d self w = Run.ok (VALUE.object n) w1 ∧
      RegInv w1 l1 ∧ n ∈ l1 ∧ ∃ k, w1.connection n = some k ∧ k.db ≠ 0) := by
  unfold database_connect_open
  cases h1 : Check_Type_T_STRING self.database with
  | error e => exact Or.inl ⟨e, w, l, rfl, hc⟩
  | ok database =>
    cases h2 : connection_create_dbp self with
    | error e => exact Or.inl ⟨e, w, l, rfl, hc⟩
    | ok dbp =>
      simp only [Run.of, Run.bind_ok]
      cases hs : h.status_error (DrvCall.isc_attach_database (cstr database 0) dbp :: w.calls)
        with
      | some ex =>
        left
        refine ⟨ex,
          { w with calls := DrvCall.isc_attach_database (cstr database 0) dbp :: w.calls }, l,
          ?_, @RegInv.of_eq w _ _ rfl rfl rfl hc⟩
        simp only [fb_error_check, hs, Run.bind_raise]
      | none =>
        simp only [fb_error_check, hs, Run.bind_ok]
        have hne := hk.1 _ _ _ hs
        have hc0 : RegInv { w with calls :=
            DrvCall.isc_attach_database (cstr database 0) dbp :: w.calls } l :=
          @RegInv.of_eq w _ _ rfl rfl rfl hc
        rcases connection_create_spec h d _ hne _ l hc0 with ⟨e, w1, hr, hinv⟩ |
          ⟨w1, hr, hinv, hex⟩
        · exact Or.inl ⟨e, w1, _, hr, hinv⟩
        · exact Or.inr ⟨_, w1, _, hr, hinv, List.mem_cons_self _ _, hex⟩

/-- The function `database_create` up to its block. -/
theorem database_create_open_reg (h : Host) (d : Driver) (self : Database)
    (block_given : Bool) (w : World) (l : List Nat) (hc : RegInv w l) :
    (database_create_open h d self block_given w).Ends fun w1 => ∃ l1, RegInv w1 l1 := by
  unfold database_create_open
  refine Run.Ends.bind (Q := fun w1 => RegInv w1 l) (Run.Ends.of hc) (fun _ hq => ⟨l, hq⟩)
    (fun sql w1 hc1 => ?_)
  simp only []
  refine Run.Ends.bind (Q := fun w2 => RegInv w2 l) ?_ (fun _ hq => ⟨l, hq⟩)
    (fun _ w2 hc2 => ?_)
  · split
    · exact fb_error_check_ends h (@RegInv.of_eq w1 _ _ rfl rfl rfl hc1)
    · exact Run.Ends.ok (@RegInv.of_eq w1 _ _ rfl rfl rfl hc1)
  · split
    · rename_i hne
      split
      · exact Run.Ends.bind (Q := fun w1 => ∃ l1, RegInv w1 l1)
          (connection_create_reg h d _ hne w2 l hc2) (fun _ hq => hq)
          (fun _ _ hq => Run.Ends.ok hq)
      · exact Run.Ends.bind (Q := fun w1 => ∃ l1, RegInv w1 l1)
          (fb_error_check_ends h ⟨l, @RegInv.of_eq w2 _ _ rfl rfl rfl hc2⟩) (fun _ hq => hq)
          (fun _ _ hq => Run.Ends.ok hq)
    · exact Run.Ends.ok ⟨l, hc2⟩

theorem fb_error_check_raise_status {h : Host} {w w1 : World} {e : Exception}
    (hr : fb_error_check h w = Run.raise e w1) : h.status_error w.calls ≠ none := by
  unfold fb_error_check at hr
  intro hn
  rw [hn] at hr
  simp at hr

/-- The function `database_drop`. -/
theorem database_drop_reg (h : Host) (d : Driver) (hk : handles_kept h d) (self : Database)
    (w : World) (l : List Nat) (hc : RegInv w l) :
    (database_drop h d self w).Ends fun w1 => ∃ l1, RegInv w1 l1 := by
  unfold database_drop database_connect
  rcases database_connect_open_spec h d hk self w l hc with ⟨e, w1, l1, hr, hinv⟩ |
    ⟨n, w1, l1, hr, hinv, hn, k, hkn, hdb⟩
  · rw [hr]
    exact Run.Ends.raise ⟨l1, hinv⟩
  · rw [hr]
    have hget : Data_Get_Struct_FbConnection w1 (VALUE.object n) = Except.ok n := by
      simp only [Data_Get_Struct_FbConnection, (World.connection_iff w1 n k).mp hkn]
    simp only [Run.bind_ok, hget, Run.of, hkn]
    have hlt := World.connection_lt w1 n k hkn
    have hlk : Linked ((w1.call (DrvCall.isc_drop_database k.db)).store n (Obj.connection
        { k with db := d.handle (w1.call (DrvCall.isc_drop_database k.db)).calls k.db })) l1 :=
      Linked.linked_store (w := w1.call (DrvCall.isc_drop_database k.db)) hkn rfl
        (hinv.1.2.2.1 n k hkn) (@Linked.linked_of_eq w1 _ _ rfl rfl hinv.1)
    have hdd : Dead ((w1.call (DrvCall.isc_drop_database k.db)).store n (Obj.connection
        { k with db := d.handle (w1.call (DrvCall.isc_drop_database k.db)).calls k.db })) l1 :=
      @Dead.dead_store (w1.call (DrvCall.isc_drop_database k.db)) l1 n _ hlt
        (fun hal => absurd hn hal) (@Dead.dead_of_eq w1 _ _ rfl hinv.2.1)
    have hlv : ∀ b kb, b ∈ l1 → b ≠ n →
        ((w1.call (DrvCall.isc_drop_database k.db)).store n (Obj.connection
          { k with db := d.handle (w1.call (DrvCall.isc_drop_database k.db)).calls k.db
          })).connection b = some kb → kb.db ≠ 0 := by
      intro b kb hbl hbn hkb
      rw [World.connection_store_connection (w1.call _) _ _ _ hlt, if_neg hbn] at hkb
      exact hinv.2.2.1 b kb hbl hkb
    refine Run.Ends.bind_of (fun e w2 he => ?_) (fun _ w2 he => ?_)
    · have hs := fb_error_check_raise_status he
      have hw2 := fb_error_check_raise he
      subst hw2
      refine ⟨l1, hlk, hdd, ?_, hinv.2.2.2⟩
      intro b kb hbl hkb
      by_cases hb : b = n
      · have hkb2 : ((w1.call (DrvCall.isc_drop_database k.db)).store n (Obj.connection
            { k with db := d.handle (w1.call (DrvCall.isc_drop_database k.db)).calls k.db
            })).connection b = some kb := hkb
        rw [World.connection_store_connection (w1.call _) _ _ _ hlt, if_pos hb] at hkb2
        injection hkb2 with hkb2
        rw [← hkb2]
        exact hk.2.2 k.db w1.calls hdb hs
      · exact hlv b kb hbl hb hkb
    · have hw2 := fb_error_check_ok he
      subst hw2
      obtain ⟨w3, l3, hrem, hinv3, _, _⟩ := remove_spec n _ l1 hlk hdd hlv hinv.2.2.2 hn
      refine Run.Ends.bind_of (fun e w4 he4 => ?_) (fun _ w4 he4 => ?_)
      · exact absurd (he4.symm.trans hrem) (by simp)
      · have h5 := he4.symm.trans hrem
        injection h5 with _ hw
        subst hw
        exact Run.Ends.ok ⟨l3, hinv3⟩

theorem RegInv.initial : RegInv World.initial [] := by
  refine ⟨⟨rfl, List.nodup_nil, ?_, ?_⟩, ?_, ?_, rfl⟩
  · intro a k hk
    simp [World.connection, World.initial] at hk
  · intro a
    simp [World.cursor, World.initial]
  · intro a k hk
    simp [World.connection, World.initial] at hk
  · intro a k ha
    simp at ha

/-- Every operation on the registry keeps the registry property. -/
theorem perform_reg (h : Host) (d : Driver) (hk : handles_kept h d) (op : Op)
    (hop : op.on_registry = true) (w : World) (l : List Nat) (hc : RegInv w l) :
    (perform h d op w).Ends fun w1 => ∃ l1, RegInv w1 l1 := by
  cases op with
  | connect self =>
    show (database_connect_open h d self w).Ends _
    rcases database_connect_open_spec h d hk self w l hc with ⟨e, w1, l1, hr, hinv⟩ |
      ⟨n, w1, l1, hr, hinv, _⟩
    · rw [hr]
      exact Run.Ends.raise ⟨l1, hinv⟩
    · rw [hr]
      exact Run.Ends.ok ⟨l1, hinv⟩
  | create self block_given =>
    exact Run.Ends.bind (Q := fun w1 => ∃ l1, RegInv w1 l1)
      (database_create_open_reg h d self block_given w l hc) (fun _ hq => hq)
      (fun _ _ hq => Run.Ends.ok hq)
  | drop self => exact database_drop_reg h d hk self w l hc
  | connection_close self => exact connection_close_reg h d hk self w l hc
  | connection_free a =>
    show (match w.connection a with
      | none => Run.ok VALUE.nil w
      | some _ => (fb_connection_free h d a w).bind fun _ w => Run.ok VALUE.nil w).Ends _
    cases w.connection a with
    | none => exact Run.Ends.ok ⟨l, hc⟩
    | some k =>
      exact Run.Ends.bind (Q := fun w1 => ∃ l1, RegInv w1 l1)
        (fb_connection_free_reg h d a w l hc) (fun _ hq => hq)
        (fun _ _ hq => Run.Ends.ok hq)
  | cursor_free a =>
    show (match w.cursor a with
      | none => Run.ok VALUE.nil w
      | some _ => (fb_cursor_free h d a w).bind fun _ w => Run.ok VALUE.nil w).Ends _
    rw [hc.1.2.2.2 a]
    exact Run.Ends.ok ⟨l, hc⟩
  | execute _ _ => cases hop
  | transaction _ => cases hop
  | commit => cases hop
  | rollback => cases hop
  | cursor_execute _ _ => cases hop
  | fetch _ => cases hop
  | fetchall _ _ => cases hop
  | each _ _ => cases hop
  | cursor_close _ => cases hop
  | cursor_drop _ => cases hop
  | description _ => cases hop

theorem run_ops_reg (h : Host) (d : Driver) (hk : handles_kept h d) (ops : List Op) :
    ∀ (w w1 : World) (l : List Nat), (∀ op ∈ ops, op.on_registry = true) → RegInv w l →
      run_ops h d ops w = some w1 → ∃ l1, RegInv w1 l1 := by
  induction ops with
  | nil =>
    intro w w1 l _ hc hr
    simp only [run_ops, Option.some.injEq] at hr
    subst hr
    exact ⟨l, hc⟩
  | cons op ops ih =>
    intro w w1 l hops hc hr
    have hstep := perform_reg h d hk op (hops op (List.mem_cons_self _ _)) w l hc
    simp only [run_ops] at hr
    cases hs : (perform h d op w).state with
    | none =>
      rw [hs] at hr
      simp at hr
    | some w2 =>
      rw [hs] at hr
      obtain ⟨l2, hc2⟩ := hstep w2 hs
      exact ih w2 w1 l2 (fun o ho => hops o (List.mem_cons_of_mem _ ho)) hc2 hr

theorem sample_handles_kept : handles_kept sample_host sample_driver := by
  refine ⟨fun database dbp calls _ => ?_, fun db calls _ hs => ?_, fun db calls _ hs => ?_⟩
  · show (DrvCall.isc_attach_database database dbp :: calls).length ≠ 0
    simp
  · exact absurd rfl hs
  · exact absurd rfl hs

theorem connected_again_eq :
    (perform sample_host sample_driver (Op.connect sample_database) connected).state =
      some connected_again := by
  rfl

theorem connected_eq :
    (perform sample_host sample_driver (Op.connect sample_database) World.initial).state =
      some connected := by
  rfl

set_option maxHeartbeats 4000000 in
theorem closed_first_eq :
    (perform sample_host sample_driver (Op.connection_close (VALUE.object 0))
      connected_again).state = some closed_first := by
  rfl

set_option maxHeartbeats 4000000 in
theorem closed_first_registry : registry closed_first = some [1] := by
  rfl

theorem closed_first_ops :
    ∀ op ∈ [Op.connect sample_database, Op.connect sample_database,
      Op.connection_close (VALUE.object 0)], op.on_registry = true := by
  intro op hop
  simp only [List.mem_cons, List.mem_singleton, List.not_mem_nil, or_false] at hop
  rcases hop with rfl | rfl | rfl <;> rfl

theorem closed_first_run :
    run_ops sample_host sample_driver
      [Op.connect sample_database, Op.connect sample_database,
        Op.connection_close (VALUE.object 0)] World.initial = some closed_first := by
  simp only [run_ops, connected_eq, connected_again_eq, closed_first_eq]

/-- C30: in every state reached from the initial state by a sequence of `connect`,
`create`, `drop`, `Connection#close` and finalisers, with a driver that yields a non-zero
handle with every attachment it reports no error for and leaves a non-zero handle in place
when it reports an error for a detach or a drop, the registry is a sequence `l` of distinct
connections, a connection is in `l` exactly if its handle is non-zero, and `db_num` is the
length of `l`. -/
theorem C30_registry_invariant (h : Host) (d : Driver) (hk : handles_kept h d)
    (ops : List Op) (hops : ∀ op ∈ ops, op.on_registry = true) (w : World)
    (hr : run_ops h d ops World.initial = some w) :
    ∃ l, registry w = some l ∧ l.Nodup ∧
      (∀ a k, w.connection a = some k → (a ∈ l ↔ k.db ≠ 0)) ∧ w.db_num = l.length := by
  obtain ⟨l, hc⟩ := run_ops_reg h d hk ops World.initial w [] hops RegInv.initial hr
  exact ⟨l, hc.1.registry, hc.1.2.1, fun a k hka => hc.mem_iff a k hka, hc.2.2.2⟩

theorem C30_registry_invariant_witness :
    handles_kept sample_host sample_driver ∧
    run_ops sample_host sample_driver
      [Op.connect sample_database, Op.connect sample_database,
        Op.connection_close (VALUE.object 0)] World.initial = some closed_first ∧
    registry closed_first = some [1] ∧
    ∃ l, registry closed_first = some l ∧ l.Nodup ∧
      (∀ a k, closed_first.connection a = some k → (a ∈ l ↔ k.db ≠ 0)) ∧
      closed_first.db_num = l.length :=
  ⟨sample_handles_kept, closed_first_run, closed_first_registry,
   C30_registry_invariant sample_host sample_driver sample_handles_kept
     [Op.connect sample_database, Op.connect sample_database,
       Op.connection_close (VALUE.object 0)]
     closed_first_ops closed_first closed_first_run⟩

/-! ## The ambient transaction handle -/

theorem Untouched.same_refl (w : World) : Untouched w w := rfl

theorem Untouched.same_trans {w1 w2 w3 : World} (h12 : Untouched w1 w2) (h23 : Untouched w2 w3) :
    Untouched w1 w3 := Eq.trans h23 h12

theorem Untouched.same_of_eq {w w' : World} (ht : w'.transact = w.transact) : Untouched w w' := ht

theorem Untouched.same_store (w : World) (a : Nat) (o : Obj) : Untouched w (w.store a o) := rfl

theorem Untouched.same_seq {α β : Type} {w : World} {r : Run α} {f : α → World → Run β}
    (hr : r.Ends (Untouched w)) (hf : ∀ a w1, (f a w1).Ends (Untouched w1)) :
    (r.bind f).Ends (Untouched w) :=
  Run.Ends.bind hr (fun _ h => h) fun a w1 h1 w' hs => Untouched.same_trans h1 (hf a w1 w' hs)

theorem Untouched.same_of_except {α : Type} (r : Except Exception α) (w : World) :
    (Run.of r w).Ends (Untouched w) := Run.Ends.of (Untouched.same_refl w)

theorem Untouched.same_error_check (h : Host) (w : World) :
    (fb_error_check h w).Ends (Untouched w) := fb_error_check_ends h (Untouched.same_refl w)

theorem Untouched.same_error_check_of (h : Host) {w w1 : World} (ht : w1.transact = w.transact) :
    (fb_error_check h w1).Ends (Untouched w) := fb_error_check_ends h (Untouched.same_of_eq ht)

theorem Untouched.same_connection_check (a : Nat) (w : World) :
    (fb_connection_check a w).Ends (Untouched w) :=
  fb_connection_check_ends a (Untouched.same_refl w)

theorem Untouched.same_cursor_check (a : Nat) (w : World) :
    (fb_cursor_check a w).Ends (Untouched w) := fb_cursor_check_ends a (Untouched.same_refl w)

theorem Untouched.same_ok {α : Type} (a : α) (w : World) : (Run.ok a w).Ends (Untouched w) :=
  Run.Ends.ok (Untouched.same_refl w)

theorem Untouched.same_raise {α : Type} (e : Exception) (w : World) :
    (Run.raise e w : Run α).Ends (Untouched w) := Run.Ends.raise (Untouched.same_refl w)

theorem set_cursor_untouched (w : World) (a : Nat) (f : FbCursor → FbCursor) :
    (w.set_cursor a f).Ends (Untouched w) := by
  unfold World.set_cursor
  split
  · exact Untouched.same_raise _ w
  · exact Run.Ends.ok (Untouched.same_store w a _)

theorem set_connection_untouched (w : World) (a : Nat) (f : FbConnection → FbConnection) :
    (w.set_connection a f).Ends (Untouched w) := by
  unfold World.set_connection
  split
  · exact Untouched.same_raise _ w
  · exact Run.Ends.ok (Untouched.same_store w a _)

theorem free_statement_untouched (d : Driver) (a option : Nat) (w : World) :
    (free_statement d a option w).Ends (Untouched w) := by
  unfold free_statement
  split
  · exact Untouched.same_raise _ w
  · exact Run.Ends.ok rfl

theorem detach_database_untouched (d : Driver) (k : Nat) (w : World) :
    (detach_database d k w).Ends (Untouched w) := by
  unfold detach_database
  split
  · exact Untouched.same_raise _ w
  · exact Run.Ends.ok rfl


theorem cursor_close_untouched (h : Host) (d : Driver) (self : VALUE) (w : World) :
    (cursor_close h d self w).Ends (Untouched w) := by
  unfold cursor_close
  refine Untouched.same_seq (Untouched.same_of_except _ w) fun a w1 => ?_
  refine Untouched.same_seq (Untouched.same_cursor_check a w1) fun _ w2 => ?_
  refine Untouched.same_seq ?_ fun _ w3 => ?_
  · split
    · exact Untouched.same_raise _ w2
    · split
      · refine Untouched.same_seq (free_statement_untouched d a _ w2) fun _ w4 => ?_
        refine Untouched.same_seq (Untouched.same_error_check h w4) fun _ w5 => ?_
        exact set_cursor_untouched w5 a _
      · exact Untouched.same_ok _ w2
  · refine Untouched.same_seq (set_cursor_untouched w3 a _) fun _ w4 => ?_
    exact Untouched.same_ok _ w4

theorem cursor_description_untouched (self : VALUE) (w : World) :
    (cursor_description self w).Ends (Untouched w) := by
  unfold cursor_description
  refine Untouched.same_seq (Untouched.same_of_except _ w) fun a w1 => ?_
  split
  · exact Untouched.same_raise _ w1
  · exact Untouched.same_ok _ w1

theorem fb_error_check_warn_untouched (h : Host) (w : World) :
    (fb_error_check_warn h w).Ends (Untouched w) := Untouched.same_ok _ w

theorem fb_cursor_drop_untouched (h : Host) (d : Driver) (a : Nat) (w : World) :
    (fb_cursor_drop h d a w).Ends (Untouched w) := by
  unfold fb_cursor_drop
  split
  · exact Untouched.same_raise _ w
  · refine Untouched.same_seq ?_ fun _ w1 => ?_
    · split
      · exact Untouched.same_seq (free_statement_untouched d a _ w) fun _ w2 =>
          Untouched.same_error_check h w2
      · exact Untouched.same_ok _ w
    · refine Untouched.same_seq (free_statement_untouched d a _ w1) fun _ w2 => ?_
      refine Untouched.same_seq (Untouched.same_error_check h w2) fun _ w3 => ?_
      exact set_cursor_untouched w3 a _

theorem fb_cursor_drop_warn_untouched (h : Host) (d : Driver) (a : Nat) (w : World) :
    (fb_cursor_drop_warn h d a w).Ends (Untouched w) := by
  unfold fb_cursor_drop_warn
  split
  · exact Untouched.same_raise _ w
  · refine Untouched.same_seq ?_ fun _ w1 => ?_
    · split
      · exact Untouched.same_seq (free_statement_untouched d a _ w) fun _ w2 =>
          fb_error_check_warn_untouched h w2
      · exact Untouched.same_ok _ w
    · refine Untouched.same_seq (free_statement_untouched d a _ w1) fun _ w2 => ?_
      refine Untouched.same_seq (fb_error_check_warn_untouched h w2) fun _ w3 => ?_
      exact set_cursor_untouched w3 a _

theorem fb_cursor_free_untouched (h : Host) (d : Driver) (a : Nat) (w : World) :
    (fb_cursor_free h d a w).Ends (Untouched w) := by
  unfold fb_cursor_free
  split
  · exact Untouched.same_raise _ w
  · refine Untouched.same_seq ?_ fun _ w1 => Run.Ends.ok (Untouched.same_store w1 a _)
    split
    · exact fb_cursor_drop_warn_untouched h d a w
    · exact Untouched.same_ok _ w

theorem cursor_drop_untouched (h : Host) (d : Driver) (self : VALUE) (w : World) :
    (cursor_drop h d self w).Ends (Untouched w) := by
  unfold cursor_drop
  refine Untouched.same_seq (Untouched.same_of_except _ w) fun a w1 => ?_
  refine Untouched.same_seq (fb_cursor_drop_untouched h d a w1) fun _ w2 => ?_
  refine Untouched.same_seq (set_cursor_untouched w2 a _) fun _ w3 => ?_
  split
  · exact Untouched.same_raise _ w3
  · refine Untouched.same_seq (Untouched.same_of_except _ w3) fun k w4 => ?_
    refine Untouched.same_seq (set_connection_untouched w4 k _) fun _ w5 => ?_
    exact Untouched.same_ok _ w5

theorem drop_cursor_array_untouched (h : Host) (d : Driver) (k : Nat) (fuel i : Nat)
    (w : World) : (drop_cursor_array h d k fuel i w).Ends (Untouched w) := by
  induction fuel generalizing i w with
  | zero =>
    unfold drop_cursor_array
    split
    · exact Untouched.same_raise _ w
    · split
      · exact Run.Ends.timeout
      · exact Untouched.same_ok _ w
  | succ fuel ih =>
    unfold drop_cursor_array
    split
    · exact Untouched.same_raise _ w
    · split
      · exact Untouched.same_seq (cursor_drop_untouched h d _ w) fun _ w1 => ih _ w1
      · exact Untouched.same_ok _ w

theorem fb_connection_drop_cursors_untouched (h : Host) (d : Driver) (k : Nat) (w : World) :
    (fb_connection_drop_cursors h d k w).Ends (Untouched w) := by
  unfold fb_connection_drop_cursors
  split
  · exact Untouched.same_raise _ w
  · exact Untouched.same_seq (drop_cursor_array_untouched h d k _ 0 w) fun _ w1 =>
      set_connection_untouched w1 k _

theorem unlink_loop_untouched (k : Nat) (fuel list : Nat) (w : World) :
    (unlink_loop k fuel list w).Ends (Untouched w) := by
  induction fuel generalizing list w with
  | zero => exact Run.Ends.timeout
  | succ fuel ih =>
    unfold unlink_loop
    split
    · exact Untouched.same_raise _ w
    · rename_i l hl
      split
      · exact Untouched.same_ok _ w
      · split
        · split
          · exact Untouched.same_raise _ w
          · exact Run.Ends.ok (Untouched.same_store _ _ _)
        · exact ih _ w

theorem fb_connection_remove_untouched (k : Nat) (w : World) :
    (fb_connection_remove k w).Ends (Untouched w) := by
  unfold fb_connection_remove
  split
  · exact Untouched.same_ok _ w
  · refine Untouched.same_seq ?_ fun _ w1 => ?_
    · split
      · split
        · exact Untouched.same_raise _ w
        · exact Run.Ends.ok (Untouched.same_of_eq rfl)
      · exact unlink_loop_untouched k _ _ w
    · refine Untouched.same_seq (set_connection_untouched w1 k _) fun _ w2 => ?_
      exact Run.Ends.ok (Untouched.same_of_eq rfl)

theorem fb_cursor_fetch_prep_untouched (h : Host) (d : Driver) (a : Nat) (w : World) :
    (fb_cursor_fetch_prep h d a w).Ends (Untouched w) := by
  unfold fb_cursor_fetch_prep
  refine Untouched.same_seq (Untouched.same_cursor_check a w) fun _ w1 => ?_
  split
  · exact Untouched.same_raise _ w1
  · refine Untouched.same_seq (Untouched.same_of_except _ w1) fun k w2 => ?_
    refine Untouched.same_seq (Untouched.same_connection_check k w2) fun _ w3 => ?_
    split
    · exact Untouched.same_raise _ w3
    · exact Untouched.same_seq (Untouched.same_error_check_of h rfl) fun _ w4 =>
        Run.Ends.ok (Untouched.same_of_eq rfl)

theorem fb_cursor_fetch_untouched (h : Host) (d : Driver) (a : Nat) (w : World) :
    (fb_cursor_fetch h d a w).Ends (Untouched w) := by
  unfold fb_cursor_fetch
  split
  · exact Untouched.same_raise _ w
  · refine Untouched.same_seq (Untouched.same_of_except _ w) fun k w2 => ?_
    refine Untouched.same_seq (Untouched.same_connection_check k w2) fun _ w3 => ?_
    simp only
    split
    · exact Run.Ends.ok (Untouched.same_of_eq rfl)
    · refine Untouched.same_seq (Untouched.same_error_check_of h rfl) fun _ w4 => ?_
      split
      · exact Run.Ends.ok (Untouched.same_of_eq rfl)
      · exact Run.Ends.raise (Untouched.same_of_eq rfl)

theorem cursor_fetch_untouched (h : Host) (d : Driver) (self : VALUE) (w : World) :
    (cursor_fetch h d self w).Ends (Untouched w) := by
  unfold cursor_fetch
  refine Untouched.same_seq (Untouched.same_of_except _ w) fun a w1 => ?_
  exact Untouched.same_seq (fb_cursor_fetch_prep_untouched h d a w1) fun _ w2 =>
    fb_cursor_fetch_untouched h d a w2

theorem fetchall_loop_untouched (h : Host) (d : Driver) (a : Nat) (fuel : Nat) (w : World) :
    (fetchall_loop h d a fuel w).Ends (Untouched w) := by
  induction fuel generalizing w with
  | zero => exact Run.Ends.timeout
  | succ fuel ih =>
    unfold fetchall_loop
    refine Untouched.same_seq (fb_cursor_fetch_untouched h d a w) fun row w1 => ?_
    split
    · exact Untouched.same_ok _ w1
    · exact Untouched.same_seq (ih w1) fun _ w2 => Untouched.same_ok _ w2

theorem cursor_fetchall_untouched (h : Host) (d : Driver) (fuel : Nat) (self : VALUE)
    (w : World) : (cursor_fetchall h d fuel self w).Ends (Untouched w) := by
  unfold cursor_fetchall
  refine Untouched.same_seq (Untouched.same_of_except _ w) fun a w1 => ?_
  refine Untouched.same_seq (fb_cursor_fetch_prep_untouched h d a w1) fun _ w2 => ?_
  exact Untouched.same_seq (fetchall_loop_untouched h d a fuel w2) fun _ w3 => Untouched.same_ok _ w3

theorem each_loop_untouched (h : Host) (d : Driver) (a : Nat) (fuel : Nat) (w : World) :
    (each_loop h d a no_effect fuel w).Ends (Untouched w) := by
  induction fuel generalizing w with
  | zero => exact Run.Ends.timeout
  | succ fuel ih =>
    unfold each_loop
    refine Untouched.same_seq (fb_cursor_fetch_untouched h d a w) fun row w1 => ?_
    split
    · exact Untouched.same_ok _ w1
    · exact Untouched.same_seq (Untouched.same_ok _ w1) fun _ w2 => ih w2

theorem cursor_each_untouched (h : Host) (d : Driver) (fuel : Nat) (self : VALUE)
    (w : World) : (cursor_each h d fuel self no_effect w).Ends (Untouched w) := by
  unfold cursor_each
  refine Untouched.same_seq (Untouched.same_of_except _ w) fun a w1 => ?_
  refine Untouched.same_seq (fb_cursor_fetch_prep_untouched h d a w1) fun _ w2 => ?_
  exact Untouched.same_seq (each_loop_untouched h d a fuel w2) fun _ w3 => Untouched.same_ok _ w3

theorem database_create_open_untouched (h : Host) (d : Driver) (self : Database) (w : World) :
    (database_create_open h d self false w).Ends (Untouched w) := by
  unfold database_create_open
  refine Untouched.same_seq (Untouched.same_of_except _ w) fun sql w1 => ?_
  simp only []
  refine Untouched.same_seq ?_ fun _ w2 => ?_
  · split
    · exact Untouched.same_error_check_of h rfl
    · exact Run.Ends.ok rfl
  · split
    · simp only [Bool.false_eq_true, if_false]
      exact Untouched.same_seq (Untouched.same_error_check_of h rfl) fun _ w3 => Untouched.same_ok _ w3
    · exact Untouched.same_ok _ w2

/-- The operations that keep the ambient transaction handle. -/
theorem perform_untouched (h : Host) (d : Driver) (op : Op) (hop : op.keeps_transact = true)
    (w : World) : (perform h d op w).Ends (Untouched w) := by
  cases op with
  | create self block_given =>
    cases block_given with
    | true => cases hop
    | false =>
      exact Untouched.same_seq (database_create_open_untouched h d self w) fun _ w1 =>
        Untouched.same_ok _ w1
  | cursor_free a =>
    show (match w.cursor a with
      | none => Run.ok VALUE.nil w
      | some _ => (fb_cursor_free h d a w).bind fun _ w => Run.ok VALUE.nil w).Ends _
    split
    · exact Untouched.same_ok _ w
    · exact Untouched.same_seq (fb_cursor_free_untouched h d a w) fun _ w1 => Untouched.same_ok _ w1
  | fetch self => exact cursor_fetch_untouched h d self w
  | fetchall fuel self => exact cursor_fetchall_untouched h d fuel self w
  | each fuel self => exact cursor_each_untouched h d fuel self w
  | cursor_close self => exact cursor_close_untouched h d self w
  | cursor_drop self => exact cursor_drop_untouched h d self w
  | description self => exact cursor_description_untouched self w
  | connect _ => cases hop
  | drop _ => cases hop
  | connection_close _ => cases hop
  | connection_free _ => cases hop
  | execute _ _ => cases hop
  | transaction _ => cases hop
  | commit => cases hop
  | rollback => cases hop
  | cursor_execute _ _ => cases hop

/-- Every ending of `connection_create` has the ambient transaction handle at zero. -/
theorem connection_create_transact (h : Host) (d : Driver) (handle : Nat) (w : World) :
    (connection_create h d handle w).Ends fun w' => w'.transact = 0 := by
  unfold connection_create
  simp only []
  refine Run.Ends.bind (Q := fun w' => w'.transact = 0) ?_ (fun _ hq => hq) fun _ w1 h1 => ?_
  · unfold fb_connection_db_SQL_Dialect
    split
    · exact Run.Ends.raise rfl
    · exact Run.Ends.bind (Q := fun w' => w'.transact = 0) (fb_error_check_ends h rfl)
        (fun _ hq => hq) fun _ w1 h1 => Run.Ends.ok h1
  · refine Run.Ends.bind (Q := fun w' => w'.transact = 0) ?_ (fun _ hq => hq)
      fun _ w2 h2 => Run.Ends.ok h2
    intro w2 hs
    have e : w2.transact = w1.transact := set_connection_untouched w1 _ _ w2 hs
    rw [e]
    exact h1

theorem database_connect_open_transact (h : Host) (d : Driver) (self : Database) (w : World)
    (v : VALUE) (w' : World) (hr : database_connect_open h d self w = Run.ok v w') :
    w'.transact = 0 := by
  unfold database_connect_open at hr
  obtain ⟨database, w1, _, hr1⟩ := Run.bind_eq_ok hr
  clear hr
  obtain ⟨dbp, w2, _, hr2⟩ := Run.bind_eq_ok hr1
  clear hr1
  simp only [] at hr2
  obtain ⟨_, w3, _, hr3⟩ := Run.bind_eq_ok hr2
  clear hr2
  exact connection_create_transact h d _ w3 w' (by rw [hr3]; rfl)

theorem disconnect_tail_untouched (h : Host) (d : Driver) (a : Nat) (w : World) :
    ((detach_database d a w).bind fun _ w =>
      (fb_error_check h w).bind fun _ w => fb_connection_remove a w).Ends (Untouched w) :=
  Untouched.same_seq (detach_database_untouched d a w) fun _ w1 =>
    Untouched.same_seq (Untouched.same_error_check h w1) fun _ w2 => fb_connection_remove_untouched a w2

/-- The handle `Connection#close` leaves when it returns: the one the commit left. -/
theorem connection_close_transact (h : Host) (d : Driver) (self : VALUE) (w : World)
    (v : VALUE) (w' : World) (hr : connection_close h d self w = Run.ok v w') :
    w'.transact = if w.transact ≠ 0 then
        d.handle (DrvCall.isc_commit_transaction w.transact :: w.calls) w.transact
      else 0 := by
  unfold connection_close at hr
  obtain ⟨a, w1, hr0, hr1⟩ := Run.bind_eq_ok hr
  clear hr
  obtain ⟨_, hw1⟩ := Run.of_ok hr0
  subst hw1
  obtain ⟨_, w2, hr2, hr3⟩ := Run.bind_eq_ok hr1
  clear hr1
  obtain ⟨hw2, _⟩ := fb_connection_check_ok hr2
  subst hw2
  obtain ⟨_, w3, hr4, hr5⟩ := Run.bind_eq_ok hr3
  clear hr3
  obtain ⟨_, w4, hr6, hr7⟩ := Run.bind_eq_ok hr5
  clear hr5
  have h43 : w4.transact = w3.transact :=
    fb_connection_drop_cursors_untouched h d a w3 w4 (by rw [hr6]; rfl)
  injection hr7 with _ hw
  subst hw
  rw [h43]
  unfold fb_connection_disconnect at hr4
  obtain ⟨_, w5, hr8, hr9⟩ := Run.bind_eq_ok hr4
  clear hr4
  have h35 : w3.transact = w5.transact :=
    disconnect_tail_untouched h d a w5 w3 (by rw [hr9]; rfl)
  rw [h35]
  by_cases ht : w2.transact ≠ 0
  · rw [if_pos ht] at hr8 ⊢
    have := fb_error_check_ok hr8
    rw [this]
    rfl
  · rw [if_neg ht] at hr8 ⊢
    injection hr8 with _ hw
    rw [← hw]
    exact not_not.mp ht

/-- C31 (amended): the operations after the execution of a statement (`fetch`, `fetchall`,
`each`, cursor `close`, cursor `drop`, `description`), the finaliser of a cursor and `create`
without a block leave the ambient transaction handle exactly as it was; and a
`Connection#close` that returns leaves the handle the commit of the ambient transaction left
(zero, if there was none). -/
theorem C31_transaction_handle (h : Host) (d : Driver) (w : World) :
    (∀ op w', op.keeps_transact = true → (perform h d op w).state = some w' →
      w'.transact = w.transact) ∧
    (∀ self v w', perform h d (Op.connection_close self) w = Run.ok v w' →
      w'.transact = if w.transact ≠ 0 then
          d.handle (DrvCall.isc_commit_transaction w.transact :: w.calls) w.transact
        else 0) :=
  ⟨fun op w' hop hs => perform_untouched h d op hop w w' hs,
    fun self v w' hr => connection_close_transact h d self w v w' hr⟩

set_option maxHeartbeats 4000000 in
theorem fetched_select_eq :
    (perform sample_host sample_driver (Op.fetch (VALUE.object 1)) executed_select).state =
      some fetched_select := by
  rfl

set_option maxHeartbeats 4000000 in
theorem started_connected_eq :
    perform sample_host sample_driver (Op.connect sample_database) started =
      Run.ok (VALUE.object 1) started_connected := by
  rfl

set_option maxHeartbeats 4000000 in
theorem started_closed_eq :
    perform sample_host sample_driver (Op.connection_close (VALUE.object 0)) started =
      Run.ok VALUE.nil started_closed := by
  rfl

theorem C31_transaction_handle_witness :
    fetched_select.transact = executed_select.transact ∧
    started_closed.transact = if started.transact ≠ 0 then
        sample_driver.handle (DrvCall.isc_commit_transaction started.transact :: started.calls)
          started.transact
      else 0 :=
  ⟨(C31_transaction_handle sample_host sample_driver executed_select).1
      (Op.fetch (VALUE.object 1)) fetched_select rfl fetched_select_eq,
   (C31_transaction_handle sample_host sample_driver started).2 (VALUE.object 0)
      VALUE.nil started_closed started_closed_eq⟩

set_option maxHeartbeats 4000000 in
/-- C31 as stated fails: after `connect` and `transaction` the handle is 3 and
`transaction_started` reports true; `Connection#close` commits the ambient transaction
(`isc_commit_transaction` is the first call it makes), returns, and leaves the handle 0, so
that `transaction_started` reports false. -/
theorem C31_counterexample :
    started.transact = 3 ∧ global_transaction_started started = VALUE.bool true ∧
    perform sample_host sample_driver (Op.connection_close (VALUE.object 0)) started =
      Run.ok VALUE.nil started_closed ∧
    DrvCall.isc_commit_transaction 3 ∈ started_closed.calls ∧
    DrvCall.isc_commit_transaction 3 ∉ started.calls ∧
    started_closed.transact = 0 ∧
    global_transaction_started started_closed = VALUE.bool false :=
  ⟨rfl, rfl, rfl, by decide, by decide, rfl, rfl⟩

/-! ## The sizes of the shared buffers -/

set_option maxHeartbeats 4000000 in
/-- C32: the recorded sizes do decrease.  After `connect` and the execution of a `select`
the cursor is open and `ressize` is 6, the size `calculate_buffsize` gives for its output
descriptor set; a second `connect` returns and leaves `ressize` 0 with the cursor still open;
a `fetch` on that cursor then describes its output again and returns with the cursor open,
`calculate_buffsize` of the output descriptor set 6, and `ressize` 0. -/
theorem C32_sizes_reset_by_connect :
    (∃ c, executed_select.cursor 1 = some c ∧ c.open_ = true) ∧
    executed_select.ressize = 6 ∧ calculate_buffsize executed_select.o_sqlda = 6 ∧
    perform sample_host sample_driver (Op.connect sample_database) executed_select =
      Run.ok (VALUE.object 2) reconnected_open ∧
    (∃ c, reconnected_open.cursor 1 = some c ∧ c.open_ = true) ∧
    reconnected_open.ressize = 0 ∧ reconnected_open.prmsize = 0 ∧
    perform sample_host sample_driver (Op.fetch (VALUE.object 1)) reconnected_open =
      Run.ok VALUE.nil refetched ∧
    (∃ c, refetched.cursor 1 = some c ∧ c.open_ = true) ∧
    calculate_buffsize refetched.o_sqlda = 6 ∧ refetched.ressize = 0 :=
  ⟨⟨_, rfl, rfl⟩, rfl, rfl, rfl, ⟨_, rfl, rfl⟩, rfl, rfl, rfl, ⟨_, rfl, rfl⟩, rfl, rfl⟩

/-! ## The database parameter block -/

theorem cstr_of_no_nul (s : List Nat) (hs : 0 ∉ s) : cstr s 0 = s := by
  unfold cstr
  rw [List.drop_zero, List.takeWhile_eq_self_iff]
  intro x hx
  simp only [bne_iff_ne, ne_eq]
  intro h0
  exact hs (h0 ▸ hx)

theorem dbp_add_string_spec (dbp : List Nat) (c : Nat) (s : List Nat) (hl : s.length ≤ 255)
    (hs : 0 ∉ s) : dbp_add_string dbp c s = dbp ++ spec_rec c s := by
  unfold dbp_add_string spec_rec
  rw [cstr_of_no_nul s hs, Nat.mod_eq_of_lt (by omega)]
  simp

theorem STR2CSTR_of_optional (s : List Nat) (hs : 0 ∉ s) :
    STR2CSTR (VALUE.of_optional (some s)) = Except.ok s := by
  show Except.ok (cstr s 0) = _
  rw [cstr_of_no_nul s hs]

theorem spec_records_rec (fuel c : Nat) (s rest : List Nat) :
    spec_records (fuel + 1) (spec_rec c s ++ rest) =
      (spec_records fuel rest).map fun l => (c, s) :: l := by
  show spec_records (fuel + 1) (c :: s.length :: (s ++ rest)) = _
  simp only [spec_records]
  rw [if_pos (by simp), List.drop_left, List.take_left]

theorem spec_records_flatten (recs : List (Nat × List Nat)) :
    ∀ fuel, recs.length ≤ fuel →
      spec_records fuel (recs.flatMap fun r => spec_rec r.1 r.2) = some recs := by
  induction recs with
  | nil =>
    intro fuel _
    cases fuel <;> rfl
  | cons r recs ih =>
    intro fuel hf
    cases fuel with
    | zero => simp at hf
    | succ fuel =>
      have h1 := ih fuel (by simpa using hf)
      rw [List.flatMap_cons, spec_records_rec, h1]
      rfl

/-- C33 (amended): for every user name, password, optional charset and optional role, each
at most 255 bytes long and without a NUL byte, `connection_create_dbp` produces the block
`[isc_dpb_version1] ++ rec(user_name, username) ++ rec(password, password)` followed by the
record of the charset and the record of the role, if they are set; its length is 1 plus the
sum of 2 + length over the records; and read as records it gives the strings back in that
order. -/
theorem C33_dpb_round_trip (database page_size : VALUE) (username password : List Nat)
    (charset role : Option (List Nat))
    (hu : username.length ≤ 255 ∧ 0 ∉ username) (hp : password.length ≤ 255 ∧ 0 ∉ password)
    (hc : ∀ s, charset = some s → s.length ≤ 255 ∧ 0 ∉ s)
    (hr : ∀ s, role = some s → s.length ≤ 255 ∧ 0 ∉ s) :
    connection_create_dbp
      { database := database, username := VALUE.string username,
        password := VALUE.string password, charset := VALUE.of_optional charset,
        role := VALUE.of_optional role, page_size := page_size } =
      Except.ok (spec_dpb username password charset role) ∧
    (spec_dpb username password charset role).length =
      1 + ((spec_strings username password charset role).map fun r => 2 + r.2.length).sum ∧
    spec_records (spec_dpb username password charset role).length
      ((spec_dpb username password charset role).drop 1) =
      some (spec_strings username password charset role) := by
  have hflat : (spec_dpb username password charset role).drop 1 =
      (spec_strings username password charset role).flatMap fun r => spec_rec r.1 r.2 := by
    cases charset <;> cases role <;>
      simp [spec_dpb, spec_strings, spec_rec_opt, spec_rec, isc_dpb_version1]
  have hlen : (spec_dpb username password charset role).length =
      1 + ((spec_strings username password charset role).map fun r => 2 + r.2.length).sum := by
    cases charset <;> cases role <;>
      simp [spec_dpb, spec_strings, spec_rec_opt, spec_rec] <;> omega
  refine ⟨?_, hlen, ?_⟩
  · unfold connection_create_dbp
    simp only [Check_Type_T_STRING]
    rw [dbp_add_string_spec _ _ username hu.1 hu.2, dbp_add_string_spec _ _ password hp.1 hp.2]
    cases charset with
    | none =>
      cases role with
      | none => simp [VALUE.of_optional, spec_dpb, spec_rec_opt, dbp_create]
      | some r =>
        have hr1 := hr r rfl
        simp only [VALUE.of_optional, STR2CSTR, cstr_of_no_nul r hr1.2, Except.map]
        rw [dbp_add_string_spec _ _ r hr1.1 hr1.2]
        simp [spec_dpb, spec_rec_opt, dbp_create]
    | some c =>
      have hc1 := hc c rfl
      cases role with
      | none =>
        simp only [VALUE.of_optional, STR2CSTR, cstr_of_no_nul c hc1.2, Except.map]
        rw [dbp_add_string_spec _ _ c hc1.1 hc1.2]
        simp [spec_dpb, spec_rec_opt, dbp_create]
      | some r =>
        have hr1 := hr r rfl
        simp only [VALUE.of_optional, STR2CSTR, cstr_of_no_nul c hc1.2,
          cstr_of_no_nul r hr1.2, Except.map]
        rw [dbp_add_string_spec _ _ c hc1.1 hc1.2, dbp_add_string_spec _ _ r hr1.1 hr1.2]
        simp [spec_dpb, spec_rec_opt, dbp_create]
  · rw [hflat]
    refine spec_records_flatten _ _ ?_
    rw [hlen]
    have : (spec_strings username password charset role).length ≤
        ((spec_strings username password charset role).map fun r => 2 + r.2.length).sum := by
      generalize spec_strings username password charset role = l
      induction l with
      | nil => simp
      | cons r l ih =>
        simp only [List.length_cons, List.map_cons, List.sum_cons]
        omega
    omega

theorem C33_dpb_round_trip_witness :
    connection_create_dbp
      { database := VALUE.nil, username := VALUE.string (bytes "sysdba"),
        password := VALUE.string (bytes "masterkey"),
        charset := VALUE.of_optional (some (bytes "NONE")),
        role := VALUE.of_optional none, page_size := VALUE.nil } =
      Except.ok (spec_dpb (bytes "sysdba") (bytes "masterkey") (some (bytes "NONE")) none) ∧
    (spec_dpb (bytes "sysdba") (bytes "masterkey") (some (bytes "NONE")) none).length =
      1 + ((spec_strings (bytes "sysdba") (bytes "masterkey") (some (bytes "NONE")) none).map
        fun r => 2 + r.2.length).sum ∧
    spec_records (spec_dpb (bytes "sysdba") (bytes "masterkey") (some (bytes "NONE")) none).length
      ((spec_dpb (bytes "sysdba") (bytes "masterkey") (some (bytes "NONE")) none).drop 1) =
      some (spec_strings (bytes "sysdba") (bytes "masterkey") (some (bytes "NONE")) none) :=
  C33_dpb_round_trip VALUE.nil VALUE.nil (bytes "sysdba") (bytes "masterkey")
    (some (bytes "NONE")) none (by decide) (by decide)
    (fun s hs => by
      injection hs with hs
      subst hs
      decide)
    (fun s hs => by cases hs)

/-- C33 as stated fails: a user name of three bytes with a NUL in the middle gets the record
of its first byte, not the record `[c, 3] ++ s`. -/
theorem C33_counterexample :
    ([97, 0, 98] : List Nat).length ≤ 255 ∧
    connection_create_dbp
      { database := VALUE.nil, username := VALUE.string [97, 0, 98],
        password := VALUE.string [112], charset := VALUE.nil, role := VALUE.nil,
        page_size := VALUE.nil } = Except.ok [1, 28, 1, 97, 29, 1, 112] ∧
    spec_dpb [97, 0, 98] [112] none none = [1, 28, 3, 97, 0, 98, 29, 1, 112] :=
  ⟨by decide, rfl, rfl⟩

/-! ## Encode-time offsets against the layout -/

theorem ALIGN_mono (a b : Int) (k : Nat) (hab : a ≤ b) : ALIGN a (2 ^ k) ≤ ALIGN b (2 ^ k) := by
  rw [ALIGN_pow2, ALIGN_pow2]
  have hb : (0:Int) < 2 ^ k := by positivity
  exact Int.mul_le_mul_of_nonneg_left (Int.ediv_le_ediv hb (by omega)) (le_of_lt hb)

theorem ALIGN_two_mono (a b : Int) (hab : a ≤ b) : ALIGN a 2 ≤ ALIGN b 2 := by
  have := ALIGN_mono a b 1 hab
  simpa using this

theorem fixed_width_ne (var : XSQLVAR) (hf : fixed_width var) :
    var.dtp ≠ SQL_TEXT ∧ var.dtp ≠ SQL_VARYING := by
  obtain ⟨ht, _⟩ := hf
  rcases ht with h | h | h | h | h | h | h | h <;> rw [h] <;> exact ⟨by decide, by decide⟩

/-- One turn of the encoder loop on a fixed-width entry, entered at an offset that is at most
the offset `o` of the layout loop. -/
theorem set_inputparam_below (h : Host) (var : XSQLVAR) (obj : VALUE) (e : Enc)
    (var1 : XSQLVAR) (e1 : Enc) (o : Int) (hf : fixed_width var) (ho : e.offset ≤ o)
    (hok : set_inputparam h var obj e = Res.ok var1 e1) :
    (obj ≠ VALUE.nil → ∃ x, var1.sqldata = some x ∧ x ≤ ALIGN o var.sqllen) ∧
    (var.nullable = true →
      ∃ x, var1.sqlind = some x ∧ x ≤ ALIGN (ALIGN o var.sqllen + var.sqllen) 2) ∧
    e1.offset ≤ ALIGN (ALIGN o var.sqllen + var.sqllen) 2 + 2 := by
  obtain ⟨h1, h2⟩ := fixed_width_ne var hf
  obtain ⟨_, k, hk⟩ := hf
  have hpos : (0:Int) < var.sqllen := by rw [hk]; positivity
  have hLd := (ALIGN_bounds o k).1
  rw [← hk] at hLd
  have hLi := (ALIGN_two_bounds (ALIGN o var.sqllen + var.sqllen)).1
  by_cases hobj : obj = VALUE.nil
  · subst hobj
    simp only [set_inputparam] at hok
    split at hok
    · rename_i hn
      obtain ⟨hv1, ho1, _, _⟩ := store_indicator_ok _ _ _ _ _ hok
      have hle : ALIGN e.offset 2 ≤ ALIGN (ALIGN o var.sqllen + var.sqllen) 2 :=
        ALIGN_two_mono _ _ (by omega)
      refine ⟨fun hc => absurd rfl hc, fun _ => ⟨_, by rw [hv1], hle⟩, ?_⟩
      rw [ho1]
      omega
    · exact absurd hok (by simp)
  · rw [set_inputparam_nonnil h var obj e hobj] at hok
    split at hok
    · exact absurd hok (by simp)
    · rename_i var2 e2 henc
      obtain ⟨hv2, ho2⟩ := encode_value_fixed_ok h var obj e var2 e2 h1 h2 henc
      have hd : ALIGN e.offset var.sqllen ≤ ALIGN o var.sqllen := by
        rw [hk]
        exact ALIGN_mono _ _ k ho
      by_cases hn : var.nullable = true
      · have hn2 : var2.nullable = true := by rw [hv2]; exact hn
        rw [if_pos hn2] at hok
        obtain ⟨hv1, ho1, _, _⟩ := store_indicator_ok _ _ _ _ _ hok
        have hle : ALIGN e2.offset 2 ≤ ALIGN (ALIGN o var.sqllen + var.sqllen) 2 :=
          ALIGN_two_mono _ _ (by rw [ho2]; omega)
        refine ⟨fun _ => ⟨_, by rw [hv1, hv2], hd⟩, fun _ => ⟨_, by rw [hv1], hle⟩, ?_⟩
        rw [ho1]
        omega
      · have hn2 : ¬ var2.nullable = true := by rw [hv2]; exact hn
        rw [if_neg hn2] at hok
        injection hok with hv1 he1
        subst hv1
        subst he1
        refine ⟨fun _ => ⟨_, by rw [hv2], hd⟩, fun hc => absurd hc hn, ?_⟩
        rw [ho2]
        omega

/-- The encoder loop on fixed-width entries, entered at an offset that is at most the offset
of the layout loop: entry by entry its offsets are at most the ones of the layout, and so is
its final offset. -/
theorem set_inputparams_loop_below (h : Host) (vars : List XSQLVAR) :
    ∀ (argv : List VALUE) (e : Enc) (vars1 : List XSQLVAR) (e1 : Enc) (o : Int),
      set_inputparams_loop h vars argv e = Res.ok vars1 e1 → e.offset ≤ o →
      (∀ v ∈ vars.take argv.length, fixed_width v) →
      (∀ (i : Nat) obj v v1 l, argv[i]? = some obj → vars[i]? = some v → vars1[i]? = some v1 →
        (fb_cursor_fetch_prep_loop (vars.take argv.length) o).1[i]? = some l →
        encoded_below obj v v1 l) ∧
      e1.offset ≤ (fb_cursor_fetch_prep_loop (vars.take argv.length) o).2 := by
  induction vars with
  | nil =>
    intro argv e vars1 e1 o hok ho _
    unfold set_inputparams_loop at hok
    cases hok
    refine ⟨fun i obj v v1 l _ hv => by simp at hv, ?_⟩
    simpa [fb_cursor_fetch_prep_loop] using ho
  | cons var rest ih =>
    intro argv e vars1 e1 o hok ho hv
    cases argv with
    | nil =>
      unfold set_inputparams_loop at hok
      cases hok
      refine ⟨fun i obj v v1 l hobj => by simp at hobj, ?_⟩
      simpa [fb_cursor_fetch_prep_loop] using ho
    | cons obj argv =>
      simp only [set_inputparams_loop] at hok
      split at hok
      · exact absurd hok (by simp)
      · rename_i var2 e2 hstep
        split at hok
        · exact absurd hok (by simp)
        · rename_i vars2 e3 hrest
          cases hok
          simp only [List.length_cons, List.take_succ_cons] at hv ⊢
          have hfv := hv var (List.mem_cons_self _ _)
          obtain ⟨h1, h2⟩ := fixed_width_ne var hfv
          have ha : alignment_of var = var.sqllen := by simp [alignment_of, h1, h2]
          have hl : data_len var = var.sqllen := by simp [data_len, h2]
          obtain ⟨hd, hi, hoff⟩ := set_inputparam_below h var obj e var2 e2 o hfv ho hstep
          obtain ⟨ih1, ih2⟩ := ih argv e2 vars2 e1 _ hrest hoff
            (fun v hv2 => hv v (List.mem_cons_of_mem _ hv2))
          rw [fetch_prep_loop_cons, ha, hl]
          refine ⟨?_, ih2⟩
          intro i obj1 v v1 l hobj1 hv0 hv1 hl1
          cases i with
          | zero =>
            simp only [List.getElem?_cons_zero, Option.some.injEq] at hobj1 hv0 hv1 hl1
            subst hobj1
            subst hv0
            subst hv1
            subst hl1
            refine ⟨fun hnn => ?_, fun hn => ?_⟩
            · obtain ⟨x, hx, hle⟩ := hd hnn
              exact ⟨x, _, hx, rfl, hle⟩
            · obtain ⟨x, hx, hle⟩ := hi hn
              exact ⟨x, _, hx, rfl, hle⟩
          | succ i =>
            simp only [List.getElem?_cons_succ] at hobj1 hv0 hv1 hl1
            exact ih1 i obj1 v v1 l hobj1 hv0 hv1 hl1

/-- C34: for every input descriptor set whose entries are of fixed width (`SHORT`, `LONG`,
`FLOAT`, `DOUBLE`, `INT64`, `TIMESTAMP`, `TIME`, `DATE`, with a length that is a power of two)
and every argument list that `fb_cursor_set_inputparams` accepts, the data offset it assigns
for an argument that is not nil and the indicator offset it assigns for a nullable entry
are at most the offsets the layout loop assigns to the same entry, and its final offset is at
most `calculate_buffsize(i_sqlda)`. -/
theorem C34_encode_offsets_below_layout (h : Host) (i_sqlda : XSQLDA) (argv : List VALUE)
    (paramts : Buffer) (calls : List DrvCall) (out : XSQLDA) (e : Enc)
    (hok : fb_cursor_set_inputparams h i_sqlda argv paramts calls = Res.ok out e)
    (hv : ∀ v ∈ i_sqlda.vars, fixed_width v) :
    (∀ (i : Nat) obj v v1 l, argv[i]? = some obj → i_sqlda.sqlvar[i]? = some v →
      out.sqlvar[i]? = some v1 → (fb_cursor_fetch_prep_layout i_sqlda).1[i]? = some l →
      encoded_below obj v v1 l) ∧
    e.offset ≤ calculate_buffsize i_sqlda := by
  unfold fb_cursor_set_inputparams at hok
  split at hok
  · exact absurd hok (by simp)
  · rename_i hcount
    have hcount : i_sqlda.sqld = (argv.length : Int) := by simpa using hcount
    have hn : i_sqlda.sqld.toNat = argv.length := by rw [hcount]; simp
    split at hok
    · exact absurd hok (by simp)
    · rename_i vars1 e1 hloop
      cases hok
      simp only [XSQLDA.vars, hn] at hv
      obtain ⟨h1, h2⟩ := set_inputparams_loop_below h i_sqlda.sqlvar argv ⟨0, paramts, calls⟩
        vars1 e 0 hloop (le_refl _) hv
      refine ⟨?_, ?_⟩
      · intro i obj v v1 l hobj hv0 hv1 hl
        simp only [fb_cursor_fetch_prep_layout, XSQLDA.vars, hn] at hl
        exact h1 i obj v v1 l hobj hv0 hv1 hl
      · rw [fetch_prep_loop_final] at h2
        simpa [calculate_buffsize, XSQLDA.vars, hn] using h2

theorem C34_encode_offsets_below_layout_witness :
    (∀ (i : Nat) obj v v1 l, [VALUE.nil, VALUE.integer 2][i]? = some obj →
      nullable_long_and_short.sqlvar[i]? = some v →
      ([⟨497, 0, 4, none, some 0⟩, ⟨500, 0, 2, some 2, none⟩] : List XSQLVAR)[i]? = some v1 →
      (fb_cursor_fetch_prep_layout nullable_long_and_short).1[i]? = some l →
      encoded_below obj v v1 l) ∧
    (4 : Int) ≤ calculate_buffsize nullable_long_and_short :=
  C34_encode_offsets_below_layout sample_host nullable_long_and_short
    [VALUE.nil, VALUE.integer 2] [] []
    ⟨10, 2, [⟨497, 0, 4, none, some 0⟩, ⟨500, 0, 2, some 2, none⟩]⟩
    ⟨4, memcpy (memcpy [] 0 (int_bytes 2 (-1))) 2 (int_bytes 2 2), []⟩
    rfl
    (by
      intro v hv
      have hv2 : v = ⟨497, 0, 4, none, none⟩ ∨ v = ⟨500, 0, 2, none, none⟩ := by
        simpa [XSQLDA.vars, nullable_long_and_short] using hv
      rcases hv2 with rfl | rfl
      · exact ⟨Or.inr (Or.inl (by decide)), 2, by decide⟩
      · exact ⟨Or.inl (by decide), 1, by decide⟩)

/-! ## Termination of the transaction-option parser -/


/-! ## Termination of the parser -/

theorem takeWhile_drop (f : Nat → Bool) (l : List Nat) :
    ∀ k, k ≤ (l.takeWhile f).length → (l.drop k).takeWhile f = (l.takeWhile f).drop k := by
  induction l with
  | nil => intro k _; simp
  | cons x xs ih =>
    intro k hk
    cases k with
    | zero => rfl
    | succ k =>
      by_cases hx : f x = true
      · simp only [List.takeWhile_cons, hx, if_true, List.length_cons, List.drop_succ_cons]
          at hk ⊢
        exact ih k (by omega)
      · simp [List.takeWhile_cons, hx] at hk

theorem takeWhile_length_mono (f g : Nat → Bool) (hfg : ∀ x, f x = true → g x = true)
    (l : List Nat) : (l.takeWhile f).length ≤ (l.takeWhile g).length := by
  induction l with
  | nil => simp
  | cons x xs ih =>
    by_cases hx : f x = true
    · simp only [List.takeWhile_cons, hx, hfg x hx, if_true, List.length_cons]
      omega
    · simp [List.takeWhile_cons, hx]

theorem strlen_add (mem : List Nat) (p k : Nat) (hk : k ≤ strlen mem p) :
    strlen mem (p + k) = strlen mem p - k := by
  unfold strlen cstr at hk ⊢
  rw [show mem.drop (p + k) = (mem.drop p).drop k by rw [List.drop_drop, Nat.add_comm]]
  rw [takeWhile_drop _ _ k hk, List.length_drop]

theorem peek_eq_head (mem : List Nat) (p : Nat) : peek mem p = (mem.drop p).headD 0 := by
  unfold peek
  rw [List.getD_eq_getElem?_getD, List.headD_eq_head?_getD, List.head?_drop]

theorem strlen_pos (mem : List Nat) (p : Nat) (hp : peek mem p ≠ 0) : 1 ≤ strlen mem p := by
  rw [peek_eq_head] at hp
  unfold strlen cstr
  cases hd : mem.drop p with
  | nil =>
    rw [hd] at hp
    exact absurd rfl hp
  | cons x xs =>
    rw [hd] at hp
    have hx : (x != 0) = true := by simpa using hp
    simp [List.takeWhile_cons, hx]

theorem peek_lt (mem : List Nat) (p : Nat) (hp : peek mem p ≠ 0) : p < mem.length := by
  by_contra hn
  apply hp
  unfold peek
  rw [List.getD_eq_getElem?_getD, List.getElem?_eq_none (by omega)]
  rfl

theorem strspn_le_strlen (mem : List Nat) (p : Nat) (accept : List Nat)
    (h0 : accept.contains 0 = false) : strspn mem p accept ≤ strlen mem p := by
  unfold strspn strlen cstr
  refine takeWhile_length_mono _ _ (fun x hx => ?_) _
  simp only [bne_iff_ne, ne_eq]
  intro hx0
  rw [hx0, h0] at hx
  exact absurd hx (by simp)

/-- The byte at which `strspn` stops is not one of `accept`. -/
theorem takeWhile_stop (f : Nat → Bool) (l : List Nat) :
    ∀ x, (l.drop (l.takeWhile f).length).head? = some x → f x = false := by
  induction l with
  | nil => intro x hx; simp at hx
  | cons y ys ih =>
    intro x hx
    by_cases hy : f y = true
    · simp only [List.takeWhile_cons, hy, if_true, List.length_cons, List.drop_succ_cons] at hx
      exact ih x hx
    · simp only [List.takeWhile_cons, hy, Bool.false_eq_true, if_false, List.length_nil,
        List.drop_zero, List.head?_cons, Option.some.injEq] at hx
      rw [← hx]
      simpa using hy

theorem peek_add (mem : List Nat) (p k : Nat) :
    peek mem (p + k) = ((mem.drop p).drop k).headD 0 := by
  rw [peek_eq_head, List.drop_drop, Nat.add_comm]

theorem strspn_stop (mem : List Nat) (p : Nat) (accept : List Nat)
    (h0 : accept.contains 0 = false) :
    accept.contains (peek mem (p + strspn mem p accept)) = false := by
  rw [peek_add]
  unfold strspn
  cases hh : ((mem.drop p).drop ((mem.drop p).takeWhile fun c => accept.contains c).length).head?
    with
  | none =>
    rw [List.headD_eq_head?_getD, hh]
    exact h0
  | some x =>
    rw [List.headD_eq_head?_getD, hh]
    exact takeWhile_stop _ _ x hh


theorem strlen_of_peek_zero (mem : List Nat) (p : Nat) (hp : peek mem p = 0) :
    strlen mem p = 0 := by
  rw [peek_eq_head] at hp
  unfold strlen cstr
  cases hd : mem.drop p with
  | nil => rfl
  | cons x xs =>
    rw [hd] at hp
    have hx : x = 0 := hp
    simp [List.takeWhile_cons, hx]

/-- What `strpbrk` finds lies inside the C string it searches. -/
theorem strpbrk_inside (mem : List Nat) (p : Nat) (accept : List Nat) (e : Nat)
    (h0 : accept.contains 0 = false) (h : strpbrk mem p accept = some e) :
    p ≤ e ∧ e < p + strlen mem p ∧ accept.contains (peek mem e) = true := by
  unfold strpbrk at h
  split at h
  · rename_i hc
    simp only [Option.some.injEq] at h
    subst h
    have hn : ((mem.drop p).takeWhile fun c => c != 0 && !accept.contains c).length ≤
        strlen mem p := by
      unfold strlen cstr
      refine takeWhile_length_mono _ _ (fun x hx => ?_) _
      simp only [Bool.and_eq_true] at hx
      exact hx.1
    have hne : peek mem (p + ((mem.drop p).takeWhile
        fun c => c != 0 && !accept.contains c).length) ≠ 0 := by
      intro hz
      rw [hz, h0] at hc
      exact absurd hc (by simp)
    have h1 := strlen_pos _ _ hne
    rw [strlen_add _ _ _ hn] at h1
    exact ⟨by omega, by omega, hc⟩
  · simp at h

/-- A token that starts at a byte that is neither NUL nor a delimiter has a byte before the
delimiter `strpbrk` finds. -/
theorem strpbrk_after (mem : List Nat) (p : Nat) (accept : List Nat) (e : Nat)
    (hp : peek mem p ≠ 0) (ha : accept.contains (peek mem p) = false)
    (h : strpbrk mem p accept = some e) : p < e := by
  unfold strpbrk at h
  split at h
  · simp only [Option.some.injEq] at h
    subst h
    rw [peek_eq_head] at hp ha
    cases hd : mem.drop p with
    | nil =>
      rw [hd] at hp
      exact absurd rfl hp
    | cons x xs =>
      rw [hd] at hp ha
      have hx : (x != 0 && !accept.contains x) = true := by
        have h1 : x ≠ 0 := hp
        have h2 : accept.contains x = false := ha
        rw [Bool.and_eq_true]
        exact ⟨by simpa using h1, by rw [h2]; rfl⟩
      simp only [List.takeWhile_cons, hx, if_true, List.length_cons]
      omega
  · simp at h

theorem takeWhile_set_zero (l : List Nat) :
    ∀ n, n ≤ (l.takeWhile fun c => c != 0).length → n < l.length →
      ((l.set n 0).takeWhile fun c => c != 0).length = n := by
  induction l with
  | nil => intro n _ hn; simp at hn
  | cons x xs ih =>
    intro n hn hlt
    cases n with
    | zero => simp [List.takeWhile_cons]
    | succ n =>
      by_cases hx : (x != 0) = true
      · simp only [List.takeWhile_cons, hx, if_true, List.length_cons, List.set_cons_succ]
          at hn hlt ⊢
        rw [ih n (by omega) (by omega)]
      · simp [List.takeWhile_cons, hx] at hn

theorem strlen_set_zero (mem : List Nat) (p n : Nat) (hn : n < strlen mem p) :
    strlen (mem.set (p + n) 0) p = n := by
  have hle := strlen_le mem p
  unfold strlen cstr at hn ⊢
  have hdrop : (mem.set (p + n) 0).drop p = (mem.drop p).set n 0 := by
    rw [List.drop_set]
    simp
  rw [hdrop]
  exact takeWhile_set_zero _ n (by omega) (by unfold strlen cstr at hle; omega)

theorem strlen_set_before (mem : List Nat) (i p v : Nat) (hi : i < p) :
    strlen (mem.set i v) p = strlen mem p := by
  unfold strlen cstr
  rw [List.drop_set_of_lt _ _ hi]

theorem rest_set (mem : List Nat) (i sp v : Nat) (hi : i < sp) :
    Tok.rest ⟨mem.set i v, sp⟩ = Tok.rest ⟨mem, sp⟩ :=
  strlen_set_before mem i sp v hi

/-- A call of `strtok` that finds no token leaves the memory alone and the untokenised part
no longer. -/
theorem strtok_none_spec (t : Tok) (d : List Nat) (h0 : d.contains 0 = false)
    (h : (strtok t d).1 = none) :
    (strtok t d).2.mem = t.mem ∧ t.sp ≤ (strtok t d).2.sp ∧ (strtok t d).2.rest ≤ t.rest := by
  have hs := strspn_le_strlen t.mem t.sp d h0
  unfold strtok at h ⊢
  split
  · refine ⟨rfl, by simp, ?_⟩
    show strlen t.mem (t.sp + strspn t.mem t.sp d) ≤ strlen t.mem t.sp
    rw [strlen_add _ _ _ hs]
    omega
  · rename_i hp
    rw [if_neg hp] at h
    split at h <;> simp at h

/-- A call of `strtok` that finds a token: the token lies in the memory, is not empty and
ends before the saved pointer, and the untokenised part has lost two bytes, or all of its
bytes. -/
theorem strtok_some_spec (t : Tok) (d : List Nat) (p : Nat) (h0 : d.contains 0 = false)
    (h : (strtok t d).1 = some p) :
    (strtok t d).2.mem.length = t.mem.length ∧ t.sp ≤ p ∧ p < t.mem.length ∧
    1 ≤ strlen (strtok t d).2.mem p ∧ p + strlen (strtok t d).2.mem p ≤ (strtok t d).2.sp ∧
    ((strtok t d).2.rest + 2 ≤ t.rest ∨ ((strtok t d).2.rest = 0 ∧ 1 ≤ t.rest)) := by
  have hs := strspn_le_strlen t.mem t.sp d h0
  have hstop := strspn_stop t.mem t.sp d h0
  have hq := strlen_add t.mem t.sp _ hs
  unfold strtok at h ⊢
  by_cases hp : peek t.mem (t.sp + strspn t.mem t.sp d) = 0
  · rw [if_pos hp] at h
    simp at h
  · rw [if_neg hp] at h ⊢
    have hpos := strlen_pos _ _ hp
    have hpos2 : 1 ≤ strlen t.mem t.sp - strspn t.mem t.sp d := by
      rw [← hq]
      exact hpos
    have hrest : 1 ≤ t.rest := by
      show 1 ≤ strlen t.mem t.sp
      omega
    have hlt := peek_lt _ _ hp
    cases hb : strpbrk t.mem (t.sp + strspn t.mem t.sp d) d with
    | none =>
      rw [hb] at h
      simp only [Option.some.injEq] at h
      subst h
      refine ⟨rfl, by omega, hlt, hpos, le_refl _, Or.inr ⟨?_, hrest⟩⟩
      show strlen t.mem (t.sp + strspn t.mem t.sp d +
        strlen t.mem (t.sp + strspn t.mem t.sp d)) = 0
      rw [strlen_add _ _ _ (le_refl _)]
      omega
    | some e =>
      rw [hb] at h
      simp only [Option.some.injEq] at h
      subst h
      obtain ⟨hle, hin, _⟩ := strpbrk_inside _ _ _ _ h0 hb
      have hafter := strpbrk_after _ _ _ _ hp hstop hb
      have he : e = t.sp + strspn t.mem t.sp d + (e - (t.sp + strspn t.mem t.sp d)) := by
        omega
      have hlen : strlen (t.mem.set e 0) (t.sp + strspn t.mem t.sp d) =
          e - (t.sp + strspn t.mem t.sp d) := by
        conv_lhs => rw [he]
        exact strlen_set_zero _ _ _ (by omega)
      refine ⟨by simp, by omega, hlt, ?_, ?_, Or.inl ?_⟩
      · show 1 ≤ strlen (t.mem.set e 0) (t.sp + strspn t.mem t.sp d)
        rw [hlen]
        omega
      · show t.sp + strspn t.mem t.sp d + strlen (t.mem.set e 0) (t.sp + strspn t.mem t.sp d) ≤
          e + 1
        rw [hlen]
        omega
      · show strlen (t.mem.set e 0) (e + 1) + 2 ≤ strlen t.mem t.sp
        rw [strlen_set_before _ _ _ _ (by omega)]
        have h3 : e + 1 = t.sp + strspn t.mem t.sp d +
            (e + 1 - (t.sp + strspn t.mem t.sp d)) := by omega
        rw [h3, strlen_add _ _ _ (by omega)]
        omega


theorem Consumed.le {r r' : Nat} (h : Consumed r r') : r' ≤ r := by
  rcases h with h | ⟨h, _⟩ <;> omega

theorem Consumed.rest_lt {r r' : Nat} (h : Consumed r r') : r' < r := by
  rcases h with h | ⟨h, _⟩ <;> omega

theorem Consumed.mono {r0 r r' r1 : Nat} (h : Consumed r r') (h0 : r ≤ r0) (h1 : r1 ≤ r') :
    Consumed r0 r1 := by
  rcases h with h | ⟨h, h2⟩
  · exact Or.inl (by omega)
  · exact Or.inr ⟨by omega, by omega⟩

theorem Consumed.token_supply {r r' : Nat} (h : Consumed r r') :
    token_supply r' + 2 ≤ token_supply r := by
  unfold Fb.token_supply
  rcases h with h | ⟨h, h2⟩
  · rw [if_neg (by omega : ¬ r = 0)]
    split <;> omega
  · rw [if_pos h, if_neg (by omega : ¬ r = 0)]
    omega

theorem token_supply_mono {r r' : Nat} (h : r' ≤ r) : token_supply r' ≤ token_supply r := by
  unfold token_supply
  split <;> split <;> omega

theorem LIST_no_nul : LIST_DELIMIT.contains 0 = false := by decide

theorem CMND_no_nul : CMND_DELIMIT.contains 0 = false := by decide

/-- The turn of the table scan that finds a name of `tl` bytes at `resv_p + n`. -/
theorem scan_tables_name (resv_p resend_p : Nat) (mem : List Nat) (b : Tpb) (rc n tl : Nat)
    (h : resv_p < resend_p) (hz : peek mem resv_p ≠ 0)
    (hn : strspn mem resv_p LIST_DELIMIT = n)
    (htl : (strpbrk mem (resv_p + n) LIST_DELIMIT = none ∧ strlen mem (resv_p + n) = tl) ∨
      ∃ e, strpbrk mem (resv_p + n) LIST_DELIMIT = some e ∧ e - (resv_p + n) = tl)
    (hprog : 0 < n ∨ 0 < tl) :
    (∀ fuel, scan_tables (fuel + 1) resv_p resend_p mem b rc =
      PRes.fail "Illegal table name was specified") ∨
    ∃ resv_p' b' rc', resv_p < resv_p' ∧ ∀ fuel,
      scan_tables (fuel + 1) resv_p resend_p mem b rc =
        scan_tables fuel resv_p' resend_p mem b' rc' := by
  by_cases hlong : tl > META_NAME_MAX
  · left
    intro fuel
    rcases htl with ⟨hb, hm⟩ | ⟨e, hb, hm⟩ <;>
      simp only [scan_tables, if_pos h, if_neg hz, hn, hb, hm, if_pos hlong]
  · by_cases hpos : tl > 0
    · refine Or.inr ⟨resv_p + n + tl,
        { buf := memcpy (memcpy (tpb_reserve b (b.used + tl + 3)).buf (b.used + 1) [tl])
                   (b.used + 2) ((mem.drop (resv_p + n)).take tl),
          used := b.used + tl + 3,
          size := (tpb_reserve b (b.used + tl + 3)).size }, rc + 1, by omega, fun fuel => ?_⟩
      rcases htl with ⟨hb, hm⟩ | ⟨e, hb, hm⟩ <;>
        simp only [scan_tables, if_pos h, if_neg hz, hn, hb, hm, if_neg hlong, if_pos hpos]
    · refine Or.inr ⟨resv_p + n + tl, b, rc, by omega, fun fuel => ?_⟩
      rcases htl with ⟨hb, hm⟩ | ⟨e, hb, hm⟩ <;>
        simp only [scan_tables, if_pos h, if_neg hz, hn, hb, hm, if_neg hlong, if_neg hpos]

/-- One turn of the table scan: it raises "Illegal table name was specified", or the scan
goes on from a pointer further on. -/
theorem scan_tables_turn (resv_p resend_p : Nat) (mem : List Nat) (b : Tpb) (rc : Nat)
    (h : resv_p < resend_p) :
    (∀ fuel, scan_tables (fuel + 1) resv_p resend_p mem b rc =
      PRes.fail "Illegal table name was specified") ∨
    ∃ resv_p' b' rc', resv_p < resv_p' ∧ ∀ fuel,
      scan_tables (fuel + 1) resv_p resend_p mem b rc =
        scan_tables fuel resv_p' resend_p mem b' rc' := by
  by_cases hz : peek mem resv_p = 0
  · refine Or.inr ⟨resv_p + 1, b, rc, by omega, fun fuel => ?_⟩
    simp only [scan_tables, if_pos h, if_pos hz]
  · have hstop := strspn_stop mem resv_p LIST_DELIMIT LIST_no_nul
    by_cases hs : 0 < strspn mem resv_p LIST_DELIMIT
    · cases hb : strpbrk mem (resv_p + strspn mem resv_p LIST_DELIMIT) LIST_DELIMIT with
      | none =>
        exact scan_tables_name resv_p resend_p mem b rc _ _ h hz rfl (Or.inl ⟨hb, rfl⟩)
          (Or.inl hs)
      | some e =>
        exact scan_tables_name resv_p resend_p mem b rc _ _ h hz rfl (Or.inr ⟨e, hb, rfl⟩)
          (Or.inl hs)
    · have hs0 : strspn mem resv_p LIST_DELIMIT = 0 := by omega
      rw [hs0] at hstop
      cases hb : strpbrk mem (resv_p + 0) LIST_DELIMIT with
      | none =>
        exact scan_tables_name resv_p resend_p mem b rc 0 _ h hz hs0 (Or.inl ⟨hb, rfl⟩)
          (Or.inr (strlen_pos _ _ hz))
      | some e =>
        have := strpbrk_after _ _ _ _ hz hstop hb
        exact scan_tables_name resv_p resend_p mem b rc 0 _ h hz hs0 (Or.inr ⟨e, hb, rfl⟩)
          (Or.inr (by omega))

/-- The table scan ends within its budget. -/
theorem scan_tables_ends (fuel : Nat) :
    ∀ (resv_p resend_p : Nat) (mem : List Nat) (b : Tpb) (rc : Nat),
      resend_p - resv_p < fuel → scan_tables fuel resv_p resend_p mem b rc ≠ PRes.timeout := by
  induction fuel with
  | zero => intro resv_p resend_p mem b rc h; omega
  | succ fuel ih =>
    intro resv_p resend_p mem b rc hf
    by_cases h : resv_p < resend_p
    · rcases scan_tables_turn resv_p resend_p mem b rc h with hfail | ⟨p', b', rc', hlt, heq⟩
      · rw [hfail fuel]
        exact fun hc => PRes.noConfusion hc
      · rw [heq fuel]
        exact ih p' resend_p mem b' rc' (by omega)
    · simp only [scan_tables, if_neg h]
      exact fun hc => PRes.noConfusion hc


theorem strtok_some_eq (t : Tok) (d : List Nat) (p : Nat) (t1 : Tok)
    (h0 : d.contains 0 = false) (h : strtok t d = (some p, t1)) :
    t1.mem.length = t.mem.length ∧ t.sp ≤ p ∧ p < t.mem.length ∧
    1 ≤ strlen t1.mem p ∧ p + strlen t1.mem p ≤ t1.sp ∧ Consumed t.rest t1.rest := by
  have h1 := strtok_some_spec t d p h0 (by rw [h])
  rw [h] at h1
  exact h1

theorem strtok_none_eq (t : Tok) (d : List Nat) (t1 : Tok)
    (h0 : d.contains 0 = false) (h : strtok t d = (none, t1)) :
    t1.mem = t.mem ∧ t.sp ≤ t1.sp ∧ t1.rest ≤ t.rest := by
  have h1 := strtok_none_spec t d h0 (by rw [h])
  rw [h] at h1
  exact h1

theorem strtok_rest_le (t : Tok) (d : List Nat) (h0 : d.contains 0 = false) :
    (strtok t d).2.rest ≤ t.rest ∧ (strtok t d).2.mem.length = t.mem.length := by
  rcases hst : strtok t d with ⟨o, t1⟩
  cases o with
  | none =>
    obtain ⟨h1, _, h3⟩ := strtok_none_eq t d t1 h0 hst
    exact ⟨h3, by rw [h1]⟩
  | some p =>
    obtain ⟨h1, _, _, _, _, h6⟩ := strtok_some_eq t d p t1 h0 hst
    exact ⟨h6.le, h1⟩

theorem rest_le_length (t : Tok) : t.rest ≤ t.mem.length := by
  have := strlen_le t.mem t.sp
  unfold Tok.rest
  have h2 : (t.mem.drop t.sp).length ≤ t.mem.length := by simp
  omega

/-- The loop that looks for the token `FOR`: what it finds lies in the memory, and finding
it has consumed a token. -/
theorem find_resend_spec (fuel : Nat) :
    ∀ (t : Tok) (p : Nat) (t1 : Tok), find_resend fuel t = (some p, t1) →
      p < t1.mem.length ∧ t1.mem.length = t.mem.length ∧ Consumed t.rest t1.rest := by
  induction fuel with
  | zero =>
    intro t p t1 h
    simp [find_resend] at h
  | succ fuel ih =>
    intro t p t1 h
    rcases hst : strtok t CMND_DELIMIT with ⟨o, t2⟩
    cases o with
    | none => simp [find_resend, hst] at h
    | some q =>
      obtain ⟨h1, _, h3, _, _, h6⟩ := strtok_some_eq t _ q t2 CMND_no_nul hst
      simp only [find_resend, hst] at h
      split at h
      · simp only [Prod.mk.injEq, Option.some.injEq] at h
        obtain ⟨hq, ht⟩ := h
        subst hq
        subst ht
        exact ⟨by omega, h1, h6⟩
      · obtain ⟨h7, h8, h9⟩ := ih t2 p t1 h
        exact ⟨h7, by omega, h9.mono h6.le (le_refl _)⟩

/-- The loop that looks for the token `FOR` ends within its budget: more fuel gives the
same result. -/
theorem find_resend_stable (fuel : Nat) :
    ∀ (t : Tok) (k : Nat), t.rest < fuel → find_resend (fuel + k) t = find_resend fuel t := by
  induction fuel with
  | zero => intro t k h; omega
  | succ fuel ih =>
    intro t k hf
    rcases hst : strtok t CMND_DELIMIT with ⟨o, t2⟩
    have hk : fuel + 1 + k = fuel + k + 1 := by omega
    rw [hk]
    cases o with
    | none => simp only [find_resend, hst]
    | some q =>
      obtain ⟨_, _, _, _, _, h6⟩ := strtok_some_eq t _ q t2 CMND_no_nul hst
      simp only [find_resend, hst]
      rw [ih t2 k (by have := h6.rest_lt; omega)]


/-- The end of a reservation clause, after its lock words: the branch ends the directive,
raises, or goes on with the next clause. -/
theorem clause_end (t5 : Tok) (b2 : Tpb) (E : Nat → PRes (ResvEnd × Tok × Tpb))
    (hE : ∀ fuel, E fuel =
      match strtok t5 CMND_DELIMIT with
      | (none, t6) => PRes.done (ResvEnd.finished, t6, b2)
      | (some q, t6) =>
        if strlen t6.mem q = 1 ∧ peek t6.mem q = RESV_CONTINUE then
          match strtok t6 CMND_DELIMIT with
          | (none, _) => PRes.fail "Unexpected end of command"
          | (some q2, t7) => reserving fuel q2 t7 b2
        else if peek t6.mem q = RESV_CONTINUE then reserving fuel (q + 1) t6 b2
        else PRes.done (ResvEnd.next q, t6, b2)) :
    (∃ desc, ∀ fuel, E fuel = PRes.fail desc) ∨
    (∃ e t', t'.rest ≤ t5.rest ∧ ∀ fuel, E fuel = PRes.done (e, t', b2)) ∨
    (∃ p' t', t'.rest ≤ t5.rest ∧ ∀ fuel, E fuel = reserving fuel p' t' b2) := by
  rcases hs5 : strtok t5 CMND_DELIMIT with ⟨o5, t6⟩
  have h6 : t6.rest ≤ t5.rest := by
    have := (strtok_rest_le t5 CMND_DELIMIT CMND_no_nul).1
    rw [hs5] at this
    exact this
  cases o5 with
  | none =>
    refine Or.inr (Or.inl ⟨ResvEnd.finished, t6, h6, fun fuel => ?_⟩)
    rw [hE fuel, hs5]
  | some q =>
    by_cases hc : strlen t6.mem q = 1 ∧ peek t6.mem q = RESV_CONTINUE
    · rcases hs6 : strtok t6 CMND_DELIMIT with ⟨o6, t7⟩
      have h7 : t7.rest ≤ t6.rest := by
        have := (strtok_rest_le t6 CMND_DELIMIT CMND_no_nul).1
        rw [hs6] at this
        exact this
      cases o6 with
      | none =>
        refine Or.inl ⟨"Unexpected end of command", fun fuel => ?_⟩
        rw [hE fuel, hs5]
        simp only [if_pos hc, hs6]
      | some q2 =>
        refine Or.inr (Or.inr ⟨q2, t7, by omega, fun fuel => ?_⟩)
        rw [hE fuel, hs5]
        simp only [if_pos hc, hs6]
    · by_cases hc2 : peek t6.mem q = RESV_CONTINUE
      · refine Or.inr (Or.inr ⟨q + 1, t6, h6, fun fuel => ?_⟩)
        rw [hE fuel, hs5]
        simp only [if_neg hc, if_pos hc2]
      · refine Or.inr (Or.inl ⟨ResvEnd.next q, t6, h6, fun fuel => ?_⟩)
        rw [hE fuel, hs5]
        simp only [if_neg hc, if_neg hc2]

/-- One turn of the loop over the reservation clauses: it raises, or it ends the directive,
or it goes on with the next clause; in the last two cases it has consumed a token. -/
theorem reserving_turn (resv_p : Nat) (t : Tok) (b : Tpb) :
    (∃ desc, ∀ fuel, reserving (fuel + 1) resv_p t b = PRes.fail desc) ∨
    (∃ e t' b', Consumed t.rest t'.rest ∧
      ∀ fuel, reserving (fuel + 1) resv_p t b = PRes.done (e, t', b')) ∨
    (∃ p' t' b', Consumed t.rest t'.rest ∧
      ∀ fuel, reserving (fuel + 1) resv_p t b = reserving fuel p' t' b') := by
  rcases hfr : find_resend (t.mem.length + 1) t with ⟨o, t1⟩
  cases o with
  | none =>
    exact Or.inl ⟨"Illegal transaction option was specified", fun fuel => by
      simp only [reserving, hfr]⟩
  | some resend_p =>
    obtain ⟨hlt, _, hcon⟩ := find_resend_spec _ t resend_p t1 hfr
    cases hsc : scan_tables (t1.mem.length + 1) resv_p resend_p t1.mem b 0 with
    | timeout =>
      exact absurd hsc (scan_tables_ends _ resv_p resend_p t1.mem b 0 (by omega))
    | fail desc =>
      exact Or.inl ⟨desc, fun fuel => by simp only [reserving, hfr, hsc]⟩
    | done r =>
      obtain ⟨b1, rc⟩ := r
      rcases hs1 : strtok t1 CMND_DELIMIT with ⟨o1, t2⟩
      cases o1 with
      | none =>
        exact Or.inl ⟨resv_needs_lock, fun fuel => by simp only [reserving, hfr, hsc, hs1]⟩
      | some sp_p =>
        have h2 : t2.rest ≤ t1.rest := (strtok_some_eq t1 _ sp_p t2 CMND_no_nul hs1).2.2.2.2.2.le
        by_cases hsp : cstr t2.mem sp_p ≠ bytes "SHARED" ∧ cstr t2.mem sp_p ≠ bytes "PROTECTED"
        · exact Or.inl ⟨resv_needs_lock, fun fuel => by
            simp only [reserving, hfr, hsc, hs1, if_pos hsp]⟩
        · rcases hs2 : strtok t2 CMND_DELIMIT with ⟨o2, t3⟩
          cases o2 with
          | none =>
            exact Or.inl ⟨resv_needs_lock, fun fuel => by
              simp only [reserving, hfr, hsc, hs1, if_neg hsp, hs2]⟩
          | some rw_p =>
            obtain ⟨_, _, _, hw1, hw2, hw3⟩ := strtok_some_eq t2 _ rw_p t3 CMND_no_nul hs2
            have h3 : t3.rest ≤ t1.rest := by
              have := hw3.le
              omega
            by_cases hpk : peek t3.mem (rw_p + strlen t3.mem rw_p - 1) = RESV_CONTINUE
            · have h4 : Tok.rest ⟨t3.mem.set (rw_p + strlen t3.mem rw_p - 1) 0, t3.sp⟩ =
                  t3.rest := rest_set _ _ _ _ (by omega)
              by_cases hrw :
                  cstr (t3.mem.set (rw_p + strlen t3.mem rw_p - 1) 0) rw_p ≠ bytes "READ" ∧
                  cstr (t3.mem.set (rw_p + strlen t3.mem rw_p - 1) 0) rw_p ≠ bytes "WRITE"
              · exact Or.inl ⟨resv_needs_lock, fun fuel => by
                  simp only [reserving, hfr, hsc, hs1, if_neg hsp, hs2, if_pos hpk, if_pos hrw]⟩
              · rcases hs3 : strtok ⟨t3.mem.set (rw_p + strlen t3.mem rw_p - 1) 0, t3.sp⟩
                  CMND_DELIMIT with ⟨o3, t5⟩
                have h5 : t5.rest ≤ t3.rest := by
                  have := (strtok_rest_le ⟨t3.mem.set (rw_p + strlen t3.mem rw_p - 1) 0, t3.sp⟩
                    CMND_DELIMIT CMND_no_nul).1
                  rw [hs3, h4] at this
                  exact this
                cases o3 with
                | none =>
                  exact Or.inl ⟨"Unexpected end of command", fun fuel => by
                    simp only [reserving, hfr, hsc, hs1, if_neg hsp, hs2, if_pos hpk, if_neg hrw,
                      if_true, hs3]⟩
                | some x =>
                  rcases clause_end t5 _ (fun fuel => reserving (fuel + 1) resv_p t b)
                    (fun fuel => by
                      simp only [reserving, hfr, hsc, hs1, if_neg hsp, hs2, if_pos hpk,
                        if_neg hrw, if_true, hs3]
                      rfl) with ⟨desc, hd⟩ | ⟨e, t', ht', hd⟩ | ⟨p', t', ht', hd⟩
                  · exact Or.inl ⟨desc, hd⟩
                  · exact Or.inr (Or.inl ⟨e, t', _, hcon.mono (le_refl _) (by omega), hd⟩)
                  · exact Or.inr (Or.inr ⟨p', t', _, hcon.mono (le_refl _) (by omega), hd⟩)
            · cases hpb : strpbrk t3.mem rw_p LIST_DELIMIT with
              | some tblend_p =>
                obtain ⟨_, hin, _⟩ := strpbrk_inside _ _ _ _ LIST_no_nul hpb
                have h4 : Tok.rest ⟨t3.mem.set tblend_p 0, t3.sp⟩ = t3.rest :=
                  rest_set _ _ _ _ (by omega)
                by_cases hrw : cstr (t3.mem.set tblend_p 0) rw_p ≠ bytes "READ" ∧
                    cstr (t3.mem.set tblend_p 0) rw_p ≠ bytes "WRITE"
                · exact Or.inl ⟨resv_needs_lock, fun fuel => by
                    simp only [reserving, hfr, hsc, hs1, if_neg hsp, hs2, if_neg hpk, hpb,
                      if_pos hrw]⟩
                · refine Or.inr (Or.inr ⟨tblend_p + 1, ⟨t3.mem.set tblend_p 0, t3.sp⟩,
                    ⟨fill_records rc b.used
                      (if cstr (t3.mem.set tblend_p 0) rw_p = bytes "READ" then isc_tpb_lock_read
                        else isc_tpb_lock_write)
                      (if cstr t2.mem sp_p = bytes "SHARED" then isc_tpb_shared
                        else isc_tpb_protected) b1.buf, b1.used, b1.size⟩,
                    hcon.mono (le_refl _) (by rw [h4]; omega), fun fuel => ?_⟩)
                  simp only [reserving, hfr, hsc, hs1, if_neg hsp, hs2, if_neg hpk, hpb,
                    if_neg hrw, if_neg (by decide : ¬ (2:Nat) = 1)]
              | none =>
                by_cases hrw : cstr t3.mem rw_p ≠ bytes "READ" ∧ cstr t3.mem rw_p ≠ bytes "WRITE"
                · exact Or.inl ⟨resv_needs_lock, fun fuel => by
                    simp only [reserving, hfr, hsc, hs1, if_neg hsp, hs2, if_neg hpk, hpb,
                      if_pos hrw]⟩
                · rcases clause_end ⟨t3.mem, t3.sp⟩ _
                    (fun fuel => reserving (fuel + 1) resv_p t b)
                    (fun fuel => by
                      simp only [reserving, hfr, hsc, hs1, if_neg hsp, hs2, if_neg hpk, hpb,
                        if_neg hrw, if_neg (by decide : ¬ (0:Nat) = 1)]
                      rfl) with ⟨desc, hd⟩ | ⟨e, t', ht', hd⟩ | ⟨p', t', ht', hd⟩
                  · exact Or.inl ⟨desc, hd⟩
                  · exact Or.inr (Or.inl ⟨e, t', _, hcon.mono (le_refl _)
                      (by have h9 : Tok.rest ⟨t3.mem, t3.sp⟩ = t3.rest := rfl
                          omega), hd⟩)
                  · exact Or.inr (Or.inr ⟨p', t', _, hcon.mono (le_refl _)
                      (by have h9 : Tok.rest ⟨t3.mem, t3.sp⟩ = t3.rest := rfl
                          omega), hd⟩)


/-- The loop over the reservation clauses ends within its budget: it raises, or it ends the
directive having consumed a token. -/
theorem reserving_ends (fuel : Nat) :
    ∀ (resv_p : Nat) (t : Tok) (b : Tpb), t.rest < fuel →
      (∃ desc, reserving fuel resv_p t b = PRes.fail desc) ∨
      (∃ e t' b', Consumed t.rest t'.rest ∧
        reserving fuel resv_p t b = PRes.done (e, t', b')) := by
  induction fuel with
  | zero => intro _ t _ h; omega
  | succ fuel ih =>
    intro resv_p t b h
    rcases reserving_turn resv_p t b with ⟨desc, hd⟩ | ⟨e, t', b', hc, hd⟩ | ⟨p', t', b', hc, hd⟩
    · exact Or.inl ⟨desc, hd fuel⟩
    · exact Or.inr ⟨e, t', b', hc, hd fuel⟩
    · rw [hd fuel]
      have hlt := hc.rest_lt
      rcases ih p' t' b' (by omega) with ⟨desc, h1⟩ | ⟨e, t2, b2, hc2, h1⟩
      · exact Or.inl ⟨desc, h1⟩
      · exact Or.inr ⟨e, t2, b2, hc2.mono hc.le (le_refl _), h1⟩

theorem token_supply_le (r : Nat) : token_supply r ≤ r + 1 := by
  unfold token_supply
  split <;> omega

/-- Moving on to the next tokens never adds to the supply, and takes two units from it
when there is a token at `check1_p`. -/
theorem advance_tokens_le (n : Nat) : ∀ st : PState,
    (advance_tokens n st).tokens ≤ st.tokens ∧
    (1 ≤ n → st.check1_p.isSome = true → (advance_tokens n st).tokens + 2 ≤ st.tokens) := by
  induction n with
  | zero => intro st; exact ⟨le_refl _, fun h => by omega⟩
  | succ n ih =>
    intro st
    cases hc2 : st.check2_p with
    | none =>
      have e : advance_tokens (n + 1) st = advance_tokens n { st with check1_p := none } := by
        simp only [advance_tokens, hc2]
      have h1 := (ih { st with check1_p := none }).1
      have h2 : PState.tokens { st with check1_p := none } = token_supply st.t.rest := by
        simp [PState.tokens, hc2]
      have h3 : st.tokens = token_supply st.t.rest + (if st.check1_p.isSome then 2 else 0) := by
        simp [PState.tokens, hc2]
      rw [e]
      refine ⟨by split at h3 <;> omega, fun _ hs => ?_⟩
      rw [if_pos hs] at h3
      omega
    | some p =>
      have e : advance_tokens (n + 1) st = advance_tokens n
          { st with check1_p := some p, check2_p := (strtok st.t CMND_DELIMIT).1,
                    t := (strtok st.t CMND_DELIMIT).2 } := by
        simp only [advance_tokens, hc2]
      have h1 := (ih { st with check1_p := some p, check2_p := (strtok st.t CMND_DELIMIT).1,
                               t := (strtok st.t CMND_DELIMIT).2 }).1
      have h3 : st.tokens =
          token_supply st.t.rest + (if st.check1_p.isSome then 2 else 0) + 2 := by
        simp [PState.tokens, hc2]
      have h2 : PState.tokens
          { st with check1_p := some p, check2_p := (strtok st.t CMND_DELIMIT).1,
                    t := (strtok st.t CMND_DELIMIT).2 } ≤ token_supply st.t.rest + 2 := by
        rcases hst : strtok st.t CMND_DELIMIT with ⟨o, t1⟩
        cases o with
        | none =>
          have := (strtok_none_eq st.t _ t1 CMND_no_nul hst).2.2
          have := token_supply_mono this
          simp [PState.tokens]
          omega
        | some q =>
          have := (strtok_some_eq st.t _ q t1 CMND_no_nul hst).2.2.2.2.2
          have := this.token_supply
          simp [PState.tokens]
          omega
      rw [e]
      refine ⟨by split at h3 <;> omega, fun _ hs => ?_⟩
      rw [if_pos hs] at h3
      omega


/-- The entry the search selects is an entry of the table; it is selected without a token
only as the wildcard entry, and with tokens only when there is one at `check1_p`. -/
theorem find_target_spec (es : List trans_opts) (check1 check2 : Option (List Nat))
    (e : trans_opts) (n : Nat) (h : find_target es check1 check2 = some (e, n)) :
    e ∈ es ∧ (n = 0 → e.option1 = bytes "*") ∧ (1 ≤ n → check1.isSome = true) := by
  induction es with
  | nil => simp [find_target] at h
  | cons a es ih =>
    by_cases hw : a.option1 = bytes "*"
    · simp only [find_target, if_pos hw, Option.some.injEq, Prod.mk.injEq] at h
      obtain ⟨rfl, rfl⟩ := h
      exact ⟨List.mem_cons_self _ _, fun _ => hw, fun h1 => by omega⟩
    · by_cases hc : check1 = some a.option1
      · cases ho : a.option2 with
        | none =>
          simp only [find_target, if_neg hw, if_pos hc, ho, Option.some.injEq,
            Prod.mk.injEq] at h
          obtain ⟨rfl, rfl⟩ := h
          exact ⟨List.mem_cons_self _ _, fun h0 => by omega, fun _ => by rw [hc]; rfl⟩
        | some o2 =>
          by_cases hc2 : check2 = some o2
          · simp only [find_target, if_neg hw, if_pos hc, ho, if_pos hc2, Option.some.injEq,
              Prod.mk.injEq] at h
            obtain ⟨rfl, rfl⟩ := h
            exact ⟨List.mem_cons_self _ _, fun h0 => by omega, fun _ => by rw [hc]; rfl⟩
          · simp only [find_target, if_neg hw, if_pos hc, ho, if_neg hc2] at h
            obtain ⟨h1, h2, h3⟩ := ih h
            exact ⟨List.mem_cons_of_mem _ h1, h2, h3⟩
      · simp only [find_target, if_neg hw, if_neg hc] at h
        obtain ⟨h1, h2, h3⟩ := ih h
        exact ⟨List.mem_cons_of_mem _ h1, h2, h3⟩

/-- The wildcard entries stand in tables under the top table and have no table of their own. -/
theorem wildcard_entry (curr_p : OptTable) (e : trans_opts) (h : e ∈ curr_p.entries)
    (hw : e.option1 = bytes "*") : e.sub_opts = none ∧ curr_p.weight = 1 := by
  cases curr_p <;> simp only [OptTable.entries, List.mem_cons, List.mem_singleton,
    List.not_mem_nil, or_false] at h
  · rcases h with rfl | rfl | rfl
    · exact absurd hw (by decide)
    · exact absurd hw (by decide)
    · exact ⟨rfl, rfl⟩
  · rcases h with rfl | rfl | rfl <;> exact absurd hw (by decide)
  · rcases h with rfl | rfl
    · exact absurd hw (by decide)
    · exact ⟨rfl, rfl⟩
  · rcases h with rfl | rfl <;> exact absurd hw (by decide)
  · rcases h with rfl | rfl | rfl | rfl | rfl | rfl <;> exact absurd hw (by decide)

theorem weight_le (curr_p : OptTable) : curr_p.weight ≤ 1 := by
  cases curr_p <;> decide

/-- The statements that set the option of an entry: they raise, or they store a byte and
leave the tokens alone, or they run the reservation clauses, which consume a token. -/
theorem set_trans_option_spec (target : trans_opts) (next_c : Nat) (st : PState) :
    (∃ desc, set_trans_option target next_c st = PRes.fail desc) ∨
    (∃ st1, set_trans_option target next_c st = PRes.done (st1, next_c) ∧
      st1.t = st.t ∧ st1.check1_p = st.check1_p ∧ st1.check2_p = st.check2_p) ∨
    (∃ st1 n1, set_trans_option target next_c st = PRes.done (st1, n1) ∧
      st1.tokens + 2 ≤ st.tokens ∧ target.optval < 0) := by
  by_cases hv : target.optval > 0
  · by_cases hp : target.position > 0
    · by_cases hf : st.check_f.getD target.position.toNat false = true
      · exact Or.inl ⟨"Duplicate transaction option was specified", by
          simp only [set_trans_option, if_pos hv, if_pos hp, if_pos hf]⟩
      · exact Or.inr (Or.inl
          ⟨{ st with
              b := { st.b with
                buf := memcpy st.b.buf target.position [target.optval.toNat] },
              check_f := st.check_f.set target.position.toNat true }, by
            simp only [set_trans_option, if_pos hv, if_pos hp, if_neg hf], rfl, rfl, rfl⟩)
    · exact Or.inr (Or.inl
        ⟨{ st with
            b := { buf := memcpy st.b.buf st.b.used [target.optval.toNat],
                   used := st.b.used + 1,
                   size := (tpb_reserve st.b (st.b.used + 1)).size } }, by
          simp only [set_trans_option, if_pos hv, if_neg hp], rfl, rfl, rfl⟩)
  · by_cases h0 : target.optval ≠ 0
    · by_cases hf : st.check_f.getD 0 false = true
      · exact Or.inl ⟨"Duplicate transaction option was specified", by
          simp only [set_trans_option, if_neg hv, if_pos h0, if_pos hf]⟩
      · cases hc2 : st.check2_p with
        | none =>
          exact Or.inl ⟨"RESERVING needs table name list", by
            simp only [set_trans_option, if_neg hv, if_pos h0, if_neg hf, hc2]⟩
        | some resv_p =>
          by_cases hfor : cstr st.t.mem resv_p = bytes "FOR"
          · exact Or.inl ⟨"RESERVING needs table name list", by
              simp only [set_trans_option, if_neg hv, if_pos h0, if_neg hf, hc2, if_pos hfor]⟩
          · have hts : st.tokens = token_supply st.t.rest +
                (if st.check1_p.isSome then 2 else 0) + 2 := by
              simp [PState.tokens, hc2]
            rcases reserving_ends (st.t.mem.length + 1) resv_p st.t st.b
                (by have := rest_le_length st.t; omega) with
              ⟨desc, hd⟩ | ⟨e, t', b', hc, hd⟩
            · exact Or.inl ⟨desc, by
                simp only [set_trans_option, if_neg hv, if_pos h0, if_neg hf, hc2, if_neg hfor,
                  hd]⟩
            · have hsup := hc.token_supply
              cases e with
              | next q =>
                refine Or.inr (Or.inr
                  ⟨{ st with t := t', b := b', check_f := st.check_f.set 0 true,
                             check2_p := some q }, 1, by
                    simp only [set_trans_option, if_neg hv, if_pos h0, if_neg hf, hc2,
                      if_neg hfor, hd], ?_, by omega⟩)
                rw [hts]
                simp only [PState.tokens, Option.isSome_some, Option.isSome_none,
                  Bool.false_eq_true, if_true, if_false]
                split <;> omega
              | finished =>
                refine Or.inr (Or.inr
                  ⟨{ st with t := t', b := b', check_f := st.check_f.set 0 true,
                             check1_p := none, check2_p := none }, 0, by
                    simp only [set_trans_option, if_neg hv, if_pos h0, if_neg hf, hc2,
                      if_neg hfor, hd], ?_, by omega⟩)
                rw [hts]
                simp only [PState.tokens, Option.isSome_some, Option.isSome_none,
                  Bool.false_eq_true, if_true, if_false]
                split <;> omega
    · exact Or.inr (Or.inl ⟨st, by
        simp only [set_trans_option, if_neg hv, if_neg h0], rfl, rfl, rfl⟩)


/-- What follows the setting of the option in a turn of the directive loop: the loop ends,
or it goes on in the table of the entry, or failing one in the top table. -/
theorem directive_after (curr_p : OptTable) (st : PState) (target : trans_opts)
    (next_c : Nat) (st1 : PState) (n1 : Nat)
    (hft : find_target curr_p.entries (st.check1_p.map (cstr st.t.mem))
      (st.check2_p.map (cstr st.t.mem)) = some (target, next_c))
    (hd : set_trans_option target next_c st = PRes.done (st1, n1)) :
    (∀ fuel, parse_loop (fuel + 1) curr_p st = PRes.done (advance_tokens n1 st1).b) ∨
    (∃ next_p, (target.sub_opts = none → next_p = OptTable.trans_opt_S) ∧
      ∀ fuel, parse_loop (fuel + 1) curr_p st = parse_loop fuel next_p (advance_tokens n1 st1)) := by
  cases hsub : target.sub_opts with
  | some sub =>
    exact Or.inr ⟨sub, fun h => Option.noConfusion h, fun fuel => by
      simp only [parse_loop, hft, hd, hsub]⟩
  | none =>
    by_cases hc1 : (advance_tokens n1 st1).check1_p.isSome = true
    · exact Or.inr ⟨OptTable.trans_opt_S, fun _ => rfl, fun fuel => by
        simp only [parse_loop, hft, hd, hsub, if_pos hc1]⟩
    · exact Or.inl (fun fuel => by simp only [parse_loop, hft, hd, hsub, if_neg hc1])

/-- One turn of the directive loop: it raises; or it consumes a token; or it selects a
wildcard entry, which leaves the tokens alone, in a table under the top table, and then the
loop ends or goes on in the top table. -/
theorem directive_turn (curr_p : OptTable) (st : PState) :
    (∃ desc, ∀ fuel, parse_loop (fuel + 1) curr_p st = PRes.fail desc) ∨
    (∃ next_p st',
      (st'.tokens + 2 ≤ st.tokens ∨
        ((∃ e, find_target curr_p.entries (st.check1_p.map (cstr st.t.mem))
            (st.check2_p.map (cstr st.t.mem)) = some (e, 0) ∧ e.option1 = bytes "*") ∧
          st'.t = st.t ∧ st'.check1_p = st.check1_p ∧ st'.check2_p = st.check2_p ∧
          curr_p ≠ OptTable.trans_opt_S ∧ next_p = OptTable.trans_opt_S)) ∧
      ((∀ fuel, parse_loop (fuel + 1) curr_p st = PRes.done st'.b) ∨
       (∀ fuel, parse_loop (fuel + 1) curr_p st = parse_loop fuel next_p st'))) := by
  cases hft : find_target curr_p.entries (st.check1_p.map (cstr st.t.mem))
      (st.check2_p.map (cstr st.t.mem)) with
  | none =>
    exact Or.inl ⟨"Illegal transaction option was specified", fun fuel => by
      simp only [parse_loop, hft]⟩
  | some r =>
    obtain ⟨target, next_c⟩ := r
    obtain ⟨hmem, hz, hpos⟩ := find_target_spec _ _ _ _ _ hft
    rcases set_trans_option_spec target next_c st with
      ⟨desc, hd⟩ | ⟨st1, hd, ht, h1, h2⟩ | ⟨st1, n1, hd, htok, _⟩
    · exact Or.inl ⟨desc, fun fuel => by simp only [parse_loop, hft, hd]⟩
    · have htok : st1.tokens = st.tokens := by simp only [PState.tokens, ht, h1, h2]
      by_cases hn : next_c = 0
      · subst hn
        obtain ⟨hsub, hw⟩ := wildcard_entry curr_p target hmem (hz rfl)
        have hne : curr_p ≠ OptTable.trans_opt_S := by
          intro h
          rw [h] at hw
          exact absurd hw (by decide)
        rcases directive_after curr_p st target 0 st1 0 hft hd with hend | ⟨next_p, hnext, hgo⟩
        · exact Or.inr ⟨OptTable.trans_opt_S, st1,
            Or.inr ⟨⟨target, rfl, hz rfl⟩, ht, h1, h2, hne, rfl⟩, Or.inl hend⟩
        · exact Or.inr ⟨next_p, st1,
            Or.inr ⟨⟨target, rfl, hz rfl⟩, ht, h1, h2, hne, hnext hsub⟩, Or.inr hgo⟩
      · have hc1 : st1.check1_p.isSome = true := by
          have := hpos (by omega)
          rw [h1]
          simpa using this
        have hadv := (advance_tokens_le next_c st1).2 (by omega) hc1
        rcases directive_after curr_p st target next_c st1 next_c hft hd with
          hend | ⟨next_p, _, hgo⟩
        · exact Or.inr ⟨OptTable.trans_opt_S, _, Or.inl (by omega), Or.inl hend⟩
        · exact Or.inr ⟨next_p, _, Or.inl (by omega), Or.inr hgo⟩
    · have hadv := (advance_tokens_le n1 st1).1
      rcases directive_after curr_p st target next_c st1 n1 hft hd with
        hend | ⟨next_p, _, hgo⟩
      · exact Or.inr ⟨OptTable.trans_opt_S, _, Or.inl (by omega), Or.inl hend⟩
      · exact Or.inr ⟨next_p, _, Or.inl (by omega), Or.inr hgo⟩

/-- The directive loop ends within a budget above the rank of its state. -/
theorem directive_ends (fuel : Nat) :
    ∀ (curr_p : OptTable) (st : PState), rank curr_p st < fuel →
      (∃ b, parse_loop fuel curr_p st = PRes.done b) ∨
      (∃ desc, parse_loop fuel curr_p st = PRes.fail desc) := by
  induction fuel with
  | zero => intro _ _ h; omega
  | succ fuel ih =>
    intro curr_p st h
    rcases directive_turn curr_p st with ⟨desc, hd⟩ | ⟨next_p, st', hstep, hend | hgo⟩
    · exact Or.inr ⟨desc, hd fuel⟩
    · exact Or.inl ⟨st'.b, hend fuel⟩
    · rw [hgo fuel]
      apply ih
      unfold rank at h ⊢
      rcases hstep with h2 | ⟨_, ht, h1, h2, hne, hnext⟩
      · have := weight_le next_p
        omega
      · have htok : st'.tokens = st.tokens := by simp only [PState.tokens, ht, h1, h2]
        have hw : curr_p.weight = 1 := by
          cases curr_p <;> first | rfl | exact absurd rfl hne
        rw [hnext, htok]
        rw [hw] at h
        show st.tokens + 0 < fuel
        omega

/-- The supply of tokens with which the directive loop is entered is within the length of
the working copy. -/
theorem initial_tokens_le (trans : List Nat) : (initial_state trans).tokens ≤ trans.length + 1 := by
  have h0 : Tok.rest ⟨trans, 0⟩ ≤ trans.length := rest_le_length ⟨trans, 0⟩
  have hs0 := token_supply_le (Tok.rest ⟨trans, 0⟩)
  rcases hs1 : strtok ⟨trans, 0⟩ CMND_DELIMIT with ⟨o1, t1⟩
  cases o1 with
  | none =>
    have h1 := token_supply_mono (strtok_none_eq _ _ t1 CMND_no_nul hs1).2.2
    simp only [initial_state, PState.tokens, hs1, Option.isSome_none, Bool.false_eq_true,
      if_false]
    omega
  | some p =>
    have h1 := (strtok_some_eq _ _ p t1 CMND_no_nul hs1).2.2.2.2.2.token_supply
    rcases hs2 : strtok t1 CMND_DELIMIT with ⟨o2, t2⟩
    cases o2 with
    | none =>
      have h2 := token_supply_mono (strtok_none_eq _ _ t2 CMND_no_nul hs2).2.2
      simp only [initial_state, PState.tokens, hs1, hs2, Option.isSome_some,
        Option.isSome_none, Bool.false_eq_true, if_true, if_false]
      omega
    | some q =>
      have h2 := (strtok_some_eq _ _ q t2 CMND_no_nul hs2).2.2.2.2.2.token_supply
      simp only [initial_state, PState.tokens, hs1, hs2, Option.isSome_some, if_true]
      omega

/-- The parser returns a block or raises, whatever the working copy. -/
theorem parse_trans_ends (trans : List Nat) :
    (∃ tpb, parse_trans trans = PRes.done tpb) ∨ (∃ desc, parse_trans trans = PRes.fail desc) := by
  have hi := initial_tokens_le trans
  rcases directive_ends (trans.length + 3) OptTable.trans_opt_S (initial_state trans)
      (by unfold rank
          show (initial_state trans).tokens + 0 < trans.length + 3
          omega) with ⟨b, hb⟩ | ⟨desc, hd⟩
  · exact Or.inl ⟨read_bytes b.buf 0 b.used.toNat, by simp only [parse_trans, hb]⟩
  · exact Or.inr ⟨desc, by simp only [parse_trans, hd]⟩


/-- C35 (amended): `trans_parseopts` returns a block or raises on every option string.  Each
turn of its directive loop raises, or consumes a token, or selects a wildcard entry `*`: that
turn leaves the tokens alone, it happens in a table under the top table, and after it the loop
ends or goes on in the top table.  Each turn of the reservation-clause loop raises or consumes
a token; each turn of the table-name scan (`while (resv_p < resend_p)`) raises or moves
`resv_p` on; and the search for the token `FOR` is not cut short by its budget. -/
theorem C35_parser_terminates :
    (∀ opt, (∃ tpb, trans_parseopts opt = PRes.done tpb) ∨
      (∃ desc, trans_parseopts opt = PRes.fail desc)) ∧
    (∀ curr_p st,
      (∃ desc, ∀ fuel, parse_loop (fuel + 1) curr_p st = PRes.fail desc) ∨
      (∃ next_p st',
        (st'.tokens + 2 ≤ st.tokens ∨
          ((∃ e, find_target curr_p.entries (st.check1_p.map (cstr st.t.mem))
              (st.check2_p.map (cstr st.t.mem)) = some (e, 0) ∧ e.option1 = bytes "*") ∧
            st'.t = st.t ∧ st'.check1_p = st.check1_p ∧ st'.check2_p = st.check2_p ∧
            curr_p ≠ OptTable.trans_opt_S ∧ next_p = OptTable.trans_opt_S)) ∧
        ((∀ fuel, parse_loop (fuel + 1) curr_p st = PRes.done st'.b) ∨
         (∀ fuel, parse_loop (fuel + 1) curr_p st = parse_loop fuel next_p st')))) ∧
    (∀ resv_p t b,
      (∃ desc, ∀ fuel, reserving (fuel + 1) resv_p t b = PRes.fail desc) ∨
      (∃ e t' b', Consumed t.rest t'.rest ∧
        ∀ fuel, reserving (fuel + 1) resv_p t b = PRes.done (e, t', b')) ∨
      (∃ p' t' b', Consumed t.rest t'.rest ∧
        ∀ fuel, reserving (fuel + 1) resv_p t b = reserving fuel p' t' b')) ∧
    (∀ resv_p resend_p mem b rc, resv_p < resend_p →
      ((∀ fuel, scan_tables (fuel + 1) resv_p resend_p mem b rc =
        PRes.fail "Illegal table name was specified") ∨
      ∃ resv_p' b' rc', resv_p < resv_p' ∧ ∀ fuel,
        scan_tables (fuel + 1) resv_p resend_p mem b rc =
          scan_tables fuel resv_p' resend_p mem b' rc')) ∧
    (∀ t k, find_resend (t.mem.length + 1 + k) t = find_resend (t.mem.length + 1) t) :=
  ⟨fun opt => parse_trans_ends (upper_copy opt),
   directive_turn,
   reserving_turn,
   scan_tables_turn,
   fun t k => find_resend_stable (t.mem.length + 1) t k
     (Nat.lt_succ_of_le (rest_le_length t))⟩

theorem C35_parser_terminates_witness :
    ((∃ tpb, trans_parseopts (bytes "reserving t1 for shared read") = PRes.done tpb) ∨
      (∃ desc, trans_parseopts (bytes "reserving t1 for shared read") = PRes.fail desc)) ∧
    (0 : Nat) < 2 ∧
    ((∀ fuel, scan_tables (fuel + 1) 0 2 (bytes "T1") ⟨memcpy [] 0 isc_tpb_0, 4, TPBBUFF_ALLOC⟩ 0 =
        PRes.fail "Illegal table name was specified") ∨
      ∃ resv_p' b' rc', 0 < resv_p' ∧ ∀ fuel,
        scan_tables (fuel + 1) 0 2 (bytes "T1") ⟨memcpy [] 0 isc_tpb_0, 4, TPBBUFF_ALLOC⟩ 0 =
          scan_tables fuel resv_p' 2 (bytes "T1") b' rc') :=
  ⟨C35_parser_terminates.1 (bytes "reserving t1 for shared read"), by decide,
   C35_parser_terminates.2.2.2.1 0 2 (bytes "T1") ⟨memcpy [] 0 isc_tpb_0, 4, TPBBUFF_ALLOC⟩ 0
     (by decide)⟩

/-- C35 as stated fails: the second turn of the directive loop on `SNAPSHOT WAIT` starts
with the token `WAIT` at `check1_p`, selects the wildcard entry of `snap_opt_S` with
`next_c = 0`, raises nothing and leaves the tokens where they are; the loop goes on in the
top table, and the parse returns its block. -/
theorem C35_counterexample :
    snapshot_wait_second.check1_p = some 9 ∧
    cstr snapshot_wait_second.t.mem 9 = bytes "WAIT" ∧
    snapshot_wait_second.check2_p = none ∧
    find_target OptTable.snap_opt_S.entries
        (snapshot_wait_second.check1_p.map (cstr snapshot_wait_second.t.mem))
        (snapshot_wait_second.check2_p.map (cstr snapshot_wait_second.t.mem)) =
      some (⟨bytes "*", none, isc_tpb_concurrency, 2, none⟩, 0) ∧
    set_trans_option ⟨bytes "*", none, isc_tpb_concurrency, 2, none⟩ 0 snapshot_wait_second =
      PRes.done (snapshot_wait_third, 0) ∧
    snapshot_wait_third.t = snapshot_wait_second.t ∧
    snapshot_wait_third.check1_p = snapshot_wait_second.check1_p ∧
    snapshot_wait_third.check2_p = snapshot_wait_second.check2_p ∧
    snapshot_wait_third.tokens = snapshot_wait_second.tokens ∧
    (∀ fuel, parse_loop (fuel + 1) OptTable.trans_opt_S (initial_state (bytes "SNAPSHOT WAIT")) =
      parse_loop fuel OptTable.snap_opt_S snapshot_wait_second) ∧
    (∀ fuel, parse_loop (fuel + 1) OptTable.snap_opt_S snapshot_wait_second =
      parse_loop fuel OptTable.trans_opt_S snapshot_wait_third) ∧
    trans_parseopts (bytes "snapshot wait") =
      PRes.done [isc_tpb_version1, isc_tpb_write, isc_tpb_concurrency, isc_tpb_wait] := by
  refine ⟨by decide, by decide, by decide, by decide, by decide, rfl, rfl, rfl, by decide,
    fun fuel => ?_, fun fuel => ?_, by decide⟩
  · rfl
  · rfl


end Fb
